import Mathlib

/-!
# ApplyTermUpdateTraining: a shallow embedding and its verification

The C++ translation unit `src/shared/ebm_native/ApplyTermUpdateTraining.cpp` applies one term
update of a boosting round to every training sample.  This file embeds its functions in Lean and
proves properties of them.

Conventions of the embedding.

* Pointers are natural-number offsets from the start of the buffer they point into.
* Buffers are lists.  Every load and every store is bounds checked and the run yields `none`
  on an access outside its buffer (undefined behaviour in C++).
* `FloatFast` is an arbitrary type `F` carrying `0` and `+`; theorems that need more
  (exact field arithmetic, an order) say so.
* Loops take a fuel argument and yield `none` when it runs out; the theorems show how much
  fuel suffices.
* Every load, every store and every decoded bin index is appended to a ghost log that no
  computation reads.
* Assertions (`EBM_ASSERT`) are compiled out of the embedded functions, as in a release
  build.  The assertions of the two probe chains and the assertions on the exit pointer of
  the block loop are embedded separately, where the results about them are stated.
* Declarations of headers that are not in the translation unit are parameters
  (`Headers`, `Numerics`).
* The preprocessor symbol `EXPAND_BINARY_LOGITS` is taken to be undefined, so the binary
  specialisations (source lines 106-151 and 400-485) are part of the program and a binary
  problem stores one score per sample.
* Signed quantities (`ptrdiff_t`) are integers; `static_cast<size_t>` of one is `Int.toNat`,
  used only where the source has established that the value is not negative.
-/

namespace Ebm

/-! ## Memory model -/

/-- Buffers a call can touch -/
inductive Buf where
  | input
  | target
  | update
  | score
  | gradHess
  | exps
  deriving DecidableEq, Repr

/-- One entry of the ghost log: a load or a store (buffer and offset), or the tensor-bin index
`iTensorBin` that was decoded for a sample -/
inductive Event where
  | read (b : Buf) (i : Nat)
  | write (b : Buf) (i : Nat)
  | decode (iTensorBin : Nat)
  deriving DecidableEq, Repr

/-- Bounds-checked store -/
def store {α : Type} (a : List α) (i : Nat) (v : α) : Option (List α) :=
  if i < a.length then some (a.set i v) else none

/-- Mutable state of one call: the moving pointers, the current packed word, the buffers the
call writes and the ghost log -/
structure Machine (F : Type) where
  pInputData : Nat
  pTargetData : Nat
  pSampleScore : Nat
  pGradientAndHessian : Nat
  iTensorBinCombined : Nat
  aSampleScore : List F
  aGradientAndHessian : List F
  aExps : List F
  log : List Event
  deriving DecidableEq, Repr

/-- Parameter list shared by every `Func` of the translation unit -/
structure Args (F : Type) where
  cRuntimeClasses : Int
  runtimeBitPack : Int
  aMulticlassMidwayTemp : List F
  aUpdateScores : List F
  cSamples : Nat
  aInputData : List Nat
  aTargetData : List Nat
  aSampleScore : List F
  aGradientAndHessian : List F

/-- State at function entry: all pointers at the start of their buffers -/
def Machine.init {F : Type} (a : Args F) (aExps : List F) : Machine F :=
  { pInputData := 0
    pTargetData := 0
    pSampleScore := 0
    pGradientAndHessian := 0
    iTensorBinCombined := 0
    aSampleScore := a.aSampleScore
    aGradientAndHessian := a.aGradientAndHessian
    aExps := aExps
    log := [] }

/-! ## Declarations that live in headers outside the translation unit -/

/-- Constants and helpers of `ebm_internal.hpp` that the translation unit uses but does not
define; they are parameters of the embedding -/
structure Headers where
  k_cBitsForStorageType : Nat
  GetCountBits : Nat → Nat
  k_cCompilerClassesMax : Nat
  k_dynamicClassification : Int
  k_regression : Int
  k_cItemsPerBitPackNone : Int
  k_cItemsPerBitPackDynamic : Int
  IsClassification : Int → Bool

/-- Numeric helpers of `approximate_math.hpp` and `ebm_stats.hpp` that the translation unit
calls but does not define; they are parameters of the embedding.  The multiclass helper returns
the pair (gradient, hessian) it writes through its two reference parameters. -/
structure Numerics (F : Type) where
  ExpForMulticlass : F → F
  InverseLinkFunctionThenCalculateGradientBinaryClassification : F → Nat → F
  CalculateHessianFromGradientBinaryClassification : F → F
  InverseLinkFunctionThenCalculateGradientAndHessianMulticlass : F → F → Nat → Nat → F × F
  ComputeGradientRegressionMSEFromOriginalGradient : F → F → F

/-- Modelled from the spec: `GetCountScores` is declared in a header outside the translation
unit; the spec gives the number of scores as 1 for regression and binary classification and C
for C-class multiclass. -/
def GetCountScores (cClasses : Int) : Nat :=
  if cClasses ≤ 2 then 1 else cClasses.toNat

/-- Modelled from the spec: the macro `GET_COUNT_CLASSES` is defined in a header outside the
translation unit; the class count is the compile-time one unless that is the dynamic sentinel,
in which case it is the runtime one. -/
def GET_COUNT_CLASSES (H : Headers) (cCompilerClasses cRuntimeClasses : Int) : Int :=
  if H.k_dynamicClassification = cCompilerClasses then cRuntimeClasses else cCompilerClasses

/-- Modelled from the spec: the macro `GET_ITEMS_PER_BIT_PACK` is defined in a header outside
the translation unit; the items-per-word count is the compile-time one unless that is the
dynamic sentinel, in which case it is the runtime one. -/
def GET_ITEMS_PER_BIT_PACK (H : Headers) (compilerBitPack runtimeBitPack : Int) : Nat :=
  if H.k_cItemsPerBitPackDynamic = compilerBitPack then runtimeBitPack.toNat
  else compilerBitPack.toNat

/-- The index mask `(~StorageDataType { 0 }) >> (k_cBitsForStorageType - cBitsPerItemMax)` -/
def maskBits (H : Headers) (cBitsPerItemMax : Nat) : Nat :=
  (2 ^ H.k_cBitsForStorageType - 1) >>> (H.k_cBitsForStorageType - cBitsPerItemMax)

/-! ## Loop skeletons -/

/-- The loop `do { body } while(pEnd != p)` where `p` is the pointer `pos` reads off the
state.  Used for the sample loops of the zero-feature functions (lines 60-102, 137-148,
184-189) and for the inner loops of the indexed functions (lines 345-388, 456-474, 543-554). -/
def doWhileNe {F : Type} (body : Nat → Machine F → Option (Machine F)) (pos : Machine F → Nat)
    (pEnd : Nat) : Nat → Machine F → Option (Machine F)
  | 0, _ => none
  | fuel + 1, m =>
    match body fuel m with
    | none => none
    | some m1 => if pEnd ≠ pos m1 then doWhileNe body pos pEnd fuel m1 else some m1

/-- The goto-fused block loop of the indexed functions (lines 337-396, 448-482, 535-562),
entered at the label `one_last_loop` with the current values of the exit pointer and of the
inner end pointer.  `stride` is `cItemsPerBitPack * cScores` (`cItemsPerBitPack` where the
pointer moves by one per sample). -/
def blockLoop {F : Type} (aInputData : List Nat) (body : Nat → Machine F → Option (Machine F))
    (pos : Machine F → Nat) (stride pTrueEnd : Nat) :
    Nat → (pExit pInnerEnd : Nat) → Machine F → Option (Machine F)
  | 0, _, _, _ => none
  | fuel + 1, pExit, pInnerEnd, m =>
    -- one_last_loop: iTensorBinCombined = *pInputData; ++pInputData;
    match aInputData[m.pInputData]? with
    | none => none
    | some iTensorBinCombined =>
      let m1 := { m with
        iTensorBinCombined := iTensorBinCombined
        pInputData := m.pInputData + 1
        log := m.log ++ [Event.read Buf.input m.pInputData] }
      match doWhileNe body pos pInnerEnd fuel m1 with
      | none => none
      | some m2 =>
        if pExit ≠ pos m2 then
          -- back to the top of the outer do: pInnerEnd = p + cItemsPerBitPack * cScores
          blockLoop aInputData body pos stride pTrueEnd fuel pExit (pos m2 + stride) m2
        else if pTrueEnd ≠ pos m2 then
          -- first time through: pInnerEnd = pExit = pTrueEnd; goto one_last_loop
          blockLoop aInputData body pos stride pTrueEnd fuel pTrueEnd pTrueEnd m2
        else some m2

/-- Entry into the block loop (lines 327-336, 438-447, 525-534): `pScale` is `cScores` (1 where
the pointer moves by one per sample), the moving pointer starts at offset 0 -/
def blockLoopEntry {F : Type} (aInputData : List Nat)
    (body : Nat → Machine F → Option (Machine F)) (pos : Machine F → Nat)
    (cSamples cItemsPerBitPack pScale : Nat) (fuel : Nat) (m : Machine F) :
    Option (Machine F) :=
  let pTrueEnd := pos m + cSamples * pScale
  if cSamples ≤ cItemsPerBitPack then
    blockLoop aInputData body pos (cItemsPerBitPack * pScale) pTrueEnd fuel pTrueEnd pTrueEnd m
  else
    let pExit := pTrueEnd - ((cSamples - 1) % cItemsPerBitPack + 1) * pScale
    blockLoop aInputData body pos (cItemsPerBitPack * pScale) pTrueEnd fuel pExit
      (pos m + cItemsPerBitPack * pScale) m

/-! ## Multiclass classification -/

/-- First score loop of a multiclass sample (lines 68-82 and 354-366): add the update row to
the sample's scores, store the exponentials and accumulate their sum.  Returns the final
`pExp` and `sumExp` with the state. -/
def scoreLoop {F : Type} [Add F] (N : Numerics F) (aUpdateScores : List F) (cScores : Nat) :
    Nat → (pUpdateScore pExp iScore : Nat) → (sumExp : F) → Machine F →
    Option (Nat × F × Machine F)
  | 0, _, _, _, _, _ => none
  | fuel + 1, pUpdateScore, pExp, iScore, sumExp, m =>
    match aUpdateScores[pUpdateScore]?, m.aSampleScore[m.pSampleScore]? with
    | some updateScore, some oldScore =>
      let sampleScore := oldScore + updateScore
      let oneExp := N.ExpForMulticlass sampleScore
      match store m.aSampleScore m.pSampleScore sampleScore, store m.aExps pExp oneExp with
      | some aSampleScore, some aExps =>
        let m1 := { m with
          aSampleScore := aSampleScore
          pSampleScore := m.pSampleScore + 1
          aExps := aExps
          log := m.log ++ [Event.read Buf.update pUpdateScore, Event.read Buf.score m.pSampleScore,
            Event.write Buf.score m.pSampleScore, Event.write Buf.exps pExp] }
        if iScore + 1 < cScores then
          scoreLoop N aUpdateScores cScores fuel (pUpdateScore + 1) (pExp + 1) (iScore + 1)
            (sumExp + oneExp) m1
        else some (pExp + 1, sumExp + oneExp, m1)
      | _, _ => none
    | _, _ => none

/-- Second score loop of a multiclass sample (lines 85-101 and 369-385): one
(gradient, hessian) pair per score -/
def gradientLoop {F : Type} (N : Numerics F) (cScores : Nat) (sumExp : F) (targetData : Nat) :
    Nat → (pExp iScore : Nat) → Machine F → Option (Machine F)
  | 0, _, _, _ => none
  | fuel + 1, pExp, iScore, m =>
    match m.aExps[pExp]? with
    | none => none
    | some itemExp =>
      let gh := N.InverseLinkFunctionThenCalculateGradientAndHessianMulticlass sumExp itemExp
        targetData iScore
      match store m.aGradientAndHessian m.pGradientAndHessian gh.1 with
      | none => none
      | some a1 =>
        match store a1 (m.pGradientAndHessian + 1) gh.2 with
        | none => none
        | some a2 =>
          let m1 := { m with
            aGradientAndHessian := a2
            pGradientAndHessian := m.pGradientAndHessian + 2
            log := m.log ++ [Event.read Buf.exps pExp,
              Event.write Buf.gradHess m.pGradientAndHessian,
              Event.write Buf.gradHess (m.pGradientAndHessian + 1)] }
          if iScore + 1 < cScores then gradientLoop N cScores sumExp targetData fuel (pExp + 1)
            (iScore + 1) m1
          else some m1

/-- The load `targetData = *pTargetData; ++pTargetData` (lines 61-62, 138-139, 346-347,
457-458) -/
def readTarget {F : Type} (aTargetData : List Nat) (m : Machine F) : Option (Nat × Machine F) :=
  match aTargetData[m.pTargetData]? with
  | none => none
  | some targetData =>
    some (targetData, { m with
      pTargetData := m.pTargetData + 1
      log := m.log ++ [Event.read Buf.target m.pTargetData] })

/-- The two score loops of one multiclass sample (lines 64-101 and 350-385).  `pUpdateScore` is
the offset of the update row: 0 on the zero-feature path, `iTensorBin * cScores` on the
indexed path. -/
def multiclassSample {F : Type} [Zero F] [Add F] (N : Numerics F) (aUpdateScores : List F)
    (cScores : Nat) (targetData pUpdateScore : Nat) (fuel : Nat) (m : Machine F) :
    Option (Machine F) :=
  match scoreLoop N aUpdateScores cScores fuel pUpdateScore 0 0 0 m with
  | none => none
  | some (pExp, sumExp, m1) =>
    gradientLoop N cScores sumExp targetData fuel (pExp - cScores) 0 m1

/-- The array `aExps`: the caller's scratch buffer for the dynamic class count, otherwise the
local array `aLocalExpVector` of `cCompilerScores` cells.  The local array is uninitialised in
C++; it starts zeroed here, and every cell is stored before it is loaded. -/
def aExpsOf {F : Type} [Zero F] (H : Headers) (cCompilerClasses : Int) (a : Args F) : List F :=
  if H.k_dynamicClassification = cCompilerClasses then a.aMulticlassMidwayTemp
  else List.replicate (GetCountScores cCompilerClasses) 0

/-- Body of the sample loop of the zero-feature multiclass function (lines 61-101) -/
def multiclassZeroBody {F : Type} [Zero F] [Add F] (N : Numerics F) (aUpdateScores : List F)
    (aTargetData : List Nat) (cScores : Nat) (fuel : Nat) (m : Machine F) :
    Option (Machine F) :=
  match readTarget aTargetData m with
  | none => none
  | some (targetData, m1) => multiclassSample N aUpdateScores cScores targetData 0 fuel m1

/-- `ApplyTermUpdateTrainingZeroFeatures<cCompilerClasses>::Func`, the multiclass template
(lines 22-104) -/
def ApplyTermUpdateTrainingZeroFeatures_multiclass {F : Type} [Zero F] [Add F] (H : Headers)
    (N : Numerics F) (cCompilerClasses : Int) (fuel : Nat) (a : Args F) : Option (Machine F) :=
  let cClasses := GET_COUNT_CLASSES H cCompilerClasses a.cRuntimeClasses
  let cScores := GetCountScores cClasses
  let m := Machine.init a (aExpsOf H cCompilerClasses a)
  let pSampleScoresEnd := m.pSampleScore + a.cSamples * cScores
  doWhileNe (multiclassZeroBody N a.aUpdateScores a.aTargetData cScores)
    (fun m => m.pSampleScore) pSampleScoresEnd fuel m

/-- Body of the inner loop of the indexed multiclass function (lines 346-387) -/
def multiclassBody {F : Type} [Zero F] [Add F] (N : Numerics F) (aUpdateScores : List F)
    (aTargetData : List Nat) (cScores mask cBitsPerItemMax : Nat) (fuel : Nat) (m : Machine F) :
    Option (Machine F) :=
  match readTarget aTargetData m with
  | none => none
  | some (targetData, m1) =>
    let iTensorBin := mask &&& m1.iTensorBinCombined
    match multiclassSample N aUpdateScores cScores targetData (iTensorBin * cScores) fuel
        { m1 with log := m1.log ++ [Event.decode iTensorBin] } with
    | none => none
    | some m2 => some { m2 with iTensorBinCombined := m2.iTensorBinCombined >>> cBitsPerItemMax }

/-- `ApplyTermUpdateTrainingInternal<cCompilerClasses, compilerBitPack>::Func`, the multiclass
template (lines 282-398) -/
def ApplyTermUpdateTrainingInternal_multiclass {F : Type} [Zero F] [Add F] (H : Headers)
    (N : Numerics F) (cCompilerClasses compilerBitPack : Int) (fuel : Nat) (a : Args F) :
    Option (Machine F) :=
  let cClasses := GET_COUNT_CLASSES H cCompilerClasses a.cRuntimeClasses
  let cScores := GetCountScores cClasses
  let cItemsPerBitPack := GET_ITEMS_PER_BIT_PACK H compilerBitPack a.runtimeBitPack
  let cBitsPerItemMax := H.GetCountBits cItemsPerBitPack
  blockLoopEntry a.aInputData
    (multiclassBody N a.aUpdateScores a.aTargetData cScores (maskBits H cBitsPerItemMax)
      cBitsPerItemMax)
    (fun m => m.pSampleScore) a.cSamples cItemsPerBitPack cScores fuel
    (Machine.init a (aExpsOf H cCompilerClasses a))

/-! ## Binary classification -/

/-- Score update and gradient/hessian of one binary sample (lines 141-147 and 464-471) -/
def binarySample {F : Type} [Add F] (N : Numerics F) (updateScore : F) (targetData : Nat)
    (m : Machine F) : Option (Machine F) :=
  match m.aSampleScore[m.pSampleScore]? with
  | none => none
  | some oldScore =>
    let sampleScore := oldScore + updateScore
    let gradient :=
      N.InverseLinkFunctionThenCalculateGradientBinaryClassification sampleScore targetData
    let hessian := N.CalculateHessianFromGradientBinaryClassification gradient
    match store m.aSampleScore m.pSampleScore sampleScore,
        store m.aGradientAndHessian m.pGradientAndHessian gradient with
    | some aSampleScore, some a1 =>
      match store a1 (m.pGradientAndHessian + 1) hessian with
      | none => none
      | some a2 =>
        some { m with
          aSampleScore := aSampleScore
          pSampleScore := m.pSampleScore + 1
          aGradientAndHessian := a2
          pGradientAndHessian := m.pGradientAndHessian + 2
          log := m.log ++ [Event.read Buf.score m.pSampleScore,
            Event.write Buf.score m.pSampleScore,
            Event.write Buf.gradHess m.pGradientAndHessian,
            Event.write Buf.gradHess (m.pGradientAndHessian + 1)] }
    | _, _ => none

/-- Body of the sample loop of the zero-feature binary function (lines 138-147) -/
def binaryZeroBody {F : Type} [Add F] (N : Numerics F) (updateScore : F)
    (aTargetData : List Nat) (_fuel : Nat) (m : Machine F) : Option (Machine F) :=
  match readTarget aTargetData m with
  | none => none
  | some (targetData, m1) => binarySample N updateScore targetData m1

/-- `ApplyTermUpdateTrainingZeroFeatures<2>::Func` (lines 107-150) -/
def ApplyTermUpdateTrainingZeroFeatures_binary {F : Type} [Add F] (N : Numerics F)
    (fuel : Nat) (a : Args F) : Option (Machine F) :=
  let m := Machine.init a a.aMulticlassMidwayTemp
  let pSampleScoresEnd := m.pSampleScore + a.cSamples
  match a.aUpdateScores[0]? with
  | none => none
  | some updateScore =>
    doWhileNe (binaryZeroBody N updateScore a.aTargetData) (fun m => m.pSampleScore)
      pSampleScoresEnd fuel { m with log := m.log ++ [Event.read Buf.update 0] }

/-- Body of the inner loop of the indexed binary function (lines 457-473) -/
def binaryBody {F : Type} [Add F] (N : Numerics F) (aUpdateScores : List F)
    (aTargetData : List Nat) (mask cBitsPerItemMax : Nat) (_fuel : Nat) (m : Machine F) :
    Option (Machine F) :=
  match readTarget aTargetData m with
  | none => none
  | some (targetData, m1) =>
    let iTensorBin := mask &&& m1.iTensorBinCombined
    match aUpdateScores[iTensorBin]? with
    | none => none
    | some updateScore =>
      match binarySample N updateScore targetData
          { m1 with log := m1.log ++ [Event.decode iTensorBin, Event.read Buf.update iTensorBin] }
      with
      | none => none
      | some m2 =>
        some { m2 with iTensorBinCombined := m2.iTensorBinCombined >>> cBitsPerItemMax }

/-- `ApplyTermUpdateTrainingInternal<2, compilerBitPack>::Func` (lines 401-484) -/
def ApplyTermUpdateTrainingInternal_binary {F : Type} [Add F] (H : Headers) (N : Numerics F)
    (compilerBitPack : Int) (fuel : Nat) (a : Args F) : Option (Machine F) :=
  let cItemsPerBitPack := GET_ITEMS_PER_BIT_PACK H compilerBitPack a.runtimeBitPack
  let cBitsPerItemMax := H.GetCountBits cItemsPerBitPack
  blockLoopEntry a.aInputData
    (binaryBody N a.aUpdateScores a.aTargetData (maskBits H cBitsPerItemMax) cBitsPerItemMax)
    (fun m => m.pSampleScore) a.cSamples cItemsPerBitPack 1 fuel
    (Machine.init a a.aMulticlassMidwayTemp)

/-! ## Regression

The regression functions name their moving pointer `pGradient`; it is the field
`pGradientAndHessian` of the state. -/

/-- Gradient update of one regression sample (lines 186-188 and 548-551) -/
def regressionSample {F : Type} (N : Numerics F) (updateScore : F) (m : Machine F) :
    Option (Machine F) :=
  match m.aGradientAndHessian[m.pGradientAndHessian]? with
  | none => none
  | some oldGradient =>
    let gradient := N.ComputeGradientRegressionMSEFromOriginalGradient oldGradient updateScore
    match store m.aGradientAndHessian m.pGradientAndHessian gradient with
    | none => none
    | some a1 =>
      some { m with
        aGradientAndHessian := a1
        pGradientAndHessian := m.pGradientAndHessian + 1
        log := m.log ++ [Event.read Buf.gradHess m.pGradientAndHessian,
          Event.write Buf.gradHess m.pGradientAndHessian] }

/-- `ApplyTermUpdateTrainingZeroFeatures<k_regression>::Func` (lines 153-191) -/
def ApplyTermUpdateTrainingZeroFeatures_regression {F : Type} (N : Numerics F)
    (fuel : Nat) (a : Args F) : Option (Machine F) :=
  let m := Machine.init a a.aMulticlassMidwayTemp
  let pGradientsEnd := m.pGradientAndHessian + a.cSamples
  match a.aUpdateScores[0]? with
  | none => none
  | some updateScore =>
    doWhileNe (fun _ m => regressionSample N updateScore m) (fun m => m.pGradientAndHessian)
      pGradientsEnd fuel { m with log := m.log ++ [Event.read Buf.update 0] }

/-- Body of the inner loop of the indexed regression function (lines 544-553) -/
def regressionBody {F : Type} (N : Numerics F) (aUpdateScores : List F)
    (mask cBitsPerItemMax : Nat) (_fuel : Nat) (m : Machine F) : Option (Machine F) :=
  let iTensorBin := mask &&& m.iTensorBinCombined
  match aUpdateScores[iTensorBin]? with
  | none => none
  | some updateScore =>
    match regressionSample N updateScore
        { m with log := m.log ++ [Event.decode iTensorBin, Event.read Buf.update iTensorBin] }
    with
    | none => none
    | some m1 => some { m1 with iTensorBinCombined := m1.iTensorBinCombined >>> cBitsPerItemMax }

/-- `ApplyTermUpdateTrainingInternal<k_regression, compilerBitPack>::Func` (lines 487-564) -/
def ApplyTermUpdateTrainingInternal_regression {F : Type} (H : Headers) (N : Numerics F)
    (compilerBitPack : Int) (fuel : Nat) (a : Args F) : Option (Machine F) :=
  let cItemsPerBitPack := GET_ITEMS_PER_BIT_PACK H compilerBitPack a.runtimeBitPack
  let cBitsPerItemMax := H.GetCountBits cItemsPerBitPack
  blockLoopEntry a.aInputData
    (regressionBody N a.aUpdateScores (maskBits H cBitsPerItemMax) cBitsPerItemMax)
    (fun m => m.pGradientAndHessian) a.cSamples cItemsPerBitPack 1 fuel
    (Machine.init a a.aMulticlassMidwayTemp)

/-! ## Dispatch -/

/-- Template `ApplyTermUpdateTrainingZeroFeatures<cCompilerClasses>`: the specialisations for
`k_regression` and for 2 classes, otherwise the multiclass template -/
def ApplyTermUpdateTrainingZeroFeatures {F : Type} [Zero F] [Add F] (H : Headers)
    (N : Numerics F) (cCompilerClasses : Int) (fuel : Nat) (a : Args F) : Option (Machine F) :=
  if cCompilerClasses = H.k_regression then ApplyTermUpdateTrainingZeroFeatures_regression N fuel a
  else if cCompilerClasses = 2 then ApplyTermUpdateTrainingZeroFeatures_binary N fuel a
  else ApplyTermUpdateTrainingZeroFeatures_multiclass H N cCompilerClasses fuel a

/-- Template `ApplyTermUpdateTrainingInternal<cCompilerClasses, compilerBitPack>`: the
specialisations for `k_regression` and for 2 classes, otherwise the multiclass template -/
def ApplyTermUpdateTrainingInternal {F : Type} [Zero F] [Add F] (H : Headers)
    (N : Numerics F) (cCompilerClasses compilerBitPack : Int) (fuel : Nat) (a : Args F) :
    Option (Machine F) :=
  if cCompilerClasses = H.k_regression then
    ApplyTermUpdateTrainingInternal_regression H N compilerBitPack fuel a
  else if cCompilerClasses = 2 then
    ApplyTermUpdateTrainingInternal_binary H N compilerBitPack fuel a
  else ApplyTermUpdateTrainingInternal_multiclass H N cCompilerClasses compilerBitPack fuel a

/-- `ApplyTermUpdateTrainingZeroFeaturesTarget<cPossibleClasses>::Func` (lines 193-280): the
specialisation for `k_cCompilerClassesMax + 1` forwards to the dynamic variant, the general
template probes `cPossibleClasses` and moves on to `cPossibleClasses + 1`.  Beyond
`k_cCompilerClassesMax + 1` the template cannot be instantiated (its `static_assert`). -/
def ApplyTermUpdateTrainingZeroFeaturesTarget {F : Type} [Zero F] [Add F] (H : Headers)
    (N : Numerics F) (cPossibleClasses : Nat) (fuel : Nat) (a : Args F) : Option (Machine F) :=
  if H.k_cCompilerClassesMax + 1 = cPossibleClasses then
    ApplyTermUpdateTrainingZeroFeatures H N H.k_dynamicClassification fuel a
  else if H.k_cCompilerClassesMax + 1 < cPossibleClasses then none
  else if (cPossibleClasses : Int) = a.cRuntimeClasses then
    ApplyTermUpdateTrainingZeroFeatures H N cPossibleClasses fuel a
  else ApplyTermUpdateTrainingZeroFeaturesTarget H N (cPossibleClasses + 1) fuel a
termination_by H.k_cCompilerClassesMax + 1 - cPossibleClasses
decreasing_by omega

/-- `ApplyTermUpdateTrainingNormalTarget<cPossibleClasses>::Func` (lines 566-653), with the
same structure as the zero-feature probe chain -/
def ApplyTermUpdateTrainingNormalTarget {F : Type} [Zero F] [Add F] (H : Headers)
    (N : Numerics F) (cPossibleClasses : Nat) (fuel : Nat) (a : Args F) : Option (Machine F) :=
  if H.k_cCompilerClassesMax + 1 = cPossibleClasses then
    ApplyTermUpdateTrainingInternal H N H.k_dynamicClassification H.k_cItemsPerBitPackDynamic
      fuel a
  else if H.k_cCompilerClassesMax + 1 < cPossibleClasses then none
  else if (cPossibleClasses : Int) = a.cRuntimeClasses then
    ApplyTermUpdateTrainingInternal H N cPossibleClasses H.k_cItemsPerBitPackDynamic fuel a
  else ApplyTermUpdateTrainingNormalTarget H N (cPossibleClasses + 1) fuel a
termination_by H.k_cCompilerClassesMax + 1 - cPossibleClasses
decreasing_by omega

/-- The entry point `ApplyTermUpdateTraining` (lines 655-725) -/
def ApplyTermUpdateTraining {F : Type} [Zero F] [Add F] (H : Headers) (N : Numerics F)
    (fuel : Nat) (a : Args F) : Option (Machine F) :=
  if H.k_cItemsPerBitPackNone = a.runtimeBitPack then
    if H.IsClassification a.cRuntimeClasses then
      ApplyTermUpdateTrainingZeroFeaturesTarget H N 2 fuel a
    else ApplyTermUpdateTrainingZeroFeatures H N H.k_regression fuel a
  else
    if H.IsClassification a.cRuntimeClasses then
      ApplyTermUpdateTrainingNormalTarget H N 2 fuel a
    else
      ApplyTermUpdateTrainingInternal H N H.k_regression H.k_cItemsPerBitPackDynamic fuel a

/-! ## Reference runs used to state the results -/

/-- The first `n` rounds of a step function, in order -/
def iter {F : Type} (step : Machine F → Option (Machine F)) : Nat → Machine F → Option (Machine F)
  | 0, m => some m
  | n + 1, m => (step m).bind (iter step n)

/-- The load of the next packed word: `iTensorBinCombined = *pInputData; ++pInputData` -/
def loadWord {F : Type} (aInputData : List Nat) (m : Machine F) : Option (Machine F) :=
  match aInputData[m.pInputData]? with
  | none => none
  | some iTensorBinCombined =>
    some { m with
      iTensorBinCombined := iTensorBinCombined
      pInputData := m.pInputData + 1
      log := m.log ++ [Event.read Buf.input m.pInputData] }

/-- One block: load a word, then process `len` samples from it -/
def block {F : Type} (aInputData : List Nat) (step : Machine F → Option (Machine F))
    (len : Nat) (m : Machine F) : Option (Machine F) :=
  (loadWord aInputData m).bind (iter step len)

/-- The first `q` blocks of `k` samples each -/
def fullBlocks {F : Type} (aInputData : List Nat) (step : Machine F → Option (Machine F))
    (k : Nat) : Nat → Machine F → Option (Machine F)
  | 0, m => some m
  | q + 1, m => (block aInputData step k m).bind (fullBlocks aInputData step k q)

/-- Sample `i` of the one-at-a-time decoder: a new word is loaded when `i` is a multiple of
the items-per-word count `k`, then the sample is processed -/
def naiveStep {F : Type} (aInputData : List Nat) (step : Machine F → Option (Machine F))
    (k i : Nat) (m : Machine F) : Option (Machine F) :=
  (if i % k = 0 then loadWord aInputData m else some m).bind step

/-- Samples `0 .. n-1` decoded one at a time from the start of the stream -/
def naiveRun {F : Type} (aInputData : List Nat) (step : Machine F → Option (Machine F))
    (k : Nat) : Nat → Machine F → Option (Machine F)
  | 0, m => some m
  | n + 1, m => (naiveRun aInputData step k n m).bind (naiveStep aInputData step k n)


/-! ## Closed forms used to state the results -/

/-- The tensor-bin index of sample `i` under one-at-a-time decoding from the start of the
stream: field `i % k` of word `i / k`, masked -/
def binAt (mask w k : Nat) (aInputData : List Nat) (i : Nat) : Nat :=
  mask &&& (aInputData.getD (i / k) 0 >>> (i % k * w))

/-- The load of a packed word that precedes sample `i`, if any -/
def wordEvents (k i : Nat) : List Event :=
  if i % k = 0 then [Event.read Buf.input (i / k)] else []

/-- Ghost log of the first `n` samples of an indexed run whose sample `i` logs `ev i` -/
def indexedLog (k : Nat) (ev : Nat → List Event) : Nat → List Event
  | 0 => []
  | n + 1 => indexedLog k ev n ++ (wordEvents k n ++ ev n)

/-- Ghost log of the first `n` samples of a zero-feature run whose sample `i` logs `ev i` -/
def zeroLog (ev : Nat → List Event) : Nat → List Event
  | 0 => []
  | n + 1 => zeroLog ev n ++ ev n

/-- Events of binary sample `i`, after the load of its target -/
def binaryTail (i : Nat) : List Event :=
  [Event.read Buf.score i, Event.write Buf.score i,
    Event.write Buf.gradHess (2 * i), Event.write Buf.gradHess (2 * i + 1)]

/-- Events of sample `i` on the indexed binary path -/
def binaryEvents (bin : Nat → Nat) (i : Nat) : List Event :=
  [Event.read Buf.target i, Event.decode (bin i), Event.read Buf.update (bin i)] ++ binaryTail i

/-- Events of sample `i` on the zero-feature binary path -/
def binaryZeroEvents (i : Nat) : List Event :=
  Event.read Buf.target i :: binaryTail i

/-- State of the decoder after `n` samples: the words consumed and, inside a word, the
remaining fields -/
structure DecoderInv {F : Type} (aInputData : List Nat) (w k n : Nat) (m : Machine F) :
    Prop where
  pInputData : m.pInputData = n / k + (if n % k = 0 then 0 else 1)
  word : n % k ≠ 0 → m.iTensorBinCombined = aInputData.getD (n / k) 0 >>> (n % k * w)

/-- Pointers and buffers after `n` binary samples whose bins are `bin 0, bin 1, ...` -/
structure BinaryInv {F : Type} [Add F] (N : Numerics F) (a : Args F) (bin : Nat → Nat)
    (n : Nat) (m : Machine F) : Prop where
  pTargetData : m.pTargetData = n
  pSampleScore : m.pSampleScore = n
  pGradientAndHessian : m.pGradientAndHessian = 2 * n
  aExps : m.aExps = a.aMulticlassMidwayTemp
  scoreLen : m.aSampleScore.length = a.aSampleScore.length
  score : ∀ i, i < n → ∀ o u, a.aSampleScore[i]? = some o → a.aUpdateScores[bin i]? = some u →
    m.aSampleScore[i]? = some (o + u)
  scoreRest : ∀ i, n ≤ i → m.aSampleScore[i]? = a.aSampleScore[i]?
  ghLen : m.aGradientAndHessian.length = a.aGradientAndHessian.length
  grad : ∀ i, i < n → ∀ o u t, a.aSampleScore[i]? = some o → a.aUpdateScores[bin i]? = some u →
    a.aTargetData[i]? = some t →
    m.aGradientAndHessian[2 * i]? = some
      (N.InverseLinkFunctionThenCalculateGradientBinaryClassification (o + u) t) ∧
    m.aGradientAndHessian[2 * i + 1]? = some
      (N.CalculateHessianFromGradientBinaryClassification
        (N.InverseLinkFunctionThenCalculateGradientBinaryClassification (o + u) t))
  ghRest : ∀ j, 2 * n ≤ j → m.aGradientAndHessian[j]? = a.aGradientAndHessian[j]?

/-- Items per word of an indexed call -/
def itemsOf {F : Type} (H : Headers) (compilerBitPack : Int) (a : Args F) : Nat :=
  GET_ITEMS_PER_BIT_PACK H compilerBitPack a.runtimeBitPack

/-- Bits per item of an indexed call -/
def bitsOf {F : Type} (H : Headers) (compilerBitPack : Int) (a : Args F) : Nat :=
  H.GetCountBits (itemsOf H compilerBitPack a)

/-- The tensor-bin index of sample `i` of an indexed call, decoded one at a time from the
start of the stream -/
def binOf {F : Type} (H : Headers) (compilerBitPack : Int) (a : Args F) (i : Nat) : Nat :=
  binAt (maskBits H (bitsOf H compilerBitPack a)) (bitsOf H compilerBitPack a)
    (itemsOf H compilerBitPack a) a.aInputData i

/-- Preconditions of an indexed classification call with `cScores` scores per sample, `k` items
per word and bins `bin`: at least one sample and one item per word, and buffers large enough
for every access -/
structure ValidIndexed {F : Type} (a : Args F) (k : Nat) (bin : Nat → Nat) (cScores : Nat) :
    Prop where
  cSamples : 1 ≤ a.cSamples
  cItemsPerBitPack : 1 ≤ k
  aInputData : (a.cSamples + k - 1) / k ≤ a.aInputData.length
  aTargetData : a.cSamples ≤ a.aTargetData.length
  aSampleScore : a.cSamples * cScores ≤ a.aSampleScore.length
  aGradientAndHessian : 2 * (a.cSamples * cScores) ≤ a.aGradientAndHessian.length
  aUpdateScores : ∀ i, i < a.cSamples → (bin i + 1) * cScores ≤ a.aUpdateScores.length

/-- Preconditions of a zero-feature classification call with `cScores` scores per sample -/
structure ValidZero {F : Type} (a : Args F) (cScores : Nat) : Prop where
  cSamples : 1 ≤ a.cSamples
  aTargetData : a.cSamples ≤ a.aTargetData.length
  aSampleScore : a.cSamples * cScores ≤ a.aSampleScore.length
  aGradientAndHessian : 2 * (a.cSamples * cScores) ≤ a.aGradientAndHessian.length
  aUpdateScores : cScores ≤ a.aUpdateScores.length

/-- Events of regression sample `i`, after the load of its update -/
def regressionTail (i : Nat) : List Event :=
  [Event.read Buf.gradHess i, Event.write Buf.gradHess i]

/-- Events of sample `i` on the indexed regression path -/
def regressionEvents (bin : Nat → Nat) (i : Nat) : List Event :=
  [Event.decode (bin i), Event.read Buf.update (bin i)] ++ regressionTail i

/-- Pointers and buffers after `n` regression samples whose bins are `bin 0, bin 1, ...` -/
structure RegressionInv {F : Type} (N : Numerics F) (a : Args F) (bin : Nat → Nat)
    (n : Nat) (m : Machine F) : Prop where
  pTargetData : m.pTargetData = 0
  pSampleScore : m.pSampleScore = 0
  pGradientAndHessian : m.pGradientAndHessian = n
  aExps : m.aExps = a.aMulticlassMidwayTemp
  aSampleScore : m.aSampleScore = a.aSampleScore
  ghLen : m.aGradientAndHessian.length = a.aGradientAndHessian.length
  grad : ∀ i, i < n → ∀ g u, a.aGradientAndHessian[i]? = some g →
    a.aUpdateScores[bin i]? = some u →
    m.aGradientAndHessian[i]? = some (N.ComputeGradientRegressionMSEFromOriginalGradient g u)
  ghRest : ∀ j, n ≤ j → m.aGradientAndHessian[j]? = a.aGradientAndHessian[j]?

/-- Preconditions of an indexed regression call with `k` items per word and bins `bin` -/
structure ValidIndexedRegression {F : Type} (a : Args F) (k : Nat) (bin : Nat → Nat) :
    Prop where
  cSamples : 1 ≤ a.cSamples
  cItemsPerBitPack : 1 ≤ k
  aInputData : (a.cSamples + k - 1) / k ≤ a.aInputData.length
  aGradientAndHessian : a.cSamples ≤ a.aGradientAndHessian.length
  aUpdateScores : ∀ i, i < a.cSamples → bin i < a.aUpdateScores.length

/-- Preconditions of a zero-feature regression call -/
structure ValidZeroRegression {F : Type} (a : Args F) : Prop where
  cSamples : 1 ≤ a.cSamples
  aGradientAndHessian : a.cSamples ≤ a.aGradientAndHessian.length
  aUpdateScores : 1 ≤ a.aUpdateScores.length

/-- Left-to-right accumulation `((0 + e 0) + e 1) + ...` of the first `n` values, the order in
which the score loop accumulates `sumExp` -/
def sumUpTo {F : Type} [Zero F] [Add F] (e : Nat → F) : Nat → F
  | 0 => 0
  | n + 1 => sumUpTo e n + e n

/-- Events of the first `j` rounds of the first score loop of a sample whose scores start at
offset `ps` and whose update row starts at offset `row` -/
def scoreLog (ps row : Nat) : Nat → List Event
  | 0 => []
  | j + 1 => scoreLog ps row j ++ [Event.read Buf.update (row + j), Event.read Buf.score (ps + j),
      Event.write Buf.score (ps + j), Event.write Buf.exps j]

/-- Events of the first `j` rounds of the second score loop of a sample whose
gradient/hessian pairs start at offset `pg` -/
def gradLog (pg : Nat) : Nat → List Event
  | 0 => []
  | j + 1 => gradLog pg j ++ [Event.read Buf.exps j, Event.write Buf.gradHess (pg + 2 * j),
      Event.write Buf.gradHess (pg + 2 * j + 1)]

/-- New score of slot `j` of a multiclass sample that starts in state `m0` -/
def sampleScore {F : Type} [Zero F] [Add F] (aUpdateScores : List F) (m0 : Machine F)
    (row j : Nat) : F :=
  m0.aSampleScore.getD (m0.pSampleScore + j) 0 + aUpdateScores.getD (row + j) 0

/-- State after `j` rounds of the first score loop of a sample that started in `m0` -/
structure ScoreLoopInv {F : Type} [Zero F] [Add F] (N : Numerics F) (aUpdateScores : List F)
    (m0 : Machine F) (row j : Nat) (m : Machine F) : Prop where
  pSampleScore : m.pSampleScore = m0.pSampleScore + j
  pTargetData : m.pTargetData = m0.pTargetData
  pGradientAndHessian : m.pGradientAndHessian = m0.pGradientAndHessian
  aGradientAndHessian : m.aGradientAndHessian = m0.aGradientAndHessian
  pInputData : m.pInputData = m0.pInputData
  iTensorBinCombined : m.iTensorBinCombined = m0.iTensorBinCombined
  scoreLen : m.aSampleScore.length = m0.aSampleScore.length
  score : ∀ i, i < j →
    m.aSampleScore[m0.pSampleScore + i]? = some (sampleScore aUpdateScores m0 row i)
  scoreRest : ∀ idx, idx < m0.pSampleScore ∨ m0.pSampleScore + j ≤ idx →
    m.aSampleScore[idx]? = m0.aSampleScore[idx]?
  expsLen : m.aExps.length = m0.aExps.length
  exps : ∀ i, i < j →
    m.aExps[i]? = some (N.ExpForMulticlass (sampleScore aUpdateScores m0 row i))
  log : m.log = m0.log ++ scoreLog m0.pSampleScore row j

/-- State after `j` rounds of the second score loop that started in `m1` with exponentials
`e 0, e 1, ...` in `aExps` -/
structure GradLoopInv {F : Type} (N : Numerics F) (sumExp : F) (targetData : Nat)
    (e : Nat → F) (m1 : Machine F) (j : Nat) (m : Machine F) : Prop where
  pSampleScore : m.pSampleScore = m1.pSampleScore
  pTargetData : m.pTargetData = m1.pTargetData
  pGradientAndHessian : m.pGradientAndHessian = m1.pGradientAndHessian + 2 * j
  aSampleScore : m.aSampleScore = m1.aSampleScore
  aExps : m.aExps = m1.aExps
  pInputData : m.pInputData = m1.pInputData
  iTensorBinCombined : m.iTensorBinCombined = m1.iTensorBinCombined
  ghLen : m.aGradientAndHessian.length = m1.aGradientAndHessian.length
  gh : ∀ i, i < j →
    m.aGradientAndHessian[m1.pGradientAndHessian + 2 * i]? = some
      (N.InverseLinkFunctionThenCalculateGradientAndHessianMulticlass sumExp (e i)
        targetData i).1 ∧
    m.aGradientAndHessian[m1.pGradientAndHessian + 2 * i + 1]? = some
      (N.InverseLinkFunctionThenCalculateGradientAndHessianMulticlass sumExp (e i)
        targetData i).2
  ghRest : ∀ idx, idx < m1.pGradientAndHessian ∨ m1.pGradientAndHessian + 2 * j ≤ idx →
    m.aGradientAndHessian[idx]? = m1.aGradientAndHessian[idx]?
  log : m.log = m1.log ++ gradLog m1.pGradientAndHessian j

/-- New score of slot `j` of sample `i` of a multiclass call: the old score plus entry `j` of
the update row of the sample's bin -/
def mcScore {F : Type} [Zero F] [Add F] (a : Args F) (cScores : Nat) (bin : Nat → Nat)
    (i j : Nat) : F :=
  a.aSampleScore.getD (i * cScores + j) 0 + a.aUpdateScores.getD (bin i * cScores + j) 0

/-- Exponential of the new score of slot `j` of sample `i` -/
def mcExp {F : Type} [Zero F] [Add F] (N : Numerics F) (a : Args F) (cScores : Nat)
    (bin : Nat → Nat) (i j : Nat) : F :=
  N.ExpForMulticlass (mcScore a cScores bin i j)

/-- The value `sumExp` of sample `i` when the first score loop ends -/
def mcSum {F : Type} [Zero F] [Add F] (N : Numerics F) (a : Args F) (cScores : Nat)
    (bin : Nat → Nat) (i : Nat) : F :=
  sumUpTo (mcExp N a cScores bin i) cScores

/-- The (gradient, hessian) pair of slot `j` of sample `i` -/
def mcGH {F : Type} [Zero F] [Add F] (N : Numerics F) (a : Args F) (cScores : Nat)
    (bin : Nat → Nat) (i j : Nat) : F × F :=
  N.InverseLinkFunctionThenCalculateGradientAndHessianMulticlass (mcSum N a cScores bin i)
    (mcExp N a cScores bin i j) (a.aTargetData.getD i 0) j

/-- Events of multiclass sample `i`, after the load of its target and the decoding of its
bin -/
def multiclassTail (cScores : Nat) (bin : Nat → Nat) (i : Nat) : List Event :=
  scoreLog (i * cScores) (bin i * cScores) cScores ++ gradLog (2 * (i * cScores)) cScores

/-- Events of sample `i` on the indexed multiclass path -/
def multiclassEvents (cScores : Nat) (bin : Nat → Nat) (i : Nat) : List Event :=
  [Event.read Buf.target i, Event.decode (bin i)] ++ multiclassTail cScores bin i

/-- Events of sample `i` on the zero-feature multiclass path -/
def multiclassZeroEvents (cScores : Nat) (i : Nat) : List Event :=
  Event.read Buf.target i :: multiclassTail cScores (fun _ => 0) i

/-- Pointers and buffers after `n` multiclass samples whose bins are `bin 0, bin 1, ...` -/
structure MulticlassInv {F : Type} [Zero F] [Add F] (N : Numerics F) (a : Args F)
    (cScores : Nat) (bin : Nat → Nat) (lenExps : Nat) (n : Nat) (m : Machine F) : Prop where
  pTargetData : m.pTargetData = n
  pSampleScore : m.pSampleScore = n * cScores
  pGradientAndHessian : m.pGradientAndHessian = 2 * (n * cScores)
  expsLen : m.aExps.length = lenExps
  scoreLen : m.aSampleScore.length = a.aSampleScore.length
  score : ∀ i, i < n → ∀ j, j < cScores →
    m.aSampleScore[i * cScores + j]? = some (mcScore a cScores bin i j)
  scoreRest : ∀ idx, n * cScores ≤ idx → m.aSampleScore[idx]? = a.aSampleScore[idx]?
  ghLen : m.aGradientAndHessian.length = a.aGradientAndHessian.length
  gh : ∀ i, i < n → ∀ j, j < cScores →
    m.aGradientAndHessian[2 * (i * cScores + j)]? = some (mcGH N a cScores bin i j).1 ∧
    m.aGradientAndHessian[2 * (i * cScores + j) + 1]? = some (mcGH N a cScores bin i j).2
  ghRest : ∀ idx, 2 * (n * cScores) ≤ idx →
    m.aGradientAndHessian[idx]? = a.aGradientAndHessian[idx]?

/-- Scores per sample of a multiclass call instantiated for `cCompilerClasses` -/
def scoresOf {F : Type} (H : Headers) (cCompilerClasses : Int) (a : Args F) : Nat :=
  GetCountScores (GET_COUNT_CLASSES H cCompilerClasses a.cRuntimeClasses)

/-- Well-formed header constants: the binary specialisation is among the compiled class counts,
the two sentinels are distinct and are not class counts, and every class count of at least 2
is a classification -/
structure Headers.WellFormed (H : Headers) : Prop where
  max_ge : 2 ≤ H.k_cCompilerClassesMax
  regression_lt : H.k_regression < 2
  dynamic_lt : H.k_dynamicClassification < 2
  regression_ne_dynamic : H.k_regression ≠ H.k_dynamicClassification
  isClassification : ∀ c : Int, 2 ≤ c → H.IsClassification c = true

/-- The tensor-bin index of sample `i` of a call of the entry point: 0 for a zero-feature
term, otherwise decoded from the stream -/
def entryBin {F : Type} (H : Headers) (a : Args F) (i : Nat) : Nat :=
  if H.k_cItemsPerBitPackNone = a.runtimeBitPack then 0
  else binOf H H.k_cItemsPerBitPackDynamic a i

/-- The template argument `cCompilerClasses` the probe chain ends in for the runtime class
count of the call -/
def entryClasses {F : Type} (H : Headers) (a : Args F) : Int :=
  if a.cRuntimeClasses ≤ H.k_cCompilerClassesMax then a.cRuntimeClasses
  else H.k_dynamicClassification

/-- Preconditions of a classification call of the entry point with `cScores` scores per
sample -/
structure ValidClassification {F : Type} [Zero F] (H : Headers) (a : Args F) (cScores : Nat) :
    Prop where
  zero : H.k_cItemsPerBitPackNone = a.runtimeBitPack → ValidZero a cScores
  indexed : H.k_cItemsPerBitPackNone ≠ a.runtimeBitPack →
    ValidIndexed a (itemsOf H H.k_cItemsPerBitPackDynamic a)
      (binOf H H.k_cItemsPerBitPackDynamic a) cScores
  scratch : 3 ≤ a.cRuntimeClasses → cScores ≤ (aExpsOf H (entryClasses H a) a).length

/-- Preconditions of a regression call of the entry point -/
structure ValidRegression {F : Type} (H : Headers) (a : Args F) : Prop where
  zero : H.k_cItemsPerBitPackNone = a.runtimeBitPack → ValidZeroRegression a
  indexed : H.k_cItemsPerBitPackNone ≠ a.runtimeBitPack →
    ValidIndexedRegression a (itemsOf H H.k_cItemsPerBitPackDynamic a)
      (binOf H H.k_cItemsPerBitPackDynamic a)

/-! ## Reading the ghost log -/

/-- The tensor-bin indices the run decoded, in order -/
def decodedBins (log : List Event) : List Nat :=
  log.filterMap fun e => match e with
    | Event.decode iTensorBin => some iTensorBin
    | _ => none

/-- The offsets of the stores into buffer `b`, in order -/
def writesTo (b : Buf) (log : List Event) : List Nat :=
  log.filterMap fun e => match e with
    | Event.write b1 i => if b1 = b then some i else none
    | _ => none

/-- The offsets of the loads from buffer `b`, in order -/
def readsFrom (b : Buf) (log : List Event) : List Nat :=
  log.filterMap fun e => match e with
    | Event.read b1 i => if b1 = b then some i else none
    | _ => none

/-- One step of the block count: a load of a packed word opens a new block, a decoded bin
index adds one sample to the open block.  The most recent block is at the head. -/
def blocksStep (acc : List Nat) (e : Event) : List Nat :=
  match e with
  | Event.read Buf.input _ => 0 :: acc
  | Event.decode _ =>
    match acc with
    | [] => []
    | s :: rest => (s + 1) :: rest
  | _ => acc

/-- The number of samples decoded from each packed word, in the order the words were loaded -/
def blockSizes (log : List Event) : List Nat :=
  (log.foldl blocksStep []).reverse

/-- Concatenation `g 0 ++ g 1 ++ ... ++ g (n - 1)` -/
def concatUpTo {α : Type} (g : Nat → List α) : Nat → List α
  | 0 => []
  | n + 1 => concatUpTo g n ++ g n

/-- What the events of one sample of an indexed run have in common on every path: exactly one
decoded bin index, the bin of the sample, and no access to the packed stream -/
structure SampleEvents (bin : Nat → Nat) (ev : Nat → List Event) : Prop where
  decode : ∀ i, decodedBins (ev i) = [bin i]
  noInput : ∀ i e, e ∈ ev i → ∀ j, e ≠ Event.read Buf.input j ∧ e ≠ Event.write Buf.input j

/-- Scores per sample of the template instance
`ApplyTermUpdateTrainingInternal<cCompilerClasses, compilerBitPack>`: one for the binary
specialisation, otherwise `GetCountScores` of the class count -/
def internalScores {F : Type} (H : Headers) (cCompilerClasses : Int) (a : Args F) : Nat :=
  if cCompilerClasses = 2 then 1 else scoresOf H cCompilerClasses a

/-- Preconditions of a call of the template instance
`ApplyTermUpdateTrainingInternal<cCompilerClasses, compilerBitPack>` -/
structure ValidInternal {F : Type} [Zero F] (H : Headers) (cCompilerClasses compilerBitPack : Int)
    (a : Args F) : Prop where
  regression : cCompilerClasses = H.k_regression →
    ValidIndexedRegression a (itemsOf H compilerBitPack a) (binOf H compilerBitPack a)
  classification : cCompilerClasses ≠ H.k_regression →
    ValidIndexed a (itemsOf H compilerBitPack a) (binOf H compilerBitPack a)
      (internalScores H cCompilerClasses a)
  scratch : cCompilerClasses ≠ H.k_regression → cCompilerClasses ≠ 2 →
    internalScores H cCompilerClasses a ≤ (aExpsOf H cCompilerClasses a).length

/-- The decoder the spec describes: sample `i` uses field `i mod k` of word `i div k`, that is
`(word[i div k] >> ((i mod k) * w)) mod 2^w` -/
def naiveDecode (w k : Nat) (aInputData : List Nat) (cSamples : Nat) : List Nat :=
  (List.range cSamples).map fun i => (aInputData.getD (i / k) 0 >>> (i % k * w)) % 2 ^ w

/-- Values a call writes into the gradient/hessian buffer per sample: one gradient for
regression, one (gradient, hessian) pair per score for classification -/
def valuesPerSample {F : Type} (H : Headers) (a : Args F) : Nat :=
  if H.IsClassification a.cRuntimeClasses then 2 * GetCountScores a.cRuntimeClasses else 1

/-- Preconditions of a call of the entry point: a regression call, or a classification call
with a class count of at least 2, with buffers large enough for every access -/
def ValidCall {F : Type} [Zero F] (H : Headers) (a : Args F) : Prop :=
  (H.IsClassification a.cRuntimeClasses = false ∧ ValidRegression H a) ∨
  (2 ≤ a.cRuntimeClasses ∧ ValidClassification H a (GetCountScores a.cRuntimeClasses))


/-! ## Numeric helpers modelled from the spec

`ebm_stats.hpp` and `approximate_math.hpp` are not part of the source.  The definitions below
follow section 4.4 of the spec; the exponential stays a parameter. -/

/-- Modelled from the spec: the inverse link of binary classification,
`sigmoid(s) = 1 / (1 + exp(-s))`; the spec only names the sigmoid, `ebm_stats.hpp` is not in
the source. -/
def sigmoid {F : Type} [LinearOrderedField F] (exp : F → F) (s : F) : F :=
  1 / (1 + exp (-s))

/-- Modelled from the spec: `EbmStats::InverseLinkFunctionThenCalculateGradientBinaryClassification`
is not in the source; the spec gives gradient = sigmoid(new score) - target-as-{0,1}. -/
def specGradientBinary {F : Type} [LinearOrderedField F] (exp : F → F) (sampleScore : F)
    (targetData : Nat) : F :=
  sigmoid exp sampleScore - (targetData : F)

/-- Modelled from the spec: `EbmStats::CalculateHessianFromGradientBinaryClassification` is not
in the source; the spec gives hessian = sigmoid × (1 - sigmoid), derived from the gradient
alone.  The gradient is `p - 1` or `p` with `p` the sigmoid, so its absolute value is `1 - p`
or `p`. -/
def specHessianBinary {F : Type} [LinearOrderedField F] (gradient : F) : F :=
  |gradient| * (1 - |gradient|)

/-- Modelled from the spec: `EbmStats::InverseLinkFunctionThenCalculateGradientAndHessianMulticlass`
is not in the source; the spec gives softmax(c) = exp(score_c) / sum(exp(score)), gradient
softmax − 1 for the true class and softmax for the others, hessian softmax × (1 − softmax). -/
def specGradientHessianMulticlass {F : Type} [LinearOrderedField F] (sumExp itemExp : F)
    (targetData iScore : Nat) : F × F :=
  (if iScore = targetData then itemExp / sumExp - 1 else itemExp / sumExp,
    itemExp / sumExp * (1 - itemExp / sumExp))

/-- Modelled from the spec: `EbmStats::ComputeGradientRegressionMSEFromOriginalGradient` is not
in the source; the spec gives new gradient = old gradient − applied score delta. -/
def specGradientRegression {F : Type} [LinearOrderedField F] (originalGradient updateScore : F) :
    F :=
  originalGradient - updateScore

/-- Modelled from the spec: the numeric helpers of section 4.4 over an exponential `exp` -/
def specNumerics {F : Type} [LinearOrderedField F] (exp : F → F) : Numerics F :=
  { ExpForMulticlass := exp
    InverseLinkFunctionThenCalculateGradientBinaryClassification := specGradientBinary exp
    CalculateHessianFromGradientBinaryClassification := specHessianBinary
    InverseLinkFunctionThenCalculateGradientAndHessianMulticlass :=
      specGradientHessianMulticlass
    ComputeGradientRegressionMSEFromOriginalGradient := specGradientRegression }

/-! ## Concrete inputs of the worked scenarios -/

/-- Headers with an 8-bit storage word whose `k` items take `8 / k` bits each, eight compiled
class counts, sentinels `-1` (regression, no features) and `0` (dynamic) -/
def exampleHeaders : Headers :=
  { k_cBitsForStorageType := 8
    GetCountBits := fun cItemsBitPacked => 8 / cItemsBitPacked
    k_cCompilerClassesMax := 8
    k_dynamicClassification := 0
    k_regression := -1
    k_cItemsPerBitPackNone := -1
    k_cItemsPerBitPackDynamic := 0
    IsClassification := fun cClasses => decide (0 ≤ cClasses) }

/-- A positive rational stand-in for the exponential, for scenarios over the rationals -/
def expStandIn (x : ℚ) : ℚ := 1 + x * x

/-- The numeric helpers of the scenarios over the rationals -/
def exampleNumerics : Numerics ℚ := specNumerics expStandIn

/-- The binary scenario of the spec: 3 samples, 4 items of 2 bits per word, update rows
`[0.1, -0.2]`, bins `[0, 1, 0]` (packed word `0b000100`), scores `[0, 0, 0]`, targets
`[1, 0, 1]` -/
def binaryScenario : Args ℚ :=
  { cRuntimeClasses := 2
    runtimeBitPack := 4
    aMulticlassMidwayTemp := []
    aUpdateScores := [1 / 10, -1 / 5]
    cSamples := 3
    aInputData := [4]
    aTargetData := [1, 0, 1]
    aSampleScore := [0, 0, 0]
    aGradientAndHessian := [0, 0, 0, 0, 0, 0] }

/-- The regression scenario of the spec: 2 samples, no features, update delta `0.5`, gradients
`[1.0, -0.3]` -/
def regressionScenario : Args ℚ :=
  { cRuntimeClasses := -1
    runtimeBitPack := -1
    aMulticlassMidwayTemp := []
    aUpdateScores := [1 / 2]
    cSamples := 2
    aInputData := []
    aTargetData := []
    aSampleScore := []
    aGradientAndHessian := [1, -3 / 10] }

/-- An indexed regression call with `cSamples` samples, 8 items of 1 bit per word (with
`exampleHeaders`), three packed words, a two-row update tensor and zero gradients -/
def decodeScenario (cSamples : Nat) : Args ℚ :=
  { cRuntimeClasses := -1
    runtimeBitPack := 8
    aMulticlassMidwayTemp := []
    aUpdateScores := [1 / 2, 1 / 4]
    cSamples := cSamples
    aInputData := [178, 77, 5]
    aTargetData := []
    aSampleScore := []
    aGradientAndHessian := List.replicate cSamples 0 }

/-- An indexed regression call with a populated score buffer: 3 samples, 4 items of 2 bits
per word, bins `[0, 1, 0]`, update tensor `[0.5, 0.25]`, scores `[7, 8, 9]` and a gradient
buffer of 5 entries -/
def regressionFrameScenario : Args ℚ :=
  { cRuntimeClasses := -1
    runtimeBitPack := 4
    aMulticlassMidwayTemp := []
    aUpdateScores := [1 / 2, 1 / 4]
    cSamples := 3
    aInputData := [4]
    aTargetData := []
    aSampleScore := [7, 8, 9]
    aGradientAndHessian := [1, 2, 3, 4, 5] }

/-- A zero-feature multiclass call: 3 classes, 1 sample of class 0, update row `[1, 2, 3]`,
scores `[0, 0, 0]` and a gradient/hessian buffer of 8 entries -/
def multiclassScenario : Args ℚ :=
  { cRuntimeClasses := 3
    runtimeBitPack := -1
    aMulticlassMidwayTemp := []
    aUpdateScores := [1, 2, 3]
    cSamples := 1
    aInputData := []
    aTargetData := [0]
    aSampleScore := [0, 0, 0]
    aGradientAndHessian := [9, 9, 9, 9, 9, 9, 9, 9] }

/-- The binary scenario of the spec over an arbitrary ordered field, through the entry point -/
def binaryScenarioIn (F : Type) [LinearOrderedField F] : Args F :=
  { cRuntimeClasses := 2
    runtimeBitPack := 4
    aMulticlassMidwayTemp := []
    aUpdateScores := [1 / 10, -1 / 5]
    cSamples := 3
    aInputData := [4]
    aTargetData := [1, 0, 1]
    aSampleScore := [0, 0, 0]
    aGradientAndHessian := [0, 0, 0, 0, 0, 0] }

/-- An indexed call with 3 classes over an arbitrary ordered field: 2 samples of classes 2 and
0, 4 items of 2 bits per word, bins `[1, 0]`, a two-row update tensor -/
def multiclassScenarioIn (F : Type) [LinearOrderedField F] : Args F :=
  { cRuntimeClasses := 3
    runtimeBitPack := 4
    aMulticlassMidwayTemp := []
    aUpdateScores := [1, 2, 3, 1 / 2, 1 / 3, 1 / 4]
    cSamples := 2
    aInputData := [1]
    aTargetData := [2, 0]
    aSampleScore := [0, 0, 0, 0, 0, 0]
    aGradientAndHessian := [0, 0, 0, 0, 0, 0, 0, 0, 0, 0, 0, 0] }

/-- The binary scenario with a one-row update tensor and every packed bin index 0 -/
def binaryZeroBins : Args ℚ :=
  { binaryScenario with aInputData := [0], aUpdateScores := [1 / 10] }

/-- The indexed regression scenario with a one-row update tensor and every packed bin
index 0 -/
def regressionZeroBins : Args ℚ :=
  { regressionFrameScenario with aInputData := [0], aUpdateScores := [1 / 2] }

/-- The indexed multiclass scenario with a one-row update tensor and every packed bin
index 0 -/
def multiclassZeroBins : Args ℚ :=
  { multiclassScenarioIn ℚ with aInputData := [0], aUpdateScores := [1, 2, 3] }


/-! ## Initialisation of a buffer, read off the ghost log -/

/-- Whether every load from buffer `b` in the log comes after a store to the same offset of
`b`; `written` lists the offsets stored so far -/
def readsInitialised (b : Buf) : List Nat → List Event → Bool
  | _, [] => true
  | written, Event.write b1 i :: rest =>
    readsInitialised b (if b1 = b then i :: written else written) rest
  | written, Event.read b1 i :: rest =>
    (decide (b1 ≠ b) || decide (i ∈ written)) && readsInitialised b written rest
  | written, Event.decode _ :: rest => readsInitialised b written rest

/-- A zero-feature call with 9 classes, one more than the 8 compiled class counts of
`exampleHeaders`: 1 sample of class 4, a scratch buffer of 9 cells -/
def dynamicScenario : Args ℚ :=
  { cRuntimeClasses := 9
    runtimeBitPack := -1
    aMulticlassMidwayTemp := [7, 7, 7, 7, 7, 7, 7, 7, 7]
    aUpdateScores := [1, 2, 3, 4, 5, 6, 7, 8, 9]
    cSamples := 1
    aInputData := []
    aTargetData := [4]
    aSampleScore := [0, 0, 0, 0, 0, 0, 0, 0, 0]
    aGradientAndHessian := List.replicate 18 0 }

/-! ## The probe chains in a debug build -/

/-- `ApplyTermUpdateTrainingZeroFeaturesTarget<cPossibleClasses>::Func` (lines 193-280) in a
debug build: the `EBM_ASSERT`s of the probe chain are evaluated (lines 213-214 in the general
template, 265-266 in the specialisation for `k_cCompilerClassesMax + 1`) and the first one
that fails aborts the call; the result is then the source line of that assertion.  The
selected `Func` runs as in `ApplyTermUpdateTrainingZeroFeatures`. -/
def ApplyTermUpdateTrainingZeroFeaturesTargetDebug {F : Type} [Zero F] [Add F] (H : Headers)
    (N : Numerics F) (cPossibleClasses : Nat) (fuel : Nat) (a : Args F) :
    Except Nat (Option (Machine F)) :=
  if H.k_cCompilerClassesMax + 1 = cPossibleClasses then
    if H.IsClassification a.cRuntimeClasses = false then Except.error 265
    else if ¬ (H.k_cCompilerClassesMax : Int) < a.cRuntimeClasses then Except.error 266
    else Except.ok (ApplyTermUpdateTrainingZeroFeatures H N H.k_dynamicClassification fuel a)
  else if H.k_cCompilerClassesMax + 1 < cPossibleClasses then Except.ok none
  else if H.IsClassification a.cRuntimeClasses = false then Except.error 213
  else if ¬ a.cRuntimeClasses ≤ (H.k_cCompilerClassesMax : Int) then Except.error 214
  else if (cPossibleClasses : Int) = a.cRuntimeClasses then
    Except.ok (ApplyTermUpdateTrainingZeroFeatures H N cPossibleClasses fuel a)
  else ApplyTermUpdateTrainingZeroFeaturesTargetDebug H N (cPossibleClasses + 1) fuel a
termination_by H.k_cCompilerClassesMax + 1 - cPossibleClasses
decreasing_by omega

/-- `ApplyTermUpdateTrainingNormalTarget<cPossibleClasses>::Func` (lines 566-653) in a debug
build: the `EBM_ASSERT`s of the probe chain are evaluated (lines 586-587 in the general
template, 638-639 in the specialisation for `k_cCompilerClassesMax + 1`) and the first one
that fails aborts the call; the result is then the source line of that assertion.  The
selected `Func` runs as in `ApplyTermUpdateTrainingInternal`. -/
def ApplyTermUpdateTrainingNormalTargetDebug {F : Type} [Zero F] [Add F] (H : Headers)
    (N : Numerics F) (cPossibleClasses : Nat) (fuel : Nat) (a : Args F) :
    Except Nat (Option (Machine F)) :=
  if H.k_cCompilerClassesMax + 1 = cPossibleClasses then
    if H.IsClassification a.cRuntimeClasses = false then Except.error 638
    else if ¬ (H.k_cCompilerClassesMax : Int) < a.cRuntimeClasses then Except.error 639
    else Except.ok (ApplyTermUpdateTrainingInternal H N H.k_dynamicClassification
      H.k_cItemsPerBitPackDynamic fuel a)
  else if H.k_cCompilerClassesMax + 1 < cPossibleClasses then Except.ok none
  else if H.IsClassification a.cRuntimeClasses = false then Except.error 586
  else if ¬ a.cRuntimeClasses ≤ (H.k_cCompilerClassesMax : Int) then Except.error 587
  else if (cPossibleClasses : Int) = a.cRuntimeClasses then
    Except.ok (ApplyTermUpdateTrainingInternal H N cPossibleClasses H.k_cItemsPerBitPackDynamic
      fuel a)
  else ApplyTermUpdateTrainingNormalTargetDebug H N (cPossibleClasses + 1) fuel a
termination_by H.k_cCompilerClassesMax + 1 - cPossibleClasses
decreasing_by omega

/-- The entry point `ApplyTermUpdateTraining` (lines 655-725) in a debug build, for the
assertions of the classification probe chains.  The assertion
`EBM_ASSERT(IsRegression(cRuntimeClasses))` of the two regression branches (lines 682 and
709) is left out: `IsRegression` is declared in a header outside the translation unit. -/
def ApplyTermUpdateTrainingDebug {F : Type} [Zero F] [Add F] (H : Headers) (N : Numerics F)
    (fuel : Nat) (a : Args F) : Except Nat (Option (Machine F)) :=
  if H.k_cItemsPerBitPackNone = a.runtimeBitPack then
    if H.IsClassification a.cRuntimeClasses then
      ApplyTermUpdateTrainingZeroFeaturesTargetDebug H N 2 fuel a
    else Except.ok (ApplyTermUpdateTrainingZeroFeatures H N H.k_regression fuel a)
  else
    if H.IsClassification a.cRuntimeClasses then
      ApplyTermUpdateTrainingNormalTargetDebug H N 2 fuel a
    else
      Except.ok (ApplyTermUpdateTrainingInternal H N H.k_regression H.k_cItemsPerBitPackDynamic
        fuel a)

/-! ## Extent of a run of a template instance of the indexed function -/

/-- Values a template instance of the indexed function stores per sample: one gradient for
regression, one (gradient, hessian) pair per score otherwise -/
def internalValues {F : Type} (H : Headers) (cCompilerClasses : Int) (a : Args F) : Nat :=
  if cCompilerClasses = H.k_regression then 1 else 2 * internalScores H cCompilerClasses a

/-- The pointer the block loop of a template instance compares with its end pointers:
`pGradient` for regression (line 554), `pSampleScore` otherwise (lines 388, 474) -/
def internalPos {F : Type} (H : Headers) (cCompilerClasses : Int) (m : Machine F) : Nat :=
  if cCompilerClasses = H.k_regression then m.pGradientAndHessian else m.pSampleScore

/-- The true end of the block loop of a template instance, as an offset: `cSamples`
(lines 438, 525) or `cSamples * cScores` (line 327) -/
def internalTrueEnd {F : Type} (H : Headers) (cCompilerClasses : Int) (a : Args F) : Nat :=
  if cCompilerClasses = H.k_regression then a.cSamples
  else a.cSamples * internalScores H cCompilerClasses a

/-! ## The exit pointer of the block loop and the assertions on it -/

/-- The exit pointer
`pSampleScoresTrueEnd - ((cSamples - 1) % cItemsPerBitPack + 1) * cScores` of the block loop
(line 333; lines 444 and 531 with `cScores = 1`), as an offset, where
`pSampleScoresTrueEnd = pSampleScore + cSamples * cScores` -/
def pSampleScoresExit (pSampleScore cSamples cItemsPerBitPack cScores : Nat) : Nat :=
  pSampleScore + cSamples * cScores - ((cSamples - 1) % cItemsPerBitPack + 1) * cScores

/-- The two assertions that follow the computation of the exit pointer (lines 334-335,
445-446, 532-533): `pSampleScore < pSampleScoresExit` and
`pSampleScoresExit < pSampleScoresTrueEnd` -/
def exitAssertions (pSampleScore cSamples cItemsPerBitPack cScores : Nat) : Bool :=
  decide (pSampleScore < pSampleScoresExit pSampleScore cSamples cItemsPerBitPack cScores) &&
  decide (pSampleScoresExit pSampleScore cSamples cItemsPerBitPack cScores
    < pSampleScore + cSamples * cScores)

/-! ## Two updates in a row -/

/-- The element-wise sum of two update tensors -/
def sumTensor {F : Type} [Add F] (aUpdateScores1 aUpdateScores2 : List F) : List F :=
  List.zipWith (fun u1 u2 => u1 + u2) aUpdateScores1 aUpdateScores2


/-! ## The loop skeletons against the reference runs -/

theorem iter_add {F : Type} (step : Machine F → Option (Machine F)) (a b : Nat) (m : Machine F) :
    iter step (a + b) m = (iter step a m).bind (iter step b) := by
  induction a generalizing m with
  | zero => simp [iter]
  | succ a ih =>
    rw [Nat.succ_add]
    simp only [iter]
    cases h : step m with
    | none => simp
    | some m1 => simp [ih]

theorem iter_pos {F : Type} {step : Machine F → Option (Machine F)} {pos : Machine F → Nat}
    {s : Nat} (hpos : ∀ m m1, step m = some m1 → pos m1 = pos m + s) :
    ∀ (n : Nat) (m m1 : Machine F), iter step n m = some m1 → pos m1 = pos m + n * s := by
  intro n
  induction n with
  | zero => intro m m1 h; simp [iter] at h; simp [h]
  | succ n ih =>
    intro m m1 h
    simp only [iter] at h
    cases h1 : step m with
    | none => simp [h1] at h
    | some m2 =>
      simp [h1] at h
      rw [ih m2 m1 h, hpos m m2 h1, Nat.succ_mul]
      omega

theorem doWhileNe_eq_iter {F : Type} {body : Nat → Machine F → Option (Machine F)}
    {step : Machine F → Option (Machine F)} {pos : Machine F → Nat} {s B : Nat}
    (hfuel : ∀ f m, B ≤ f → body f m = step m)
    (hpos : ∀ m m1, step m = some m1 → pos m1 = pos m + s) (hs : 0 < s) :
    ∀ (n fuel : Nat) (m : Machine F), n + B < fuel + 1 →
      doWhileNe body pos (pos m + (n + 1) * s) (fuel + 1) m = iter step (n + 1) m := by
  intro n
  induction n with
  | zero =>
    intro fuel m hf
    simp only [doWhileNe, iter]
    rw [hfuel fuel m (by omega)]
    cases h1 : step m with
    | none => simp
    | some m1 =>
      have := hpos m m1 h1
      simp [this, iter]
  | succ n ih =>
    intro fuel m hf
    obtain ⟨fuel, rfl⟩ : ∃ f, fuel = f + 1 := ⟨fuel - 1, by omega⟩
    rw [doWhileNe, hfuel (fuel + 1) m (by omega)]
    rw [iter]
    cases h1 : step m with
    | none => simp
    | some m1 =>
      have hp := hpos m m1 h1
      have hne : pos m + (n + 1 + 1) * s ≠ pos m1 := by
        rw [hp]
        have : s < (n + 1 + 1) * s := by nlinarith
        omega
      have := ih fuel m1 (by omega)
      simp only [hne, ne_eq, not_false_eq_true, if_true, Option.some_bind]
      rw [← this, hp]
      congr 1
      ring

theorem iter_one {F : Type} (step : Machine F → Option (Machine F)) (m : Machine F) :
    iter step 1 m = step m := by
  simp only [iter]
  cases step m <;> rfl

theorem iter_succ_right {F : Type} (step : Machine F → Option (Machine F)) (n : Nat)
    (m : Machine F) : iter step (n + 1) m = (iter step n m).bind step := by
  rw [iter_add]
  congr 1
  funext m1
  exact iter_one step m1

theorem blockLoop_succ {F : Type} (aInputData : List Nat)
    (body : Nat → Machine F → Option (Machine F)) (pos : Machine F → Nat)
    (stride pTrueEnd fuel pExit pInnerEnd : Nat) (m : Machine F) :
    blockLoop aInputData body pos stride pTrueEnd (fuel + 1) pExit pInnerEnd m =
      (loadWord aInputData m).bind fun m1 =>
        (doWhileNe body pos pInnerEnd fuel m1).bind fun m2 =>
          if pExit ≠ pos m2 then
            blockLoop aInputData body pos stride pTrueEnd fuel pExit (pos m2 + stride) m2
          else if pTrueEnd ≠ pos m2 then
            blockLoop aInputData body pos stride pTrueEnd fuel pTrueEnd pTrueEnd m2
          else some m2 := by
  rw [blockLoop, loadWord]
  cases h : aInputData[m.pInputData]? with
  | none => rfl
  | some w =>
    simp only [Option.some_bind]
    cases h2 : doWhileNe body pos pInnerEnd fuel _ with
    | none => rfl
    | some m2 => rfl

theorem blockLoop_last {F : Type} {aInputData : List Nat}
    {body : Nat → Machine F → Option (Machine F)}
    {step : Machine F → Option (Machine F)} {pos : Machine F → Nat} {s B : Nat}
    (hfuel : ∀ f m, B ≤ f → body f m = step m)
    (hpos : ∀ m m1, step m = some m1 → pos m1 = pos m + s) (hs : 0 < s)
    (hload : ∀ m m1, loadWord aInputData m = some m1 → pos m1 = pos m)
    (stride r fuel pEnd : Nat) (m : Machine F) (hr : 0 < r) (hf : r + B ≤ fuel)
    (hE : pEnd = pos m + r * s) :
    blockLoop aInputData body pos stride pEnd (fuel + 1) pEnd pEnd m
      = block aInputData step r m := by
  rw [blockLoop_succ, block]
  cases h1 : loadWord aInputData m with
  | none => rfl
  | some m1 =>
    simp only [Option.some_bind]
    obtain ⟨n, rfl⟩ : ∃ n, r = n + 1 := ⟨r - 1, by omega⟩
    obtain ⟨f, rfl⟩ : ∃ f, fuel = f + 1 := ⟨fuel - 1, by omega⟩
    have hp1 := hload m m1 h1
    have hd := doWhileNe_eq_iter hfuel hpos hs n f m1 (by omega)
    rw [hp1, ← hE] at hd
    rw [hd]
    cases h2 : iter step (n + 1) m1 with
    | none => rfl
    | some m2 =>
      have hp2 := iter_pos hpos (n + 1) m1 m2 h2
      have : pEnd = pos m2 := by rw [hp2, hp1, hE]
      simp [this]

theorem blockLoop_full {F : Type} {aInputData : List Nat}
    {body : Nat → Machine F → Option (Machine F)}
    {step : Machine F → Option (Machine F)} {pos : Machine F → Nat} {s B : Nat}
    (hfuel : ∀ f m, B ≤ f → body f m = step m)
    (hpos : ∀ m m1, step m = some m1 → pos m1 = pos m + s) (hs : 0 < s)
    (hload : ∀ m m1, loadWord aInputData m = some m1 → pos m1 = pos m)
    (k r : Nat) (hk : 0 < k) :
    ∀ (q fuel pExit pInnerEnd pTrueEnd : Nat) (m : Machine F),
      (q + 1) * k + r + B ≤ fuel →
      pExit = pos m + (q + 1) * k * s → pInnerEnd = pos m + k * s →
      pTrueEnd = pos m + ((q + 1) * k + r) * s →
      blockLoop aInputData body pos (k * s) pTrueEnd (fuel + 1) pExit pInnerEnd m
        = (fullBlocks aInputData step k (q + 1) m).bind fun m1 =>
            if r = 0 then some m1 else block aInputData step r m1 := by
  intro q
  induction q with
  | zero =>
    intro fuel pExit pInnerEnd pTrueEnd m hf hE hI hT
    simp only [Nat.zero_add, Nat.one_mul] at hf hE hT
    rw [blockLoop_succ]
    simp only [fullBlocks, block]
    cases h1 : loadWord aInputData m with
    | none => rfl
    | some m1 =>
      simp only [Option.some_bind]
      obtain ⟨n, rfl⟩ : ∃ n, k = n + 1 := ⟨k - 1, by omega⟩
      obtain ⟨f, rfl⟩ : ∃ f, fuel = f + 1 := ⟨fuel - 1, by omega⟩
      have hp1 := hload m m1 h1
      have hd := doWhileNe_eq_iter hfuel hpos hs n f m1 (by omega)
      rw [hp1, ← hI] at hd
      rw [hd]
      cases h2 : iter step (n + 1) m1 with
      | none => rfl
      | some m2 =>
        have hp2 := iter_pos hpos (n + 1) m1 m2 h2
        have hex : pExit = pos m2 := by rw [hp2, hp1, hE]
        simp only [Option.some_bind, hex, ne_eq, not_true_eq_false, if_false]
        by_cases hr : r = 0
        · subst hr
          have : pTrueEnd = pos m2 := by rw [hp2, hp1, hT]
          simp [this]
        · have hne : pTrueEnd ≠ pos m2 := by
            rw [hp2, hp1, hT]
            have : 0 < r * s := Nat.mul_pos (by omega) hs
            rw [Nat.add_mul]
            omega
          simp only [hne, ne_eq, not_false_eq_true, if_true, hr, if_false]
          exact blockLoop_last hfuel hpos hs hload _ r f pTrueEnd m2 (by omega) (by omega)
            (by rw [hp2, hp1, hT]; ring)
  | succ q ih =>
    intro fuel pExit pInnerEnd pTrueEnd m hf hE hI hT
    rw [blockLoop_succ]
    rw [fullBlocks]
    simp only [block]
    cases h1 : loadWord aInputData m with
    | none => rfl
    | some m1 =>
      simp only [Option.some_bind]
      obtain ⟨n, rfl⟩ : ∃ n, k = n + 1 := ⟨k - 1, by omega⟩
      have hfk : (q + 1 + 1) * (n + 1) = (q + 1) * (n + 1) + (n + 1) := by ring
      obtain ⟨f, rfl⟩ : ∃ f, fuel = f + 1 := ⟨fuel - 1, by omega⟩
      have hp1 := hload m m1 h1
      have hd := doWhileNe_eq_iter hfuel hpos hs n f m1 (by omega)
      rw [hp1, ← hI] at hd
      rw [hd]
      cases h2 : iter step (n + 1) m1 with
      | none => rfl
      | some m2 =>
        have hp2 := iter_pos hpos (n + 1) m1 m2 h2
        have hne : pExit ≠ pos m2 := by
          rw [hp2, hp1, hE, hfk, Nat.add_mul]
          have : 0 < (q + 1) * (n + 1) * s := Nat.mul_pos (Nat.mul_pos (by omega) (by omega)) hs
          omega
        simp only [Option.some_bind, hne, ne_eq, not_false_eq_true, if_true]
        exact ih f pExit (pos m2 + (n + 1) * s) pTrueEnd m2 (by omega)
          (by rw [hp2, hp1, hE]; ring) rfl (by rw [hp2, hp1, hT]; ring)

theorem naiveRun_add_block {F : Type} (aInputData : List Nat)
    (step : Machine F → Option (Machine F)) (k done : Nat) (hdone : done % k = 0)
    (m0 : Machine F) :
    ∀ j : Nat, j < k →
      naiveRun aInputData step k (done + (j + 1)) m0
        = (naiveRun aInputData step k done m0).bind (block aInputData step (j + 1)) := by
  intro j
  induction j with
  | zero =>
    intro _
    show (naiveRun aInputData step k done m0).bind (naiveStep aInputData step k done) = _
    congr 1
    funext m
    simp only [naiveStep, hdone, if_true, block]
    congr 1
    funext m1
    exact (iter_one step m1).symm
  | succ j ih =>
    intro hj
    show (naiveRun aInputData step k (done + (j + 1)) m0).bind
      (naiveStep aInputData step k (done + (j + 1))) = _
    rw [ih (by omega)]
    have hmod : (done + (j + 1)) % k ≠ 0 := by
      rw [Nat.add_mod, hdone, Nat.zero_add, Nat.mod_mod, Nat.mod_eq_of_lt hj]
      omega
    cases h0 : naiveRun aInputData step k done m0 with
    | none => rfl
    | some m =>
      simp only [Option.some_bind, block, naiveStep, hmod, if_false]
      cases h1 : loadWord aInputData m with
      | none => rfl
      | some m1 =>
        simp only [Option.some_bind]
        rw [iter_succ_right step (j + 1) m1]

theorem fullBlocks_succ_right {F : Type} (aInputData : List Nat)
    (step : Machine F → Option (Machine F)) (k : Nat) :
    ∀ (q : Nat) (m : Machine F),
      fullBlocks aInputData step k (q + 1) m
        = (fullBlocks aInputData step k q m).bind (block aInputData step k) := by
  intro q
  induction q with
  | zero =>
    intro m
    simp only [fullBlocks, Option.some_bind]
    cases h : block aInputData step k m <;> rfl
  | succ q ih =>
    intro m
    rw [fullBlocks]
    cases h : block aInputData step k m with
    | none => simp [fullBlocks, h]
    | some m1 =>
      simp only [Option.some_bind]
      rw [ih m1]
      conv_rhs => rw [fullBlocks, h]
      rfl

theorem fullBlocks_eq_naiveRun {F : Type} (aInputData : List Nat)
    (step : Machine F → Option (Machine F)) (k : Nat) (hk : 0 < k) (m0 : Machine F) :
    ∀ q : Nat, fullBlocks aInputData step k q m0 = naiveRun aInputData step k (q * k) m0 := by
  intro q
  induction q with
  | zero => simp [fullBlocks, naiveRun]
  | succ q ih =>
    rw [fullBlocks_succ_right, ih]
    obtain ⟨j, rfl⟩ : ∃ j, k = j + 1 := ⟨k - 1, by omega⟩
    rw [Nat.succ_mul]
    exact (naiveRun_add_block aInputData step (j + 1) (q * (j + 1)) (by simp) m0 j
      (by omega)).symm

/-- The goto-fused block loop equals the one-at-a-time decoder, for every sample count and
every items-per-word count, also on runs that fail -/
theorem blockLoopEntry_eq_naiveRun {F : Type} {aInputData : List Nat}
    {body : Nat → Machine F → Option (Machine F)}
    {step : Machine F → Option (Machine F)} {pos : Machine F → Nat} {s B : Nat}
    (hfuel : ∀ f m, B ≤ f → body f m = step m)
    (hpos : ∀ m m1, step m = some m1 → pos m1 = pos m + s) (hs : 0 < s)
    (hload : ∀ m m1, loadWord aInputData m = some m1 → pos m1 = pos m)
    (n k : Nat) (hn : 0 < n) (hk : 0 < k) (fuel : Nat) (hf : n + B < fuel) (m : Machine F) :
    blockLoopEntry aInputData body pos n k s fuel m = naiveRun aInputData step k n m := by
  obtain ⟨f, rfl⟩ : ∃ f, fuel = f + 1 := ⟨fuel - 1, by omega⟩
  unfold blockLoopEntry
  by_cases hle : n ≤ k
  · simp only [hle, if_true]
    rw [blockLoop_last hfuel hpos hs hload _ n f _ m hn (by omega) rfl]
    obtain ⟨j, rfl⟩ : ∃ j, n = j + 1 := ⟨n - 1, by omega⟩
    have := naiveRun_add_block aInputData step k 0 (by simp) m j (by omega)
    rw [Nat.zero_add] at this
    rw [this]
    rfl
  · simp only [hle, if_false]
    have hdiv := Nat.div_add_mod (n - 1) k
    have hq : 0 < (n - 1) / k := Nat.div_pos (by omega) hk
    obtain ⟨q, hq1⟩ : ∃ q, (n - 1) / k = q + 1 := ⟨(n - 1) / k - 1, by omega⟩
    have hr : (n - 1) % k < k := Nat.mod_lt _ hk
    set r := (n - 1) % k with hrdef
    have hn' : n = (q + 1) * k + (r + 1) := by
      rw [hq1] at hdiv
      rw [Nat.mul_comm]
      omega
    have hE : pos m + n * s - (r + 1) * s = pos m + (q + 1) * k * s := by
      rw [hn', Nat.add_mul]
      omega
    rw [blockLoop_full hfuel hpos hs hload k (r + 1) hk q f _ _ _ m (by omega) hE rfl
      (by rw [← hn'])]
    rw [fullBlocks_eq_naiveRun aInputData step k hk m (q + 1)]
    simp only [Nat.add_one_ne_zero, if_false]
    rw [hn']
    exact (naiveRun_add_block aInputData step k ((q + 1) * k) (by simp) m r hr).symm

/-! ## Arithmetic of the decoder -/

theorem succ_div_mod_cases (n k : Nat) (hk : 0 < k) :
    ((n + 1) % k = 0 ∧ (n + 1) / k = n / k + 1 ∧ n % k + 1 = k) ∨
    ((n + 1) % k = n % k + 1 ∧ (n + 1) / k = n / k) := by
  have h1 := Nat.div_add_mod n k
  have h2 := Nat.mod_lt n hk
  by_cases h : n % k + 1 = k
  · left
    have h3 : n + 1 = k * (n / k + 1) := by rw [Nat.mul_add]; omega
    rw [h3]
    simp [Nat.mul_div_cancel_left _ hk, h]
  · right
    have h3 : n + 1 = (n % k + 1) + k * (n / k) := by omega
    constructor
    · conv_lhs => rw [h3]
      rw [Nat.add_mul_mod_self_left, Nat.mod_eq_of_lt (by omega)]
    · conv_lhs => rw [h3]
      rw [Nat.add_mul_div_left _ _ hk, Nat.div_eq_of_lt (by omega)]
      omega

theorem div_lt_of_lt_ceil (n k len i : Nat) (hk : 0 < k) (hlen : (n + k - 1) / k ≤ len)
    (hi : i < n) : i / k < len := by
  apply Nat.lt_of_lt_of_le _ hlen
  rw [Nat.div_lt_iff_lt_mul hk]
  have h1 := Nat.div_add_mod (n + k - 1) k
  have h2 := Nat.mod_lt (n + k - 1) hk
  rw [Nat.mul_comm]
  omega

theorem store_eq_some {α : Type} (a : List α) (i : Nat) (v : α) (h : i < a.length) :
    store a i v = some (a.set i v) := by
  simp [store, h]

theorem decoderInv_zero {F : Type} (aInputData : List Nat) (w k : Nat) (m : Machine F)
    (h : m.pInputData = 0) : DecoderInv aInputData w k 0 m :=
  ⟨by simp [h], by simp⟩

/-- One decoder step: the optional load of a word leaves the current field in the low bits,
and the shift after the sample restores the invariant -/
theorem decoderInv_load {F : Type} {aInputData : List Nat} {w k n cSamples : Nat}
    {m : Machine F} (hk : 0 < k) (hD : DecoderInv aInputData w k n m)
    (hn : n < cSamples) (hlen : (cSamples + k - 1) / k ≤ aInputData.length) :
    ∃ m1, (if n % k = 0 then loadWord aInputData m else some m) = some m1 ∧
      m1.iTensorBinCombined = aInputData.getD (n / k) 0 >>> (n % k * w) ∧
      m1.pInputData = n / k + 1 ∧
      m1.log = m.log ++ wordEvents k n ∧
      m1.pTargetData = m.pTargetData ∧ m1.pSampleScore = m.pSampleScore ∧
      m1.pGradientAndHessian = m.pGradientAndHessian ∧ m1.aSampleScore = m.aSampleScore ∧
      m1.aGradientAndHessian = m.aGradientAndHessian ∧ m1.aExps = m.aExps := by
  have hlt := div_lt_of_lt_ceil cSamples k _ n hk hlen hn
  by_cases h0 : n % k = 0
  · have hp := hD.pInputData
    simp only [h0, if_true, Nat.add_zero] at hp
    have hget : aInputData[m.pInputData]? = some (aInputData.getD (n / k) 0) := by
      rw [hp, List.getD_eq_getElem?_getD, List.getElem?_eq_getElem hlt]
      rfl
    simp only [h0, if_true, loadWord, hget]
    refine ⟨_, rfl, ?_⟩
    simp [wordEvents, h0, hp]
  · have hp := hD.pInputData
    simp only [h0, if_false] at hp
    refine ⟨m, by simp [h0], ?_⟩
    simp [hD.word h0, hp, wordEvents, h0]

theorem decoderInv_succ {F : Type} {aInputData : List Nat} {w k n : Nat}
    {m : Machine F} (hk : 0 < k)
    (hw : m.iTensorBinCombined = aInputData.getD (n / k) 0 >>> (n % k * w) >>> w)
    (hp : m.pInputData = n / k + 1) : DecoderInv aInputData w k (n + 1) m := by
  rcases succ_div_mod_cases n k hk with ⟨h1, h2, _⟩ | ⟨h1, h2⟩
  · exact ⟨by simp [h1, h2, hp], by simp [h1]⟩
  · refine ⟨by simp [h1, h2, hp], fun _ => ?_⟩
    rw [hw, h1, h2, ← Nat.shiftRight_add, Nat.add_mul, Nat.one_mul]

/-! ## Binary classification: one sample -/

theorem readTarget_eq_some {F : Type} (aTargetData : List Nat) (m : Machine F) (t : Nat)
    (ht : aTargetData[m.pTargetData]? = some t) :
    readTarget aTargetData m = some (t, { m with
      pTargetData := m.pTargetData + 1
      log := m.log ++ [Event.read Buf.target m.pTargetData] }) := by
  simp [readTarget, ht]

theorem binarySample_eq_some {F : Type} [Add F] (N : Numerics F) (u : F) (t : Nat)
    (m : Machine F) (o : F) (ho : m.aSampleScore[m.pSampleScore]? = some o)
    (hg : m.pGradientAndHessian + 1 < m.aGradientAndHessian.length) :
    binarySample N u t m = some { m with
      aSampleScore := m.aSampleScore.set m.pSampleScore (o + u)
      pSampleScore := m.pSampleScore + 1
      aGradientAndHessian := (m.aGradientAndHessian.set m.pGradientAndHessian
        (N.InverseLinkFunctionThenCalculateGradientBinaryClassification (o + u) t)).set
        (m.pGradientAndHessian + 1)
        (N.CalculateHessianFromGradientBinaryClassification
          (N.InverseLinkFunctionThenCalculateGradientBinaryClassification (o + u) t))
      pGradientAndHessian := m.pGradientAndHessian + 2
      log := m.log ++ [Event.read Buf.score m.pSampleScore,
        Event.write Buf.score m.pSampleScore,
        Event.write Buf.gradHess m.pGradientAndHessian,
        Event.write Buf.gradHess (m.pGradientAndHessian + 1)] } := by
  have hs : m.pSampleScore < m.aSampleScore.length := by
    rcases List.getElem?_eq_some.1 ho with ⟨h, _⟩
    exact h
  simp only [binarySample, ho]
  rw [store_eq_some _ _ _ hs, store_eq_some _ _ _ (by omega)]
  simp only
  rw [store_eq_some _ _ _ (by rw [List.length_set]; exact hg)]

theorem binarySample_pos {F : Type} [Add F] (N : Numerics F) (u : F) (t : Nat)
    (m m1 : Machine F) (h : binarySample N u t m = some m1) :
    m1.pSampleScore = m.pSampleScore + 1 ∧ m1.pTargetData = m.pTargetData ∧
      m1.pInputData = m.pInputData ∧ m1.iTensorBinCombined = m.iTensorBinCombined := by
  unfold binarySample at h
  split at h
  · exact absurd h (by simp)
  · dsimp only at h
    split at h
    · split at h
      · exact absurd h (by simp)
      · simp only [Option.some.injEq] at h
        subst h
        simp
    · exact absurd h (by simp)

/-- One binary sample carries the buffer invariant from `n` to `n + 1` -/
theorem binaryInv_step {F : Type} [Add F] {N : Numerics F} {a : Args F} {bin : Nat → Nat}
    {n : Nat} {m : Machine F} (hB : BinaryInv N a bin n m)
    (hs : n < a.aSampleScore.length) (hg : 2 * n + 1 < a.aGradientAndHessian.length)
    (u : F) (hu : a.aUpdateScores[bin n]? = some u) (t : Nat)
    (ht : a.aTargetData[n]? = some t) (m1 : Machine F)
    (e1 : m1.pSampleScore = m.pSampleScore)
    (e2 : m1.pGradientAndHessian = m.pGradientAndHessian)
    (e3 : m1.aSampleScore = m.aSampleScore)
    (e4 : m1.aGradientAndHessian = m.aGradientAndHessian) (e5 : m1.aExps = m.aExps)
    (e6 : m1.pTargetData = n + 1) :
    ∃ m2, binarySample N u t m1 = some m2 ∧ BinaryInv N a bin (n + 1) m2 ∧
      m2.log = m1.log ++ binaryTail n ∧ m2.pInputData = m1.pInputData ∧
      m2.iTensorBinCombined = m1.iTensorBinCombined := by
  obtain ⟨o, ho⟩ : ∃ o, a.aSampleScore[n]? = some o :=
    ⟨_, List.getElem?_eq_getElem hs⟩
  have ho1 : m1.aSampleScore[m1.pSampleScore]? = some o := by
    rw [e3, e1, hB.pSampleScore, hB.scoreRest n (Nat.le_refl n), ho]
  have hg1 : m1.pGradientAndHessian + 1 < m1.aGradientAndHessian.length := by
    rw [e4, e2, hB.pGradientAndHessian, hB.ghLen]
    exact hg
  refine ⟨_, binarySample_eq_some N u t m1 o ho1 hg1, ?_, ?_, rfl, rfl⟩
  · have hps := hB.pSampleScore
    have hpg := hB.pGradientAndHessian
    constructor
    · exact e6
    · simp [e1, hps]
    · simp only [e2, hpg]
      omega
    · simp [e5, hB.aExps]
    · simp [e3, hB.scoreLen]
    · intro i hi o' u' ho' hu'
      simp only [e1, e3, hps, List.getElem?_set]
      by_cases hin : n = i
      · subst hin
        rw [ho] at ho'
        rw [hu] at hu'
        simp only [Option.some.injEq] at ho' hu'
        subst ho' hu'
        simp [hB.scoreLen, hs]
      · simp only [hin, if_false]
        exact hB.score i (by omega) o' u' ho' hu'
    · intro i hi
      simp only [e1, e3, hps, List.getElem?_set]
      have : n ≠ i := by omega
      simp only [this, if_false]
      exact hB.scoreRest i (by omega)
    · simp [e4, hB.ghLen]
    · intro i hi o' u' t' ho' hu' ht'
      simp only [e2, e4, hpg, List.getElem?_set, List.length_set]
      by_cases hin : n = i
      · subst hin
        rw [ho] at ho'
        rw [hu] at hu'
        rw [ht] at ht'
        simp only [Option.some.injEq] at ho' hu' ht'
        subst ho' hu' ht'
        have h1 : 2 * n + 1 ≠ 2 * n := by omega
        have h2 : 2 * n < a.aGradientAndHessian.length := by omega
        simp [hB.ghLen, hg, h2]
      · have h1 : 2 * n + 1 ≠ 2 * i := by omega
        have h2 : 2 * n ≠ 2 * i := by omega
        have h3 : 2 * n + 1 ≠ 2 * i + 1 := by omega
        have h4 : 2 * n ≠ 2 * i + 1 := by omega
        simp only [h1, h2, h3, h4, if_false]
        exact hB.grad i (by omega) o' u' t' ho' hu' ht'
    · intro j hj
      simp only [e2, e4, hpg, List.getElem?_set]
      have h1 : 2 * n + 1 ≠ j := by omega
      have h2 : 2 * n ≠ j := by omega
      simp only [h1, h2, if_false]
      exact hB.ghRest j (by omega)
  · simp [binaryTail, e1, e2, hB.pSampleScore, hB.pGradientAndHessian]

/-! ## Binary classification: whole runs -/

theorem binaryBody_pos {F : Type} [Add F] (N : Numerics F) (aUpdateScores : List F)
    (aTargetData : List Nat) (mask w f : Nat) (m m1 : Machine F)
    (h : binaryBody N aUpdateScores aTargetData mask w f m = some m1) :
    m1.pSampleScore = m.pSampleScore + 1 := by
  unfold binaryBody readTarget at h
  split at h
  · exact absurd h (by simp)
  · rename_i t m0 heq
    split at heq
    · exact absurd heq (by simp)
    · simp only [Option.some.injEq, Prod.mk.injEq] at heq
      obtain ⟨_, rfl⟩ := heq
      dsimp only at h
      split at h
      · exact absurd h (by simp)
      · split at h
        · exact absurd h (by simp)
        · rename_i m2 h2
          simp only [Option.some.injEq] at h
          subst h
          exact (binarySample_pos N _ _ _ _ h2).1

theorem loadWord_pSampleScore {F : Type} (aInputData : List Nat) (m m1 : Machine F)
    (h : loadWord aInputData m = some m1) : m1.pSampleScore = m.pSampleScore := by
  unfold loadWord at h
  split at h
  · exact absurd h (by simp)
  · simp only [Option.some.injEq] at h
    subst h
    rfl

theorem binaryInv_init {F : Type} [Add F] (N : Numerics F) (a : Args F) (bin : Nat → Nat)
    (m : Machine F) (h1 : m.pTargetData = 0) (h2 : m.pSampleScore = 0)
    (h3 : m.pGradientAndHessian = 0) (h4 : m.aExps = a.aMulticlassMidwayTemp)
    (h5 : m.aSampleScore = a.aSampleScore)
    (h6 : m.aGradientAndHessian = a.aGradientAndHessian) : BinaryInv N a bin 0 m := by
  constructor
  · exact h1
  · exact h2
  · exact h3
  · exact h4
  · rw [h5]
  · intro i hi
    omega
  · intro i _
    rw [h5]
  · rw [h6]
  · intro i hi
    omega
  · intro j _
    rw [h6]

/-- The one-at-a-time decoder on the indexed binary path: after `n` samples the buffers, the
decoder and the ghost log are in closed form -/
theorem binary_naiveRun {F : Type} [Add F] (N : Numerics F) (a : Args F) (mask w k : Nat)
    (hv : ValidIndexed a k (binAt mask w k a.aInputData) 1) (aExps : List F)
    (hE : aExps = a.aMulticlassMidwayTemp) :
    ∀ n, n ≤ a.cSamples →
      ∃ m, naiveRun a.aInputData (binaryBody N a.aUpdateScores a.aTargetData mask w 0) k n
          (Machine.init a aExps) = some m ∧
        BinaryInv N a (binAt mask w k a.aInputData) n m ∧
        DecoderInv a.aInputData w k n m ∧
        m.log = indexedLog k (binaryEvents (binAt mask w k a.aInputData)) n := by
  intro n
  induction n with
  | zero =>
    intro _
    exact ⟨_, rfl, binaryInv_init N a _ _ rfl rfl rfl hE rfl rfl,
      decoderInv_zero _ _ _ _ rfl, rfl⟩
  | succ n ih =>
    intro hn
    obtain ⟨m, hrun, hB, hD, hL⟩ := ih (by omega)
    have hk := hv.cItemsPerBitPack
    obtain ⟨m1, hload, hw, hp, hlog, e6, e1, e2, e3, e4, e5⟩ :=
      decoderInv_load hk hD (show n < a.cSamples by omega) hv.aInputData
    have hlenT := hv.aTargetData
    have hlenS := hv.aSampleScore
    have hlenG := hv.aGradientAndHessian
    have hlenU := hv.aUpdateScores n (by omega)
    obtain ⟨t, ht⟩ : ∃ t, a.aTargetData[n]? = some t :=
      ⟨_, List.getElem?_eq_getElem (by omega)⟩
    obtain ⟨u, hu⟩ : ∃ u, a.aUpdateScores[binAt mask w k a.aInputData n]? = some u :=
      ⟨_, List.getElem?_eq_getElem (by omega)⟩
    have ht1 : a.aTargetData[m1.pTargetData]? = some t := by rw [e6, hB.pTargetData, ht]
    have hbin : mask &&& m1.iTensorBinCombined = binAt mask w k a.aInputData n := by
      rw [hw]
      rfl
    obtain ⟨m2, hs2, hB2, hlog2, hp2, hw2⟩ := binaryInv_step hB (by omega) (by omega) u hu t ht
      { m1 with
        pTargetData := m1.pTargetData + 1
        log := m1.log ++ [Event.read Buf.target m1.pTargetData] ++
          [Event.decode (binAt mask w k a.aInputData n),
            Event.read Buf.update (binAt mask w k a.aInputData n)] }
      e1 e2 e3 e4 e5 (by simp [e6, hB.pTargetData])
    refine ⟨{ m2 with iTensorBinCombined := m2.iTensorBinCombined >>> w }, ?_, ?_, ?_, ?_⟩
    · simp only [naiveRun, hrun, Option.some_bind, naiveStep, hload, binaryBody]
      rw [readTarget_eq_some _ _ t ht1]
      simp only [hbin, hu, List.append_assoc]
      simp only [List.append_assoc] at hs2
      rw [hs2]
    · exact ⟨hB2.pTargetData, hB2.pSampleScore, hB2.pGradientAndHessian, hB2.aExps,
        hB2.scoreLen, hB2.score, hB2.scoreRest, hB2.ghLen, hB2.grad, hB2.ghRest⟩
    · apply decoderInv_succ hk
      · simp [hw2, hw]
      · simp [hp2, hp]
    · simp [hlog2, hlog, hL, indexedLog, binaryEvents, e6, hB.pTargetData]

theorem binary_indexed_run {F : Type} [Add F] (H : Headers) (N : Numerics F)
    (compilerBitPack : Int) (a : Args F)
    (hv : ValidIndexed a (itemsOf H compilerBitPack a) (binOf H compilerBitPack a) 1)
    (fuel : Nat) (hf : a.cSamples < fuel) :
    ∃ m, ApplyTermUpdateTrainingInternal_binary H N compilerBitPack fuel a = some m ∧
      BinaryInv N a (binOf H compilerBitPack a) a.cSamples m ∧
      DecoderInv a.aInputData (bitsOf H compilerBitPack a) (itemsOf H compilerBitPack a)
        a.cSamples m ∧
      m.log = indexedLog (itemsOf H compilerBitPack a)
        (binaryEvents (binOf H compilerBitPack a)) a.cSamples := by
  unfold ApplyTermUpdateTrainingInternal_binary
  have h := @blockLoopEntry_eq_naiveRun F a.aInputData
    (binaryBody N a.aUpdateScores a.aTargetData
      (maskBits H (bitsOf H compilerBitPack a)) (bitsOf H compilerBitPack a))
    (binaryBody N a.aUpdateScores a.aTargetData
      (maskBits H (bitsOf H compilerBitPack a)) (bitsOf H compilerBitPack a) 0)
    (fun m => m.pSampleScore) (1) (0)
    (fun _ _ _ => rfl) (fun m m1 h => binaryBody_pos N _ _ _ _ 0 m m1 h) (by omega)
    (loadWord_pSampleScore _) a.cSamples (itemsOf H compilerBitPack a) hv.cSamples
    hv.cItemsPerBitPack fuel (by omega) (Machine.init a a.aMulticlassMidwayTemp)
  simp only [itemsOf, bitsOf] at h
  simp only [h]
  exact binary_naiveRun N a _ _ _ hv _ rfl a.cSamples (Nat.le_refl _)

theorem binaryZeroBody_pos {F : Type} [Add F] (N : Numerics F) (u : F)
    (aTargetData : List Nat) (f : Nat) (m m1 : Machine F)
    (h : binaryZeroBody N u aTargetData f m = some m1) :
    m1.pSampleScore = m.pSampleScore + 1 := by
  unfold binaryZeroBody readTarget at h
  split at h
  · exact absurd h (by simp)
  · rename_i t m0 heq
    split at heq
    · exact absurd heq (by simp)
    · simp only [Option.some.injEq, Prod.mk.injEq] at heq
      obtain ⟨_, rfl⟩ := heq
      exact (binarySample_pos N _ _ _ _ h).1

/-- The zero-feature binary sample loop: after `n` samples the buffers and the ghost log are in
closed form -/
theorem binary_zero_iter {F : Type} [Add F] (N : Numerics F) (a : Args F)
    (hv : ValidZero a 1) (u : F) (hu : a.aUpdateScores[0]? = some u) (m0 : Machine F)
    (hB0 : BinaryInv N a (fun _ => 0) 0 m0) :
    ∀ n, n ≤ a.cSamples →
      ∃ m, iter (binaryZeroBody N u a.aTargetData 0) n m0 = some m ∧
        BinaryInv N a (fun _ => 0) n m ∧ m.pInputData = m0.pInputData ∧
        m.log = m0.log ++ zeroLog binaryZeroEvents n := by
  intro n
  induction n with
  | zero =>
    intro _
    exact ⟨m0, rfl, hB0, rfl, by simp [zeroLog]⟩
  | succ n ih =>
    intro hn
    obtain ⟨m, hrun, hB, hP, hL⟩ := ih (by omega)
    have hlenT := hv.aTargetData
    have hlenS := hv.aSampleScore
    have hlenG := hv.aGradientAndHessian
    obtain ⟨t, ht⟩ : ∃ t, a.aTargetData[n]? = some t :=
      ⟨_, List.getElem?_eq_getElem (by omega)⟩
    have ht1 : a.aTargetData[m.pTargetData]? = some t := by rw [hB.pTargetData, ht]
    obtain ⟨m2, hs2, hB2, hlog2, hp2, _⟩ := binaryInv_step hB (by omega) (by omega) u hu t ht
      { m with
        pTargetData := m.pTargetData + 1
        log := m.log ++ [Event.read Buf.target m.pTargetData] }
      rfl rfl rfl rfl rfl (by simp [hB.pTargetData])
    refine ⟨m2, ?_, hB2, ?_, ?_⟩
    · rw [iter_succ_right, hrun]
      simp only [Option.some_bind, binaryZeroBody]
      rw [readTarget_eq_some _ _ t ht1]
      exact hs2
    · simp [hp2, hP]
    · simp [hlog2, hL, zeroLog, binaryZeroEvents, hB.pTargetData]

theorem binary_zero_run {F : Type} [Add F] (N : Numerics F) (a : Args F)
    (hv : ValidZero a 1) (fuel : Nat) (hf : a.cSamples < fuel) :
    ∃ m, ApplyTermUpdateTrainingZeroFeatures_binary N fuel a = some m ∧
      BinaryInv N a (fun _ => 0) a.cSamples m ∧ m.pInputData = 0 ∧
      m.log = Event.read Buf.update 0 :: zeroLog binaryZeroEvents a.cSamples := by
  have hlenU := hv.aUpdateScores
  obtain ⟨u, hu⟩ : ∃ u, a.aUpdateScores[0]? = some u :=
    ⟨_, List.getElem?_eq_getElem (by omega)⟩
  obtain ⟨n, hn⟩ : ∃ n, a.cSamples = n + 1 := ⟨a.cSamples - 1, by have := hv.cSamples; omega⟩
  obtain ⟨f, rfl⟩ : ∃ f, fuel = f + 1 := ⟨fuel - 1, by omega⟩
  unfold ApplyTermUpdateTrainingZeroFeatures_binary
  simp only [hu]
  have h := @doWhileNe_eq_iter F
    (binaryZeroBody N u a.aTargetData)
    (binaryZeroBody N u a.aTargetData 0)
    (fun m => m.pSampleScore) (1) (0)
    (fun _ _ _ => rfl) (fun m m1 h => binaryZeroBody_pos N _ _ 0 m m1 h) (by omega) n f
    { Machine.init a a.aMulticlassMidwayTemp with
      log := (Machine.init a a.aMulticlassMidwayTemp).log ++ [Event.read Buf.update 0] }
    (by omega)
  simp only [Nat.mul_one] at h
  rw [hn, h, ← hn]
  obtain ⟨m, h1, h2, h3, h4⟩ := binary_zero_iter N a hv u hu
    { Machine.init a a.aMulticlassMidwayTemp with
      log := (Machine.init a a.aMulticlassMidwayTemp).log ++ [Event.read Buf.update 0] }
    (binaryInv_init N a _ _ rfl rfl rfl rfl rfl rfl) a.cSamples (Nat.le_refl _)
  exact ⟨m, h1, h2, h3, by simpa [Machine.init] using h4⟩

/-! ## Regression -/

theorem regressionSample_eq_some {F : Type} (N : Numerics F) (u : F) (m : Machine F) (g : F)
    (hg : m.aGradientAndHessian[m.pGradientAndHessian]? = some g) :
    regressionSample N u m = some { m with
      aGradientAndHessian := m.aGradientAndHessian.set m.pGradientAndHessian
        (N.ComputeGradientRegressionMSEFromOriginalGradient g u)
      pGradientAndHessian := m.pGradientAndHessian + 1
      log := m.log ++ [Event.read Buf.gradHess m.pGradientAndHessian,
        Event.write Buf.gradHess m.pGradientAndHessian] } := by
  have hs : m.pGradientAndHessian < m.aGradientAndHessian.length := by
    rcases List.getElem?_eq_some.1 hg with ⟨h, _⟩
    exact h
  simp only [regressionSample, hg]
  rw [store_eq_some _ _ _ hs]

theorem regressionSample_pos {F : Type} (N : Numerics F) (u : F) (m m1 : Machine F)
    (h : regressionSample N u m = some m1) :
    m1.pGradientAndHessian = m.pGradientAndHessian + 1 := by
  unfold regressionSample at h
  split at h
  · exact absurd h (by simp)
  · dsimp only at h
    split at h
    · exact absurd h (by simp)
    · simp only [Option.some.injEq] at h
      subst h
      rfl

theorem regressionBody_pos {F : Type} (N : Numerics F) (aUpdateScores : List F)
    (mask w f : Nat) (m m1 : Machine F)
    (h : regressionBody N aUpdateScores mask w f m = some m1) :
    m1.pGradientAndHessian = m.pGradientAndHessian + 1 := by
  unfold regressionBody at h
  dsimp only at h
  split at h
  · exact absurd h (by simp)
  · split at h
    · exact absurd h (by simp)
    · rename_i m2 h2
      simp only [Option.some.injEq] at h
      subst h
      have h3 := regressionSample_pos N _ _ _ h2
      exact h3

theorem loadWord_pGradientAndHessian {F : Type} (aInputData : List Nat) (m m1 : Machine F)
    (h : loadWord aInputData m = some m1) :
    m1.pGradientAndHessian = m.pGradientAndHessian := by
  unfold loadWord at h
  split at h
  · exact absurd h (by simp)
  · simp only [Option.some.injEq] at h
    subst h
    rfl

/-- One regression sample carries the buffer invariant from `n` to `n + 1` -/
theorem regressionInv_step {F : Type} {N : Numerics F} {a : Args F} {bin : Nat → Nat}
    {n : Nat} {m : Machine F} (hB : RegressionInv N a bin n m)
    (hg : n < a.aGradientAndHessian.length)
    (u : F) (hu : a.aUpdateScores[bin n]? = some u) (m1 : Machine F)
    (e1 : m1.pSampleScore = m.pSampleScore)
    (e2 : m1.pGradientAndHessian = m.pGradientAndHessian)
    (e3 : m1.aSampleScore = m.aSampleScore)
    (e4 : m1.aGradientAndHessian = m.aGradientAndHessian) (e5 : m1.aExps = m.aExps)
    (e6 : m1.pTargetData = m.pTargetData) :
    ∃ m2, regressionSample N u m1 = some m2 ∧ RegressionInv N a bin (n + 1) m2 ∧
      m2.log = m1.log ++ regressionTail n ∧ m2.pInputData = m1.pInputData ∧
      m2.iTensorBinCombined = m1.iTensorBinCombined := by
  obtain ⟨g, hg0⟩ : ∃ g, a.aGradientAndHessian[n]? = some g :=
    ⟨_, List.getElem?_eq_getElem hg⟩
  have hpg := hB.pGradientAndHessian
  have hg1 : m1.aGradientAndHessian[m1.pGradientAndHessian]? = some g := by
    rw [e4, e2, hpg, hB.ghRest n (Nat.le_refl n), hg0]
  refine ⟨_, regressionSample_eq_some N u m1 g hg1, ?_, ?_, rfl, rfl⟩
  · constructor
    · simp [e6, hB.pTargetData]
    · simp [e1, hB.pSampleScore]
    · simp [e2, hpg]
    · simp [e5, hB.aExps]
    · simp [e3, hB.aSampleScore]
    · simp [e4, hB.ghLen]
    · intro i hi g' u' hg' hu'
      simp only [e2, e4, hpg, List.getElem?_set]
      by_cases hin : n = i
      · subst hin
        rw [hg0] at hg'
        rw [hu] at hu'
        simp only [Option.some.injEq] at hg' hu'
        subst hg' hu'
        simp [hB.ghLen, hg]
      · simp only [hin, if_false]
        exact hB.grad i (by omega) g' u' hg' hu'
    · intro j hj
      simp only [e2, e4, hpg, List.getElem?_set]
      have h1 : n ≠ j := by omega
      simp only [h1, if_false]
      exact hB.ghRest j (by omega)
  · simp [regressionTail, e2, hpg]

theorem regressionInv_init {F : Type} (N : Numerics F) (a : Args F) (bin : Nat → Nat)
    (m : Machine F) (h1 : m.pTargetData = 0) (h2 : m.pSampleScore = 0)
    (h3 : m.pGradientAndHessian = 0) (h4 : m.aExps = a.aMulticlassMidwayTemp)
    (h5 : m.aSampleScore = a.aSampleScore)
    (h6 : m.aGradientAndHessian = a.aGradientAndHessian) : RegressionInv N a bin 0 m := by
  constructor
  · exact h1
  · exact h2
  · exact h3
  · exact h4
  · exact h5
  · rw [h6]
  · intro i hi
    omega
  · intro j _
    rw [h6]

/-- The one-at-a-time decoder on the indexed regression path: after `n` samples the buffers,
the decoder and the ghost log are in closed form -/
theorem regression_naiveRun {F : Type} (N : Numerics F) (a : Args F) (mask w k : Nat)
    (hv : ValidIndexedRegression a k (binAt mask w k a.aInputData)) :
    ∀ n, n ≤ a.cSamples →
      ∃ m, naiveRun a.aInputData (regressionBody N a.aUpdateScores mask w 0) k n
          (Machine.init a a.aMulticlassMidwayTemp) = some m ∧
        RegressionInv N a (binAt mask w k a.aInputData) n m ∧
        DecoderInv a.aInputData w k n m ∧
        m.log = indexedLog k (regressionEvents (binAt mask w k a.aInputData)) n := by
  intro n
  induction n with
  | zero =>
    intro _
    exact ⟨_, rfl, regressionInv_init N a _ _ rfl rfl rfl rfl rfl rfl,
      decoderInv_zero _ _ _ _ rfl, rfl⟩
  | succ n ih =>
    intro hn
    obtain ⟨m, hrun, hB, hD, hL⟩ := ih (by omega)
    have hk := hv.cItemsPerBitPack
    obtain ⟨m1, hload, hw, hp, hlog, e6, e1, e2, e3, e4, e5⟩ :=
      decoderInv_load hk hD (show n < a.cSamples by omega) hv.aInputData
    have hlenG := hv.aGradientAndHessian
    have hlenU := hv.aUpdateScores n (by omega)
    obtain ⟨u, hu⟩ : ∃ u, a.aUpdateScores[binAt mask w k a.aInputData n]? = some u :=
      ⟨_, List.getElem?_eq_getElem (by omega)⟩
    have hbin : mask &&& m1.iTensorBinCombined = binAt mask w k a.aInputData n := by
      rw [hw]
      rfl
    obtain ⟨m2, hs2, hB2, hlog2, hp2, hw2⟩ := regressionInv_step hB (by omega) u hu
      { m1 with
        log := m1.log ++ [Event.decode (binAt mask w k a.aInputData n),
            Event.read Buf.update (binAt mask w k a.aInputData n)] }
      e1 e2 e3 e4 e5 e6
    refine ⟨{ m2 with iTensorBinCombined := m2.iTensorBinCombined >>> w }, ?_, ?_, ?_, ?_⟩
    · simp only [naiveRun, hrun, Option.some_bind, naiveStep, hload, regressionBody]
      simp only [hbin, hu]
      rw [hs2]
    · exact ⟨hB2.pTargetData, hB2.pSampleScore, hB2.pGradientAndHessian, hB2.aExps,
        hB2.aSampleScore, hB2.ghLen, hB2.grad, hB2.ghRest⟩
    · apply decoderInv_succ hk
      · simp [hw2, hw]
      · simp [hp2, hp]
    · simp [hlog2, hlog, hL, indexedLog, regressionEvents]

theorem regression_indexed_run {F : Type} (H : Headers) (N : Numerics F)
    (compilerBitPack : Int) (a : Args F)
    (hv : ValidIndexedRegression a (itemsOf H compilerBitPack a) (binOf H compilerBitPack a))
    (fuel : Nat) (hf : a.cSamples < fuel) :
    ∃ m, ApplyTermUpdateTrainingInternal_regression H N compilerBitPack fuel a = some m ∧
      RegressionInv N a (binOf H compilerBitPack a) a.cSamples m ∧
      DecoderInv a.aInputData (bitsOf H compilerBitPack a) (itemsOf H compilerBitPack a)
        a.cSamples m ∧
      m.log = indexedLog (itemsOf H compilerBitPack a)
        (regressionEvents (binOf H compilerBitPack a)) a.cSamples := by
  unfold ApplyTermUpdateTrainingInternal_regression
  have h := @blockLoopEntry_eq_naiveRun F a.aInputData
    (regressionBody N a.aUpdateScores
      (maskBits H (bitsOf H compilerBitPack a)) (bitsOf H compilerBitPack a))
    (regressionBody N a.aUpdateScores
      (maskBits H (bitsOf H compilerBitPack a)) (bitsOf H compilerBitPack a) 0)
    (fun m => m.pGradientAndHessian) (1) (0)
    (fun _ _ _ => rfl) (fun m m1 h => regressionBody_pos N _ _ _ 0 m m1 h) (by omega)
    (loadWord_pGradientAndHessian _) a.cSamples (itemsOf H compilerBitPack a) hv.cSamples
    hv.cItemsPerBitPack fuel (by omega) (Machine.init a a.aMulticlassMidwayTemp)
  simp only [itemsOf, bitsOf] at h
  simp only [h]
  exact regression_naiveRun N a _ _ _ hv a.cSamples (Nat.le_refl _)

/-- The zero-feature regression sample loop: after `n` samples the buffers and the ghost log
are in closed form -/
theorem regression_zero_iter {F : Type} (N : Numerics F) (a : Args F)
    (hv : ValidZeroRegression a) (u : F) (hu : a.aUpdateScores[0]? = some u) (m0 : Machine F)
    (hB0 : RegressionInv N a (fun _ => 0) 0 m0) :
    ∀ n, n ≤ a.cSamples →
      ∃ m, iter (regressionSample N u) n m0 = some m ∧
        RegressionInv N a (fun _ => 0) n m ∧ m.pInputData = m0.pInputData ∧
        m.log = m0.log ++ zeroLog regressionTail n := by
  intro n
  induction n with
  | zero =>
    intro _
    exact ⟨m0, rfl, hB0, rfl, by simp [zeroLog]⟩
  | succ n ih =>
    intro hn
    obtain ⟨m, hrun, hB, hP, hL⟩ := ih (by omega)
    have hlenG := hv.aGradientAndHessian
    obtain ⟨m2, hs2, hB2, hlog2, hp2, _⟩ := regressionInv_step hB (by omega) u hu m
      rfl rfl rfl rfl rfl rfl
    refine ⟨m2, ?_, hB2, ?_, ?_⟩
    · rw [iter_succ_right, hrun]
      exact hs2
    · simp [hp2, hP]
    · simp [hlog2, hL, zeroLog]

theorem regression_zero_run {F : Type} (N : Numerics F) (a : Args F)
    (hv : ValidZeroRegression a) (fuel : Nat) (hf : a.cSamples < fuel) :
    ∃ m, ApplyTermUpdateTrainingZeroFeatures_regression N fuel a = some m ∧
      RegressionInv N a (fun _ => 0) a.cSamples m ∧ m.pInputData = 0 ∧
      m.log = Event.read Buf.update 0 :: zeroLog regressionTail a.cSamples := by
  have hlenU := hv.aUpdateScores
  obtain ⟨u, hu⟩ : ∃ u, a.aUpdateScores[0]? = some u :=
    ⟨_, List.getElem?_eq_getElem (by omega)⟩
  obtain ⟨n, hn⟩ : ∃ n, a.cSamples = n + 1 := ⟨a.cSamples - 1, by have := hv.cSamples; omega⟩
  obtain ⟨f, rfl⟩ : ∃ f, fuel = f + 1 := ⟨fuel - 1, by omega⟩
  unfold ApplyTermUpdateTrainingZeroFeatures_regression
  simp only [hu]
  have h := @doWhileNe_eq_iter F
    (fun _ m => regressionSample N u m)
    (regressionSample N u)
    (fun m => m.pGradientAndHessian) (1) (0)
    (fun _ _ _ => rfl) (fun m m1 h => regressionSample_pos N _ m m1 h) (by omega) n f
    { Machine.init a a.aMulticlassMidwayTemp with
      log := (Machine.init a a.aMulticlassMidwayTemp).log ++ [Event.read Buf.update 0] }
    (by omega)
  simp only [Nat.mul_one] at h
  rw [hn, h, ← hn]
  obtain ⟨m, h1, h2, h3, h4⟩ := regression_zero_iter N a hv u hu
    { Machine.init a a.aMulticlassMidwayTemp with
      log := (Machine.init a a.aMulticlassMidwayTemp).log ++ [Event.read Buf.update 0] }
    (regressionInv_init N a _ _ rfl rfl rfl rfl rfl rfl) a.cSamples (Nat.le_refl _)
  exact ⟨m, h1, h2, h3, by simpa [Machine.init] using h4⟩

/-! ## Multiclass classification: the two score loops of one sample -/

theorem getD_of_getElem? {α : Type} (l : List α) (i : Nat) (d v : α) (h : l[i]? = some v) :
    l.getD i d = v := by
  rw [List.getD_eq_getElem?_getD, h]
  rfl

theorem scoreLoopInv_zero {F : Type} [Zero F] [Add F] (N : Numerics F) (aUpdateScores : List F)
    (m0 : Machine F) (row : Nat) : ScoreLoopInv N aUpdateScores m0 row 0 m0 := by
  constructor <;> first | rfl | simp [scoreLog]

/-- One round of the first score loop -/
theorem scoreLoop_round {F : Type} [Zero F] [Add F] (N : Numerics F) (aUpdateScores : List F)
    (cScores : Nat) (m0 : Machine F) (row : Nat)
    (hS : m0.pSampleScore + cScores ≤ m0.aSampleScore.length)
    (hU : row + cScores ≤ aUpdateScores.length) (hE : cScores ≤ m0.aExps.length)
    (j : Nat) (m : Machine F) (hj : j < cScores)
    (hI : ScoreLoopInv N aUpdateScores m0 row j m) :
    ∃ m1, ScoreLoopInv N aUpdateScores m0 row (j + 1) m1 ∧
      ∀ (f : Nat) (sumExp : F),
        scoreLoop N aUpdateScores cScores (f + 1) (row + j) j j sumExp m =
          if j + 1 < cScores then
            scoreLoop N aUpdateScores cScores f (row + j + 1) (j + 1) (j + 1)
              (sumExp + N.ExpForMulticlass (sampleScore aUpdateScores m0 row j)) m1
          else some (j + 1,
            sumExp + N.ExpForMulticlass (sampleScore aUpdateScores m0 row j), m1) := by
  obtain ⟨u, hu⟩ : ∃ u, aUpdateScores[row + j]? = some u :=
    ⟨_, List.getElem?_eq_getElem (by omega)⟩
  obtain ⟨o, ho⟩ : ∃ o, m0.aSampleScore[m0.pSampleScore + j]? = some o :=
    ⟨_, List.getElem?_eq_getElem (by omega)⟩
  have ho1 : m.aSampleScore[m.pSampleScore]? = some o := by
    rw [hI.pSampleScore, hI.scoreRest _ (Or.inr (Nat.le_refl _)), ho]
  have hsc : sampleScore aUpdateScores m0 row j = o + u := by
    unfold sampleScore
    rw [getD_of_getElem? _ _ _ _ ho, getD_of_getElem? _ _ _ _ hu]
  have hlenS : m.pSampleScore < m.aSampleScore.length := by
    rw [hI.pSampleScore, hI.scoreLen]
    omega
  have hlenE : j < m.aExps.length := by
    rw [hI.expsLen]
    omega
  refine ⟨{ m with
      aSampleScore := m.aSampleScore.set m.pSampleScore (o + u)
      pSampleScore := m.pSampleScore + 1
      aExps := m.aExps.set j (N.ExpForMulticlass (o + u))
      log := m.log ++ [Event.read Buf.update (row + j), Event.read Buf.score m.pSampleScore,
        Event.write Buf.score m.pSampleScore, Event.write Buf.exps j] }, ?_, ?_⟩
  · have hps := hI.pSampleScore
    constructor
    · simp only [hps]
      omega
    · exact hI.pTargetData
    · exact hI.pGradientAndHessian
    · exact hI.aGradientAndHessian
    · exact hI.pInputData
    · exact hI.iTensorBinCombined
    · simp [hI.scoreLen]
    · intro i hi
      simp only [hps, List.getElem?_set]
      by_cases hij : j = i
      · subst hij
        simp only [if_true, hI.scoreLen]
        rw [if_pos (by omega), hsc]
      · have : m0.pSampleScore + j ≠ m0.pSampleScore + i := by omega
        simp only [this, if_false]
        exact hI.score i (by omega)
    · intro idx hidx
      simp only [hps, List.getElem?_set]
      have : m0.pSampleScore + j ≠ idx := by omega
      simp only [this, if_false]
      exact hI.scoreRest idx (by omega)
    · simp [hI.expsLen]
    · intro i hi
      simp only [List.getElem?_set]
      by_cases hij : j = i
      · subst hij
        simp only [if_true, hlenE, hsc]
      · simp only [hij, if_false]
        exact hI.exps i (by omega)
    · simp [hI.log, scoreLog, hps]
  · intro f sumExp
    rw [scoreLoop]
    simp only [hu, ho1]
    rw [store_eq_some _ _ _ hlenS, store_eq_some _ _ _ hlenE]
    simp only [hsc]

/-- The first score loop, started after `j` rounds, completes the remaining `d + 1` rounds -/
theorem scoreLoop_spec {F : Type} [Zero F] [Add F] (N : Numerics F) (aUpdateScores : List F)
    (cScores : Nat) (m0 : Machine F) (row : Nat)
    (hS : m0.pSampleScore + cScores ≤ m0.aSampleScore.length)
    (hU : row + cScores ≤ aUpdateScores.length) (hE : cScores ≤ m0.aExps.length) :
    ∀ (d j fuel : Nat) (m : Machine F), j + (d + 1) = cScores → d < fuel →
      ScoreLoopInv N aUpdateScores m0 row j m →
      ∃ m1, scoreLoop N aUpdateScores cScores fuel (row + j) j j
          (sumUpTo (fun i => N.ExpForMulticlass (sampleScore aUpdateScores m0 row i)) j) m
          = some (cScores,
            sumUpTo (fun i => N.ExpForMulticlass (sampleScore aUpdateScores m0 row i)) cScores,
            m1) ∧
        ScoreLoopInv N aUpdateScores m0 row cScores m1 := by
  intro d
  induction d with
  | zero =>
    intro j fuel m hj hf hI
    obtain ⟨f, rfl⟩ : ∃ f, fuel = f + 1 := ⟨fuel - 1, by omega⟩
    obtain ⟨m1, hI1, hrun⟩ := scoreLoop_round N aUpdateScores cScores m0 row hS hU hE j m
      (by omega) hI
    have hj1 : j + 1 = cScores := by omega
    refine ⟨m1, ?_, hj1 ▸ hI1⟩
    rw [hrun, if_neg (by omega), ← hj1]
    rfl
  | succ d ih =>
    intro j fuel m hj hf hI
    obtain ⟨f, rfl⟩ : ∃ f, fuel = f + 1 := ⟨fuel - 1, by omega⟩
    obtain ⟨m1, hI1, hrun⟩ := scoreLoop_round N aUpdateScores cScores m0 row hS hU hE j m
      (by omega) hI
    obtain ⟨m2, h2, hI2⟩ := ih (j + 1) f m1 (by omega) (by omega) hI1
    refine ⟨m2, ?_, hI2⟩
    rw [hrun, if_pos (by omega)]
    exact h2

theorem gradLoopInv_zero {F : Type} (N : Numerics F) (sumExp : F) (targetData : Nat)
    (e : Nat → F) (m1 : Machine F) : GradLoopInv N sumExp targetData e m1 0 m1 := by
  constructor <;> first | rfl | simp [gradLog]

/-- One round of the second score loop -/
theorem gradientLoop_round {F : Type} (N : Numerics F) (cScores : Nat) (sumExp : F)
    (targetData : Nat) (e : Nat → F) (m1 : Machine F)
    (hE : ∀ i, i < cScores → m1.aExps[i]? = some (e i))
    (hG : m1.pGradientAndHessian + 2 * cScores ≤ m1.aGradientAndHessian.length)
    (j : Nat) (m : Machine F) (hj : j < cScores)
    (hI : GradLoopInv N sumExp targetData e m1 j m) :
    ∃ m2, GradLoopInv N sumExp targetData e m1 (j + 1) m2 ∧
      ∀ f : Nat,
        gradientLoop N cScores sumExp targetData (f + 1) j j m =
          if j + 1 < cScores then
            gradientLoop N cScores sumExp targetData f (j + 1) (j + 1) m2
          else some m2 := by
  have he : m.aExps[j]? = some (e j) := by rw [hI.aExps, hE j hj]
  have hpg := hI.pGradientAndHessian
  have hlen1 : m.pGradientAndHessian < m.aGradientAndHessian.length := by
    rw [hpg, hI.ghLen]
    omega
  have hlen2 : m.pGradientAndHessian + 1 < m.aGradientAndHessian.length := by
    rw [hpg, hI.ghLen]
    omega
  refine ⟨{ m with
      aGradientAndHessian := (m.aGradientAndHessian.set m.pGradientAndHessian
        (N.InverseLinkFunctionThenCalculateGradientAndHessianMulticlass sumExp (e j)
          targetData j).1).set (m.pGradientAndHessian + 1)
        (N.InverseLinkFunctionThenCalculateGradientAndHessianMulticlass sumExp (e j)
          targetData j).2
      pGradientAndHessian := m.pGradientAndHessian + 2
      log := m.log ++ [Event.read Buf.exps j,
        Event.write Buf.gradHess m.pGradientAndHessian,
        Event.write Buf.gradHess (m.pGradientAndHessian + 1)] }, ?_, ?_⟩
  · constructor
    · exact hI.pSampleScore
    · exact hI.pTargetData
    · simp only [hpg]
      omega
    · exact hI.aSampleScore
    · exact hI.aExps
    · exact hI.pInputData
    · exact hI.iTensorBinCombined
    · simp [hI.ghLen]
    · intro i hi
      simp only [hpg, List.getElem?_set, List.length_set]
      by_cases hij : j = i
      · subst hij
        have h1 : m1.pGradientAndHessian + 2 * j + 1 ≠ m1.pGradientAndHessian + 2 * j := by
          omega
        rw [hpg] at hlen1 hlen2
        simp [hlen1, hlen2]
      · have h1 : m1.pGradientAndHessian + 2 * j + 1 ≠ m1.pGradientAndHessian + 2 * i := by
          omega
        have h2 : m1.pGradientAndHessian + 2 * j ≠ m1.pGradientAndHessian + 2 * i := by omega
        have h3 : m1.pGradientAndHessian + 2 * j + 1 ≠ m1.pGradientAndHessian + 2 * i + 1 := by
          omega
        have h4 : m1.pGradientAndHessian + 2 * j ≠ m1.pGradientAndHessian + 2 * i + 1 := by
          omega
        simp only [h1, h2, h3, h4, if_false]
        exact hI.gh i (by omega)
    · intro idx hidx
      simp only [hpg, List.getElem?_set]
      have h1 : m1.pGradientAndHessian + 2 * j + 1 ≠ idx := by omega
      have h2 : m1.pGradientAndHessian + 2 * j ≠ idx := by omega
      simp only [h1, h2, if_false]
      exact hI.ghRest idx (by omega)
    · simp [hI.log, gradLog, hpg]
  · intro f
    rw [gradientLoop]
    simp only [he]
    rw [store_eq_some _ _ _ hlen1]
    simp only
    rw [store_eq_some _ _ _ (by rw [List.length_set]; exact hlen2)]

/-- The second score loop, started after `j` rounds, completes the remaining `d + 1` rounds -/
theorem gradientLoop_spec {F : Type} (N : Numerics F) (cScores : Nat) (sumExp : F)
    (targetData : Nat) (e : Nat → F) (m1 : Machine F)
    (hE : ∀ i, i < cScores → m1.aExps[i]? = some (e i))
    (hG : m1.pGradientAndHessian + 2 * cScores ≤ m1.aGradientAndHessian.length) :
    ∀ (d j fuel : Nat) (m : Machine F), j + (d + 1) = cScores → d < fuel →
      GradLoopInv N sumExp targetData e m1 j m →
      ∃ m2, gradientLoop N cScores sumExp targetData fuel j j m = some m2 ∧
        GradLoopInv N sumExp targetData e m1 cScores m2 := by
  intro d
  induction d with
  | zero =>
    intro j fuel m hj hf hI
    obtain ⟨f, rfl⟩ : ∃ f, fuel = f + 1 := ⟨fuel - 1, by omega⟩
    obtain ⟨m2, hI2, hrun⟩ := gradientLoop_round N cScores sumExp targetData e m1 hE hG j m
      (by omega) hI
    have hj1 : j + 1 = cScores := by omega
    refine ⟨m2, ?_, hj1 ▸ hI2⟩
    rw [hrun, if_neg (by omega)]
  | succ d ih =>
    intro j fuel m hj hf hI
    obtain ⟨f, rfl⟩ : ∃ f, fuel = f + 1 := ⟨fuel - 1, by omega⟩
    obtain ⟨m2, hI2, hrun⟩ := gradientLoop_round N cScores sumExp targetData e m1 hE hG j m
      (by omega) hI
    obtain ⟨m3, h3, hI3⟩ := ih (j + 1) f m2 (by omega) (by omega) hI2
    refine ⟨m3, ?_, hI3⟩
    rw [hrun, if_pos (by omega)]
    exact h3

/-- The two score loops of one multiclass sample, on a state with room for every access -/
theorem multiclassSample_spec {F : Type} [Zero F] [Add F] (N : Numerics F)
    (aUpdateScores : List F) (cScores : Nat) (hc : 1 ≤ cScores) (targetData row fuel : Nat)
    (m0 : Machine F) (hS : m0.pSampleScore + cScores ≤ m0.aSampleScore.length)
    (hU : row + cScores ≤ aUpdateScores.length) (hE : cScores ≤ m0.aExps.length)
    (hG : m0.pGradientAndHessian + 2 * cScores ≤ m0.aGradientAndHessian.length)
    (hf : cScores ≤ fuel) :
    ∃ m1 m2, ScoreLoopInv N aUpdateScores m0 row cScores m1 ∧
      GradLoopInv N
        (sumUpTo (fun i => N.ExpForMulticlass (sampleScore aUpdateScores m0 row i)) cScores)
        targetData (fun i => N.ExpForMulticlass (sampleScore aUpdateScores m0 row i))
        m1 cScores m2 ∧
      multiclassSample N aUpdateScores cScores targetData row fuel m0 = some m2 := by
  obtain ⟨m1, h1, hI1⟩ := scoreLoop_spec N aUpdateScores cScores m0 row hS hU hE
    (cScores - 1) 0 fuel m0 (by omega) (by omega) (scoreLoopInv_zero N aUpdateScores m0 row)
  have hE1 : ∀ i, i < cScores →
      m1.aExps[i]? = some (N.ExpForMulticlass (sampleScore aUpdateScores m0 row i)) :=
    hI1.exps
  have hG1 : m1.pGradientAndHessian + 2 * cScores ≤ m1.aGradientAndHessian.length := by
    rw [hI1.pGradientAndHessian, hI1.aGradientAndHessian]
    exact hG
  obtain ⟨m2, h2, hI2⟩ := gradientLoop_spec N cScores
    (sumUpTo (fun i => N.ExpForMulticlass (sampleScore aUpdateScores m0 row i)) cScores)
    targetData _ m1 hE1 hG1 (cScores - 1) 0 fuel m1 (by omega) (by omega)
    (gradLoopInv_zero N _ _ _ m1)
  refine ⟨m1, m2, hI1, hI2, ?_⟩
  unfold multiclassSample
  have h1' : scoreLoop N aUpdateScores cScores fuel row 0 0 0 m0 = some (cScores,
      sumUpTo (fun i => N.ExpForMulticlass (sampleScore aUpdateScores m0 row i)) cScores,
      m1) := h1
  rw [h1']
  simp only [Nat.sub_self]
  exact h2

/-! ## Multiclass classification: fuel and pointer movement on arbitrary states -/

theorem scoreLoop_fuel {F : Type} [Add F] (N : Numerics F) (aUpdateScores : List F)
    (cScores : Nat) :
    ∀ (f1 f2 pUpdateScore pExp iScore : Nat) (sumExp : F) (m : Machine F),
      cScores ≤ f1 + iScore → 1 ≤ f1 → cScores ≤ f2 + iScore → 1 ≤ f2 →
      scoreLoop N aUpdateScores cScores f1 pUpdateScore pExp iScore sumExp m
        = scoreLoop N aUpdateScores cScores f2 pUpdateScore pExp iScore sumExp m := by
  intro f1
  induction f1 with
  | zero => intro f2 _ _ _ _ _ _ h _ _; omega
  | succ f1 ih =>
    intro f2 pU pE iScore sumExp m h1 _ h2 h2'
    obtain ⟨f2, rfl⟩ : ∃ f, f2 = f + 1 := ⟨f2 - 1, by omega⟩
    rw [scoreLoop, scoreLoop]
    split
    · dsimp only
      split
      · by_cases hlt : iScore + 1 < cScores
        · simp only [hlt, if_true]
          exact ih f2 _ _ _ _ _ (by omega) (by omega) (by omega) (by omega)
        · simp only [hlt, if_false]
      · rfl
    · rfl

theorem gradientLoop_fuel {F : Type} (N : Numerics F) (cScores : Nat) (sumExp : F)
    (targetData : Nat) :
    ∀ (f1 f2 pExp iScore : Nat) (m : Machine F),
      cScores ≤ f1 + iScore → 1 ≤ f1 → cScores ≤ f2 + iScore → 1 ≤ f2 →
      gradientLoop N cScores sumExp targetData f1 pExp iScore m
        = gradientLoop N cScores sumExp targetData f2 pExp iScore m := by
  intro f1
  induction f1 with
  | zero => intro f2 _ _ _ h _ _; omega
  | succ f1 ih =>
    intro f2 pE iScore m h1 _ h2 h2'
    obtain ⟨f2, rfl⟩ : ∃ f, f2 = f + 1 := ⟨f2 - 1, by omega⟩
    rw [gradientLoop, gradientLoop]
    split
    · rfl
    · dsimp only
      split
      · rfl
      · split
        · rfl
        · by_cases hlt : iScore + 1 < cScores
          · simp only [hlt, if_true]
            exact ih f2 _ _ _ (by omega) (by omega) (by omega) (by omega)
          · simp only [hlt, if_false]

theorem multiclassSample_fuel {F : Type} [Zero F] [Add F] (N : Numerics F)
    (aUpdateScores : List F) (cScores : Nat) (hc : 1 ≤ cScores) (targetData row : Nat)
    (f : Nat) (hf : cScores ≤ f) (m : Machine F) :
    multiclassSample N aUpdateScores cScores targetData row f m
      = multiclassSample N aUpdateScores cScores targetData row cScores m := by
  unfold multiclassSample
  rw [scoreLoop_fuel N aUpdateScores cScores f cScores row 0 0 0 m (by omega) (by omega)
    (by omega) (by omega)]
  split
  · rfl
  · exact gradientLoop_fuel N cScores _ targetData f cScores _ 0 _ (by omega) (by omega)
      (by omega) (by omega)

theorem scoreLoop_pos {F : Type} [Add F] (N : Numerics F) (aUpdateScores : List F)
    (cScores : Nat) :
    ∀ (fuel pUpdateScore pExp iScore : Nat) (sumExp : F) (m : Machine F)
      (r : Nat × F × Machine F),
      scoreLoop N aUpdateScores cScores fuel pUpdateScore pExp iScore sumExp m = some r →
      iScore < cScores →
      r.2.2.pSampleScore + iScore = m.pSampleScore + cScores := by
  intro fuel
  induction fuel with
  | zero => intro _ _ _ _ _ _ h; simp [scoreLoop] at h
  | succ fuel ih =>
    intro pU pE iScore sumExp m r h hlt
    rw [scoreLoop] at h
    split at h
    · dsimp only at h
      split at h
      · by_cases hlt1 : iScore + 1 < cScores
        · simp only [hlt1, if_true] at h
          have := ih _ _ _ _ _ _ h hlt1
          simp only at this
          omega
        · simp only [hlt1, if_false, Option.some.injEq] at h
          subst h
          simp only
          omega
      · exact absurd h (by simp)
    · exact absurd h (by simp)

theorem gradientLoop_pos {F : Type} (N : Numerics F) (cScores : Nat) (sumExp : F)
    (targetData : Nat) :
    ∀ (fuel pExp iScore : Nat) (m m1 : Machine F),
      gradientLoop N cScores sumExp targetData fuel pExp iScore m = some m1 →
      m1.pSampleScore = m.pSampleScore := by
  intro fuel
  induction fuel with
  | zero => intro _ _ _ _ h; simp [gradientLoop] at h
  | succ fuel ih =>
    intro pE iScore m m1 h
    rw [gradientLoop] at h
    split at h
    · exact absurd h (by simp)
    · dsimp only at h
      split at h
      · exact absurd h (by simp)
      · split at h
        · exact absurd h (by simp)
        · by_cases hlt1 : iScore + 1 < cScores
          · simp only [hlt1, if_true] at h
            have := ih _ _ _ _ h
            simpa using this
          · simp only [hlt1, if_false, Option.some.injEq] at h
            subst h
            rfl

theorem multiclassSample_pos {F : Type} [Zero F] [Add F] (N : Numerics F)
    (aUpdateScores : List F) (cScores : Nat) (hc : 1 ≤ cScores) (targetData row f : Nat)
    (m m1 : Machine F)
    (h : multiclassSample N aUpdateScores cScores targetData row f m = some m1) :
    m1.pSampleScore = m.pSampleScore + cScores := by
  unfold multiclassSample at h
  split at h
  · exact absurd h (by simp)
  · rename_i pExp sumExp m2 heq
    have h1 := scoreLoop_pos N aUpdateScores cScores _ _ _ _ _ _ _ heq (by omega)
    have h2 := gradientLoop_pos N cScores _ _ _ _ _ _ _ h
    simp only at h1
    omega

/-! ## Multiclass classification: whole runs -/

theorem sumUpTo_congr {F : Type} [Zero F] [Add F] (e1 e2 : Nat → F) :
    ∀ n, (∀ i, i < n → e1 i = e2 i) → sumUpTo e1 n = sumUpTo e2 n := by
  intro n
  induction n with
  | zero => intro _; rfl
  | succ n ih =>
    intro h
    simp only [sumUpTo]
    rw [ih (fun i hi => h i (by omega)), h n (by omega)]

theorem mul_add_lt_mul {i n c j : Nat} (hi : i < n) (hj : j < c) : i * c + j < n * c := by
  have : (i + 1) * c ≤ n * c := Nat.mul_le_mul_right c hi
  rw [Nat.succ_mul] at this
  omega

/-- One multiclass sample carries the buffer invariant from `n` to `n + 1` -/
theorem multiclassInv_step {F : Type} [Zero F] [Add F] {N : Numerics F} {a : Args F}
    {cScores : Nat} {bin : Nat → Nat} {lenExps n : Nat} {m : Machine F}
    (hB : MulticlassInv N a cScores bin lenExps n m) (hc : 1 ≤ cScores)
    (hs : (n + 1) * cScores ≤ a.aSampleScore.length)
    (hg : 2 * ((n + 1) * cScores) ≤ a.aGradientAndHessian.length)
    (hu : (bin n + 1) * cScores ≤ a.aUpdateScores.length) (hE : cScores ≤ lenExps)
    (t : Nat) (ht : a.aTargetData[n]? = some t) (fuel : Nat) (hf : cScores ≤ fuel)
    (m1 : Machine F)
    (e1 : m1.pSampleScore = m.pSampleScore)
    (e2 : m1.pGradientAndHessian = m.pGradientAndHessian)
    (e3 : m1.aSampleScore = m.aSampleScore)
    (e4 : m1.aGradientAndHessian = m.aGradientAndHessian) (e5 : m1.aExps = m.aExps)
    (e6 : m1.pTargetData = n + 1) :
    ∃ m2, multiclassSample N a.aUpdateScores cScores t (bin n * cScores) fuel m1 = some m2 ∧
      MulticlassInv N a cScores bin lenExps (n + 1) m2 ∧
      m2.log = m1.log ++ multiclassTail cScores bin n ∧ m2.pInputData = m1.pInputData ∧
      m2.iTensorBinCombined = m1.iTensorBinCombined := by
  have hps := hB.pSampleScore
  have hpg := hB.pGradientAndHessian
  rw [Nat.succ_mul n cScores] at hs hg
  rw [Nat.succ_mul (bin n) cScores] at hu
  obtain ⟨ms, m2, hI1, hI2, hrun⟩ := multiclassSample_spec N a.aUpdateScores cScores hc t
    (bin n * cScores) fuel m1
    (by rw [e1, e3, hps, hB.scoreLen]; omega) (by omega)
    (by rw [e5, hB.expsLen]; exact hE)
    (by rw [e2, e4, hpg, hB.ghLen]; omega) hf
  have hsc : ∀ j, j < cScores →
      sampleScore a.aUpdateScores m1 (bin n * cScores) j = mcScore a cScores bin n j := by
    intro j _
    unfold sampleScore mcScore
    rw [e1, e3, hps, List.getD_eq_getElem?_getD, hB.scoreRest _ (by omega),
      ← List.getD_eq_getElem?_getD]
  have hex : ∀ j, j < cScores →
      (fun i => N.ExpForMulticlass (sampleScore a.aUpdateScores m1 (bin n * cScores) i)) j
        = mcExp N a cScores bin n j := by
    intro j hj
    simp only [mcExp, hsc j hj]
  have hsum : sumUpTo
      (fun i => N.ExpForMulticlass (sampleScore a.aUpdateScores m1 (bin n * cScores) i))
      cScores = mcSum N a cScores bin n := sumUpTo_congr _ _ cScores hex
  have htd : a.aTargetData.getD n 0 = t := getD_of_getElem? _ _ _ _ ht
  refine ⟨m2, hrun, ?_, ?_, ?_, ?_⟩
  · constructor
    · rw [hI2.pTargetData, hI1.pTargetData, e6]
    · rw [hI2.pSampleScore, hI1.pSampleScore, e1, hps, Nat.succ_mul n cScores]
    · rw [hI2.pGradientAndHessian, hI1.pGradientAndHessian, e2, hpg, Nat.succ_mul n cScores]
      omega
    · rw [hI2.aExps, hI1.expsLen, e5, hB.expsLen]
    · rw [hI2.aSampleScore, hI1.scoreLen, e3, hB.scoreLen]
    · intro i hi j hj
      rw [hI2.aSampleScore]
      by_cases hin : i = n
      · subst hin
        have := hI1.score j hj
        rw [e1, hps] at this
        rw [this, hsc j hj]
      · have hlt : i * cScores + j < n * cScores := mul_add_lt_mul (by omega) hj
        rw [hI1.scoreRest _ (Or.inl (by rw [e1, hps]; exact hlt)), e3]
        exact hB.score i (by omega) j hj
    · intro idx hidx
      rw [Nat.succ_mul n cScores] at hidx
      rw [hI2.aSampleScore, hI1.scoreRest _ (Or.inr (by rw [e1, hps]; exact hidx)), e3]
      exact hB.scoreRest idx (by omega)
    · rw [hI2.ghLen, hI1.aGradientAndHessian, e4, hB.ghLen]
    · intro i hi j hj
      by_cases hin : i = n
      · subst hin
        have := hI2.gh j hj
        have hex1 := hex j hj
        simp only at hex1
        rw [hI1.pGradientAndHessian, e2, hpg, hsum, hex1, ← htd] at this
        rw [Nat.mul_add]
        exact this
      · have hlt : i * cScores + j < n * cScores := mul_add_lt_mul (by omega) hj
        rw [hI2.ghRest _ (Or.inl (by rw [hI1.pGradientAndHessian, e2, hpg]; omega)),
          hI2.ghRest _ (Or.inl (by rw [hI1.pGradientAndHessian, e2, hpg]; omega)),
          hI1.aGradientAndHessian, e4]
        exact hB.gh i (by omega) j hj
    · intro idx hidx
      rw [Nat.succ_mul n cScores] at hidx
      rw [hI2.ghRest _ (Or.inr (by rw [hI1.pGradientAndHessian, e2, hpg]; omega)),
        hI1.aGradientAndHessian, e4]
      exact hB.ghRest idx (by omega)
  · rw [hI2.log, hI1.log, hI1.pGradientAndHessian, e1, e2, hps, hpg]
    simp [multiclassTail]
  · rw [hI2.pInputData, hI1.pInputData]
  · rw [hI2.iTensorBinCombined, hI1.iTensorBinCombined]

theorem GetCountScores_pos (cClasses : Int) : 1 ≤ GetCountScores cClasses := by
  unfold GetCountScores
  split
  · exact Nat.le_refl 1
  · omega

theorem multiclassBody_pos {F : Type} [Zero F] [Add F] (N : Numerics F)
    (aUpdateScores : List F) (aTargetData : List Nat) (cScores : Nat) (hc : 1 ≤ cScores)
    (mask w f : Nat) (m m1 : Machine F)
    (h : multiclassBody N aUpdateScores aTargetData cScores mask w f m = some m1) :
    m1.pSampleScore = m.pSampleScore + cScores := by
  unfold multiclassBody readTarget at h
  split at h
  · exact absurd h (by simp)
  · rename_i t m0 heq
    split at heq
    · exact absurd heq (by simp)
    · simp only [Option.some.injEq, Prod.mk.injEq] at heq
      obtain ⟨_, rfl⟩ := heq
      dsimp only at h
      split at h
      · exact absurd h (by simp)
      · rename_i m2 h2
        simp only [Option.some.injEq] at h
        subst h
        have h3 := multiclassSample_pos N _ _ hc _ _ _ _ _ h2
        exact h3

theorem multiclassBody_fuel {F : Type} [Zero F] [Add F] (N : Numerics F)
    (aUpdateScores : List F) (aTargetData : List Nat) (cScores : Nat) (hc : 1 ≤ cScores)
    (mask w f : Nat) (m : Machine F) (hf : cScores ≤ f) :
    multiclassBody N aUpdateScores aTargetData cScores mask w f m
      = multiclassBody N aUpdateScores aTargetData cScores mask w cScores m := by
  unfold multiclassBody
  split
  · rfl
  · dsimp only
    rw [multiclassSample_fuel N aUpdateScores cScores hc _ _ f hf]

theorem multiclassZeroBody_pos {F : Type} [Zero F] [Add F] (N : Numerics F)
    (aUpdateScores : List F) (aTargetData : List Nat) (cScores : Nat) (hc : 1 ≤ cScores)
    (f : Nat) (m m1 : Machine F)
    (h : multiclassZeroBody N aUpdateScores aTargetData cScores f m = some m1) :
    m1.pSampleScore = m.pSampleScore + cScores := by
  unfold multiclassZeroBody readTarget at h
  split at h
  · exact absurd h (by simp)
  · rename_i t m0 heq
    split at heq
    · exact absurd heq (by simp)
    · simp only [Option.some.injEq, Prod.mk.injEq] at heq
      obtain ⟨_, rfl⟩ := heq
      have h3 := multiclassSample_pos N _ _ hc _ _ _ _ _ h
      exact h3

theorem multiclassZeroBody_fuel {F : Type} [Zero F] [Add F] (N : Numerics F)
    (aUpdateScores : List F) (aTargetData : List Nat) (cScores : Nat) (hc : 1 ≤ cScores)
    (f : Nat) (m : Machine F) (hf : cScores ≤ f) :
    multiclassZeroBody N aUpdateScores aTargetData cScores f m
      = multiclassZeroBody N aUpdateScores aTargetData cScores cScores m := by
  unfold multiclassZeroBody
  split
  · rfl
  · exact multiclassSample_fuel N aUpdateScores cScores hc _ _ f hf _

theorem multiclassInv_init {F : Type} [Zero F] [Add F] (N : Numerics F) (a : Args F)
    (cScores : Nat) (bin : Nat → Nat) (m : Machine F) (h1 : m.pTargetData = 0)
    (h2 : m.pSampleScore = 0) (h3 : m.pGradientAndHessian = 0)
    (h5 : m.aSampleScore = a.aSampleScore)
    (h6 : m.aGradientAndHessian = a.aGradientAndHessian) :
    MulticlassInv N a cScores bin m.aExps.length 0 m := by
  constructor
  · exact h1
  · simp [h2]
  · simp [h3]
  · rfl
  · rw [h5]
  · intro i hi
    omega
  · intro i _
    rw [h5]
  · rw [h6]
  · intro i hi
    omega
  · intro j _
    rw [h6]

/-- The one-at-a-time decoder on the indexed multiclass path: after `n` samples the buffers,
the decoder and the ghost log are in closed form -/
theorem multiclass_naiveRun {F : Type} [Zero F] [Add F] (N : Numerics F) (a : Args F)
    (cScores mask w k : Nat) (hc : 1 ≤ cScores)
    (hv : ValidIndexed a k (binAt mask w k a.aInputData) cScores) (aExps : List F)
    (hE : cScores ≤ aExps.length) :
    ∀ n, n ≤ a.cSamples →
      ∃ m, naiveRun a.aInputData
          (multiclassBody N a.aUpdateScores a.aTargetData cScores mask w cScores) k n
          (Machine.init a aExps) = some m ∧
        MulticlassInv N a cScores (binAt mask w k a.aInputData) aExps.length n m ∧
        DecoderInv a.aInputData w k n m ∧
        m.log = indexedLog k (multiclassEvents cScores (binAt mask w k a.aInputData)) n := by
  intro n
  induction n with
  | zero =>
    intro _
    exact ⟨_, rfl, multiclassInv_init N a _ _ (Machine.init a aExps) rfl rfl rfl rfl rfl,
      decoderInv_zero _ _ _ _ rfl, rfl⟩
  | succ n ih =>
    intro hn
    obtain ⟨m, hrun, hB, hD, hL⟩ := ih (by omega)
    have hk := hv.cItemsPerBitPack
    obtain ⟨m1, hload, hw, hp, hlog, e6, e1, e2, e3, e4, e5⟩ :=
      decoderInv_load hk hD (show n < a.cSamples by omega) hv.aInputData
    have hlenT := hv.aTargetData
    have hlenS : (n + 1) * cScores ≤ a.aSampleScore.length :=
      Nat.le_trans (Nat.mul_le_mul_right cScores hn) hv.aSampleScore
    have hlenG : 2 * ((n + 1) * cScores) ≤ a.aGradientAndHessian.length :=
      Nat.le_trans (Nat.mul_le_mul_left 2 (Nat.mul_le_mul_right cScores hn))
        hv.aGradientAndHessian
    have hlenU := hv.aUpdateScores n (by omega)
    obtain ⟨t, ht⟩ : ∃ t, a.aTargetData[n]? = some t :=
      ⟨_, List.getElem?_eq_getElem (by omega)⟩
    have ht1 : a.aTargetData[m1.pTargetData]? = some t := by rw [e6, hB.pTargetData, ht]
    have hbin : mask &&& m1.iTensorBinCombined = binAt mask w k a.aInputData n := by
      rw [hw]
      rfl
    obtain ⟨m2, hs2, hB2, hlog2, hp2, hw2⟩ := multiclassInv_step hB hc hlenS hlenG hlenU hE
      t ht cScores (Nat.le_refl _)
      { m1 with
        pTargetData := m1.pTargetData + 1
        log := m1.log ++ [Event.read Buf.target m1.pTargetData] ++
          [Event.decode (binAt mask w k a.aInputData n)] }
      e1 e2 e3 e4 e5 (by simp [e6, hB.pTargetData])
    refine ⟨{ m2 with iTensorBinCombined := m2.iTensorBinCombined >>> w }, ?_, ?_, ?_, ?_⟩
    · simp only [naiveRun, hrun, Option.some_bind, naiveStep, hload, multiclassBody]
      rw [readTarget_eq_some _ _ t ht1]
      simp only [hbin]
      rw [hs2]
    · exact ⟨hB2.pTargetData, hB2.pSampleScore, hB2.pGradientAndHessian, hB2.expsLen,
        hB2.scoreLen, hB2.score, hB2.scoreRest, hB2.ghLen, hB2.gh, hB2.ghRest⟩
    · apply decoderInv_succ hk
      · simp [hw2, hw]
      · simp [hp2, hp]
    · simp [hlog2, hlog, hL, indexedLog, multiclassEvents, e6, hB.pTargetData]

theorem multiclass_indexed_run {F : Type} [Zero F] [Add F] (H : Headers) (N : Numerics F)
    (cCompilerClasses compilerBitPack : Int) (a : Args F)
    (hv : ValidIndexed a (itemsOf H compilerBitPack a) (binOf H compilerBitPack a)
      (scoresOf H cCompilerClasses a))
    (hE : scoresOf H cCompilerClasses a ≤ (aExpsOf H cCompilerClasses a).length)
    (fuel : Nat) (hf : a.cSamples + scoresOf H cCompilerClasses a < fuel) :
    ∃ m, ApplyTermUpdateTrainingInternal_multiclass H N cCompilerClasses compilerBitPack
        fuel a = some m ∧
      MulticlassInv N a (scoresOf H cCompilerClasses a) (binOf H compilerBitPack a)
        (aExpsOf H cCompilerClasses a).length a.cSamples m ∧
      DecoderInv a.aInputData (bitsOf H compilerBitPack a) (itemsOf H compilerBitPack a)
        a.cSamples m ∧
      m.log = indexedLog (itemsOf H compilerBitPack a)
        (multiclassEvents (scoresOf H cCompilerClasses a) (binOf H compilerBitPack a))
        a.cSamples := by
  have hc : 1 ≤ scoresOf H cCompilerClasses a := GetCountScores_pos _
  unfold ApplyTermUpdateTrainingInternal_multiclass
  have h := @blockLoopEntry_eq_naiveRun F a.aInputData
    (multiclassBody N a.aUpdateScores a.aTargetData (scoresOf H cCompilerClasses a)
      (maskBits H (bitsOf H compilerBitPack a)) (bitsOf H compilerBitPack a))
    (multiclassBody N a.aUpdateScores a.aTargetData (scoresOf H cCompilerClasses a)
      (maskBits H (bitsOf H compilerBitPack a)) (bitsOf H compilerBitPack a)
      (scoresOf H cCompilerClasses a))
    (fun m => m.pSampleScore) (scoresOf H cCompilerClasses a) (scoresOf H cCompilerClasses a)
    (fun f m hf => multiclassBody_fuel N _ _ _ hc _ _ f m hf)
    (fun m m1 h => multiclassBody_pos N _ _ _ hc _ _ _ m m1 h) (by omega)
    (loadWord_pSampleScore _) a.cSamples (itemsOf H compilerBitPack a) hv.cSamples
    hv.cItemsPerBitPack fuel (by omega) (Machine.init a (aExpsOf H cCompilerClasses a))
  simp only [itemsOf, bitsOf, scoresOf] at h
  simp only [h]
  exact multiclass_naiveRun N a _ _ _ _ hc hv _ hE a.cSamples (Nat.le_refl _)

/-- The zero-feature multiclass sample loop: after `n` samples the buffers and the ghost log
are in closed form -/
theorem multiclass_zero_iter {F : Type} [Zero F] [Add F] (N : Numerics F) (a : Args F)
    (cScores : Nat) (hc : 1 ≤ cScores) (hv : ValidZero a cScores) (aExps : List F)
    (hE : cScores ≤ aExps.length) :
    ∀ n, n ≤ a.cSamples →
      ∃ m, iter (multiclassZeroBody N a.aUpdateScores a.aTargetData cScores cScores) n
          (Machine.init a aExps) = some m ∧
        MulticlassInv N a cScores (fun _ => 0) aExps.length n m ∧ m.pInputData = 0 ∧
        m.log = zeroLog (multiclassZeroEvents cScores) n := by
  intro n
  induction n with
  | zero =>
    intro _
    exact ⟨_, rfl, multiclassInv_init N a _ _ (Machine.init a aExps) rfl rfl rfl rfl rfl, rfl,
      rfl⟩
  | succ n ih =>
    intro hn
    obtain ⟨m, hrun, hB, hP, hL⟩ := ih (by omega)
    have hlenT := hv.aTargetData
    have hlenS : (n + 1) * cScores ≤ a.aSampleScore.length :=
      Nat.le_trans (Nat.mul_le_mul_right cScores hn) hv.aSampleScore
    have hlenG : 2 * ((n + 1) * cScores) ≤ a.aGradientAndHessian.length :=
      Nat.le_trans (Nat.mul_le_mul_left 2 (Nat.mul_le_mul_right cScores hn))
        hv.aGradientAndHessian
    have hlenU := hv.aUpdateScores
    obtain ⟨t, ht⟩ : ∃ t, a.aTargetData[n]? = some t :=
      ⟨_, List.getElem?_eq_getElem (by omega)⟩
    have ht1 : a.aTargetData[m.pTargetData]? = some t := by rw [hB.pTargetData, ht]
    obtain ⟨m2, hs2, hB2, hlog2, hp2, _⟩ := multiclassInv_step hB hc hlenS hlenG
      (by simpa using hlenU) hE t ht cScores (Nat.le_refl _)
      { m with
        pTargetData := m.pTargetData + 1
        log := m.log ++ [Event.read Buf.target m.pTargetData] }
      rfl rfl rfl rfl rfl (by simp [hB.pTargetData])
    refine ⟨m2, ?_, hB2, ?_, ?_⟩
    · rw [iter_succ_right, hrun]
      simp only [Option.some_bind, multiclassZeroBody]
      rw [readTarget_eq_some _ _ t ht1]
      simpa using hs2
    · simp [hp2, hP]
    · simp [hlog2, hL, zeroLog, multiclassZeroEvents, hB.pTargetData]

theorem multiclass_zero_run {F : Type} [Zero F] [Add F] (H : Headers) (N : Numerics F)
    (cCompilerClasses : Int) (a : Args F)
    (hv : ValidZero a (scoresOf H cCompilerClasses a))
    (hE : scoresOf H cCompilerClasses a ≤ (aExpsOf H cCompilerClasses a).length)
    (fuel : Nat) (hf : a.cSamples + scoresOf H cCompilerClasses a < fuel) :
    ∃ m, ApplyTermUpdateTrainingZeroFeatures_multiclass H N cCompilerClasses fuel a = some m ∧
      MulticlassInv N a (scoresOf H cCompilerClasses a) (fun _ => 0)
        (aExpsOf H cCompilerClasses a).length a.cSamples m ∧ m.pInputData = 0 ∧
      m.log = zeroLog (multiclassZeroEvents (scoresOf H cCompilerClasses a)) a.cSamples := by
  have hc : 1 ≤ scoresOf H cCompilerClasses a := GetCountScores_pos _
  obtain ⟨n, hn⟩ : ∃ n, a.cSamples = n + 1 := ⟨a.cSamples - 1, by have := hv.cSamples; omega⟩
  obtain ⟨f, rfl⟩ : ∃ f, fuel = f + 1 := ⟨fuel - 1, by omega⟩
  unfold ApplyTermUpdateTrainingZeroFeatures_multiclass
  have h := @doWhileNe_eq_iter F
    (multiclassZeroBody N a.aUpdateScores a.aTargetData (scoresOf H cCompilerClasses a))
    (multiclassZeroBody N a.aUpdateScores a.aTargetData (scoresOf H cCompilerClasses a)
      (scoresOf H cCompilerClasses a))
    (fun m => m.pSampleScore) (scoresOf H cCompilerClasses a) (scoresOf H cCompilerClasses a)
    (fun f m hf => multiclassZeroBody_fuel N _ _ _ hc f m hf)
    (fun m m1 h => multiclassZeroBody_pos N _ _ _ hc _ m m1 h) (by omega) n f
    (Machine.init a (aExpsOf H cCompilerClasses a)) (by omega)
  simp only [scoresOf] at h
  simp only [hn]
  rw [h, ← hn]
  exact multiclass_zero_iter N a _ hc hv _ hE a.cSamples (Nat.le_refl _)

/-! ## Dispatch -/

theorem normalTarget_probe {F : Type} [Zero F] [Add F] (H : Headers) (N : Numerics F)
    (fuel : Nat) (a : Args F) (c : Nat) (hc : (c : Int) = a.cRuntimeClasses)
    (hcm : c ≤ H.k_cCompilerClassesMax) :
    ∀ d p, p + d = c →
      ApplyTermUpdateTrainingNormalTarget H N p fuel a
        = ApplyTermUpdateTrainingInternal H N c H.k_cItemsPerBitPackDynamic fuel a := by
  intro d
  induction d with
  | zero =>
    intro p hp
    rw [ApplyTermUpdateTrainingNormalTarget]
    have h1 : ¬ H.k_cCompilerClassesMax + 1 = p := by omega
    have h2 : ¬ H.k_cCompilerClassesMax + 1 < p := by omega
    have h3 : (p : Int) = a.cRuntimeClasses := by rw [← hc]; congr 1
    simp only [h1, h2, h3, if_false, if_true]
    rw [← hc]
  | succ d ih =>
    intro p hp
    rw [ApplyTermUpdateTrainingNormalTarget]
    have h1 : ¬ H.k_cCompilerClassesMax + 1 = p := by omega
    have h2 : ¬ H.k_cCompilerClassesMax + 1 < p := by omega
    have h3 : ¬ (p : Int) = a.cRuntimeClasses := by rw [← hc]; omega
    simp only [h1, h2, h3, if_false]
    exact ih (p + 1) (by omega)

theorem normalTarget_dynamic {F : Type} [Zero F] [Add F] (H : Headers) (N : Numerics F)
    (fuel : Nat) (a : Args F) (hc : (H.k_cCompilerClassesMax : Int) < a.cRuntimeClasses) :
    ∀ d p, p + d = H.k_cCompilerClassesMax + 1 →
      ApplyTermUpdateTrainingNormalTarget H N p fuel a
        = ApplyTermUpdateTrainingInternal H N H.k_dynamicClassification
            H.k_cItemsPerBitPackDynamic fuel a := by
  intro d
  induction d with
  | zero =>
    intro p hp
    rw [ApplyTermUpdateTrainingNormalTarget]
    have h1 : H.k_cCompilerClassesMax + 1 = p := by omega
    simp only [h1, if_true]
  | succ d ih =>
    intro p hp
    rw [ApplyTermUpdateTrainingNormalTarget]
    have h1 : ¬ H.k_cCompilerClassesMax + 1 = p := by omega
    have h2 : ¬ H.k_cCompilerClassesMax + 1 < p := by omega
    have h3 : ¬ (p : Int) = a.cRuntimeClasses := by omega
    simp only [h1, h2, h3, if_false]
    exact ih (p + 1) (by omega)

theorem zeroFeaturesTarget_probe {F : Type} [Zero F] [Add F] (H : Headers) (N : Numerics F)
    (fuel : Nat) (a : Args F) (c : Nat) (hc : (c : Int) = a.cRuntimeClasses)
    (hcm : c ≤ H.k_cCompilerClassesMax) :
    ∀ d p, p + d = c →
      ApplyTermUpdateTrainingZeroFeaturesTarget H N p fuel a
        = ApplyTermUpdateTrainingZeroFeatures H N c fuel a := by
  intro d
  induction d with
  | zero =>
    intro p hp
    rw [ApplyTermUpdateTrainingZeroFeaturesTarget]
    have h1 : ¬ H.k_cCompilerClassesMax + 1 = p := by omega
    have h2 : ¬ H.k_cCompilerClassesMax + 1 < p := by omega
    have h3 : (p : Int) = a.cRuntimeClasses := by rw [← hc]; congr 1
    simp only [h1, h2, h3, if_false, if_true]
    rw [← hc]
  | succ d ih =>
    intro p hp
    rw [ApplyTermUpdateTrainingZeroFeaturesTarget]
    have h1 : ¬ H.k_cCompilerClassesMax + 1 = p := by omega
    have h2 : ¬ H.k_cCompilerClassesMax + 1 < p := by omega
    have h3 : ¬ (p : Int) = a.cRuntimeClasses := by rw [← hc]; omega
    simp only [h1, h2, h3, if_false]
    exact ih (p + 1) (by omega)

theorem zeroFeaturesTarget_dynamic {F : Type} [Zero F] [Add F] (H : Headers)
    (N : Numerics F) (fuel : Nat) (a : Args F)
    (hc : (H.k_cCompilerClassesMax : Int) < a.cRuntimeClasses) :
    ∀ d p, p + d = H.k_cCompilerClassesMax + 1 →
      ApplyTermUpdateTrainingZeroFeaturesTarget H N p fuel a
        = ApplyTermUpdateTrainingZeroFeatures H N H.k_dynamicClassification fuel a := by
  intro d
  induction d with
  | zero =>
    intro p hp
    rw [ApplyTermUpdateTrainingZeroFeaturesTarget]
    have h1 : H.k_cCompilerClassesMax + 1 = p := by omega
    simp only [h1, if_true]
  | succ d ih =>
    intro p hp
    rw [ApplyTermUpdateTrainingZeroFeaturesTarget]
    have h1 : ¬ H.k_cCompilerClassesMax + 1 = p := by omega
    have h2 : ¬ H.k_cCompilerClassesMax + 1 < p := by omega
    have h3 : ¬ (p : Int) = a.cRuntimeClasses := by omega
    simp only [h1, h2, h3, if_false]
    exact ih (p + 1) (by omega)

/-- The probe chain started at 2 ends in the template instance `entryClasses` -/
theorem normalTarget_two {F : Type} [Zero F] [Add F] (H : Headers) (N : Numerics F)
    (hH : H.WellFormed) (fuel : Nat) (a : Args F) (hc : 2 ≤ a.cRuntimeClasses) :
    ApplyTermUpdateTrainingNormalTarget H N 2 fuel a
      = ApplyTermUpdateTrainingInternal H N (entryClasses H a) H.k_cItemsPerBitPackDynamic
          fuel a := by
  have hmax := hH.max_ge
  unfold entryClasses
  by_cases hle : a.cRuntimeClasses ≤ H.k_cCompilerClassesMax
  · simp only [hle, if_true]
    obtain ⟨c, hcc⟩ : ∃ c : Nat, (c : Int) = a.cRuntimeClasses :=
      ⟨a.cRuntimeClasses.toNat, by omega⟩
    rw [normalTarget_probe H N fuel a c hcc (by omega) (c - 2) 2 (by omega), hcc]
  · simp only [hle, if_false]
    exact normalTarget_dynamic H N fuel a (by omega) (H.k_cCompilerClassesMax - 1) 2
      (by omega)

theorem zeroFeaturesTarget_two {F : Type} [Zero F] [Add F] (H : Headers) (N : Numerics F)
    (hH : H.WellFormed) (fuel : Nat) (a : Args F) (hc : 2 ≤ a.cRuntimeClasses) :
    ApplyTermUpdateTrainingZeroFeaturesTarget H N 2 fuel a
      = ApplyTermUpdateTrainingZeroFeatures H N (entryClasses H a) fuel a := by
  have hmax := hH.max_ge
  unfold entryClasses
  by_cases hle : a.cRuntimeClasses ≤ H.k_cCompilerClassesMax
  · simp only [hle, if_true]
    obtain ⟨c, hcc⟩ : ∃ c : Nat, (c : Int) = a.cRuntimeClasses :=
      ⟨a.cRuntimeClasses.toNat, by omega⟩
    rw [zeroFeaturesTarget_probe H N fuel a c hcc (by omega) (c - 2) 2 (by omega), hcc]
  · simp only [hle, if_false]
    exact zeroFeaturesTarget_dynamic H N fuel a (by omega) (H.k_cCompilerClassesMax - 1) 2
      (by omega)

theorem scoresOf_entryClasses {F : Type} (H : Headers) (a : Args F) :
    scoresOf H (entryClasses H a) a = GetCountScores a.cRuntimeClasses := by
  unfold scoresOf GET_COUNT_CLASSES entryClasses
  by_cases hle : a.cRuntimeClasses ≤ H.k_cCompilerClassesMax
  · simp only [hle, if_true]
    split <;> rfl
  · simp only [hle, if_false, if_true]

theorem entryClasses_multiclass {F : Type} (H : Headers) (hH : H.WellFormed) (a : Args F)
    (hc : 3 ≤ a.cRuntimeClasses) :
    entryClasses H a ≠ H.k_regression ∧ entryClasses H a ≠ 2 := by
  have h1 := hH.regression_lt
  have h2 := hH.dynamic_lt
  have h3 := hH.regression_ne_dynamic
  unfold entryClasses
  split
  · constructor <;> omega
  · exact ⟨fun h => h3 h.symm, by omega⟩

theorem entryClasses_binary {F : Type} (H : Headers) (hH : H.WellFormed) (a : Args F)
    (hc : a.cRuntimeClasses = 2) : entryClasses H a = 2 := by
  have hmax := hH.max_ge
  unfold entryClasses
  rw [if_pos (by omega), hc]

/-! ## Runs of the entry point -/

theorem entryBin_zero {F : Type} (H : Headers) (a : Args F)
    (h : H.k_cItemsPerBitPackNone = a.runtimeBitPack) : entryBin H a = fun _ => 0 := by
  funext i
  simp [entryBin, h]

theorem entryBin_indexed {F : Type} (H : Headers) (a : Args F)
    (h : H.k_cItemsPerBitPackNone ≠ a.runtimeBitPack) :
    entryBin H a = binOf H H.k_cItemsPerBitPackDynamic a := by
  funext i
  simp [entryBin, h]

/-- A regression call of the entry point returns, with buffers and ghost log in closed form -/
theorem regression_entry_run {F : Type} [Zero F] [Add F] (H : Headers) (N : Numerics F)
    (a : Args F) (hreg : H.IsClassification a.cRuntimeClasses = false)
    (hv : ValidRegression H a) (fuel : Nat) (hf : a.cSamples < fuel) :
    ∃ m, ApplyTermUpdateTraining H N fuel a = some m ∧
      RegressionInv N a (entryBin H a) a.cSamples m ∧
      ((H.k_cItemsPerBitPackNone = a.runtimeBitPack ∧ m.pInputData = 0 ∧
          m.log = Event.read Buf.update 0 :: zeroLog regressionTail a.cSamples) ∨
        (H.k_cItemsPerBitPackNone ≠ a.runtimeBitPack ∧
          DecoderInv a.aInputData (bitsOf H H.k_cItemsPerBitPackDynamic a)
            (itemsOf H H.k_cItemsPerBitPackDynamic a) a.cSamples m ∧
          m.log = indexedLog (itemsOf H H.k_cItemsPerBitPackDynamic a)
            (regressionEvents (binOf H H.k_cItemsPerBitPackDynamic a)) a.cSamples)) := by
  unfold ApplyTermUpdateTraining
  by_cases hz : H.k_cItemsPerBitPackNone = a.runtimeBitPack
  · simp only [hz, if_true, hreg, Bool.false_eq_true, if_false,
      ApplyTermUpdateTrainingZeroFeatures]
    obtain ⟨m, h1, h2, h3, h4⟩ := regression_zero_run N a (hv.zero hz) fuel hf
    rw [entryBin_zero H a hz]
    exact ⟨m, h1, h2, Or.inl ⟨trivial, h3, h4⟩⟩
  · simp only [hz, if_false, hreg, Bool.false_eq_true, ApplyTermUpdateTrainingInternal,
      if_true]
    obtain ⟨m, h1, h2, h3, h4⟩ := regression_indexed_run H N H.k_cItemsPerBitPackDynamic a
      (hv.indexed hz) fuel hf
    rw [entryBin_indexed H a hz]
    exact ⟨m, h1, h2, Or.inr ⟨hz, h3, h4⟩⟩

/-- A binary classification call of the entry point returns, with buffers and ghost log in
closed form -/
theorem binary_entry_run {F : Type} [Zero F] [Add F] (H : Headers) (N : Numerics F)
    (hH : H.WellFormed) (a : Args F) (hc : a.cRuntimeClasses = 2)
    (hv : ValidClassification H a 1) (fuel : Nat) (hf : a.cSamples < fuel) :
    ∃ m, ApplyTermUpdateTraining H N fuel a = some m ∧
      BinaryInv N a (entryBin H a) a.cSamples m ∧
      ((H.k_cItemsPerBitPackNone = a.runtimeBitPack ∧ m.pInputData = 0 ∧
          m.log = Event.read Buf.update 0 :: zeroLog binaryZeroEvents a.cSamples) ∨
        (H.k_cItemsPerBitPackNone ≠ a.runtimeBitPack ∧
          DecoderInv a.aInputData (bitsOf H H.k_cItemsPerBitPackDynamic a)
            (itemsOf H H.k_cItemsPerBitPackDynamic a) a.cSamples m ∧
          m.log = indexedLog (itemsOf H H.k_cItemsPerBitPackDynamic a)
            (binaryEvents (binOf H H.k_cItemsPerBitPackDynamic a)) a.cSamples)) := by
  have hcls : H.IsClassification a.cRuntimeClasses = true := hH.isClassification _ (by omega)
  have hcc := entryClasses_binary H hH a hc
  have hr2 : ¬ (2 : Int) = H.k_regression := by
    have := hH.regression_lt
    omega
  unfold ApplyTermUpdateTraining
  by_cases hz : H.k_cItemsPerBitPackNone = a.runtimeBitPack
  · simp only [hz, if_true, hcls]
    rw [zeroFeaturesTarget_two H N hH fuel a (by omega), hcc]
    simp only [ApplyTermUpdateTrainingZeroFeatures, hr2, if_false, if_true]
    obtain ⟨m, h1, h2, h3, h4⟩ := binary_zero_run N a (hv.zero hz) fuel hf
    rw [entryBin_zero H a hz]
    exact ⟨m, h1, h2, Or.inl ⟨trivial, h3, h4⟩⟩
  · simp only [hz, if_false, hcls, if_true]
    rw [normalTarget_two H N hH fuel a (by omega), hcc]
    simp only [ApplyTermUpdateTrainingInternal, hr2, if_false, if_true]
    obtain ⟨m, h1, h2, h3, h4⟩ := binary_indexed_run H N H.k_cItemsPerBitPackDynamic a
      (hv.indexed hz) fuel hf
    rw [entryBin_indexed H a hz]
    exact ⟨m, h1, h2, Or.inr ⟨hz, h3, h4⟩⟩

/-- A multiclass classification call of the entry point returns, with buffers and ghost log in
closed form -/
theorem multiclass_entry_run {F : Type} [Zero F] [Add F] (H : Headers) (N : Numerics F)
    (hH : H.WellFormed) (a : Args F) (hc : 3 ≤ a.cRuntimeClasses)
    (hv : ValidClassification H a (GetCountScores a.cRuntimeClasses)) (fuel : Nat)
    (hf : a.cSamples + GetCountScores a.cRuntimeClasses < fuel) :
    ∃ m, ApplyTermUpdateTraining H N fuel a = some m ∧
      MulticlassInv N a (GetCountScores a.cRuntimeClasses) (entryBin H a)
        (aExpsOf H (entryClasses H a) a).length a.cSamples m ∧
      ((H.k_cItemsPerBitPackNone = a.runtimeBitPack ∧ m.pInputData = 0 ∧
          m.log = zeroLog (multiclassZeroEvents (GetCountScores a.cRuntimeClasses))
            a.cSamples) ∨
        (H.k_cItemsPerBitPackNone ≠ a.runtimeBitPack ∧
          DecoderInv a.aInputData (bitsOf H H.k_cItemsPerBitPackDynamic a)
            (itemsOf H H.k_cItemsPerBitPackDynamic a) a.cSamples m ∧
          m.log = indexedLog (itemsOf H H.k_cItemsPerBitPackDynamic a)
            (multiclassEvents (GetCountScores a.cRuntimeClasses)
              (binOf H H.k_cItemsPerBitPackDynamic a)) a.cSamples)) := by
  have hcls : H.IsClassification a.cRuntimeClasses = true := hH.isClassification _ (by omega)
  obtain ⟨hne1, hne2⟩ := entryClasses_multiclass H hH a hc
  have hsc := scoresOf_entryClasses H a
  unfold ApplyTermUpdateTraining
  by_cases hz : H.k_cItemsPerBitPackNone = a.runtimeBitPack
  · simp only [hz, if_true, hcls]
    rw [zeroFeaturesTarget_two H N hH fuel a (by omega)]
    simp only [ApplyTermUpdateTrainingZeroFeatures, hne1, hne2, if_false]
    obtain ⟨m, h1, h2, h3, h4⟩ := multiclass_zero_run H N (entryClasses H a) a
      (by rw [hsc]; exact hv.zero hz) (by rw [hsc]; exact hv.scratch hc) fuel
      (by rw [hsc]; exact hf)
    rw [hsc] at h2 h4
    rw [entryBin_zero H a hz]
    exact ⟨m, h1, h2, Or.inl ⟨trivial, h3, h4⟩⟩
  · simp only [hz, if_false, hcls, if_true]
    rw [normalTarget_two H N hH fuel a (by omega)]
    simp only [ApplyTermUpdateTrainingInternal, hne1, hne2, if_false]
    obtain ⟨m, h1, h2, h3, h4⟩ := multiclass_indexed_run H N (entryClasses H a)
      H.k_cItemsPerBitPackDynamic a
      (by rw [hsc]; exact hv.indexed hz) (by rw [hsc]; exact hv.scratch hc) fuel
      (by rw [hsc]; exact hf)
    rw [hsc] at h2 h4
    rw [entryBin_indexed H a hz]
    exact ⟨m, h1, h2, Or.inr ⟨hz, h3, h4⟩⟩

/-! ## The ghost log in closed form -/

theorem filterMap_indexedLog {α : Type} (f : Event → Option α) (k : Nat)
    (ev : Nat → List Event) (g : Nat → List α)
    (hw : ∀ i, (wordEvents k i).filterMap f = []) (he : ∀ i, (ev i).filterMap f = g i) :
    ∀ n, (indexedLog k ev n).filterMap f = concatUpTo g n := by
  intro n
  induction n with
  | zero => rfl
  | succ n ih =>
    simp only [indexedLog, concatUpTo, List.filterMap_append, ih, hw, he, List.nil_append]

theorem filterMap_zeroLog {α : Type} (f : Event → Option α) (ev : Nat → List Event)
    (g : Nat → List α) (he : ∀ i, (ev i).filterMap f = g i) :
    ∀ n, (zeroLog ev n).filterMap f = concatUpTo g n := by
  intro n
  induction n with
  | zero => rfl
  | succ n ih => simp only [zeroLog, concatUpTo, List.filterMap_append, ih, he]

theorem concatUpTo_nil {α : Type} : ∀ n, concatUpTo (fun _ => ([] : List α)) n = [] := by
  intro n
  induction n with
  | zero => rfl
  | succ n ih => simp [concatUpTo, ih]

theorem concatUpTo_singleton {α : Type} (h : Nat → α) :
    ∀ n, concatUpTo (fun i => [h i]) n = (List.range n).map h := by
  intro n
  induction n with
  | zero => rfl
  | succ n ih => simp [concatUpTo, ih, List.range_succ]

theorem concatUpTo_range' (c : Nat) :
    ∀ n, concatUpTo (fun i => List.range' (c * i) c) n = List.range (c * n) := by
  intro n
  induction n with
  | zero => simp [concatUpTo]
  | succ n ih =>
    simp only [concatUpTo, ih, List.range_eq_range']
    have := List.range'_append 0 (c * n) c 1
    simp only [Nat.zero_add, Nat.one_mul] at this
    rw [this]
    congr 1
    ring

theorem wordEvents_decodedBins (k i : Nat) : decodedBins (wordEvents k i) = [] := by
  unfold wordEvents decodedBins
  split <;> rfl

theorem wordEvents_writesTo (b : Buf) (k i : Nat) : writesTo b (wordEvents k i) = [] := by
  unfold wordEvents writesTo
  split <;> rfl

theorem wordEvents_readsFrom (b : Buf) (hb : b ≠ Buf.input) (k i : Nat) :
    readsFrom b (wordEvents k i) = [] := by
  unfold wordEvents readsFrom
  split
  · simp [Ne.symm hb]
  · rfl

theorem scoreLog_decodedBins (ps row : Nat) : ∀ j, decodedBins (scoreLog ps row j) = [] := by
  intro j
  induction j with
  | zero => rfl
  | succ j ih =>
    unfold decodedBins at ih ⊢
    simp [scoreLog, List.filterMap_append, ih]

theorem gradLog_decodedBins (pg : Nat) : ∀ j, decodedBins (gradLog pg j) = [] := by
  intro j
  induction j with
  | zero => rfl
  | succ j ih =>
    unfold decodedBins at ih ⊢
    simp [gradLog, List.filterMap_append, ih]

theorem scoreLog_writesTo_gradHess (ps row : Nat) :
    ∀ j, writesTo Buf.gradHess (scoreLog ps row j) = [] := by
  intro j
  induction j with
  | zero => rfl
  | succ j ih =>
    unfold writesTo at ih ⊢
    simp [scoreLog, List.filterMap_append, ih]

theorem gradLog_writesTo_gradHess (pg : Nat) :
    ∀ j, writesTo Buf.gradHess (gradLog pg j) = List.range' pg (2 * j) := by
  intro j
  induction j with
  | zero => rfl
  | succ j ih =>
    unfold writesTo at ih ⊢
    simp only [gradLog, List.filterMap_append, ih]
    have h := List.range'_append pg (2 * j) 2 1
    simp only [Nat.one_mul] at h
    have h2 : 2 + 2 * j = 2 * (j + 1) := by ring
    rw [h2] at h
    rw [← h]
    simp [List.range'_succ]

theorem binaryEvents_decodedBins (bin : Nat → Nat) (i : Nat) :
    decodedBins (binaryEvents bin i) = [bin i] := rfl

theorem regressionEvents_decodedBins (bin : Nat → Nat) (i : Nat) :
    decodedBins (regressionEvents bin i) = [bin i] := rfl

theorem multiclassEvents_decodedBins (cScores : Nat) (bin : Nat → Nat) (i : Nat) :
    decodedBins (multiclassEvents cScores bin i) = [bin i] := by
  have h1 := scoreLog_decodedBins (i * cScores) (bin i * cScores) cScores
  have h2 := gradLog_decodedBins (2 * (i * cScores)) cScores
  unfold decodedBins at h1 h2 ⊢
  simp [multiclassEvents, multiclassTail, List.filterMap_append, h1, h2]

theorem binaryTail_writesTo_gradHess (i : Nat) :
    writesTo Buf.gradHess (binaryTail i) = List.range' (2 * i) 2 := by
  simp [writesTo, binaryTail, List.range'_succ]

theorem regressionTail_writesTo_gradHess (i : Nat) :
    writesTo Buf.gradHess (regressionTail i) = List.range' (1 * i) 1 := by
  simp [writesTo, regressionTail, List.range'_succ]

theorem multiclassTail_writesTo_gradHess (cScores : Nat) (bin : Nat → Nat) (i : Nat) :
    writesTo Buf.gradHess (multiclassTail cScores bin i)
      = List.range' (2 * cScores * i) (2 * cScores) := by
  have h1 := scoreLog_writesTo_gradHess (i * cScores) (bin i * cScores) cScores
  have h2 := gradLog_writesTo_gradHess (2 * (i * cScores)) cScores
  unfold writesTo at h1 h2 ⊢
  simp only [multiclassTail, List.filterMap_append, h1, h2, List.nil_append]
  congr 1
  ring

/-! ## Blocks and word loads in the ghost log -/

theorem foldl_blocksStep_sample (l : List Event)
    (hno : ∀ e, e ∈ l → ∀ j, e ≠ Event.read Buf.input j ∧ e ≠ Event.write Buf.input j) :
    ∀ (s : Nat) (rest : List Nat),
      l.foldl blocksStep (s :: rest) = (s + (decodedBins l).length) :: rest := by
  induction l with
  | nil => intro s rest; rfl
  | cons e l ih =>
    intro s rest
    have hl := ih (fun e1 h1 => hno e1 (List.mem_cons_of_mem _ h1))
    have he := hno e (List.mem_cons_self _ _)
    simp only [List.foldl_cons]
    cases e with
    | read b i =>
      cases b
      · exact absurd rfl (he i).1
      all_goals
        simp only [blocksStep, decodedBins, List.filterMap_cons]
        exact hl s rest
    | write b i =>
      simp only [blocksStep, decodedBins, List.filterMap_cons]
      exact hl s rest
    | decode b =>
      simp only [blocksStep, decodedBins, List.filterMap_cons, List.length_cons]
      rw [hl (s + 1) rest]
      unfold decodedBins
      congr 1
      omega

theorem readsFrom_input_sample (l : List Event)
    (hno : ∀ e, e ∈ l → ∀ j, e ≠ Event.read Buf.input j ∧ e ≠ Event.write Buf.input j) :
    readsFrom Buf.input l = [] := by
  induction l with
  | nil => rfl
  | cons e l ih =>
    have hl := ih (fun e1 h1 => hno e1 (List.mem_cons_of_mem _ h1))
    have he := hno e (List.mem_cons_self _ _)
    unfold readsFrom at hl ⊢
    cases e with
    | read b i =>
      cases b
      · exact absurd rfl (he i).1
      all_goals
        simp only [List.filterMap_cons]
        exact hl
    | write b i =>
      simp only [List.filterMap_cons]
      exact hl
    | decode b =>
      simp only [List.filterMap_cons]
      exact hl

/-- Blocks of an indexed run of `n + 1` samples, most recent first: the last block holds
`n % k + 1` samples and each of the `n / k` blocks before it holds `k` samples -/
theorem foldl_blocksStep_indexedLog (k : Nat) (hk : 0 < k) (bin : Nat → Nat)
    (ev : Nat → List Event) (hev : SampleEvents bin ev) :
    ∀ n, (indexedLog k ev (n + 1)).foldl blocksStep []
      = (n % k + 1) :: List.replicate (n / k) k := by
  intro n
  induction n with
  | zero =>
    simp only [indexedLog, List.nil_append, wordEvents, Nat.zero_mod, if_true,
      List.foldl_append, List.foldl_cons, List.foldl_nil, blocksStep, Nat.zero_div,
      List.replicate_zero]
    rw [foldl_blocksStep_sample _ (hev.noInput 0), hev.decode 0]
    rfl
  | succ n ih =>
    rw [indexedLog, List.foldl_append, ih, List.foldl_append]
    rcases succ_div_mod_cases n k hk with ⟨h1, h2, h3⟩ | ⟨h1, h2⟩
    · simp only [wordEvents, h1, if_true, List.foldl_cons, List.foldl_nil, blocksStep, h2]
      rw [foldl_blocksStep_sample _ (hev.noInput (n + 1)), hev.decode (n + 1), h3]
      rfl
    · have hne : ¬ (n + 1) % k = 0 := by omega
      simp only [wordEvents, hne, if_false, List.foldl_nil]
      rw [foldl_blocksStep_sample _ (hev.noInput (n + 1)), hev.decode (n + 1), h1, h2]
      rfl

theorem blockSizes_indexedLog (k : Nat) (hk : 0 < k) (bin : Nat → Nat)
    (ev : Nat → List Event) (hev : SampleEvents bin ev) (n : Nat) (hn : 0 < n) :
    blockSizes (indexedLog k ev n)
      = List.replicate ((n - 1) / k) k ++ [(n - 1) % k + 1] := by
  obtain ⟨n, rfl⟩ : ∃ j, n = j + 1 := ⟨n - 1, by omega⟩
  unfold blockSizes
  rw [foldl_blocksStep_indexedLog k hk bin ev hev n]
  simp

theorem readsFrom_input_indexedLog (k : Nat) (hk : 0 < k) (bin : Nat → Nat)
    (ev : Nat → List Event) (hev : SampleEvents bin ev) :
    ∀ n, readsFrom Buf.input (indexedLog k ev (n + 1)) = List.range (n / k + 1) := by
  have happ : ∀ l1 l2, readsFrom Buf.input (l1 ++ l2)
      = readsFrom Buf.input l1 ++ readsFrom Buf.input l2 := by
    intro l1 l2
    unfold readsFrom
    exact List.filterMap_append _ _ _
  intro n
  induction n with
  | zero =>
    rw [indexedLog, happ, happ, readsFrom_input_sample _ (hev.noInput 0)]
    simp [indexedLog, wordEvents, readsFrom, List.range_succ]
  | succ n ih =>
    rw [indexedLog, happ, ih, happ, readsFrom_input_sample _ (hev.noInput (n + 1))]
    rcases succ_div_mod_cases n k hk with ⟨h1, h2, _⟩ | ⟨h1, h2⟩
    · simp [wordEvents, h1, h2, readsFrom, List.range_succ]
    · have hne : ¬ (n + 1) % k = 0 := by omega
      simp [wordEvents, hne, h2, readsFrom]

theorem decodedBins_indexedLog (k : Nat) (bin : Nat → Nat) (ev : Nat → List Event)
    (hev : SampleEvents bin ev) (n : Nat) :
    decodedBins (indexedLog k ev n) = (List.range n).map bin := by
  unfold decodedBins
  rw [filterMap_indexedLog _ k ev (fun i => [bin i]) (wordEvents_decodedBins k) hev.decode,
    concatUpTo_singleton]

theorem sampleEvents_binary (bin : Nat → Nat) : SampleEvents bin (binaryEvents bin) := by
  refine ⟨binaryEvents_decodedBins bin, ?_⟩
  intro i e he j
  simp only [binaryEvents, binaryTail, List.cons_append, List.nil_append, List.mem_cons,
    List.mem_singleton, List.not_mem_nil, or_false] at he
  rcases he with h | h | h | h | h | h | h <;> subst h <;> simp

theorem sampleEvents_regression (bin : Nat → Nat) :
    SampleEvents bin (regressionEvents bin) := by
  refine ⟨regressionEvents_decodedBins bin, ?_⟩
  intro i e he j
  simp only [regressionEvents, regressionTail, List.cons_append, List.nil_append,
    List.mem_cons, List.mem_singleton, List.not_mem_nil, or_false] at he
  rcases he with h | h | h | h <;> subst h <;> simp

theorem scoreLog_noInput (ps row : Nat) :
    ∀ j e, e ∈ scoreLog ps row j →
      ∀ i, e ≠ Event.read Buf.input i ∧ e ≠ Event.write Buf.input i := by
  intro j
  induction j with
  | zero => intro e he; simp [scoreLog] at he
  | succ j ih =>
    intro e he i
    simp only [scoreLog, List.mem_append, List.mem_cons, List.mem_singleton,
      List.not_mem_nil, or_false] at he
    rcases he with h | h | h | h | h
    · exact ih e h i
    all_goals subst h; simp

theorem gradLog_noInput (pg : Nat) :
    ∀ j e, e ∈ gradLog pg j →
      ∀ i, e ≠ Event.read Buf.input i ∧ e ≠ Event.write Buf.input i := by
  intro j
  induction j with
  | zero => intro e he; simp [gradLog] at he
  | succ j ih =>
    intro e he i
    simp only [gradLog, List.mem_append, List.mem_cons, List.mem_singleton,
      List.not_mem_nil, or_false] at he
    rcases he with h | h | h | h
    · exact ih e h i
    all_goals subst h; simp

theorem sampleEvents_multiclass (cScores : Nat) (bin : Nat → Nat) :
    SampleEvents bin (multiclassEvents cScores bin) := by
  refine ⟨multiclassEvents_decodedBins cScores bin, ?_⟩
  intro i e he j
  simp only [multiclassEvents, multiclassTail, List.cons_append, List.nil_append,
    List.mem_cons, List.mem_append] at he
  rcases he with h | h | h | h
  · subst h; simp
  · subst h; simp
  · exact scoreLog_noInput _ _ _ e h j
  · exact gradLog_noInput _ _ e h j

/-! ## Runs of a template instance of the indexed function -/

theorem internalScores_pos {F : Type} (H : Headers) (cCompilerClasses : Int) (a : Args F) :
    1 ≤ internalScores H cCompilerClasses a := by
  unfold internalScores
  split
  · exact Nat.le_refl 1
  · exact GetCountScores_pos _

/-- Every template instance of the indexed function returns, and its ghost log is that of the
one-at-a-time decoder -/
theorem internal_run_log {F : Type} [Zero F] [Add F] (H : Headers) (N : Numerics F)
    (cCompilerClasses compilerBitPack : Int) (a : Args F)
    (hv : ValidInternal H cCompilerClasses compilerBitPack a) (fuel : Nat)
    (hf : a.cSamples + internalScores H cCompilerClasses a < fuel) :
    ∃ m ev, ApplyTermUpdateTrainingInternal H N cCompilerClasses compilerBitPack fuel a
        = some m ∧
      m.log = indexedLog (itemsOf H compilerBitPack a) ev a.cSamples ∧
      SampleEvents (binOf H compilerBitPack a) ev ∧
      DecoderInv a.aInputData (bitsOf H compilerBitPack a) (itemsOf H compilerBitPack a)
        a.cSamples m := by
  unfold ApplyTermUpdateTrainingInternal
  by_cases hr : cCompilerClasses = H.k_regression
  · simp only [hr, if_true]
    obtain ⟨m, h1, _, h3, h4⟩ := regression_indexed_run H N compilerBitPack a
      (hv.regression hr) fuel (by omega)
    exact ⟨m, _, h1, h4, sampleEvents_regression _, h3⟩
  · simp only [hr, if_false]
    by_cases h2 : cCompilerClasses = 2
    · simp only [h2, if_true]
      have hv1 := hv.classification hr
      simp only [internalScores, h2, if_true] at hv1
      obtain ⟨m, h1, _, h3, h4⟩ := binary_indexed_run H N compilerBitPack a hv1 fuel
        (by omega)
      exact ⟨m, _, h1, h4, sampleEvents_binary _, h3⟩
    · simp only [h2, if_false]
      have hv1 := hv.classification hr
      have hE := hv.scratch hr h2
      simp only [internalScores, h2, if_false] at hv1 hE hf
      obtain ⟨m, h1, _, h3, h4⟩ := multiclass_indexed_run H N cCompilerClasses
        compilerBitPack a hv1 hE fuel hf
      exact ⟨m, _, h1, h4, sampleEvents_multiclass _ _, h3⟩

theorem binaryInv_scores {F : Type} [Add F] {N : Numerics F} {a : Args F} {bin : Nat → Nat}
    {m : Machine F} (hB : BinaryInv N a bin a.cSamples m)
    (hS : a.cSamples * 1 ≤ a.aSampleScore.length)
    (hU : ∀ i, i < a.cSamples → (bin i + 1) * 1 ≤ a.aUpdateScores.length) :
    ∀ i, i < a.cSamples → ∀ j, j < 1 →
      ∃ o u, a.aSampleScore[i * 1 + j]? = some o ∧ a.aUpdateScores[bin i * 1 + j]? = some u ∧
        m.aSampleScore[i * 1 + j]? = some (o + u) := by
  intro i hi j hj
  obtain rfl : j = 0 := by omega
  have hU1 := hU i hi
  simp only [Nat.mul_one, Nat.add_zero] at hS hU1 ⊢
  obtain ⟨o, ho⟩ : ∃ o, a.aSampleScore[i]? = some o :=
    ⟨_, List.getElem?_eq_getElem (by omega)⟩
  obtain ⟨u, hu⟩ : ∃ u, a.aUpdateScores[bin i]? = some u :=
    ⟨_, List.getElem?_eq_getElem (by omega)⟩
  exact ⟨o, u, ho, hu, hB.score i hi o u ho hu⟩

theorem multiclassInv_scores {F : Type} [Zero F] [Add F] {N : Numerics F} {a : Args F}
    {cScores : Nat} {bin : Nat → Nat} {lenExps : Nat} {m : Machine F}
    (hB : MulticlassInv N a cScores bin lenExps a.cSamples m)
    (hS : a.cSamples * cScores ≤ a.aSampleScore.length)
    (hU : ∀ i, i < a.cSamples → (bin i + 1) * cScores ≤ a.aUpdateScores.length) :
    ∀ i, i < a.cSamples → ∀ j, j < cScores →
      ∃ o u, a.aSampleScore[i * cScores + j]? = some o ∧
        a.aUpdateScores[bin i * cScores + j]? = some u ∧
        m.aSampleScore[i * cScores + j]? = some (o + u) := by
  intro i hi j hj
  have hU1 := hU i hi
  rw [Nat.succ_mul (bin i) cScores] at hU1
  have hlt : i * cScores + j < a.cSamples * cScores := mul_add_lt_mul hi hj
  obtain ⟨o, ho⟩ : ∃ o, a.aSampleScore[i * cScores + j]? = some o :=
    ⟨_, List.getElem?_eq_getElem (by omega)⟩
  obtain ⟨u, hu⟩ : ∃ u, a.aUpdateScores[bin i * cScores + j]? = some u :=
    ⟨_, List.getElem?_eq_getElem (by omega)⟩
  refine ⟨o, u, ho, hu, ?_⟩
  rw [hB.score i hi j hj, mcScore, getD_of_getElem? _ _ _ _ ho, getD_of_getElem? _ _ _ _ hu]

/-- Every classification instance of the indexed function adds to each score the entry of
the update row of the sample's bin -/
theorem internal_run_scores {F : Type} [Zero F] [Add F] (H : Headers) (N : Numerics F)
    (cCompilerClasses compilerBitPack : Int) (a : Args F)
    (hcls : cCompilerClasses ≠ H.k_regression)
    (hv : ValidInternal H cCompilerClasses compilerBitPack a) (fuel : Nat)
    (hf : a.cSamples + internalScores H cCompilerClasses a < fuel) :
    ∃ m, ApplyTermUpdateTrainingInternal H N cCompilerClasses compilerBitPack fuel a
        = some m ∧
      m.aSampleScore.length = a.aSampleScore.length ∧
      ∀ i, i < a.cSamples → ∀ j, j < internalScores H cCompilerClasses a →
        ∃ o u, a.aSampleScore[i * internalScores H cCompilerClasses a + j]? = some o ∧
          a.aUpdateScores[binOf H compilerBitPack a i * internalScores H cCompilerClasses a
            + j]? = some u ∧
          m.aSampleScore[i * internalScores H cCompilerClasses a + j]? = some (o + u) := by
  unfold ApplyTermUpdateTrainingInternal
  simp only [hcls, if_false]
  have hv1 := hv.classification hcls
  by_cases h2 : cCompilerClasses = 2
  · simp only [h2, if_true]
    simp only [internalScores, h2, if_true] at hv1 ⊢
    obtain ⟨m, h1, hB, _, _⟩ := binary_indexed_run H N compilerBitPack a hv1 fuel (by omega)
    exact ⟨m, h1, hB.scoreLen, binaryInv_scores hB hv1.aSampleScore hv1.aUpdateScores⟩
  · simp only [h2, if_false]
    have hE := hv.scratch hcls h2
    simp only [internalScores, h2, if_false] at hv1 hE hf ⊢
    obtain ⟨m, h1, hB, _, _⟩ := multiclass_indexed_run H N cCompilerClasses
      compilerBitPack a hv1 hE fuel hf
    exact ⟨m, h1, hB.scoreLen, multiclassInv_scores hB hv1.aSampleScore hv1.aUpdateScores⟩

/-! ## The index mask -/

theorem maskBits_eq (H : Headers) (w : Nat) (hw : w ≤ H.k_cBitsForStorageType) :
    maskBits H w = 2 ^ w - 1 := by
  unfold maskBits
  rw [Nat.shiftRight_eq_div_pow]
  obtain ⟨d, hd⟩ : ∃ d, H.k_cBitsForStorageType = w + d := ⟨_, (Nat.add_sub_cancel' hw).symm⟩
  rw [hd, Nat.add_sub_cancel_left, Nat.pow_add]
  have h1 : 0 < 2 ^ w := Nat.pow_pos (by decide)
  have h2 : 0 < 2 ^ d := Nat.pow_pos (by decide)
  apply Nat.div_eq_of_lt_le
  · rw [Nat.sub_mul, Nat.one_mul]
    apply Nat.sub_le_sub_left
    exact h2
  · rw [Nat.sub_add_cancel h1]
    exact Nat.sub_lt (Nat.mul_pos h1 h2) (by decide)

theorem binAt_eq_mod (H : Headers) (w k : Nat) (hw : w ≤ H.k_cBitsForStorageType)
    (aInputData : List Nat) (i : Nat) :
    binAt (maskBits H w) w k aInputData i
      = (aInputData.getD (i / k) 0 >>> (i % k * w)) % 2 ^ w := by
  unfold binAt
  rw [maskBits_eq H w hw, Nat.land_comm, Nat.and_pow_two_sub_one_eq_mod]

/-! ## Stores into the gradient/hessian buffer and accesses to the score buffer -/

theorem writesTo_cons_read (b b1 : Buf) (i : Nat) (l : List Event) :
    writesTo b (Event.read b1 i :: l) = writesTo b l := rfl

theorem writesTo_cons_decode (b : Buf) (i : Nat) (l : List Event) :
    writesTo b (Event.decode i :: l) = writesTo b l := rfl

theorem writesTo_gradHess_regressionEvents (bin : Nat → Nat) (i : Nat) :
    writesTo Buf.gradHess (regressionEvents bin i) = List.range' (1 * i) 1 :=
  regressionTail_writesTo_gradHess i

theorem writesTo_gradHess_binaryEvents (bin : Nat → Nat) (i : Nat) :
    writesTo Buf.gradHess (binaryEvents bin i) = List.range' (2 * i) 2 :=
  binaryTail_writesTo_gradHess i

theorem writesTo_gradHess_binaryZeroEvents (i : Nat) :
    writesTo Buf.gradHess (binaryZeroEvents i) = List.range' (2 * i) 2 :=
  binaryTail_writesTo_gradHess i

theorem writesTo_gradHess_multiclassEvents (cScores : Nat) (bin : Nat → Nat) (i : Nat) :
    writesTo Buf.gradHess (multiclassEvents cScores bin i)
      = List.range' (2 * cScores * i) (2 * cScores) :=
  multiclassTail_writesTo_gradHess cScores bin i

theorem writesTo_gradHess_multiclassZeroEvents (cScores : Nat) (i : Nat) :
    writesTo Buf.gradHess (multiclassZeroEvents cScores i)
      = List.range' (2 * cScores * i) (2 * cScores) :=
  multiclassTail_writesTo_gradHess cScores (fun _ => 0) i

/-- Stores into the gradient/hessian buffer of an indexed run whose samples store `c`
consecutive values each -/
theorem writesTo_gradHess_indexedLog (k c : Nat) (ev : Nat → List Event)
    (he : ∀ i, writesTo Buf.gradHess (ev i) = List.range' (c * i) c) (n : Nat) :
    writesTo Buf.gradHess (indexedLog k ev n) = List.range (c * n) := by
  unfold writesTo
  rw [filterMap_indexedLog _ k ev (fun i => List.range' (c * i) c)
    (wordEvents_writesTo Buf.gradHess k) he, concatUpTo_range']

theorem writesTo_gradHess_zeroLog (c : Nat) (ev : Nat → List Event)
    (he : ∀ i, writesTo Buf.gradHess (ev i) = List.range' (c * i) c) (n : Nat) :
    writesTo Buf.gradHess (zeroLog ev n) = List.range (c * n) := by
  unfold writesTo
  rw [filterMap_zeroLog _ ev (fun i => List.range' (c * i) c) he, concatUpTo_range']

theorem regressionEvents_score (bin : Nat → Nat) (i : Nat) :
    readsFrom Buf.score (regressionEvents bin i) = [] ∧
      writesTo Buf.score (regressionEvents bin i) = [] := by
  constructor <;> simp [readsFrom, writesTo, regressionEvents, regressionTail]

theorem regressionTail_score (i : Nat) :
    readsFrom Buf.score (regressionTail i) = [] ∧
      writesTo Buf.score (regressionTail i) = [] := by
  constructor <;> simp [readsFrom, writesTo, regressionTail]

/-- No event of a regression run touches the score buffer -/
theorem regression_logs_score (k : Nat) (bin : Nat → Nat) (n : Nat) :
    (readsFrom Buf.score (indexedLog k (regressionEvents bin) n) = [] ∧
      writesTo Buf.score (indexedLog k (regressionEvents bin) n) = []) ∧
    (readsFrom Buf.score (Event.read Buf.update 0 :: zeroLog regressionTail n) = [] ∧
      writesTo Buf.score (Event.read Buf.update 0 :: zeroLog regressionTail n) = []) := by
  refine ⟨⟨?_, ?_⟩, ⟨?_, ?_⟩⟩
  · unfold readsFrom
    rw [filterMap_indexedLog _ k _ (fun _ => [])
      (wordEvents_readsFrom Buf.score (by decide) k)
      (fun i => (regressionEvents_score bin i).1), concatUpTo_nil]
  · unfold writesTo
    rw [filterMap_indexedLog _ k _ (fun _ => []) (wordEvents_writesTo Buf.score k)
      (fun i => (regressionEvents_score bin i).2), concatUpTo_nil]
  · have h := filterMap_zeroLog (fun e => match e with
      | Event.read b1 i => if b1 = Buf.score then some i else none
      | _ => none) regressionTail (fun _ => []) (fun i => (regressionTail_score i).1) n
    rw [concatUpTo_nil] at h
    unfold readsFrom
    rw [List.filterMap_cons]
    exact h
  · have h := filterMap_zeroLog (fun e => match e with
      | Event.write b1 i => if b1 = Buf.score then some i else none
      | _ => none) regressionTail (fun _ => []) (fun i => (regressionTail_score i).2) n
    rw [concatUpTo_nil] at h
    unfold writesTo
    rw [List.filterMap_cons]
    exact h

/-! ## Postconditions of a regression call of the entry point -/

theorem validRegression_bounds {F : Type} (H : Headers) (a : Args F)
    (hv : ValidRegression H a) :
    1 ≤ a.cSamples ∧ a.cSamples ≤ a.aGradientAndHessian.length ∧
      ∀ i, i < a.cSamples → entryBin H a i < a.aUpdateScores.length := by
  by_cases hz : H.k_cItemsPerBitPackNone = a.runtimeBitPack
  · have h := hv.zero hz
    refine ⟨h.cSamples, h.aGradientAndHessian, fun i _ => ?_⟩
    rw [entryBin_zero H a hz]
    exact h.aUpdateScores
  · have h := hv.indexed hz
    refine ⟨h.cSamples, h.aGradientAndHessian, fun i hi => ?_⟩
    rw [entryBin_indexed H a hz]
    exact h.aUpdateScores i hi

/-- A regression call of the entry point: buffers in closed form, no access to the score
buffer, one store per sample into the gradient buffer -/
theorem regression_entry_post {F : Type} [Zero F] [Add F] (H : Headers) (N : Numerics F)
    (a : Args F) (hreg : H.IsClassification a.cRuntimeClasses = false)
    (hv : ValidRegression H a) (fuel : Nat) (hf : a.cSamples < fuel) :
    ∃ m, ApplyTermUpdateTraining H N fuel a = some m ∧
      RegressionInv N a (entryBin H a) a.cSamples m ∧
      readsFrom Buf.score m.log = [] ∧ writesTo Buf.score m.log = [] ∧
      writesTo Buf.gradHess m.log = List.range a.cSamples := by
  obtain ⟨m, h1, hI, hlog⟩ := regression_entry_run H N a hreg hv fuel hf
  refine ⟨m, h1, hI, ?_⟩
  rcases hlog with ⟨_, _, hl⟩ | ⟨_, _, hl⟩
  · rw [hl]
    refine ⟨(regression_logs_score 1 (fun _ => 0) a.cSamples).2.1,
      (regression_logs_score 1 (fun _ => 0) a.cSamples).2.2, ?_⟩
    rw [writesTo_cons_read, writesTo_gradHess_zeroLog 1 _ regressionTail_writesTo_gradHess,
      Nat.one_mul]
  · rw [hl]
    refine ⟨(regression_logs_score _ _ a.cSamples).1.1,
      (regression_logs_score _ _ a.cSamples).1.2, ?_⟩
    rw [writesTo_gradHess_indexedLog _ 1 _ (writesTo_gradHess_regressionEvents _),
      Nat.one_mul]

/-- The gradient of every sample of a regression call is the helper applied to the old
gradient and the update of the sample's bin -/
theorem regressionInv_gradients {F : Type} {N : Numerics F} {a : Args F} {bin : Nat → Nat}
    {m : Machine F} (hB : RegressionInv N a bin a.cSamples m)
    (hG : a.cSamples ≤ a.aGradientAndHessian.length)
    (hU : ∀ i, i < a.cSamples → bin i < a.aUpdateScores.length) :
    ∀ i, i < a.cSamples →
      ∃ g u, a.aGradientAndHessian[i]? = some g ∧ a.aUpdateScores[bin i]? = some u ∧
        m.aGradientAndHessian[i]? = some
          (N.ComputeGradientRegressionMSEFromOriginalGradient g u) := by
  intro i hi
  obtain ⟨g, hg⟩ : ∃ g, a.aGradientAndHessian[i]? = some g :=
    ⟨_, List.getElem?_eq_getElem (by omega)⟩
  obtain ⟨u, hu⟩ : ∃ u, a.aUpdateScores[bin i]? = some u :=
    ⟨_, List.getElem?_eq_getElem (hU i hi)⟩
  exact ⟨g, u, hg, hu, hB.grad i hi g u hg hu⟩

/-! ## Postconditions of a classification call of the entry point -/

theorem validClassification_bounds {F : Type} [Zero F] (H : Headers) (a : Args F)
    (cScores : Nat) (hv : ValidClassification H a cScores) :
    1 ≤ a.cSamples ∧ a.cSamples ≤ a.aTargetData.length ∧
      a.cSamples * cScores ≤ a.aSampleScore.length ∧
      2 * (a.cSamples * cScores) ≤ a.aGradientAndHessian.length ∧
      ∀ i, i < a.cSamples → (entryBin H a i + 1) * cScores ≤ a.aUpdateScores.length := by
  by_cases hz : H.k_cItemsPerBitPackNone = a.runtimeBitPack
  · have h := hv.zero hz
    refine ⟨h.cSamples, h.aTargetData, h.aSampleScore, h.aGradientAndHessian, fun i _ => ?_⟩
    rw [entryBin_zero H a hz]
    simpa using h.aUpdateScores
  · have h := hv.indexed hz
    refine ⟨h.cSamples, h.aTargetData, h.aSampleScore, h.aGradientAndHessian, fun i hi => ?_⟩
    rw [entryBin_indexed H a hz]
    exact h.aUpdateScores i hi

theorem GetCountScores_two : GetCountScores 2 = 1 := rfl

/-- A classification call of the entry point: every score is updated by the entry of the
update row of the sample's bin, and the stores into the gradient/hessian buffer are two per
score of every sample, at consecutive offsets from 0 -/
theorem classification_entry_post {F : Type} [Zero F] [Add F] (H : Headers) (N : Numerics F)
    (hH : H.WellFormed) (a : Args F) (hc : 2 ≤ a.cRuntimeClasses)
    (hv : ValidClassification H a (GetCountScores a.cRuntimeClasses)) (fuel : Nat)
    (hf : a.cSamples + GetCountScores a.cRuntimeClasses < fuel) :
    ∃ m, ApplyTermUpdateTraining H N fuel a = some m ∧
      m.aSampleScore.length = a.aSampleScore.length ∧
      (∀ i, i < a.cSamples → ∀ j, j < GetCountScores a.cRuntimeClasses →
        ∃ o u, a.aSampleScore[i * GetCountScores a.cRuntimeClasses + j]? = some o ∧
          a.aUpdateScores[entryBin H a i * GetCountScores a.cRuntimeClasses + j]? = some u ∧
          m.aSampleScore[i * GetCountScores a.cRuntimeClasses + j]? = some (o + u)) ∧
      writesTo Buf.gradHess m.log
        = List.range (2 * GetCountScores a.cRuntimeClasses * a.cSamples) ∧
      m.aGradientAndHessian.length = a.aGradientAndHessian.length ∧
      ∀ j, 2 * (a.cSamples * GetCountScores a.cRuntimeClasses) ≤ j →
        m.aGradientAndHessian[j]? = a.aGradientAndHessian[j]? := by
  obtain ⟨_, _, hS, _, hU⟩ := validClassification_bounds H a _ hv
  by_cases h2 : a.cRuntimeClasses = 2
  · rw [h2, GetCountScores_two] at hv hf hS hU ⊢
    obtain ⟨m, h1, hI, hlog⟩ := binary_entry_run H N hH a h2 hv fuel (by omega)
    refine ⟨m, h1, hI.scoreLen, binaryInv_scores hI hS hU, ?_, hI.ghLen, ?_⟩
    · rcases hlog with ⟨_, _, hl⟩ | ⟨_, _, hl⟩
      · rw [hl, writesTo_cons_read,
          writesTo_gradHess_zeroLog 2 _ writesTo_gradHess_binaryZeroEvents]
      · rw [hl, writesTo_gradHess_indexedLog _ 2 _ (writesTo_gradHess_binaryEvents _)]
    · intro j hj
      exact hI.ghRest j (by omega)
  · have h3 : 3 ≤ a.cRuntimeClasses := by omega
    obtain ⟨m, h1, hI, hlog⟩ := multiclass_entry_run H N hH a h3 hv fuel hf
    refine ⟨m, h1, hI.scoreLen, multiclassInv_scores hI hS hU, ?_, hI.ghLen, hI.ghRest⟩
    rcases hlog with ⟨_, _, hl⟩ | ⟨_, _, hl⟩
    · rw [hl, writesTo_gradHess_zeroLog (2 * GetCountScores a.cRuntimeClasses) _
        (writesTo_gradHess_multiclassZeroEvents _)]
    · rw [hl, writesTo_gradHess_indexedLog _ (2 * GetCountScores a.cRuntimeClasses) _
        (writesTo_gradHess_multiclassEvents _ _)]

/-! ## The scenarios meet the preconditions -/

theorem exampleHeaders_wellFormed : exampleHeaders.WellFormed :=
  ⟨by decide, by decide, by decide, by decide, fun c hc => decide_eq_true (by omega)⟩

theorem binaryScenario_valid : ValidClassification exampleHeaders binaryScenario 1 :=
  ⟨fun h => absurd h (by decide),
    fun _ => ⟨by decide, by decide, by decide, by decide, by decide, by decide, by decide⟩,
    fun h => absurd h (by decide)⟩

theorem regressionFrameScenario_valid : ValidRegression exampleHeaders regressionFrameScenario :=
  ⟨fun h => absurd h (by decide),
    fun _ => ⟨by decide, by decide, by decide, by decide, by decide⟩⟩

theorem multiclassScenario_valid : ValidClassification exampleHeaders multiclassScenario 3 :=
  ⟨fun _ => ⟨by decide, by decide, by decide, by decide, by decide⟩,
    fun h => absurd rfl h, fun _ => by decide⟩

/-! ## Gradients and hessians of a classification call in terms of the new scores -/

/-- Binary classification: the pair written for sample `i` is the gradient helper applied to
the new score and the target, followed by the hessian helper applied to that gradient -/
theorem binaryInv_values {F : Type} [Add F] {N : Numerics F} {a : Args F} {bin : Nat → Nat}
    {m : Machine F} (hB : BinaryInv N a bin a.cSamples m)
    (hT : a.cSamples ≤ a.aTargetData.length)
    (hS : a.cSamples * 1 ≤ a.aSampleScore.length)
    (hU : ∀ i, i < a.cSamples → (bin i + 1) * 1 ≤ a.aUpdateScores.length) :
    ∀ i, i < a.cSamples →
      ∃ s t, m.aSampleScore[i]? = some s ∧ a.aTargetData[i]? = some t ∧
        m.aGradientAndHessian[2 * i]? = some
          (N.InverseLinkFunctionThenCalculateGradientBinaryClassification s t) ∧
        m.aGradientAndHessian[2 * i + 1]? = some
          (N.CalculateHessianFromGradientBinaryClassification
            (N.InverseLinkFunctionThenCalculateGradientBinaryClassification s t)) := by
  intro i hi
  obtain ⟨o, u, ho, hu, hm⟩ := binaryInv_scores hB hS hU i hi 0 (by decide)
  simp only [Nat.mul_one, Nat.add_zero] at ho hu hm
  obtain ⟨t, ht⟩ : ∃ t, a.aTargetData[i]? = some t :=
    ⟨_, List.getElem?_eq_getElem (by omega)⟩
  exact ⟨o + u, t, hm, ht, hB.grad i hi o u t ho hu ht⟩

/-- Multiclass classification: the pairs written for sample `i` are the gradient helper
applied to the sum of the exponentials of the new scores of the sample, the exponential of
the new score of the slot, the target and the slot -/
theorem multiclassInv_values {F : Type} [Zero F] [Add F] {N : Numerics F} {a : Args F}
    {cScores : Nat} {bin : Nat → Nat} {lenExps : Nat} {m : Machine F}
    (hB : MulticlassInv N a cScores bin lenExps a.cSamples m)
    (hT : a.cSamples ≤ a.aTargetData.length) :
    ∀ i, i < a.cSamples →
      ∃ (s : Nat → F) (t : Nat), a.aTargetData[i]? = some t ∧
        (∀ j, j < cScores → m.aSampleScore[i * cScores + j]? = some (s j)) ∧
        ∀ j, j < cScores →
          m.aGradientAndHessian[2 * (i * cScores + j)]? = some
            (N.InverseLinkFunctionThenCalculateGradientAndHessianMulticlass
              (sumUpTo (fun c => N.ExpForMulticlass (s c)) cScores)
              (N.ExpForMulticlass (s j)) t j).1 ∧
          m.aGradientAndHessian[2 * (i * cScores + j) + 1]? = some
            (N.InverseLinkFunctionThenCalculateGradientAndHessianMulticlass
              (sumUpTo (fun c => N.ExpForMulticlass (s c)) cScores)
              (N.ExpForMulticlass (s j)) t j).2 := by
  intro i hi
  obtain ⟨t, ht⟩ : ∃ t, a.aTargetData[i]? = some t :=
    ⟨_, List.getElem?_eq_getElem (by omega)⟩
  have htd : a.aTargetData.getD i 0 = t := getD_of_getElem? _ _ _ _ ht
  refine ⟨mcScore a cScores bin i, t, ht, fun j hj => hB.score i hi j hj, fun j hj => ?_⟩
  have := hB.gh i hi j hj
  simp only [mcGH, mcSum, mcExp, htd] at this
  exact this

theorem sumUpTo_eq_sum {F : Type} [LinearOrderedField F] (e : Nat → F) :
    ∀ n, sumUpTo e n = ∑ c in Finset.range n, e c := by
  intro n
  induction n with
  | zero => simp [sumUpTo]
  | succ n ih => rw [sumUpTo, ih, Finset.sum_range_succ]

theorem sigmoid_bounds {F : Type} [LinearOrderedField F] (exp : F → F)
    (hexp : ∀ x, 0 < exp x) (s : F) : 0 < sigmoid exp s ∧ sigmoid exp s < 1 := by
  unfold sigmoid
  have h := hexp (-s)
  constructor
  · positivity
  · rw [div_lt_one (by linarith)]
    linarith

/-- The hessian derived from the gradient `p - t` of a target `t` in {0, 1} is `p (1 - p)` -/
theorem specHessianBinary_eq {F : Type} [LinearOrderedField F] (p : F) (hp0 : 0 < p)
    (hp1 : p < 1) (t : Nat) (ht : t ≤ 1) :
    specHessianBinary (p - (t : F)) = p * (1 - p) := by
  unfold specHessianBinary
  rcases Nat.le_one_iff_eq_zero_or_eq_one.1 ht with h | h
  · subst h
    simp only [Nat.cast_zero, sub_zero]
    rw [abs_of_pos hp0]
  · subst h
    simp only [Nat.cast_one]
    rw [abs_of_neg (by linarith)]
    ring

/-! ## Softmax arithmetic -/

theorem GetCountScores_natCast (C : Nat) (h3 : 3 ≤ C) : GetCountScores (C : Int) = C := by
  unfold GetCountScores
  rw [if_neg (by omega)]
  exact Int.toNat_natCast C

theorem softmax_sum_one {F : Type} [LinearOrderedField F] (e : Nat → F)
    (he : ∀ c, 0 < e c) (C : Nat) (hC : 0 < C) :
    0 < ∑ c in Finset.range C, e c ∧
      ∑ j in Finset.range C, e j / (∑ c in Finset.range C, e c) = 1 := by
  have hpos : 0 < ∑ c in Finset.range C, e c :=
    Finset.sum_pos (fun c _ => he c) ⟨0, Finset.mem_range.2 hC⟩
  refine ⟨hpos, ?_⟩
  rw [← Finset.sum_div]
  exact div_self (ne_of_gt hpos)

theorem softmax_gradient_sum_zero {F : Type} [LinearOrderedField F] (e : Nat → F)
    (he : ∀ c, 0 < e c) (C t : Nat) (ht : t < C) :
    ∑ j in Finset.range C,
      (specGradientHessianMulticlass (∑ c in Finset.range C, e c) (e j) t j).1 = 0 := by
  have h1 := (softmax_sum_one e he C (by omega)).2
  have h2 : ∀ j, (specGradientHessianMulticlass (∑ c in Finset.range C, e c) (e j) t j).1
      = e j / (∑ c in Finset.range C, e c) - (if j = t then 1 else 0) := by
    intro j
    unfold specGradientHessianMulticlass
    by_cases hj : j = t
    · simp [hj]
    · simp [hj]
  simp only [h2]
  rw [Finset.sum_sub_distrib, h1, Finset.sum_ite_eq' (Finset.range C) t (fun _ => (1 : F)),
    if_pos (Finset.mem_range.2 ht)]
  exact sub_self 1

/-! ## The invariants determine the buffers -/

theorem regressionInv_buffers_eq {F : Type} {N : Numerics F} {a : Args F}
    {bin1 bin2 : Nat → Nat} {n : Nat} {m1 m2 : Machine F}
    (h1 : RegressionInv N a bin1 n m1) (h2 : RegressionInv N a bin2 n m2)
    (hb : ∀ i, i < n → bin1 i = bin2 i) (hG : n ≤ a.aGradientAndHessian.length)
    (hU : ∀ i, i < n → bin1 i < a.aUpdateScores.length) :
    m1.aSampleScore = m2.aSampleScore ∧ m1.aGradientAndHessian = m2.aGradientAndHessian := by
  refine ⟨by rw [h1.aSampleScore, h2.aSampleScore], List.ext_getElem? fun idx => ?_⟩
  by_cases hlt : idx < n
  · obtain ⟨g, hg⟩ : ∃ g, a.aGradientAndHessian[idx]? = some g :=
      ⟨_, List.getElem?_eq_getElem (by omega)⟩
    obtain ⟨u, hu⟩ : ∃ u, a.aUpdateScores[bin1 idx]? = some u :=
      ⟨_, List.getElem?_eq_getElem (hU idx hlt)⟩
    rw [h1.grad idx hlt g u hg hu, h2.grad idx hlt g u hg (by rw [← hb idx hlt]; exact hu)]
  · rw [h1.ghRest idx (by omega), h2.ghRest idx (by omega)]

theorem binaryInv_buffers_eq {F : Type} [Add F] {N : Numerics F} {a : Args F}
    {bin1 bin2 : Nat → Nat} {n : Nat} {m1 m2 : Machine F}
    (h1 : BinaryInv N a bin1 n m1) (h2 : BinaryInv N a bin2 n m2)
    (hb : ∀ i, i < n → bin1 i = bin2 i) (hT : n ≤ a.aTargetData.length)
    (hS : n ≤ a.aSampleScore.length)
    (hU : ∀ i, i < n → bin1 i < a.aUpdateScores.length) :
    m1.aSampleScore = m2.aSampleScore ∧ m1.aGradientAndHessian = m2.aGradientAndHessian := by
  have hval : ∀ i, i < n → ∃ o u t, a.aSampleScore[i]? = some o ∧
      a.aUpdateScores[bin1 i]? = some u ∧ a.aUpdateScores[bin2 i]? = some u ∧
      a.aTargetData[i]? = some t := by
    intro i hi
    obtain ⟨o, ho⟩ : ∃ o, a.aSampleScore[i]? = some o :=
      ⟨_, List.getElem?_eq_getElem (by omega)⟩
    obtain ⟨u, hu⟩ : ∃ u, a.aUpdateScores[bin1 i]? = some u :=
      ⟨_, List.getElem?_eq_getElem (hU i hi)⟩
    obtain ⟨t, ht⟩ : ∃ t, a.aTargetData[i]? = some t :=
      ⟨_, List.getElem?_eq_getElem (by omega)⟩
    exact ⟨o, u, t, ho, hu, by rw [← hb i hi]; exact hu, ht⟩
  constructor
  · apply List.ext_getElem?
    intro idx
    by_cases hlt : idx < n
    · obtain ⟨o, u, _, ho, hu1, hu2, _⟩ := hval idx hlt
      rw [h1.score idx hlt o u ho hu1, h2.score idx hlt o u ho hu2]
    · rw [h1.scoreRest idx (by omega), h2.scoreRest idx (by omega)]
  · apply List.ext_getElem?
    intro idx
    by_cases hlt : idx < 2 * n
    · obtain ⟨o, u, t, ho, hu1, hu2, ht⟩ := hval (idx / 2) (by omega)
      have e1 := h1.grad (idx / 2) (by omega) o u t ho hu1 ht
      have e2 := h2.grad (idx / 2) (by omega) o u t ho hu2 ht
      rcases Nat.mod_two_eq_zero_or_one idx with hm | hm
      · have hidx : idx = 2 * (idx / 2) := by omega
        rw [hidx, e1.1, e2.1]
      · have hidx : idx = 2 * (idx / 2) + 1 := by omega
        rw [hidx, e1.2, e2.2]
    · rw [h1.ghRest idx (by omega), h2.ghRest idx (by omega)]

theorem mcScore_congr {F : Type} [Zero F] [Add F] (a : Args F) (cScores : Nat)
    (bin1 bin2 : Nat → Nat) (i : Nat) (hb : bin1 i = bin2 i) :
    mcScore a cScores bin1 i = mcScore a cScores bin2 i := by
  funext j
  unfold mcScore
  rw [hb]

theorem mcGH_congr {F : Type} [Zero F] [Add F] (N : Numerics F) (a : Args F) (cScores : Nat)
    (bin1 bin2 : Nat → Nat) (i : Nat) (hb : bin1 i = bin2 i) :
    mcGH N a cScores bin1 i = mcGH N a cScores bin2 i := by
  funext j
  unfold mcGH mcSum mcExp
  rw [mcScore_congr a cScores bin1 bin2 i hb]

theorem multiclassInv_buffers_eq {F : Type} [Zero F] [Add F] {N : Numerics F} {a : Args F}
    {cScores : Nat} {bin1 bin2 : Nat → Nat} {len1 len2 n : Nat} {m1 m2 : Machine F}
    (h1 : MulticlassInv N a cScores bin1 len1 n m1)
    (h2 : MulticlassInv N a cScores bin2 len2 n m2)
    (hb : ∀ i, i < n → bin1 i = bin2 i) (hc : 1 ≤ cScores) :
    m1.aSampleScore = m2.aSampleScore ∧ m1.aGradientAndHessian = m2.aGradientAndHessian := by
  have hsplit : ∀ p, p < n * cScores →
      p / cScores < n ∧ p % cScores < cScores ∧ p = p / cScores * cScores + p % cScores := by
    intro p hp
    refine ⟨(Nat.div_lt_iff_lt_mul hc).2 hp, Nat.mod_lt _ hc, ?_⟩
    have := Nat.div_add_mod p cScores
    rw [Nat.mul_comm] at this
    exact this.symm
  constructor
  · apply List.ext_getElem?
    intro idx
    by_cases hlt : idx < n * cScores
    · obtain ⟨hi, hj, hidx⟩ := hsplit idx hlt
      rw [hidx, h1.score _ hi _ hj, h2.score _ hi _ hj,
        mcScore_congr a cScores bin1 bin2 _ (hb _ hi)]
    · rw [h1.scoreRest idx (by omega), h2.scoreRest idx (by omega)]
  · apply List.ext_getElem?
    intro idx
    by_cases hlt : idx < 2 * (n * cScores)
    · obtain ⟨hi, hj, hp⟩ := hsplit (idx / 2) (by omega)
      have e1 := h1.gh _ hi _ hj
      have e2 := h2.gh _ hi _ hj
      rw [← hp] at e1 e2
      rw [mcGH_congr N a cScores bin1 bin2 _ (hb _ hi)] at e1
      rcases Nat.mod_two_eq_zero_or_one idx with hm | hm
      · have hidx : idx = 2 * (idx / 2) := by omega
        rw [hidx, e1.1, e2.1]
      · have hidx : idx = 2 * (idx / 2) + 1 := by omega
        rw [hidx, e1.2, e2.2]
    · rw [h1.ghRest idx (by omega), h2.ghRest idx (by omega)]

/-! ## Preconditions and invariants under a change of buffers -/

theorem binOf_congr {F : Type} (H : Headers) (c : Int) (a b : Args F)
    (h2 : b.runtimeBitPack = a.runtimeBitPack) (h4 : b.aInputData = a.aInputData) :
    binOf H c b = binOf H c a := by
  funext i
  unfold binOf bitsOf itemsOf
  rw [h2, h4]

theorem entryBin_congr {F : Type} (H : Headers) (a b : Args F)
    (h2 : b.runtimeBitPack = a.runtimeBitPack) (h4 : b.aInputData = a.aInputData) :
    entryBin H b = entryBin H a := by
  funext i
  unfold entryBin
  rw [binOf_congr H _ a b h2 h4, h2]

/-- The preconditions of a call speak of the descriptors, of the packed stream and of the
lengths of the other buffers only -/
theorem validCall_congr {F : Type} [Zero F] (H : Headers) (a b : Args F)
    (h1 : b.cRuntimeClasses = a.cRuntimeClasses) (h2 : b.runtimeBitPack = a.runtimeBitPack)
    (h3 : b.cSamples = a.cSamples) (h4 : b.aInputData = a.aInputData)
    (h5 : a.aTargetData.length ≤ b.aTargetData.length)
    (h6 : a.aSampleScore.length ≤ b.aSampleScore.length)
    (h7 : a.aGradientAndHessian.length ≤ b.aGradientAndHessian.length)
    (h8 : a.aUpdateScores.length ≤ b.aUpdateScores.length)
    (h9 : a.aMulticlassMidwayTemp.length ≤ b.aMulticlassMidwayTemp.length)
    (hv : ValidCall H a) : ValidCall H b := by
  have hbin := binOf_congr H H.k_cItemsPerBitPackDynamic a b h2 h4
  have hitems : itemsOf H H.k_cItemsPerBitPackDynamic b
      = itemsOf H H.k_cItemsPerBitPackDynamic a := by
    unfold itemsOf
    rw [h2]
  rcases hv with ⟨hreg, hv⟩ | ⟨hc, hv⟩
  · refine Or.inl ⟨by rw [h1]; exact hreg, fun hz => ?_, fun hz => ?_⟩
    · have h := hv.zero (by rw [← h2]; exact hz)
      exact ⟨by rw [h3]; exact h.cSamples,
        by rw [h3]; exact Nat.le_trans h.aGradientAndHessian h7,
        Nat.le_trans h.aUpdateScores h8⟩
    · have h := hv.indexed (by rw [← h2]; exact hz)
      rw [hbin, hitems]
      exact ⟨by rw [h3]; exact h.cSamples, h.cItemsPerBitPack,
        by rw [h3, h4]; exact h.aInputData,
        by rw [h3]; exact Nat.le_trans h.aGradientAndHessian h7,
        fun i hi => Nat.lt_of_lt_of_le (h.aUpdateScores i (by rw [← h3]; exact hi)) h8⟩
  · refine Or.inr ⟨by rw [h1]; exact hc, ?_⟩
    rw [h1]
    refine ⟨fun hz => ?_, fun hz => ?_, fun h3c => ?_⟩
    · have h := hv.zero (by rw [← h2]; exact hz)
      exact ⟨by rw [h3]; exact h.cSamples,
        by rw [h3]; exact Nat.le_trans h.aTargetData h5,
        by rw [h3]; exact Nat.le_trans h.aSampleScore h6,
        by rw [h3]; exact Nat.le_trans h.aGradientAndHessian h7,
        Nat.le_trans h.aUpdateScores h8⟩
    · have h := hv.indexed (by rw [← h2]; exact hz)
      rw [hbin, hitems]
      exact ⟨by rw [h3]; exact h.cSamples, h.cItemsPerBitPack,
        by rw [h3, h4]; exact h.aInputData,
        by rw [h3]; exact Nat.le_trans h.aTargetData h5,
        by rw [h3]; exact Nat.le_trans h.aSampleScore h6,
        by rw [h3]; exact Nat.le_trans h.aGradientAndHessian h7,
        fun i hi => Nat.le_trans (h.aUpdateScores i (by rw [← h3]; exact hi)) h8⟩
    · have h := hv.scratch (by rw [← h1]; exact h3c)
      have hE : entryClasses H b = entryClasses H a := by
        unfold entryClasses
        rw [h1]
      rw [hE]
      unfold aExpsOf at h ⊢
      split
      · rename_i hd
        rw [if_pos hd] at h
        exact Nat.le_trans h h9
      · rename_i hd
        rw [if_neg hd] at h
        exact h

/-! ## What a classification call writes is determined by the scores, the update tensor and
the targets -/

theorem binaryInv_written_eq {F : Type} [Add F] {N : Numerics F} {a1 a2 : Args F}
    {bin : Nat → Nat} {n : Nat} {m1 m2 : Machine F}
    (h1 : BinaryInv N a1 bin n m1) (h2 : BinaryInv N a2 bin n m2)
    (hS : a2.aSampleScore = a1.aSampleScore) (hU : a2.aUpdateScores = a1.aUpdateScores)
    (hT : a2.aTargetData = a1.aTargetData)
    (hTl : n ≤ a1.aTargetData.length) (hSl : n ≤ a1.aSampleScore.length)
    (hUl : ∀ i, i < n → bin i < a1.aUpdateScores.length) :
    m1.aSampleScore = m2.aSampleScore ∧
      ∀ j, j < 2 * n → m1.aGradientAndHessian[j]? = m2.aGradientAndHessian[j]? := by
  have hval : ∀ i, i < n → ∃ o u t, a1.aSampleScore[i]? = some o ∧
      a1.aUpdateScores[bin i]? = some u ∧ a1.aTargetData[i]? = some t := by
    intro i hi
    exact ⟨_, _, _, List.getElem?_eq_getElem (by omega),
      List.getElem?_eq_getElem (hUl i hi), List.getElem?_eq_getElem (by omega)⟩
  constructor
  · apply List.ext_getElem?
    intro idx
    by_cases hlt : idx < n
    · obtain ⟨o, u, _, ho, hu, _⟩ := hval idx hlt
      rw [h1.score idx hlt o u ho hu,
        h2.score idx hlt o u (by rw [hS]; exact ho) (by rw [hU]; exact hu)]
    · rw [h1.scoreRest idx (by omega), h2.scoreRest idx (by omega), hS]
  · intro idx hlt
    obtain ⟨o, u, t, ho, hu, ht⟩ := hval (idx / 2) (by omega)
    have e1 := h1.grad (idx / 2) (by omega) o u t ho hu ht
    have e2 := h2.grad (idx / 2) (by omega) o u t (by rw [hS]; exact ho)
      (by rw [hU]; exact hu) (by rw [hT]; exact ht)
    rcases Nat.mod_two_eq_zero_or_one idx with hm | hm
    · have hidx : idx = 2 * (idx / 2) := by omega
      rw [hidx, e1.1, e2.1]
    · have hidx : idx = 2 * (idx / 2) + 1 := by omega
      rw [hidx, e1.2, e2.2]

theorem mcScore_args {F : Type} [Zero F] [Add F] (a1 a2 : Args F) (cScores : Nat)
    (bin : Nat → Nat) (hS : a2.aSampleScore = a1.aSampleScore)
    (hU : a2.aUpdateScores = a1.aUpdateScores) :
    mcScore a2 cScores bin = mcScore a1 cScores bin := by
  funext i j
  unfold mcScore
  rw [hS, hU]

theorem mcGH_args {F : Type} [Zero F] [Add F] (N : Numerics F) (a1 a2 : Args F)
    (cScores : Nat) (bin : Nat → Nat) (hS : a2.aSampleScore = a1.aSampleScore)
    (hU : a2.aUpdateScores = a1.aUpdateScores) (hT : a2.aTargetData = a1.aTargetData) :
    mcGH N a2 cScores bin = mcGH N a1 cScores bin := by
  funext i j
  unfold mcGH mcSum mcExp
  rw [mcScore_args a1 a2 cScores bin hS hU, hT]

theorem multiclassInv_written_eq {F : Type} [Zero F] [Add F] {N : Numerics F}
    {a1 a2 : Args F} {cScores : Nat} {bin : Nat → Nat} {len1 len2 n : Nat}
    {m1 m2 : Machine F}
    (h1 : MulticlassInv N a1 cScores bin len1 n m1)
    (h2 : MulticlassInv N a2 cScores bin len2 n m2)
    (hS : a2.aSampleScore = a1.aSampleScore) (hU : a2.aUpdateScores = a1.aUpdateScores)
    (hT : a2.aTargetData = a1.aTargetData) (hc : 1 ≤ cScores) :
    m1.aSampleScore = m2.aSampleScore ∧
      ∀ j, j < 2 * (n * cScores) →
        m1.aGradientAndHessian[j]? = m2.aGradientAndHessian[j]? := by
  have hsplit : ∀ p, p < n * cScores →
      p / cScores < n ∧ p % cScores < cScores ∧ p = p / cScores * cScores + p % cScores := by
    intro p hp
    refine ⟨(Nat.div_lt_iff_lt_mul hc).2 hp, Nat.mod_lt _ hc, ?_⟩
    have := Nat.div_add_mod p cScores
    rw [Nat.mul_comm] at this
    exact this.symm
  constructor
  · apply List.ext_getElem?
    intro idx
    by_cases hlt : idx < n * cScores
    · obtain ⟨hi, hj, hidx⟩ := hsplit idx hlt
      rw [hidx, h1.score _ hi _ hj, h2.score _ hi _ hj, mcScore_args a1 a2 cScores bin hS hU]
    · rw [h1.scoreRest idx (by omega), h2.scoreRest idx (by omega), hS]
  · intro idx hlt
    obtain ⟨hi, hj, hp⟩ := hsplit (idx / 2) (by omega)
    have e1 := h1.gh _ hi _ hj
    have e2 := h2.gh _ hi _ hj
    rw [← hp] at e1 e2
    rw [mcGH_args N a1 a2 cScores bin hS hU hT] at e2
    rcases Nat.mod_two_eq_zero_or_one idx with hm | hm
    · have hidx : idx = 2 * (idx / 2) := by omega
      rw [hidx, e1.1, e2.1]
    · have hidx : idx = 2 * (idx / 2) + 1 := by omega
      rw [hidx, e1.2, e2.2]

/-- Two lists of the same length that agree below `n` and, from `n` on, agree with two lists
that are equal there, are equal -/
theorem list_eq_of_written {α : Type} (l1 l2 r1 r2 : List α) (n : Nat)
    (hw : ∀ j, j < n → l1[j]? = l2[j]?)
    (h1 : ∀ j, n ≤ j → l1[j]? = r1[j]?) (h2 : ∀ j, n ≤ j → l2[j]? = r2[j]?)
    (hr : ∀ j, n ≤ j → r1[j]? = r2[j]?) : l1 = l2 := by
  apply List.ext_getElem?
  intro j
  by_cases hlt : j < n
  · exact hw j hlt
  · rw [h1 j (by omega), h2 j (by omega), hr j (by omega)]

theorem validCall_regression {F : Type} [Zero F] (H : Headers) (hH : H.WellFormed)
    (a : Args F) (hv : ValidCall H a) (hreg : H.IsClassification a.cRuntimeClasses = false) :
    ValidRegression H a := by
  rcases hv with ⟨_, hv⟩ | ⟨hc, _⟩
  · exact hv
  · rw [hH.isClassification _ hc] at hreg
    exact absurd hreg (by decide)

theorem validCall_classification {F : Type} [Zero F] (H : Headers) (hH : H.WellFormed)
    (a : Args F) (hv : ValidCall H a) (hc : 2 ≤ a.cRuntimeClasses) :
    ValidClassification H a (GetCountScores a.cRuntimeClasses) := by
  rcases hv with ⟨hreg, _⟩ | ⟨_, hv⟩
  · rw [hH.isClassification _ hc] at hreg
    exact absurd hreg (by decide)
  · exact hv

/-- A classification call of the entry point returns and leaves its buffers in a state that
the scores, the update tensor, the targets and the decoded bins determine on every entry the
call writes -/
theorem classification_written_eq {F : Type} [Zero F] [Add F] (H : Headers) (N : Numerics F)
    (hH : H.WellFormed) (a1 a2 : Args F) (hc : 2 ≤ a1.cRuntimeClasses)
    (hv1 : ValidClassification H a1 (GetCountScores a1.cRuntimeClasses))
    (hv2 : ValidClassification H a2 (GetCountScores a1.cRuntimeClasses))
    (h1 : a2.cRuntimeClasses = a1.cRuntimeClasses)
    (h2 : a2.runtimeBitPack = a1.runtimeBitPack) (h3 : a2.cSamples = a1.cSamples)
    (h4 : a2.aInputData = a1.aInputData)
    (hS : a2.aSampleScore = a1.aSampleScore) (hU : a2.aUpdateScores = a1.aUpdateScores)
    (hT : a2.aTargetData = a1.aTargetData) (fuel : Nat)
    (hf : a1.cSamples + GetCountScores a1.cRuntimeClasses < fuel) :
    ∃ m1 m2, ApplyTermUpdateTraining H N fuel a1 = some m1 ∧
      ApplyTermUpdateTraining H N fuel a2 = some m2 ∧
      m1.aSampleScore = m2.aSampleScore ∧
      (∀ j, j < 2 * (a1.cSamples * GetCountScores a1.cRuntimeClasses) →
        m1.aGradientAndHessian[j]? = m2.aGradientAndHessian[j]?) ∧
      m1.aGradientAndHessian.length = a1.aGradientAndHessian.length ∧
      m2.aGradientAndHessian.length = a2.aGradientAndHessian.length ∧
      (∀ j, 2 * (a1.cSamples * GetCountScores a1.cRuntimeClasses) ≤ j →
        m1.aGradientAndHessian[j]? = a1.aGradientAndHessian[j]?) ∧
      (∀ j, 2 * (a1.cSamples * GetCountScores a1.cRuntimeClasses) ≤ j →
        m2.aGradientAndHessian[j]? = a2.aGradientAndHessian[j]?) := by
  have hpos := GetCountScores_pos a1.cRuntimeClasses
  have hbin := entryBin_congr H a1 a2 h2 h4
  obtain ⟨_, hTl, hSl, _, hUl⟩ := validClassification_bounds H a1 _ hv1
  by_cases hb : a1.cRuntimeClasses = 2
  · rw [hb, GetCountScores_two] at hv1 hv2 hf hSl hUl ⊢
    obtain ⟨m1, e1, I1, _⟩ := binary_entry_run H N hH a1 hb hv1 fuel (by omega)
    obtain ⟨m2, e2, I2, _⟩ := binary_entry_run H N hH a2 (by rw [h1]; exact hb) hv2 fuel
      (by omega)
    rw [hbin, h3] at I2
    obtain ⟨hs, hw⟩ := binaryInv_written_eq I1 I2 hS hU hT hTl (by omega)
      (fun i hi => by have := hUl i hi; omega)
    refine ⟨m1, m2, e1, e2, hs, fun j hj => hw j (by omega), I1.ghLen, I2.ghLen,
      fun j hj => I1.ghRest j (by omega), fun j hj => I2.ghRest j (by omega)⟩
  · have h3c : 3 ≤ a1.cRuntimeClasses := by omega
    obtain ⟨m1, e1, I1, _⟩ := multiclass_entry_run H N hH a1 h3c hv1 fuel hf
    obtain ⟨m2, e2, I2, _⟩ := multiclass_entry_run H N hH a2 (by rw [h1]; exact h3c)
      (by rw [h1]; exact hv2) fuel (by rw [h1, h3]; exact hf)
    rw [hbin, h3, h1] at I2
    obtain ⟨hs, hw⟩ := multiclassInv_written_eq I1 I2 hS hU hT hpos
    exact ⟨m1, m2, e1, e2, hs, hw, I1.ghLen, I2.ghLen, I1.ghRest, I2.ghRest⟩

/-! ## Loads from the gradient/hessian buffer -/

theorem readsFrom_indexedLog_nil (b : Buf) (hb : b ≠ Buf.input) (k : Nat)
    (ev : Nat → List Event) (he : ∀ i, readsFrom b (ev i) = []) (n : Nat) :
    readsFrom b (indexedLog k ev n) = [] := by
  unfold readsFrom at he ⊢
  rw [filterMap_indexedLog _ k ev (fun _ => []) (wordEvents_readsFrom b hb k) he,
    concatUpTo_nil]

theorem readsFrom_zeroLog_nil (b : Buf) (ev : Nat → List Event)
    (he : ∀ i, readsFrom b (ev i) = []) (n : Nat) : readsFrom b (zeroLog ev n) = [] := by
  unfold readsFrom at he ⊢
  rw [filterMap_zeroLog _ ev (fun _ => []) he, concatUpTo_nil]

theorem writesTo_indexedLog_nil (b : Buf) (k : Nat) (ev : Nat → List Event)
    (he : ∀ i, writesTo b (ev i) = []) (n : Nat) : writesTo b (indexedLog k ev n) = [] := by
  unfold writesTo at he ⊢
  rw [filterMap_indexedLog _ k ev (fun _ => []) (wordEvents_writesTo b k) he, concatUpTo_nil]

theorem writesTo_zeroLog_nil (b : Buf) (ev : Nat → List Event)
    (he : ∀ i, writesTo b (ev i) = []) (n : Nat) : writesTo b (zeroLog ev n) = [] := by
  unfold writesTo at he ⊢
  rw [filterMap_zeroLog _ ev (fun _ => []) he, concatUpTo_nil]

theorem readsFrom_cons_update (b : Buf) (hb : b ≠ Buf.update) (i : Nat) (l : List Event) :
    readsFrom b (Event.read Buf.update i :: l) = readsFrom b l := by
  unfold readsFrom
  rw [List.filterMap_cons]
  simp [Ne.symm hb]

theorem scoreLog_readsFrom_gradHess (ps row : Nat) :
    ∀ j, readsFrom Buf.gradHess (scoreLog ps row j) = [] := by
  intro j
  induction j with
  | zero => rfl
  | succ j ih =>
    unfold readsFrom at ih ⊢
    simp [scoreLog, List.filterMap_append, ih]

theorem gradLog_readsFrom_gradHess (pg : Nat) :
    ∀ j, readsFrom Buf.gradHess (gradLog pg j) = [] := by
  intro j
  induction j with
  | zero => rfl
  | succ j ih =>
    unfold readsFrom at ih ⊢
    simp [gradLog, List.filterMap_append, ih]

theorem multiclassTail_readsFrom_gradHess (cScores : Nat) (bin : Nat → Nat) (i : Nat) :
    readsFrom Buf.gradHess (multiclassTail cScores bin i) = [] := by
  have h1 := scoreLog_readsFrom_gradHess (i * cScores) (bin i * cScores) cScores
  have h2 := gradLog_readsFrom_gradHess (2 * (i * cScores)) cScores
  unfold readsFrom at h1 h2 ⊢
  simp only [multiclassTail, List.filterMap_append, h1, h2, List.nil_append]

/-- No event of a classification run loads from the gradient/hessian buffer -/
theorem classification_logs_gradHess (k cScores : Nat) (bin : Nat → Nat) (n : Nat) :
    readsFrom Buf.gradHess (indexedLog k (binaryEvents bin) n) = [] ∧
    readsFrom Buf.gradHess (Event.read Buf.update 0 :: zeroLog binaryZeroEvents n) = [] ∧
    readsFrom Buf.gradHess (indexedLog k (multiclassEvents cScores bin) n) = [] ∧
    readsFrom Buf.gradHess (zeroLog (multiclassZeroEvents cScores) n) = [] := by
  refine ⟨?_, ?_, ?_, ?_⟩
  · exact readsFrom_indexedLog_nil _ (by decide) k _ (fun i => by
      simp [readsFrom, binaryEvents, binaryTail]) n
  · rw [readsFrom_cons_update _ (by decide)]
    exact readsFrom_zeroLog_nil _ _ (fun i => by
      simp [readsFrom, binaryZeroEvents, binaryTail]) n
  · refine readsFrom_indexedLog_nil _ (by decide) k _ (fun i => ?_) n
    have h := multiclassTail_readsFrom_gradHess cScores bin i
    unfold readsFrom at h ⊢
    simp [multiclassEvents, List.filterMap_append, h]
  · refine readsFrom_zeroLog_nil _ _ (fun i => ?_) n
    have h := multiclassTail_readsFrom_gradHess cScores (fun _ => 0) i
    unfold readsFrom at h ⊢
    simp [multiclassZeroEvents, h]

/-- A regression run loads every entry of the gradient buffer it stores, in order -/
theorem regression_logs_gradHess (k : Nat) (bin : Nat → Nat) (n : Nat) :
    readsFrom Buf.gradHess (indexedLog k (regressionEvents bin) n) = List.range n ∧
    readsFrom Buf.gradHess (Event.read Buf.update 0 :: zeroLog regressionTail n)
      = List.range n := by
  constructor
  · unfold readsFrom
    rw [filterMap_indexedLog _ k _ (fun i => [i])
      (wordEvents_readsFrom Buf.gradHess (by decide) k)
      (fun i => by simp [regressionEvents, regressionTail]), concatUpTo_singleton]
    simp
  · rw [readsFrom_cons_update _ (by decide)]
    unfold readsFrom
    rw [filterMap_zeroLog _ _ (fun i => [i]) (fun i => by simp [regressionTail]),
      concatUpTo_singleton]
    simp

/-- A classification call of the entry point never loads from the gradient/hessian buffer -/
theorem classification_entry_reads {F : Type} [Zero F] [Add F] (H : Headers)
    (N : Numerics F) (hH : H.WellFormed) (a : Args F) (hc : 2 ≤ a.cRuntimeClasses)
    (hv : ValidClassification H a (GetCountScores a.cRuntimeClasses)) (fuel : Nat)
    (hf : a.cSamples + GetCountScores a.cRuntimeClasses < fuel) :
    ∃ m, ApplyTermUpdateTraining H N fuel a = some m ∧
      readsFrom Buf.gradHess m.log = [] := by
  have hpos := GetCountScores_pos a.cRuntimeClasses
  by_cases hb : a.cRuntimeClasses = 2
  · rw [hb, GetCountScores_two] at hv
    obtain ⟨m, e, _, hlog⟩ := binary_entry_run H N hH a hb hv fuel (by omega)
    refine ⟨m, e, ?_⟩
    rcases hlog with ⟨_, _, hl⟩ | ⟨_, _, hl⟩
    · rw [hl]
      exact (classification_logs_gradHess 1 1 (fun _ => 0) _).2.1
    · rw [hl]
      exact (classification_logs_gradHess _ 1 _ _).1
  · obtain ⟨m, e, _, hlog⟩ := multiclass_entry_run H N hH a (by omega) hv fuel hf
    refine ⟨m, e, ?_⟩
    rcases hlog with ⟨_, _, hl⟩ | ⟨_, _, hl⟩
    · rw [hl]
      exact (classification_logs_gradHess 1 _ (fun _ => 0) _).2.2.2
    · rw [hl]
      exact (classification_logs_gradHess _ _ _ _).2.2.1

/-- A regression call of the entry point loads every entry of the gradient buffer it
stores -/
theorem regression_entry_reads {F : Type} [Zero F] [Add F] (H : Headers) (N : Numerics F)
    (a : Args F) (hreg : H.IsClassification a.cRuntimeClasses = false)
    (hv : ValidRegression H a) (fuel : Nat) (hf : a.cSamples < fuel) :
    ∃ m, ApplyTermUpdateTraining H N fuel a = some m ∧
      RegressionInv N a (entryBin H a) a.cSamples m ∧
      readsFrom Buf.gradHess m.log = List.range a.cSamples := by
  obtain ⟨m, e, hI, hlog⟩ := regression_entry_run H N a hreg hv fuel hf
  refine ⟨m, e, hI, ?_⟩
  rcases hlog with ⟨_, _, hl⟩ | ⟨_, _, hl⟩
  · rw [hl]
    exact (regression_logs_gradHess 1 (fun _ => 0) _).2
  · rw [hl]
    exact (regression_logs_gradHess _ _ _).1


/-! ## Loads that follow a store to the same offset -/

theorem writesTo_cons_write (b b1 : Buf) (i : Nat) (l : List Event) :
    writesTo b (Event.write b1 i :: l)
      = if b1 = b then i :: writesTo b l else writesTo b l := by
  unfold writesTo
  rw [List.filterMap_cons]
  by_cases hb : b1 = b
  · simp [hb]
  · simp [hb]

theorem readsInitialised_append (b : Buf) (l1 l2 : List Event) :
    ∀ W, readsInitialised b W (l1 ++ l2)
      = (readsInitialised b W l1 && readsInitialised b ((writesTo b l1).reverse ++ W) l2) := by
  induction l1 with
  | nil =>
    intro W
    simp [readsInitialised, writesTo]
  | cons e l1 ih =>
    intro W
    cases e with
    | read b1 i =>
      show ((decide (b1 ≠ b) || decide (i ∈ W)) && readsInitialised b W (l1 ++ l2)) =
        (((decide (b1 ≠ b) || decide (i ∈ W)) && readsInitialised b W l1) &&
          readsInitialised b ((writesTo b (Event.read b1 i :: l1)).reverse ++ W) l2)
      rw [ih, writesTo_cons_read, Bool.and_assoc]
    | write b1 i =>
      show readsInitialised b (if b1 = b then i :: W else W) (l1 ++ l2) =
        (readsInitialised b (if b1 = b then i :: W else W) l1 &&
          readsInitialised b ((writesTo b (Event.write b1 i :: l1)).reverse ++ W) l2)
      rw [ih, writesTo_cons_write]
      by_cases hb : b1 = b
      · simp only [hb, if_true, List.reverse_cons, List.append_assoc, List.singleton_append]
      · simp only [hb, if_false]
    | decode i =>
      show readsInitialised b W (l1 ++ l2) =
        (readsInitialised b W l1 &&
          readsInitialised b ((writesTo b (Event.decode i :: l1)).reverse ++ W) l2)
      rw [ih, writesTo_cons_decode]

theorem readsInitialised_mono (b : Buf) (l : List Event) :
    ∀ W1 W2, (∀ i, i ∈ W1 → i ∈ W2) → readsInitialised b W1 l = true →
      readsInitialised b W2 l = true := by
  induction l with
  | nil =>
    intro W1 W2 _ _
    rfl
  | cons e l ih =>
    intro W1 W2 hW h
    cases e with
    | read b1 i =>
      simp only [readsInitialised, Bool.and_eq_true, Bool.or_eq_true, decide_eq_true_eq] at h ⊢
      exact ⟨h.1.imp id (hW i), ih W1 W2 hW h.2⟩
    | write b1 i =>
      simp only [readsInitialised] at h ⊢
      refine ih _ _ ?_ h
      intro j hj
      split at hj
      · rename_i hb
        rw [if_pos hb]
        rcases List.mem_cons.1 hj with rfl | hj
        · exact List.mem_cons_self _ _
        · exact List.mem_cons_of_mem _ (hW j hj)
      · rename_i hb
        rw [if_neg hb]
        exact hW j hj
    | decode i =>
      simp only [readsInitialised] at h ⊢
      exact ih W1 W2 hW h

theorem readsInitialised_of_no_reads (b : Buf) (l : List Event) :
    readsFrom b l = [] → ∀ W, readsInitialised b W l = true := by
  induction l with
  | nil =>
    intro _ W
    rfl
  | cons e l ih =>
    intro h W
    cases e with
    | read b1 i =>
      unfold readsFrom at h ih
      rw [List.filterMap_cons] at h
      by_cases hb : b1 = b
      · simp [hb] at h
      · simp only [hb, if_false] at h
        simp only [readsInitialised, Bool.and_eq_true, Bool.or_eq_true, decide_eq_true_eq]
        exact ⟨Or.inl hb, ih h W⟩
    | write b1 i =>
      unfold readsFrom at h ih
      rw [List.filterMap_cons] at h
      simp only [readsInitialised]
      exact ih h _
    | decode i =>
      unfold readsFrom at h ih
      rw [List.filterMap_cons] at h
      simp only [readsInitialised]
      exact ih h _

theorem scoreLog_writesTo_exps (ps row : Nat) :
    ∀ j, writesTo Buf.exps (scoreLog ps row j) = List.range j := by
  intro j
  induction j with
  | zero => rfl
  | succ j ih =>
    unfold writesTo at ih ⊢
    simp [scoreLog, List.filterMap_append, ih, List.range_succ]

theorem scoreLog_readsFrom_exps (ps row : Nat) :
    ∀ j, readsFrom Buf.exps (scoreLog ps row j) = [] := by
  intro j
  induction j with
  | zero => rfl
  | succ j ih =>
    unfold readsFrom at ih ⊢
    simp [scoreLog, List.filterMap_append, ih]

theorem gradLog_initialised (pg : Nat) :
    ∀ c W, (∀ j, j < c → j ∈ W) → readsInitialised Buf.exps W (gradLog pg c) = true := by
  intro c
  induction c with
  | zero =>
    intro W _
    rfl
  | succ c ih =>
    intro W hW
    rw [gradLog, readsInitialised_append, ih W (fun j hj => hW j (by omega))]
    simp only [readsInitialised, Bool.true_and, Bool.and_true, Bool.or_eq_true,
      decide_eq_true_eq]
    exact Or.inr (List.mem_append_right _ (hW c (by omega)))

/-- Within the events of one multiclass sample every load from `aExps` follows the store to
the same cell: the first score loop stores the cells `0 .. cScores-1`, the second loads them -/
theorem multiclassTail_initialised (cScores : Nat) (bin : Nat → Nat) (i : Nat) :
    ∀ W, readsInitialised Buf.exps W (multiclassTail cScores bin i) = true := by
  intro W
  rw [multiclassTail, readsInitialised_append,
    readsInitialised_of_no_reads _ _ (scoreLog_readsFrom_exps _ _ _) W, Bool.true_and]
  apply gradLog_initialised
  intro j hj
  rw [scoreLog_writesTo_exps]
  exact List.mem_append_left _ (List.mem_reverse.2 (List.mem_range.2 hj))

theorem readsInitialised_indexedLog (b : Buf) (hb : b ≠ Buf.input) (k : Nat)
    (ev : Nat → List Event) (he : ∀ i W, readsInitialised b W (ev i) = true) :
    ∀ n W, readsInitialised b W (indexedLog k ev n) = true := by
  intro n
  induction n with
  | zero =>
    intro W
    rfl
  | succ n ih =>
    intro W
    rw [indexedLog, readsInitialised_append, ih W, readsInitialised_append,
      readsInitialised_of_no_reads _ _ (wordEvents_readsFrom b hb k n), he]
    rfl

theorem readsInitialised_zeroLog (b : Buf) (ev : Nat → List Event)
    (he : ∀ i W, readsInitialised b W (ev i) = true) :
    ∀ n W, readsInitialised b W (zeroLog ev n) = true := by
  intro n
  induction n with
  | zero =>
    intro W
    rfl
  | succ n ih =>
    intro W
    rw [zeroLog, readsInitialised_append, ih W, he]
    rfl

/-- In a multiclass run every load from `aExps` follows a store to the same cell -/
theorem multiclass_logs_initialised (k cScores : Nat) (bin : Nat → Nat) (n : Nat) :
    readsInitialised Buf.exps [] (indexedLog k (multiclassEvents cScores bin) n) = true ∧
    readsInitialised Buf.exps [] (zeroLog (multiclassZeroEvents cScores) n) = true := by
  constructor
  · apply readsInitialised_indexedLog _ (by decide)
    intro i W
    exact multiclassTail_initialised cScores bin i W
  · apply readsInitialised_zeroLog
    intro i W
    exact multiclassTail_initialised cScores (fun _ => 0) i W

/-! ## The scratch buffer -/

/-- No event of a regression or binary run touches `aExps` -/
theorem scalar_logs_exps (k : Nat) (bin : Nat → Nat) (n : Nat) :
    (readsFrom Buf.exps (indexedLog k (regressionEvents bin) n) = [] ∧
      writesTo Buf.exps (indexedLog k (regressionEvents bin) n) = []) ∧
    (readsFrom Buf.exps (Event.read Buf.update 0 :: zeroLog regressionTail n) = [] ∧
      writesTo Buf.exps (Event.read Buf.update 0 :: zeroLog regressionTail n) = []) ∧
    (readsFrom Buf.exps (indexedLog k (binaryEvents bin) n) = [] ∧
      writesTo Buf.exps (indexedLog k (binaryEvents bin) n) = []) ∧
    (readsFrom Buf.exps (Event.read Buf.update 0 :: zeroLog binaryZeroEvents n) = [] ∧
      writesTo Buf.exps (Event.read Buf.update 0 :: zeroLog binaryZeroEvents n) = []) := by
  refine ⟨⟨?_, ?_⟩, ⟨?_, ?_⟩, ⟨?_, ?_⟩, ⟨?_, ?_⟩⟩
  · exact readsFrom_indexedLog_nil _ (by decide) k _ (fun i => by
      simp [readsFrom, regressionEvents, regressionTail]) n
  · exact writesTo_indexedLog_nil _ k _ (fun i => by
      simp [writesTo, regressionEvents, regressionTail]) n
  · rw [readsFrom_cons_update _ (by decide)]
    exact readsFrom_zeroLog_nil _ _ (fun i => by simp [readsFrom, regressionTail]) n
  · rw [writesTo_cons_read]
    exact writesTo_zeroLog_nil _ _ (fun i => by simp [writesTo, regressionTail]) n
  · exact readsFrom_indexedLog_nil _ (by decide) k _ (fun i => by
      simp [readsFrom, binaryEvents, binaryTail]) n
  · exact writesTo_indexedLog_nil _ k _ (fun i => by
      simp [writesTo, binaryEvents, binaryTail]) n
  · rw [readsFrom_cons_update _ (by decide)]
    exact readsFrom_zeroLog_nil _ _ (fun i => by
      simp [readsFrom, binaryZeroEvents, binaryTail]) n
  · rw [writesTo_cons_read]
    exact writesTo_zeroLog_nil _ _ (fun i => by
      simp [writesTo, binaryZeroEvents, binaryTail]) n

/-- A multiclass instance for a compiled class count keeps its exponentials in the local
array: the run, ghost log included, is the same whatever the scratch buffer of the caller -/
theorem multiclass_ignores_scratch {F : Type} [Zero F] [Add F] (H : Headers) (N : Numerics F)
    (cCompilerClasses compilerBitPack : Int)
    (hd : H.k_dynamicClassification ≠ cCompilerClasses) (fuel : Nat) (a : Args F)
    (t : List F) :
    ApplyTermUpdateTrainingInternal_multiclass H N cCompilerClasses compilerBitPack fuel
        { a with aMulticlassMidwayTemp := t }
      = ApplyTermUpdateTrainingInternal_multiclass H N cCompilerClasses compilerBitPack fuel a ∧
    ApplyTermUpdateTrainingZeroFeatures_multiclass H N cCompilerClasses fuel
        { a with aMulticlassMidwayTemp := t }
      = ApplyTermUpdateTrainingZeroFeatures_multiclass H N cCompilerClasses fuel a := by
  have hE : aExpsOf H cCompilerClasses { a with aMulticlassMidwayTemp := t }
      = aExpsOf H cCompilerClasses a := by
    unfold aExpsOf
    rw [if_neg hd, if_neg hd]
  constructor
  · unfold ApplyTermUpdateTrainingInternal_multiclass
    rw [hE]
    rfl
  · unfold ApplyTermUpdateTrainingZeroFeatures_multiclass
    rw [hE]
    rfl

/-- The entry point for a multiclass problem with a compiled class count does not depend on
the scratch buffer of the caller -/
theorem entry_ignores_scratch {F : Type} [Zero F] [Add F] (H : Headers) (N : Numerics F)
    (hH : H.WellFormed) (a : Args F) (hc : 3 ≤ a.cRuntimeClasses)
    (hm : a.cRuntimeClasses ≤ H.k_cCompilerClassesMax) (fuel : Nat) (t : List F) :
    ApplyTermUpdateTraining H N fuel { a with aMulticlassMidwayTemp := t }
      = ApplyTermUpdateTraining H N fuel a := by
  obtain ⟨hne1, hne2⟩ := entryClasses_multiclass H hH a hc
  have hd : H.k_dynamicClassification ≠ entryClasses H a := by
    have := hH.dynamic_lt
    unfold entryClasses
    rw [if_pos hm]
    omega
  have hE : entryClasses H { a with aMulticlassMidwayTemp := t } = entryClasses H a := rfl
  have h2 : (2 : Int) ≤ ({ a with aMulticlassMidwayTemp := t } : Args F).cRuntimeClasses := by
    show 2 ≤ a.cRuntimeClasses
    omega
  obtain ⟨hi, hz⟩ := multiclass_ignores_scratch H N (entryClasses H a)
    H.k_cItemsPerBitPackDynamic hd fuel a t
  have hcls : H.IsClassification a.cRuntimeClasses = true :=
    hH.isClassification _ (by omega)
  unfold ApplyTermUpdateTraining
  rw [normalTarget_two H N hH fuel a (by omega), zeroFeaturesTarget_two H N hH fuel a (by omega),
    normalTarget_two H N hH fuel _ h2, zeroFeaturesTarget_two H N hH fuel _ h2, hE]
  simp only [ApplyTermUpdateTrainingInternal, ApplyTermUpdateTrainingZeroFeatures, hne1, hne2,
    if_false, hi, hz, hcls, if_true]

theorem regressionInv_written_eq {F : Type} {N : Numerics F} {a1 a2 : Args F}
    {bin : Nat → Nat} {n : Nat} {m1 m2 : Machine F}
    (h1 : RegressionInv N a1 bin n m1) (h2 : RegressionInv N a2 bin n m2)
    (hS : a2.aSampleScore = a1.aSampleScore) (hU : a2.aUpdateScores = a1.aUpdateScores)
    (hG : a2.aGradientAndHessian = a1.aGradientAndHessian)
    (hGl : n ≤ a1.aGradientAndHessian.length)
    (hUl : ∀ i, i < n → bin i < a1.aUpdateScores.length) :
    m1.aSampleScore = m2.aSampleScore ∧ m1.aGradientAndHessian = m2.aGradientAndHessian := by
  refine ⟨by rw [h1.aSampleScore, h2.aSampleScore, hS], List.ext_getElem? fun idx => ?_⟩
  by_cases hlt : idx < n
  · obtain ⟨g, hg⟩ : ∃ g, a1.aGradientAndHessian[idx]? = some g :=
      ⟨_, List.getElem?_eq_getElem (by omega)⟩
    obtain ⟨u, hu⟩ : ∃ u, a1.aUpdateScores[bin idx]? = some u :=
      ⟨_, List.getElem?_eq_getElem (hUl idx hlt)⟩
    rw [h1.grad idx hlt g u hg hu,
      h2.grad idx hlt g u (by rw [hG]; exact hg) (by rw [hU]; exact hu)]
  · rw [h1.ghRest idx (by omega), h2.ghRest idx (by omega), hG]

/-- A regression or binary call of the entry point leaves `aExps`, the scratch buffer of the
caller, as it was and neither loads from it nor stores into it -/
theorem scalar_entry_scratch {F : Type} [Zero F] [Add F] (H : Headers) (N : Numerics F)
    (hH : H.WellFormed) (a : Args F) (hv : ValidCall H a) (hc : a.cRuntimeClasses ≤ 2)
    (fuel : Nat) (hf : a.cSamples < fuel) :
    ∃ m, ApplyTermUpdateTraining H N fuel a = some m ∧
      m.aExps = a.aMulticlassMidwayTemp ∧
      readsFrom Buf.exps m.log = [] ∧ writesTo Buf.exps m.log = [] := by
  rcases hv with ⟨hreg, hvr⟩ | ⟨hc2, hvc⟩
  · obtain ⟨m, e, I, hlog⟩ := regression_entry_run H N a hreg hvr fuel hf
    refine ⟨m, e, I.aExps, ?_⟩
    rcases hlog with ⟨_, _, hl⟩ | ⟨_, _, hl⟩
    · rw [hl]
      exact (scalar_logs_exps 1 (fun _ => 0) _).2.1
    · rw [hl]
      exact (scalar_logs_exps _ _ _).1
  · have hb : a.cRuntimeClasses = 2 := by omega
    rw [hb, GetCountScores_two] at hvc
    obtain ⟨m, e, I, hlog⟩ := binary_entry_run H N hH a hb hvc fuel hf
    refine ⟨m, e, I.aExps, ?_⟩
    rcases hlog with ⟨_, _, hl⟩ | ⟨_, _, hl⟩
    · rw [hl]
      exact (scalar_logs_exps 1 (fun _ => 0) _).2.2.2
    · rw [hl]
      exact (scalar_logs_exps _ _ _).2.2.1

/-- A multiclass call of the entry point loads a cell of `aExps` only after a store to it -/
theorem multiclass_entry_initialised {F : Type} [Zero F] [Add F] (H : Headers)
    (N : Numerics F) (hH : H.WellFormed) (a : Args F) (hc : 3 ≤ a.cRuntimeClasses)
    (hv : ValidClassification H a (GetCountScores a.cRuntimeClasses)) (fuel : Nat)
    (hf : a.cSamples + GetCountScores a.cRuntimeClasses < fuel) :
    ∃ m, ApplyTermUpdateTraining H N fuel a = some m ∧
      readsInitialised Buf.exps [] m.log = true := by
  obtain ⟨m, e, _, hlog⟩ := multiclass_entry_run H N hH a hc hv fuel hf
  refine ⟨m, e, ?_⟩
  rcases hlog with ⟨_, _, hl⟩ | ⟨_, _, hl⟩
  · rw [hl]
    exact (multiclass_logs_initialised 1 _ (fun _ => 0) _).2
  · rw [hl]
    exact (multiclass_logs_initialised _ _ _ _).1

/-- The score buffer and the gradient/hessian buffer a call of the entry point leaves do not
depend on the scratch buffer -/
theorem entry_scratch_eq {F : Type} [Zero F] [Add F] (H : Headers) (N : Numerics F)
    (hH : H.WellFormed) (a : Args F) (t : List F)
    (ht : a.aMulticlassMidwayTemp.length ≤ t.length) (hv : ValidCall H a) (fuel : Nat)
    (hf : a.cSamples + GetCountScores a.cRuntimeClasses < fuel) :
    ∃ m1 m2, ApplyTermUpdateTraining H N fuel a = some m1 ∧
      ApplyTermUpdateTraining H N fuel { a with aMulticlassMidwayTemp := t } = some m2 ∧
      m1.aSampleScore = m2.aSampleScore ∧
      m1.aGradientAndHessian = m2.aGradientAndHessian := by
  have hpos := GetCountScores_pos a.cRuntimeClasses
  have hf1 : a.cSamples < fuel := by omega
  have hv2 : ValidCall H { a with aMulticlassMidwayTemp := t } :=
    validCall_congr H a _ rfl rfl rfl rfl (Nat.le_refl _) (Nat.le_refl _) (Nat.le_refl _)
      (Nat.le_refl _) ht hv
  rcases hv with ⟨hreg, hvr⟩ | ⟨hc, hvc⟩
  · have hvr2 := validCall_regression H hH _ hv2 hreg
    obtain ⟨m1, e1, I1, _⟩ := regression_entry_run H N a hreg hvr fuel hf1
    obtain ⟨m2, e2, I2, _⟩ := regression_entry_run H N { a with aMulticlassMidwayTemp := t }
      hreg hvr2 fuel hf1
    obtain ⟨_, hG, hU⟩ := validRegression_bounds H a hvr
    exact ⟨m1, m2, e1, e2, regressionInv_written_eq I1 I2 rfl rfl rfl hG hU⟩
  · have hvc2 := validCall_classification H hH _ hv2 hc
    obtain ⟨m1, m2, e1, e2, hs, hw, _, _, hr1, hr2⟩ := classification_written_eq H N hH a
      { a with aMulticlassMidwayTemp := t } hc hvc hvc2 rfl rfl rfl rfl rfl rfl rfl fuel hf
    exact ⟨m1, m2, e1, e2, hs, list_eq_of_written _ _ _ _ _ hw hr1 hr2 (fun _ _ => rfl)⟩

/-! ## The assertions of the probe chains -/

/-- For a class count of at most `k_cCompilerClassesMax` every assertion of the indexed probe
chain holds and the debug build runs what the release build runs -/
theorem normalTargetDebug_probe {F : Type} [Zero F] [Add F] (H : Headers) (N : Numerics F)
    (fuel : Nat) (a : Args F) (hcls : H.IsClassification a.cRuntimeClasses = true)
    (hm : a.cRuntimeClasses ≤ (H.k_cCompilerClassesMax : Int)) :
    ∀ d p, p + d = H.k_cCompilerClassesMax + 1 → (p : Int) ≤ a.cRuntimeClasses →
      ApplyTermUpdateTrainingNormalTargetDebug H N p fuel a
        = Except.ok (ApplyTermUpdateTrainingNormalTarget H N p fuel a) := by
  intro d
  induction d with
  | zero =>
    intro p hp hle
    omega
  | succ d ih =>
    intro p hp hle
    rw [ApplyTermUpdateTrainingNormalTargetDebug, ApplyTermUpdateTrainingNormalTarget]
    have h1 : ¬ H.k_cCompilerClassesMax + 1 = p := by omega
    have h2 : ¬ H.k_cCompilerClassesMax + 1 < p := by omega
    simp only [h1, h2, hcls, hm, if_false, Bool.true_eq_false, not_true_eq_false]
    by_cases h3 : (p : Int) = a.cRuntimeClasses
    · simp only [h3, if_true]
    · simp only [h3, if_false]
      exact ih (p + 1) (by omega) (by omega)

theorem zeroFeaturesTargetDebug_probe {F : Type} [Zero F] [Add F] (H : Headers)
    (N : Numerics F) (fuel : Nat) (a : Args F)
    (hcls : H.IsClassification a.cRuntimeClasses = true)
    (hm : a.cRuntimeClasses ≤ (H.k_cCompilerClassesMax : Int)) :
    ∀ d p, p + d = H.k_cCompilerClassesMax + 1 → (p : Int) ≤ a.cRuntimeClasses →
      ApplyTermUpdateTrainingZeroFeaturesTargetDebug H N p fuel a
        = Except.ok (ApplyTermUpdateTrainingZeroFeaturesTarget H N p fuel a) := by
  intro d
  induction d with
  | zero =>
    intro p hp hle
    omega
  | succ d ih =>
    intro p hp hle
    rw [ApplyTermUpdateTrainingZeroFeaturesTargetDebug,
      ApplyTermUpdateTrainingZeroFeaturesTarget]
    have h1 : ¬ H.k_cCompilerClassesMax + 1 = p := by omega
    have h2 : ¬ H.k_cCompilerClassesMax + 1 < p := by omega
    simp only [h1, h2, hcls, hm, if_false, Bool.true_eq_false, not_true_eq_false]
    by_cases h3 : (p : Int) = a.cRuntimeClasses
    · simp only [h3, if_true]
    · simp only [h3, if_false]
      exact ih (p + 1) (by omega) (by omega)

/-- For a class count above `k_cCompilerClassesMax` the first probe of either chain aborts
on its assertion `cRuntimeClasses <= k_cCompilerClassesMax` -/
theorem targetDebug_abort {F : Type} [Zero F] [Add F] (H : Headers) (N : Numerics F)
    (hH : H.WellFormed) (fuel : Nat) (a : Args F)
    (hm : (H.k_cCompilerClassesMax : Int) < a.cRuntimeClasses) :
    ApplyTermUpdateTrainingNormalTargetDebug H N 2 fuel a = Except.error 587 ∧
    ApplyTermUpdateTrainingZeroFeaturesTargetDebug H N 2 fuel a = Except.error 214 := by
  have hmax := hH.max_ge
  have hcls : H.IsClassification a.cRuntimeClasses = true :=
    hH.isClassification _ (by omega)
  have h1 : ¬ H.k_cCompilerClassesMax + 1 = 2 := by omega
  have h2 : ¬ H.k_cCompilerClassesMax + 1 < 2 := by omega
  have h3 : ¬ a.cRuntimeClasses ≤ (H.k_cCompilerClassesMax : Int) := by omega
  constructor
  · rw [ApplyTermUpdateTrainingNormalTargetDebug]
    simp only [h1, h2, hcls, h3, if_false, Bool.true_eq_false, not_false_eq_true, if_true]
  · rw [ApplyTermUpdateTrainingZeroFeaturesTargetDebug]
    simp only [h1, h2, hcls, h3, if_false, Bool.true_eq_false, not_false_eq_true, if_true]

/-- The entry point in a debug build: for a class count from 2 to `k_cCompilerClassesMax`
no assertion of the probe chain fails; for a class count above `k_cCompilerClassesMax` the
first probe aborts the call -/
theorem entryDebug_cases {F : Type} [Zero F] [Add F] (H : Headers) (N : Numerics F)
    (hH : H.WellFormed) (fuel : Nat) (a : Args F) (hc : 2 ≤ a.cRuntimeClasses) :
    (a.cRuntimeClasses ≤ (H.k_cCompilerClassesMax : Int) →
      ApplyTermUpdateTrainingDebug H N fuel a
        = Except.ok (ApplyTermUpdateTraining H N fuel a)) ∧
    ((H.k_cCompilerClassesMax : Int) < a.cRuntimeClasses →
      ApplyTermUpdateTrainingDebug H N fuel a
        = Except.error (if H.k_cItemsPerBitPackNone = a.runtimeBitPack then 214 else 587)) := by
  have hmax := hH.max_ge
  have hcls : H.IsClassification a.cRuntimeClasses = true := hH.isClassification _ hc
  constructor
  · intro hm
    unfold ApplyTermUpdateTrainingDebug ApplyTermUpdateTraining
    simp only [hcls, if_true]
    rw [normalTargetDebug_probe H N fuel a hcls hm (H.k_cCompilerClassesMax - 1) 2 (by omega)
        (by omega),
      zeroFeaturesTargetDebug_probe H N fuel a hcls hm (H.k_cCompilerClassesMax - 1) 2
        (by omega) (by omega)]
    split <;> rfl
  · intro hm
    obtain ⟨h1, h2⟩ := targetDebug_abort H N hH fuel a hm
    unfold ApplyTermUpdateTrainingDebug
    simp only [hcls, if_true, h1, h2]
    split <;> rfl

/-! ## Extent of an indexed run -/

theorem writesTo_indexedLog_range (b : Buf) (k c : Nat) (ev : Nat → List Event)
    (he : ∀ i, writesTo b (ev i) = List.range' (c * i) c) (n : Nat) :
    writesTo b (indexedLog k ev n) = List.range (c * n) := by
  unfold writesTo at he ⊢
  rw [filterMap_indexedLog _ k ev (fun i => List.range' (c * i) c) (wordEvents_writesTo b k)
    he, concatUpTo_range']

theorem readsFrom_indexedLog_range (b : Buf) (hb : b ≠ Buf.input) (k c : Nat)
    (ev : Nat → List Event) (he : ∀ i, readsFrom b (ev i) = List.range' (c * i) c) (n : Nat) :
    readsFrom b (indexedLog k ev n) = List.range (c * n) := by
  unfold readsFrom at he ⊢
  rw [filterMap_indexedLog _ k ev (fun i => List.range' (c * i) c)
    (wordEvents_readsFrom b hb k) he, concatUpTo_range']

theorem scoreLog_writesTo_score (ps row : Nat) :
    ∀ j, writesTo Buf.score (scoreLog ps row j) = List.range' ps j := by
  intro j
  induction j with
  | zero => rfl
  | succ j ih =>
    unfold writesTo at ih ⊢
    simp [scoreLog, List.filterMap_append, ih, List.range'_concat]

theorem gradLog_writesTo_score (pg : Nat) :
    ∀ j, writesTo Buf.score (gradLog pg j) = [] := by
  intro j
  induction j with
  | zero => rfl
  | succ j ih =>
    unfold writesTo at ih ⊢
    simp [gradLog, List.filterMap_append, ih]

theorem multiclassEvents_writesTo_score (cScores : Nat) (bin : Nat → Nat) (i : Nat) :
    writesTo Buf.score (multiclassEvents cScores bin i) = List.range' (cScores * i) cScores := by
  have h1 := scoreLog_writesTo_score (i * cScores) (bin i * cScores) cScores
  have h2 := gradLog_writesTo_score (2 * (i * cScores)) cScores
  unfold writesTo at h1 h2 ⊢
  simp only [multiclassEvents, multiclassTail, List.filterMap_append, h1, h2,
    List.append_nil, Nat.mul_comm cScores i]
  rfl

theorem binaryEvents_writesTo_score (bin : Nat → Nat) (i : Nat) :
    writesTo Buf.score (binaryEvents bin i) = List.range' (1 * i) 1 := by
  simp [writesTo, binaryEvents, binaryTail, List.range'_succ]

/-- Every template instance of the indexed function returns with its moving pointer at the
true end, having decoded one bin per sample in index order and stored every value of the
sample range exactly once, in increasing order of the offsets -/
theorem internal_run_extent {F : Type} [Zero F] [Add F] (H : Headers) (N : Numerics F)
    (cCompilerClasses compilerBitPack : Int) (a : Args F)
    (hv : ValidInternal H cCompilerClasses compilerBitPack a) (fuel : Nat)
    (hf : a.cSamples + internalScores H cCompilerClasses a < fuel) :
    ∃ m, ApplyTermUpdateTrainingInternal H N cCompilerClasses compilerBitPack fuel a
        = some m ∧
      internalPos H cCompilerClasses m = internalTrueEnd H cCompilerClasses a ∧
      decodedBins m.log = (List.range a.cSamples).map (binOf H compilerBitPack a) ∧
      writesTo Buf.gradHess m.log
        = List.range (internalValues H cCompilerClasses a * a.cSamples) ∧
      (cCompilerClasses ≠ H.k_regression →
        writesTo Buf.score m.log
          = List.range (internalScores H cCompilerClasses a * a.cSamples)) := by
  unfold ApplyTermUpdateTrainingInternal internalPos internalTrueEnd internalValues
  by_cases hr : cCompilerClasses = H.k_regression
  · simp only [hr, if_true]
    obtain ⟨m, h1, hI, _, hl⟩ := regression_indexed_run H N compilerBitPack a
      (hv.regression hr) fuel (by omega)
    refine ⟨m, h1, hI.pGradientAndHessian, ?_, ?_, fun h => absurd rfl h⟩
    · rw [hl, decodedBins_indexedLog _ _ _ (sampleEvents_regression _)]
    · rw [hl, writesTo_gradHess_indexedLog _ 1 _ (writesTo_gradHess_regressionEvents _)]
  · simp only [hr, if_false]
    by_cases h2 : cCompilerClasses = 2
    · simp only [h2, if_true]
      have hv1 := hv.classification hr
      simp only [internalScores, h2, if_true] at hv1 ⊢
      obtain ⟨m, h1, hI, _, hl⟩ := binary_indexed_run H N compilerBitPack a hv1 fuel
        (by omega)
      refine ⟨m, h1, by rw [hI.pSampleScore, Nat.mul_one], ?_, ?_, fun _ => ?_⟩
      · rw [hl, decodedBins_indexedLog _ _ _ (sampleEvents_binary _)]
      · rw [hl, writesTo_gradHess_indexedLog _ 2 _ (writesTo_gradHess_binaryEvents _)]
      · rw [hl, writesTo_indexedLog_range _ _ 1 _ (binaryEvents_writesTo_score _)]
    · simp only [h2, if_false]
      have hv1 := hv.classification hr
      have hE := hv.scratch hr h2
      simp only [internalScores, h2, if_false] at hv1 hE hf ⊢
      obtain ⟨m, h1, hI, _, hl⟩ := multiclass_indexed_run H N cCompilerClasses
        compilerBitPack a hv1 hE fuel hf
      refine ⟨m, h1, hI.pSampleScore, ?_, ?_, fun _ => ?_⟩
      · rw [hl, decodedBins_indexedLog _ _ _ (sampleEvents_multiclass _ _)]
      · rw [hl, writesTo_gradHess_indexedLog _ _ _ (writesTo_gradHess_multiclassEvents _ _)]
      · rw [hl, writesTo_indexedLog_range _ _ _ _ (multiclassEvents_writesTo_score _ _)]


/-! ## Words consumed by an indexed run -/

theorem ceil_div_eq (n k : Nat) (hn : 0 < n) (hk : 0 < k) :
    (n + k - 1) / k = (n - 1) / k + 1 ∧
      n / k + (if n % k = 0 then 0 else 1) = (n - 1) / k + 1 := by
  obtain ⟨j, rfl⟩ : ∃ j, n = j + 1 := ⟨n - 1, by omega⟩
  constructor
  · have h : j + 1 + k - 1 = j + k := by omega
    rw [h, Nat.add_div_right _ hk, Nat.add_sub_cancel]
  · rw [Nat.add_sub_cancel]
    rcases succ_div_mod_cases j k hk with ⟨h1, h2, _⟩ | ⟨h1, h2⟩
    · rw [h1, h2, if_pos rfl]
    · rw [h1, h2, if_neg (by omega)]


/-! ## The exit pointer -/

/-- With more samples than items per word the block loop is entered with the exit pointer
`pSampleScoresExit` and the inner end one stride after the start -/
theorem blockLoopEntry_exit {F : Type} (aInputData : List Nat)
    (body : Nat → Machine F → Option (Machine F)) (pos : Machine F → Nat)
    (cSamples cItemsPerBitPack pScale fuel : Nat) (m : Machine F)
    (h : cItemsPerBitPack < cSamples) :
    blockLoopEntry aInputData body pos cSamples cItemsPerBitPack pScale fuel m
      = blockLoop aInputData body pos (cItemsPerBitPack * pScale) (pos m + cSamples * pScale)
          fuel (pSampleScoresExit (pos m) cSamples cItemsPerBitPack pScale)
          (pos m + cItemsPerBitPack * pScale) m := by
  unfold blockLoopEntry pSampleScoresExit
  rw [if_neg (by omega)]

theorem pSampleScoresExit_eq (p n k c : Nat) (hk : 1 ≤ k) (hn : 1 ≤ n) :
    ((n - 1) % k + 1) * c ≤ n * c ∧
      pSampleScoresExit p n k c = p + (n - 1) / k * (k * c) ∧
      (n - 1) / k * k + ((n - 1) % k + 1) = n := by
  have hdm := Nat.div_add_mod (n - 1) k
  have hmod := Nat.mod_lt (n - 1) hk
  have hsplit : (n - 1) / k * k + ((n - 1) % k + 1) = n := by
    rw [Nat.mul_comm]
    omega
  have hmul : n * c = (n - 1) / k * (k * c) + ((n - 1) % k + 1) * c := by
    rw [← Nat.mul_assoc, ← Nat.add_mul, hsplit]
  refine ⟨by rw [hmul]; exact Nat.le_add_left _ _, ?_, hsplit⟩
  unfold pSampleScoresExit
  rw [hmul, ← Nat.add_assoc, Nat.add_sub_cancel]


/-! ## The multiclass template for a compiled class count and for the dynamic one -/

theorem scoresOf_compiled {F : Type} [Zero F] (H : Headers) (hH : H.WellFormed) (a : Args F)
    (hc : 3 ≤ a.cRuntimeClasses) :
    scoresOf H a.cRuntimeClasses a = GetCountScores a.cRuntimeClasses ∧
    scoresOf H H.k_dynamicClassification a = GetCountScores a.cRuntimeClasses ∧
    (aExpsOf H a.cRuntimeClasses a).length = GetCountScores a.cRuntimeClasses ∧
    aExpsOf H H.k_dynamicClassification a = a.aMulticlassMidwayTemp := by
  have hd := hH.dynamic_lt
  have hne : ¬ H.k_dynamicClassification = a.cRuntimeClasses := by omega
  refine ⟨?_, ?_, ?_, ?_⟩
  · unfold scoresOf GET_COUNT_CLASSES
    rw [if_neg hne]
  · unfold scoresOf GET_COUNT_CLASSES
    rw [if_pos rfl]
  · unfold aExpsOf
    rw [if_neg hne, List.length_replicate]
  · unfold aExpsOf
    rw [if_pos rfl]

/-- The multiclass template instantiated for the class count of the call and instantiated for
the dynamic class count return the same score buffer and the same gradient/hessian buffer, on
the indexed path and on the zero-feature path -/
theorem multiclass_variants_eq {F : Type} [Zero F] [Add F] (H : Headers) (N : Numerics F)
    (hH : H.WellFormed) (a : Args F) (hc : 3 ≤ a.cRuntimeClasses)
    (hE : GetCountScores a.cRuntimeClasses ≤ a.aMulticlassMidwayTemp.length) (fuel : Nat)
    (hf : a.cSamples + GetCountScores a.cRuntimeClasses < fuel) :
    (∀ compilerBitPack : Int,
      ValidIndexed a (itemsOf H compilerBitPack a) (binOf H compilerBitPack a)
        (GetCountScores a.cRuntimeClasses) →
      ∃ m1 m2,
        ApplyTermUpdateTrainingInternal H N a.cRuntimeClasses compilerBitPack fuel a
          = some m1 ∧
        ApplyTermUpdateTrainingInternal H N H.k_dynamicClassification compilerBitPack fuel a
          = some m2 ∧
        m1.aSampleScore = m2.aSampleScore ∧
        m1.aGradientAndHessian = m2.aGradientAndHessian) ∧
    (ValidZero a (GetCountScores a.cRuntimeClasses) →
      ∃ m1 m2,
        ApplyTermUpdateTrainingZeroFeatures H N a.cRuntimeClasses fuel a = some m1 ∧
        ApplyTermUpdateTrainingZeroFeatures H N H.k_dynamicClassification fuel a = some m2 ∧
        m1.aSampleScore = m2.aSampleScore ∧
        m1.aGradientAndHessian = m2.aGradientAndHessian) := by
  have hpos := GetCountScores_pos a.cRuntimeClasses
  have hr := hH.regression_lt
  have hd := hH.dynamic_lt
  have hrd := hH.regression_ne_dynamic
  have h1 : ¬ a.cRuntimeClasses = H.k_regression := by omega
  have h2 : ¬ a.cRuntimeClasses = 2 := by omega
  have h3 : ¬ H.k_dynamicClassification = H.k_regression := fun h => hrd h.symm
  have h4 : ¬ H.k_dynamicClassification = 2 := by omega
  obtain ⟨s1, s2, e1, e2⟩ := scoresOf_compiled H hH a hc
  constructor
  · intro compilerBitPack hv
    unfold ApplyTermUpdateTrainingInternal
    simp only [h1, h2, h3, h4, if_false]
    obtain ⟨m1, r1, I1, _⟩ := multiclass_indexed_run H N a.cRuntimeClasses compilerBitPack a
      (by rw [s1]; exact hv) (by rw [s1, e1]) fuel (by rw [s1]; exact hf)
    obtain ⟨m2, r2, I2, _⟩ := multiclass_indexed_run H N H.k_dynamicClassification
      compilerBitPack a (by rw [s2]; exact hv) (by rw [s2, e2]; exact hE) fuel
      (by rw [s2]; exact hf)
    rw [s1] at I1
    rw [s2] at I2
    exact ⟨m1, m2, r1, r2, multiclassInv_buffers_eq I1 I2 (fun _ _ => rfl) hpos⟩
  · intro hv
    unfold ApplyTermUpdateTrainingZeroFeatures
    simp only [h1, h2, h3, h4, if_false]
    obtain ⟨m1, r1, I1, _⟩ := multiclass_zero_run H N a.cRuntimeClasses a
      (by rw [s1]; exact hv) (by rw [s1, e1]) fuel (by rw [s1]; exact hf)
    obtain ⟨m2, r2, I2, _⟩ := multiclass_zero_run H N H.k_dynamicClassification a
      (by rw [s2]; exact hv) (by rw [s2, e2]; exact hE) fuel (by rw [s2]; exact hf)
    rw [s1] at I1
    rw [s2] at I2
    exact ⟨m1, m2, r1, r2, multiclassInv_buffers_eq I1 I2 (fun _ _ => rfl) hpos⟩

/-! ## Two updates in a row against their sum -/

theorem sumTensor_getElem? {F : Type} [Add F] :
    ∀ (U1 U2 : List F) (i : Nat) (u1 u2 : F), U1[i]? = some u1 → U2[i]? = some u2 →
      (sumTensor U1 U2)[i]? = some (u1 + u2) := by
  intro U1
  induction U1 with
  | nil =>
    intro U2 i u1 u2 h1 _
    simp at h1
  | cons x U1 ih =>
    intro U2 i u1 u2 h1 h2
    cases U2 with
    | nil => simp at h2
    | cons y U2 =>
      cases i with
      | zero =>
        simp only [List.getElem?_cons_zero, Option.some.injEq] at h1 h2
        simp [sumTensor, h1, h2]
      | succ i =>
        simp only [List.getElem?_cons_succ] at h1 h2
        have := ih U2 i u1 u2 h1 h2
        simpa [sumTensor] using this

theorem sumTensor_length {F : Type} [Add F] (U1 U2 : List F) (h : U2.length = U1.length) :
    (sumTensor U1 U2).length = U1.length := by
  unfold sumTensor
  rw [List.length_zipWith, h, Nat.min_self]

/-- Regression: the gradients after the update `U1` followed by the update `U2` are those
after the single update `U1 + U2`, when the helper subtracts the update from the gradient -/
theorem regression_compose {F : Type} [AddCommGroup F] {N : Numerics F}
    (hN : ∀ g u, N.ComputeGradientRegressionMSEFromOriginalGradient g u = g - u)
    {a a2 a12 : Args F} {bin : Nat → Nat} {n : Nat} {m1 m2 m12 : Machine F}
    (I1 : RegressionInv N a bin n m1) (I2 : RegressionInv N a2 bin n m2)
    (I12 : RegressionInv N a12 bin n m12)
    (hS2 : a2.aSampleScore = m1.aSampleScore)
    (hG2 : a2.aGradientAndHessian = m1.aGradientAndHessian)
    (hS12 : a12.aSampleScore = a.aSampleScore)
    (hG12 : a12.aGradientAndHessian = a.aGradientAndHessian)
    (hU12 : a12.aUpdateScores = sumTensor a.aUpdateScores a2.aUpdateScores)
    (hGl : n ≤ a.aGradientAndHessian.length)
    (hU1 : ∀ i, i < n → bin i < a.aUpdateScores.length)
    (hU2 : ∀ i, i < n → bin i < a2.aUpdateScores.length) :
    m2.aSampleScore = m12.aSampleScore ∧ m2.aGradientAndHessian = m12.aGradientAndHessian := by
  constructor
  · rw [I2.aSampleScore, hS2, I1.aSampleScore, I12.aSampleScore, hS12]
  · apply List.ext_getElem?
    intro idx
    by_cases hlt : idx < n
    · obtain ⟨g, hg⟩ : ∃ g, a.aGradientAndHessian[idx]? = some g :=
        ⟨_, List.getElem?_eq_getElem (by omega)⟩
      obtain ⟨u1, hu1⟩ : ∃ u, a.aUpdateScores[bin idx]? = some u :=
        ⟨_, List.getElem?_eq_getElem (hU1 idx hlt)⟩
      obtain ⟨u2, hu2⟩ : ∃ u, a2.aUpdateScores[bin idx]? = some u :=
        ⟨_, List.getElem?_eq_getElem (hU2 idx hlt)⟩
      have e1 := I1.grad idx hlt g u1 hg hu1
      have e2 := I2.grad idx hlt _ u2 (by rw [hG2]; exact e1) hu2
      have e12 := I12.grad idx hlt g (u1 + u2) (by rw [hG12]; exact hg)
        (by rw [hU12]; exact sumTensor_getElem? _ _ _ _ _ hu1 hu2)
      rw [e2, e12, hN, hN, hN, sub_sub]
    · rw [I2.ghRest idx (by omega), hG2, I1.ghRest idx (by omega),
        I12.ghRest idx (by omega), hG12]

/-- Binary classification: the scores and the gradient/hessian pairs after the update `U1`
followed by the update `U2` are those after the single update `U1 + U2` -/
theorem binary_compose {F : Type} [AddCommGroup F] {N : Numerics F}
    {a a2 a12 : Args F} {bin : Nat → Nat} {n : Nat} {m1 m2 m12 : Machine F}
    (I1 : BinaryInv N a bin n m1) (I2 : BinaryInv N a2 bin n m2)
    (I12 : BinaryInv N a12 bin n m12)
    (hS2 : a2.aSampleScore = m1.aSampleScore)
    (hG2 : a2.aGradientAndHessian = m1.aGradientAndHessian)
    (hT2 : a2.aTargetData = a.aTargetData)
    (hS12 : a12.aSampleScore = a.aSampleScore)
    (hG12 : a12.aGradientAndHessian = a.aGradientAndHessian)
    (hT12 : a12.aTargetData = a.aTargetData)
    (hU12 : a12.aUpdateScores = sumTensor a.aUpdateScores a2.aUpdateScores)
    (hTl : n ≤ a.aTargetData.length) (hSl : n ≤ a.aSampleScore.length)
    (hU1 : ∀ i, i < n → bin i < a.aUpdateScores.length)
    (hU2 : ∀ i, i < n → bin i < a2.aUpdateScores.length) :
    m2.aSampleScore = m12.aSampleScore ∧ m2.aGradientAndHessian = m12.aGradientAndHessian := by
  have hval : ∀ i, i < n → ∃ o u1 u2 t, a.aSampleScore[i]? = some o ∧
      a.aUpdateScores[bin i]? = some u1 ∧ a2.aUpdateScores[bin i]? = some u2 ∧
      a.aTargetData[i]? = some t ∧ a2.aSampleScore[i]? = some (o + u1) ∧
      a12.aUpdateScores[bin i]? = some (u1 + u2) := by
    intro i hi
    obtain ⟨o, ho⟩ : ∃ o, a.aSampleScore[i]? = some o :=
      ⟨_, List.getElem?_eq_getElem (by omega)⟩
    obtain ⟨u1, hu1⟩ : ∃ u, a.aUpdateScores[bin i]? = some u :=
      ⟨_, List.getElem?_eq_getElem (hU1 i hi)⟩
    obtain ⟨u2, hu2⟩ : ∃ u, a2.aUpdateScores[bin i]? = some u :=
      ⟨_, List.getElem?_eq_getElem (hU2 i hi)⟩
    obtain ⟨t, ht⟩ : ∃ t, a.aTargetData[i]? = some t :=
      ⟨_, List.getElem?_eq_getElem (by omega)⟩
    exact ⟨o, u1, u2, t, ho, hu1, hu2, ht, by rw [hS2]; exact I1.score i hi o u1 ho hu1,
      by rw [hU12]; exact sumTensor_getElem? _ _ _ _ _ hu1 hu2⟩
  constructor
  · apply List.ext_getElem?
    intro idx
    by_cases hlt : idx < n
    · obtain ⟨o, u1, u2, _, ho, _, hu2, _, ho2, hu12⟩ := hval idx hlt
      rw [I2.score idx hlt _ u2 ho2 hu2,
        I12.score idx hlt o _ (by rw [hS12]; exact ho) hu12, add_assoc]
    · rw [I2.scoreRest idx (by omega), hS2, I1.scoreRest idx (by omega),
        I12.scoreRest idx (by omega), hS12]
  · apply List.ext_getElem?
    intro idx
    by_cases hlt : idx < 2 * n
    · obtain ⟨o, u1, u2, t, ho, _, hu2, ht, ho2, hu12⟩ := hval (idx / 2) (by omega)
      have e2 := I2.grad (idx / 2) (by omega) _ u2 t ho2 hu2 (by rw [hT2]; exact ht)
      have e12 := I12.grad (idx / 2) (by omega) o _ t (by rw [hS12]; exact ho) hu12
        (by rw [hT12]; exact ht)
      rw [add_assoc] at e2
      rcases Nat.mod_two_eq_zero_or_one idx with hm | hm
      · have hidx : idx = 2 * (idx / 2) := by omega
        rw [hidx, e2.1, e12.1]
      · have hidx : idx = 2 * (idx / 2) + 1 := by omega
        rw [hidx, e2.2, e12.2]
    · rw [I2.ghRest idx (by omega), hG2, I1.ghRest idx (by omega),
        I12.ghRest idx (by omega), hG12]

theorem mcGH_of_scores {F : Type} [Zero F] [Add F] (N : Numerics F) (a2 a12 : Args F)
    (cScores : Nat) (bin : Nat → Nat) (i : Nat)
    (hs : ∀ j, j < cScores → mcScore a2 cScores bin i j = mcScore a12 cScores bin i j)
    (hT : a2.aTargetData = a12.aTargetData) :
    ∀ j, j < cScores → mcGH N a2 cScores bin i j = mcGH N a12 cScores bin i j := by
  intro j hj
  unfold mcGH mcSum
  have hexp : ∀ j, j < cScores → mcExp N a2 cScores bin i j = mcExp N a12 cScores bin i j := by
    intro j hj
    unfold mcExp
    rw [hs j hj]
  rw [sumUpTo_congr _ _ cScores hexp, hexp j hj, hT]

/-- Multiclass classification: the scores and the gradient/hessian pairs after the update
`U1` followed by the update `U2` are those after the single update `U1 + U2` -/
theorem multiclass_compose {F : Type} [AddCommGroup F] {N : Numerics F}
    {a a2 a12 : Args F} {cScores : Nat} {bin : Nat → Nat} {len1 len2 len12 n : Nat}
    {m1 m2 m12 : Machine F}
    (I1 : MulticlassInv N a cScores bin len1 n m1)
    (I2 : MulticlassInv N a2 cScores bin len2 n m2)
    (I12 : MulticlassInv N a12 cScores bin len12 n m12)
    (hS2 : a2.aSampleScore = m1.aSampleScore)
    (hG2 : a2.aGradientAndHessian = m1.aGradientAndHessian)
    (hT2 : a2.aTargetData = a.aTargetData)
    (hS12 : a12.aSampleScore = a.aSampleScore)
    (hG12 : a12.aGradientAndHessian = a.aGradientAndHessian)
    (hT12 : a12.aTargetData = a.aTargetData)
    (hU12 : a12.aUpdateScores = sumTensor a.aUpdateScores a2.aUpdateScores)
    (hc : 1 ≤ cScores)
    (hU1 : ∀ i, i < n → (bin i + 1) * cScores ≤ a.aUpdateScores.length)
    (hU2 : ∀ i, i < n → (bin i + 1) * cScores ≤ a2.aUpdateScores.length) :
    m2.aSampleScore = m12.aSampleScore ∧ m2.aGradientAndHessian = m12.aGradientAndHessian := by
  have hsc : ∀ i, i < n → ∀ j, j < cScores →
      mcScore a2 cScores bin i j = mcScore a12 cScores bin i j := by
    intro i hi j hj
    have hb1 := hU1 i hi
    have hb2 := hU2 i hi
    rw [Nat.succ_mul (bin i) cScores] at hb1 hb2
    obtain ⟨u1, hu1⟩ : ∃ u, a.aUpdateScores[bin i * cScores + j]? = some u :=
      ⟨_, List.getElem?_eq_getElem (by omega)⟩
    obtain ⟨u2, hu2⟩ : ∃ u, a2.aUpdateScores[bin i * cScores + j]? = some u :=
      ⟨_, List.getElem?_eq_getElem (by omega)⟩
    have h1 := I1.score i hi j hj
    unfold mcScore at h1 ⊢
    rw [hS2, getD_of_getElem? _ _ _ _ h1, hS12, hU12,
      getD_of_getElem? _ _ _ _ (sumTensor_getElem? _ _ _ _ _ hu1 hu2),
      getD_of_getElem? _ _ _ _ hu1, getD_of_getElem? _ _ _ _ hu2, add_assoc]
  have hsplit : ∀ p, p < n * cScores →
      p / cScores < n ∧ p % cScores < cScores ∧ p = p / cScores * cScores + p % cScores := by
    intro p hp
    refine ⟨(Nat.div_lt_iff_lt_mul hc).2 hp, Nat.mod_lt _ hc, ?_⟩
    have := Nat.div_add_mod p cScores
    rw [Nat.mul_comm] at this
    exact this.symm
  constructor
  · apply List.ext_getElem?
    intro idx
    by_cases hlt : idx < n * cScores
    · obtain ⟨hi, hj, hidx⟩ := hsplit idx hlt
      rw [hidx, I2.score _ hi _ hj, I12.score _ hi _ hj, hsc _ hi _ hj]
    · rw [I2.scoreRest idx (by omega), hS2, I1.scoreRest idx (by omega),
        I12.scoreRest idx (by omega), hS12]
  · apply List.ext_getElem?
    intro idx
    by_cases hlt : idx < 2 * (n * cScores)
    · obtain ⟨hi, hj, hp⟩ := hsplit (idx / 2) (by omega)
      have e2 := I2.gh _ hi _ hj
      have e12 := I12.gh _ hi _ hj
      rw [← hp] at e2 e12
      rw [mcGH_of_scores N a2 a12 cScores bin _ (hsc _ hi) (by rw [hT2, hT12]) _ hj] at e2
      rcases Nat.mod_two_eq_zero_or_one idx with hm | hm
      · have hidx : idx = 2 * (idx / 2) := by omega
        rw [hidx, e2.1, e12.1]
      · have hidx : idx = 2 * (idx / 2) + 1 := by omega
        rw [hidx, e2.2, e12.2]
    · rw [I2.ghRest idx (by omega), hG2, I1.ghRest idx (by omega),
        I12.ghRest idx (by omega), hG12]

theorem iterate_shiftRight (w x : Nat) :
    ∀ j, Nat.iterate (fun y => y >>> w) j x = x >>> (j * w) := by
  intro j
  induction j with
  | zero => simp
  | succ j ih =>
    rw [Function.iterate_succ_apply', ih, Nat.succ_mul, Nat.shiftRight_add]

/-! ## The claims -/

/-- C1. Classification, indexed path: for every sample count of at least 1, every valid pack
width, every sample `i` and score slot `j < cScores`, the call returns and afterwards
`score[i * cScores + j]` is its old value plus `updateTensor[bin_i * cScores + j]`, where
`bin_i` is the `i`-th bin index the run decoded (`cScores` is 1 for the binary
specialisation and `GetCountScores` of the class count otherwise). -/
theorem C1_indexed_score_update {F : Type} [Zero F] [Add F] (H : Headers) (N : Numerics F)
    (cCompilerClasses compilerBitPack : Int) (a : Args F)
    (hcls : cCompilerClasses ≠ H.k_regression)
    (hv : ValidInternal H cCompilerClasses compilerBitPack a) (fuel : Nat)
    (hf : a.cSamples + internalScores H cCompilerClasses a < fuel) :
    ∃ m, ApplyTermUpdateTrainingInternal H N cCompilerClasses compilerBitPack fuel a
        = some m ∧
      decodedBins m.log = (List.range a.cSamples).map (binOf H compilerBitPack a) ∧
      m.aSampleScore.length = a.aSampleScore.length ∧
      ∀ i, i < a.cSamples → ∀ j, j < internalScores H cCompilerClasses a →
        ∃ o u, a.aSampleScore[i * internalScores H cCompilerClasses a + j]? = some o ∧
          a.aUpdateScores[binOf H compilerBitPack a i * internalScores H cCompilerClasses a
            + j]? = some u ∧
          m.aSampleScore[i * internalScores H cCompilerClasses a + j]? = some (o + u) := by
  obtain ⟨m, h1, hlen, hs⟩ := internal_run_scores H N cCompilerClasses compilerBitPack a hcls
    hv fuel hf
  obtain ⟨m1, ev, h2, hlog, hev, _⟩ := internal_run_log H N cCompilerClasses compilerBitPack
    a hv fuel hf
  obtain rfl : m = m1 := by
    rw [h1] at h2
    exact Option.some.inj h2
  refine ⟨m, h1, ?_, hlen, hs⟩
  rw [hlog, decodedBins_indexedLog _ _ _ hev]

/-- C1, witness: the binary scenario of the spec.  The decoded bins are `[0, 1, 0]` and the
scores `[0, 0, 0]` become `[0.1, -0.2, 0.1]`. -/
theorem C1_indexed_score_update_witness :
    ∃ m, ApplyTermUpdateTrainingInternal exampleHeaders exampleNumerics 2 0 5 binaryScenario
        = some m ∧
      decodedBins m.log = [0, 1, 0] ∧ m.aSampleScore = [1 / 10, -1 / 5, 1 / 10] := by
  have hv : ValidInternal exampleHeaders 2 0 binaryScenario :=
    ⟨fun h => absurd h (by decide),
      fun _ => ⟨by decide, by decide, by decide, by decide, by decide, by decide, by decide⟩,
      fun _ h => absurd rfl h⟩
  obtain ⟨m, h1, hd, hlen, hs⟩ := C1_indexed_score_update exampleHeaders exampleNumerics 2 0
    binaryScenario (by decide) hv 5 (by decide)
  refine ⟨m, h1, ?_, ?_⟩
  · rw [hd]
    decide
  · obtain ⟨o0, u0, ho0, hu0, hm0⟩ := hs 0 (by decide) 0 (by decide)
    obtain ⟨o1, u1, ho1, hu1, hm1⟩ := hs 1 (by decide) 0 (by decide)
    obtain ⟨o2, u2, ho2, hu2, hm2⟩ := hs 2 (by decide) 0 (by decide)
    have hi : internalScores exampleHeaders 2 binaryScenario = 1 := by decide
    have hb0 : binOf exampleHeaders 0 binaryScenario 0 = 0 := by decide
    have hb1 : binOf exampleHeaders 0 binaryScenario 1 = 1 := by decide
    have hb2 : binOf exampleHeaders 0 binaryScenario 2 = 0 := by decide
    have hl : m.aSampleScore.length = 3 := hlen
    obtain ⟨x, y, z, hxyz⟩ := List.length_eq_three.1 hl
    rw [hi, hb0] at hu0
    rw [hi, hb1] at hu1
    rw [hi, hb2] at hu2
    rw [hi] at ho0 ho1 ho2 hm0 hm1 hm2
    rw [hxyz] at hm0 hm1 hm2
    simp [binaryScenario] at ho0 ho1 ho2 hu0 hu1 hu2 hm0 hm1 hm2
    rw [hxyz, hm0, hm1, hm2, ← ho0, ← ho1, ← ho2, ← hu0, ← hu1, ← hu2]
    norm_num

/-- C5. Decoding order: for every sample count of at least 1 and every items-per-word count `k`
with bit width `w` (`k * w` at most the word width), every template instance of the indexed
function returns and the bin indices it decodes for samples `0 .. cSamples-1` are, in the same
order, those of the one-at-a-time decoder: sample `i` uses
`(word[i div k] >> ((i mod k) * w)) mod 2^w`. -/
theorem C5_decoding_order {F : Type} [Zero F] [Add F] (H : Headers) (N : Numerics F)
    (cCompilerClasses compilerBitPack : Int) (a : Args F)
    (hv : ValidInternal H cCompilerClasses compilerBitPack a)
    (hkw : itemsOf H compilerBitPack a * bitsOf H compilerBitPack a ≤ H.k_cBitsForStorageType)
    (fuel : Nat) (hf : a.cSamples + internalScores H cCompilerClasses a < fuel) :
    ∃ m, ApplyTermUpdateTrainingInternal H N cCompilerClasses compilerBitPack fuel a
        = some m ∧
      decodedBins m.log = naiveDecode (bitsOf H compilerBitPack a)
        (itemsOf H compilerBitPack a) a.aInputData a.cSamples := by
  obtain ⟨m, ev, h1, hlog, hev, _⟩ := internal_run_log H N cCompilerClasses compilerBitPack
    a hv fuel hf
  refine ⟨m, h1, ?_⟩
  have hk : 1 ≤ itemsOf H compilerBitPack a := by
    by_cases hr : cCompilerClasses = H.k_regression
    · exact (hv.regression hr).cItemsPerBitPack
    · exact (hv.classification hr).cItemsPerBitPack
  have hw : bitsOf H compilerBitPack a ≤ H.k_cBitsForStorageType :=
    Nat.le_trans (Nat.le_mul_of_pos_left _ hk) hkw
  rw [hlog, decodedBins_indexedLog _ _ _ hev]
  unfold naiveDecode
  apply List.map_congr_left
  intro i _
  exact binAt_eq_mod H _ _ hw _ i

/-- C5, witness: sample counts 1, `k`, `k + 1` and `2 * k + 3` with `k = 8` items of 1 bit
per 8-bit word; the run decodes the bits of the words `178, 77, 5` from the low end of the
first word onwards. -/
theorem C5_decoding_order_witness :
    (∃ m, ApplyTermUpdateTrainingInternal exampleHeaders exampleNumerics (-1) 0 3
        (decodeScenario 1) = some m ∧ decodedBins m.log = [0]) ∧
    (∃ m, ApplyTermUpdateTrainingInternal exampleHeaders exampleNumerics (-1) 0 10
        (decodeScenario 8) = some m ∧ decodedBins m.log = [0, 1, 0, 0, 1, 1, 0, 1]) ∧
    (∃ m, ApplyTermUpdateTrainingInternal exampleHeaders exampleNumerics (-1) 0 11
        (decodeScenario 9) = some m ∧ decodedBins m.log = [0, 1, 0, 0, 1, 1, 0, 1, 1]) ∧
    (∃ m, ApplyTermUpdateTrainingInternal exampleHeaders exampleNumerics (-1) 0 21
        (decodeScenario 19) = some m ∧
      decodedBins m.log = [0, 1, 0, 0, 1, 1, 0, 1, 1, 0, 1, 1, 0, 0, 1, 0, 1, 0, 1]) := by
  have hv : ∀ n, 1 ≤ n → n ≤ 19 → ValidInternal exampleHeaders (-1) 0 (decodeScenario n) := by
    intro n h1 h19
    have hbin : ∀ i, i < 19 → binOf exampleHeaders 0 (decodeScenario 19) i < 2 := by decide
    refine ⟨fun _ => ⟨h1, ?_, ?_, ?_, ?_⟩, fun h => absurd rfl h, fun h => absurd rfl h⟩
    · show 1 ≤ 8
      decide
    · show (n + 8 - 1) / 8 ≤ 3
      omega
    · show n ≤ (List.replicate n (0 : ℚ)).length
      simp
    · intro i hi
      exact hbin i (Nat.lt_of_lt_of_le hi h19)
  refine ⟨?_, ?_, ?_, ?_⟩
  · obtain ⟨m, h1, h2⟩ := C5_decoding_order exampleHeaders exampleNumerics (-1) 0
      (decodeScenario 1) (hv 1 (by decide) (by decide)) (by decide) 3 (by decide)
    exact ⟨m, h1, h2.trans (by decide)⟩
  · obtain ⟨m, h1, h2⟩ := C5_decoding_order exampleHeaders exampleNumerics (-1) 0
      (decodeScenario 8) (hv 8 (by decide) (by decide)) (by decide) 10 (by decide)
    exact ⟨m, h1, h2.trans (by decide)⟩
  · obtain ⟨m, h1, h2⟩ := C5_decoding_order exampleHeaders exampleNumerics (-1) 0
      (decodeScenario 9) (hv 9 (by decide) (by decide)) (by decide) 11 (by decide)
    exact ⟨m, h1, h2.trans (by decide)⟩
  · obtain ⟨m, h1, h2⟩ := C5_decoding_order exampleHeaders exampleNumerics (-1) 0
      (decodeScenario 19) (hv 19 (by decide) (by decide)) (by decide) 21 (by decide)
    exact ⟨m, h1, h2.trans (by decide)⟩

/-- C6, counterexample: 9 samples with 8 items per word.  The first block processed holds 8
samples, not `((9 - 1) mod 8) + 1 = 1`; the short block is the second and last one. -/
theorem C6_first_block_counterexample :
    ∃ m, ApplyTermUpdateTrainingInternal exampleHeaders exampleNumerics (-1) 0 11
        (decodeScenario 9) = some m ∧
      blockSizes m.log = [8, 1] ∧ (blockSizes m.log).head? ≠ some ((9 - 1) % 8 + 1) := by
  have hv : ValidInternal exampleHeaders (-1) 0 (decodeScenario 9) :=
    ⟨fun _ => ⟨by decide, by decide, by decide, by decide, by decide⟩,
      fun h => absurd rfl h, fun h => absurd rfl h⟩
  obtain ⟨m, ev, h1, hlog, hev, _⟩ := internal_run_log exampleHeaders exampleNumerics (-1) 0
    (decodeScenario 9) hv 11 (by decide)
  have hb : blockSizes m.log = [8, 1] := by
    rw [hlog]
    exact blockSizes_indexedLog 8 (by decide) _ ev hev 9 (by decide)
  refine ⟨m, h1, hb, ?_⟩
  rw [hb]
  decide

/-- C6, amended. Block sizes: for every sample count of at least 1 and every items-per-word
count `k` of at least 1, every template instance of the indexed function processes
`(cSamples - 1) div k` blocks of exactly `k` samples followed by one last block of
`((cSamples - 1) mod k) + 1` samples, the only block that may be shorter than `k`; every block
starts with the load of exactly one packed word, and the words are loaded in stream order. -/
theorem C6_last_block_short {F : Type} [Zero F] [Add F] (H : Headers) (N : Numerics F)
    (cCompilerClasses compilerBitPack : Int) (a : Args F)
    (hv : ValidInternal H cCompilerClasses compilerBitPack a) (fuel : Nat)
    (hf : a.cSamples + internalScores H cCompilerClasses a < fuel) :
    ∃ m, ApplyTermUpdateTrainingInternal H N cCompilerClasses compilerBitPack fuel a
        = some m ∧
      blockSizes m.log
        = List.replicate ((a.cSamples - 1) / itemsOf H compilerBitPack a)
            (itemsOf H compilerBitPack a)
          ++ [(a.cSamples - 1) % itemsOf H compilerBitPack a + 1] ∧
      readsFrom Buf.input m.log
        = List.range ((a.cSamples - 1) / itemsOf H compilerBitPack a + 1) := by
  obtain ⟨m, ev, h1, hlog, hev, _⟩ := internal_run_log H N cCompilerClasses compilerBitPack
    a hv fuel hf
  have hk : 1 ≤ itemsOf H compilerBitPack a ∧ 1 ≤ a.cSamples := by
    by_cases hr : cCompilerClasses = H.k_regression
    · exact ⟨(hv.regression hr).cItemsPerBitPack, (hv.regression hr).cSamples⟩
    · exact ⟨(hv.classification hr).cItemsPerBitPack, (hv.classification hr).cSamples⟩
  refine ⟨m, h1, ?_, ?_⟩
  · rw [hlog]
    exact blockSizes_indexedLog _ hk.1 _ ev hev _ hk.2
  · obtain ⟨n, hn⟩ : ∃ n, a.cSamples = n + 1 := ⟨a.cSamples - 1, by omega⟩
    rw [hlog, hn]
    exact readsFrom_input_indexedLog _ hk.1 _ ev hev n

/-- C6, witness: 19 samples with 8 items per word are processed as blocks of 8, 8 and 3
samples from the words 0, 1 and 2. -/
theorem C6_last_block_short_witness :
    ∃ m, ApplyTermUpdateTrainingInternal exampleHeaders exampleNumerics (-1) 0 21
        (decodeScenario 19) = some m ∧
      blockSizes m.log = [8, 8, 3] ∧ readsFrom Buf.input m.log = [0, 1, 2] := by
  have hv : ValidInternal exampleHeaders (-1) 0 (decodeScenario 19) :=
    ⟨fun _ => ⟨by decide, by decide, by decide, by decide, by decide⟩,
      fun h => absurd rfl h, fun h => absurd rfl h⟩
  obtain ⟨m, h1, h2, h3⟩ := C6_last_block_short exampleHeaders exampleNumerics (-1) 0
    (decodeScenario 19) hv 21 (by decide)
  exact ⟨m, h1, h2.trans (by decide), h3.trans (by decide)⟩

/-- C4. Regression (helper modelled from the spec): a regression call of the entry point
returns, and for every sample `i` the gradient after the call is the gradient before the call
minus the update delta of the sample's bin: `updateTensor[0]` on the zero-feature path,
`updateTensor[bin_i]` on the indexed path. -/
theorem C4_regression_gradient {F : Type} [LinearOrderedField F] (H : Headers) (exp : F → F)
    (a : Args F) (hreg : H.IsClassification a.cRuntimeClasses = false)
    (hv : ValidRegression H a) (fuel : Nat) (hf : a.cSamples < fuel) :
    ∃ m, ApplyTermUpdateTraining H (specNumerics exp) fuel a = some m ∧
      m.aGradientAndHessian.length = a.aGradientAndHessian.length ∧
      ∀ i, i < a.cSamples →
        ∃ g u, a.aGradientAndHessian[i]? = some g ∧
          a.aUpdateScores[entryBin H a i]? = some u ∧
          m.aGradientAndHessian[i]? = some (g - u) := by
  obtain ⟨m, h1, hI, _⟩ := regression_entry_post H (specNumerics exp) a hreg hv fuel hf
  obtain ⟨_, hG, hU⟩ := validRegression_bounds H a hv
  exact ⟨m, h1, hI.ghLen, regressionInv_gradients hI hG hU⟩

/-- C4, witness: the regression scenario of the spec (zero-feature path): two samples, delta
`0.5`, gradients `[1.0, -0.3]` become `[0.5, -0.8]`; and an indexed call with bins
`[0, 1, 0]`, update tensor `[0.5, 0.25]`, whose gradients `1, 2, 3` become
`0.5, 1.75, 2.5`. -/
theorem C4_regression_gradient_witness :
    (∃ m, ApplyTermUpdateTraining exampleHeaders (specNumerics expStandIn) 3
        regressionScenario = some m ∧
      m.aGradientAndHessian = [1 / 2, -4 / 5]) ∧
    (∃ m, ApplyTermUpdateTraining exampleHeaders (specNumerics expStandIn) 4
        regressionFrameScenario = some m ∧
      m.aGradientAndHessian[0]? = some (1 / 2) ∧ m.aGradientAndHessian[1]? = some (7 / 4) ∧
      m.aGradientAndHessian[2]? = some (5 / 2)) := by
  constructor
  · have hv : ValidRegression exampleHeaders regressionScenario :=
      ⟨fun _ => ⟨by decide, by decide, by decide⟩, fun h => absurd rfl h⟩
    obtain ⟨m, h1, hlen, hs⟩ := C4_regression_gradient exampleHeaders expStandIn
      regressionScenario (by decide) hv 3 (by decide)
    refine ⟨m, h1, ?_⟩
    obtain ⟨g0, u0, hg0, hu0, hm0⟩ := hs 0 (by decide)
    obtain ⟨g1, u1, hg1, hu1, hm1⟩ := hs 1 (by decide)
    have hb0 : entryBin exampleHeaders regressionScenario 0 = 0 := by decide
    have hb1 : entryBin exampleHeaders regressionScenario 1 = 0 := by decide
    have hl : m.aGradientAndHessian.length = 2 := hlen
    obtain ⟨x, y, hxy⟩ := List.length_eq_two.1 hl
    rw [hb0] at hu0
    rw [hb1] at hu1
    rw [hxy] at hm0 hm1
    simp [regressionScenario] at hg0 hg1 hu0 hu1 hm0 hm1
    rw [hxy, hm0, hm1, ← hg0, ← hg1, ← hu0, ← hu1]
    norm_num
  · obtain ⟨m, h1, _, hs⟩ := C4_regression_gradient exampleHeaders expStandIn
      regressionFrameScenario (by decide) regressionFrameScenario_valid 4 (by decide)
    refine ⟨m, h1, ?_⟩
    obtain ⟨g0, u0, hg0, hu0, hm0⟩ := hs 0 (by decide)
    obtain ⟨g1, u1, hg1, hu1, hm1⟩ := hs 1 (by decide)
    obtain ⟨g2, u2, hg2, hu2, hm2⟩ := hs 2 (by decide)
    have hb0 : entryBin exampleHeaders regressionFrameScenario 0 = 0 := by decide
    have hb1 : entryBin exampleHeaders regressionFrameScenario 1 = 1 := by decide
    have hb2 : entryBin exampleHeaders regressionFrameScenario 2 = 0 := by decide
    rw [hb0] at hu0
    rw [hb1] at hu1
    rw [hb2] at hu2
    simp [regressionFrameScenario] at hg0 hg1 hg2 hu0 hu1 hu2
    rw [hm0, hm1, hm2, ← hg0, ← hg1, ← hg2, ← hu0, ← hu1, ← hu2]
    norm_num

/-- C9. Regression frame: on both regression paths of the entry point (zero-feature and
indexed) the call returns, no load or store touches the score buffer, which is identical
before and after the call, and no hessian is produced: the stores into the gradient buffer
are exactly one per sample, at the offsets `0 .. cSamples-1`, and every entry from `cSamples`
on keeps its value. -/
theorem C9_regression_frame {F : Type} [Zero F] [Add F] (H : Headers) (N : Numerics F)
    (a : Args F) (hreg : H.IsClassification a.cRuntimeClasses = false)
    (hv : ValidRegression H a) (fuel : Nat) (hf : a.cSamples < fuel) :
    ∃ m, ApplyTermUpdateTraining H N fuel a = some m ∧
      readsFrom Buf.score m.log = [] ∧ writesTo Buf.score m.log = [] ∧
      m.aSampleScore = a.aSampleScore ∧
      writesTo Buf.gradHess m.log = List.range a.cSamples ∧
      m.aGradientAndHessian.length = a.aGradientAndHessian.length ∧
      ∀ j, a.cSamples ≤ j → m.aGradientAndHessian[j]? = a.aGradientAndHessian[j]? := by
  obtain ⟨m, h1, hI, hr, hw, hg⟩ := regression_entry_post H N a hreg hv fuel hf
  exact ⟨m, h1, hr, hw, hI.aSampleScore, hg, hI.ghLen, hI.ghRest⟩

/-- C9, witness: an indexed and a zero-feature regression call on a populated score buffer
`[7, 8, 9]` and a gradient buffer of 5 entries.  The score buffer is untouched, the stores go
to the offsets 0, 1, 2 and the entries 3 and 4 keep their values. -/
theorem C9_regression_frame_witness :
    (∃ m, ApplyTermUpdateTraining exampleHeaders exampleNumerics 4 regressionFrameScenario
        = some m ∧
      readsFrom Buf.score m.log = [] ∧ writesTo Buf.score m.log = [] ∧
      m.aSampleScore = [7, 8, 9] ∧ writesTo Buf.gradHess m.log = [0, 1, 2] ∧
      m.aGradientAndHessian[3]? = some 4 ∧ m.aGradientAndHessian[4]? = some 5) ∧
    (∃ m, ApplyTermUpdateTraining exampleHeaders exampleNumerics 4
        { regressionFrameScenario with runtimeBitPack := -1 } = some m ∧
      readsFrom Buf.score m.log = [] ∧ writesTo Buf.score m.log = [] ∧
      m.aSampleScore = [7, 8, 9] ∧ writesTo Buf.gradHess m.log = [0, 1, 2] ∧
      m.aGradientAndHessian[3]? = some 4 ∧ m.aGradientAndHessian[4]? = some 5) := by
  constructor
  · obtain ⟨m, h1, hr, hw, hs, hg, _, hrest⟩ := C9_regression_frame exampleHeaders
      exampleNumerics regressionFrameScenario (by decide) regressionFrameScenario_valid 4
      (by decide)
    exact ⟨m, h1, hr, hw, hs, hg, hrest 3 (by decide), hrest 4 (by decide)⟩
  · have hv : ValidRegression exampleHeaders
        { regressionFrameScenario with runtimeBitPack := -1 } :=
      ⟨fun _ => ⟨by decide, by decide, by decide⟩, fun h => absurd rfl h⟩
    obtain ⟨m, h1, hr, hw, hs, hg, _, hrest⟩ := C9_regression_frame exampleHeaders
      exampleNumerics { regressionFrameScenario with runtimeBitPack := -1 } (by decide) hv 4
      (by decide)
    exact ⟨m, h1, hr, hw, hs, hg, hrest 3 (by decide), hrest 4 (by decide)⟩

/-- C8, counterexample: an indexed regression call of the entry point on the score buffer
`[7, 8, 9]` with update tensor `[0.5, 0.25]` and bins `[0, 1, 0]`.  After the call the score
buffer is still `[7, 8, 9]`; the score of sample 0 is not `7 + 0.5`. -/
theorem C8_regression_score_counterexample :
    ∃ m, ApplyTermUpdateTraining exampleHeaders exampleNumerics 4 regressionFrameScenario
        = some m ∧
      binOf exampleHeaders 0 regressionFrameScenario 0 = 0 ∧
      regressionFrameScenario.aSampleScore[0]? = some 7 ∧
      regressionFrameScenario.aUpdateScores[0]? = some (1 / 2) ∧
      m.aSampleScore = [7, 8, 9] ∧ m.aSampleScore[0]? ≠ some (7 + 1 / 2) := by
  obtain ⟨m, h1, hI, _⟩ := regression_entry_post exampleHeaders exampleNumerics
    regressionFrameScenario (by decide) regressionFrameScenario_valid 4 (by decide)
  have hs : m.aSampleScore = [7, 8, 9] := hI.aSampleScore
  refine ⟨m, h1, by decide, rfl, rfl, hs, ?_⟩
  rw [hs]
  norm_num

/-- C8, amended. Postcondition of the entry point on the score buffer: for all valid inputs the
call returns; for every classification family (binary and multiclass) the score buffer entry
of every sample and score slot is its old value plus the entry of the update-tensor row at
the sample's bin index; for regression the score buffer is left as it was. -/
theorem C8_entry_scores {F : Type} [Zero F] [Add F] (H : Headers) (N : Numerics F)
    (hH : H.WellFormed) (a : Args F) (hv : ValidCall H a) (fuel : Nat)
    (hf : a.cSamples + GetCountScores a.cRuntimeClasses < fuel) :
    ∃ m, ApplyTermUpdateTraining H N fuel a = some m ∧
      m.aSampleScore.length = a.aSampleScore.length ∧
      (H.IsClassification a.cRuntimeClasses = true →
        ∀ i, i < a.cSamples → ∀ j, j < GetCountScores a.cRuntimeClasses →
          ∃ o u, a.aSampleScore[i * GetCountScores a.cRuntimeClasses + j]? = some o ∧
            a.aUpdateScores[entryBin H a i * GetCountScores a.cRuntimeClasses + j]?
              = some u ∧
            m.aSampleScore[i * GetCountScores a.cRuntimeClasses + j]? = some (o + u)) ∧
      (H.IsClassification a.cRuntimeClasses = false → m.aSampleScore = a.aSampleScore) := by
  have hpos := GetCountScores_pos a.cRuntimeClasses
  rcases hv with ⟨hreg, hv⟩ | ⟨hc, hv⟩
  · obtain ⟨m, h1, hI, _⟩ := regression_entry_post H N a hreg hv fuel (by omega)
    refine ⟨m, h1, by rw [hI.aSampleScore], fun h => ?_, fun _ => hI.aSampleScore⟩
    rw [hreg] at h
    exact absurd h (by decide)
  · obtain ⟨m, h1, hlen, hs, _⟩ := classification_entry_post H N hH a hc hv fuel hf
    refine ⟨m, h1, hlen, fun _ => hs, fun h => ?_⟩
    rw [hH.isClassification _ hc] at h
    exact absurd h (by decide)

/-- C8, witness: the binary scenario of the spec through the entry point; the scores
`[0, 0, 0]` become `[0.1, -0.2, 0.1]`. -/
theorem C8_entry_scores_witness :
    ∃ m, ApplyTermUpdateTraining exampleHeaders exampleNumerics 5 binaryScenario = some m ∧
      m.aSampleScore = [1 / 10, -1 / 5, 1 / 10] := by
  obtain ⟨m, h1, hlen, hs, _⟩ := C8_entry_scores exampleHeaders exampleNumerics
    exampleHeaders_wellFormed binaryScenario (Or.inr ⟨by decide, binaryScenario_valid⟩) 5
    (by decide)
  refine ⟨m, h1, ?_⟩
  have hs1 := hs (by decide)
  obtain ⟨o0, u0, ho0, hu0, hm0⟩ := hs1 0 (by decide) 0 (by decide)
  obtain ⟨o1, u1, ho1, hu1, hm1⟩ := hs1 1 (by decide) 0 (by decide)
  obtain ⟨o2, u2, ho2, hu2, hm2⟩ := hs1 2 (by decide) 0 (by decide)
  have hi : GetCountScores binaryScenario.cRuntimeClasses = 1 := by decide
  have hb0 : entryBin exampleHeaders binaryScenario 0 = 0 := by decide
  have hb1 : entryBin exampleHeaders binaryScenario 1 = 1 := by decide
  have hb2 : entryBin exampleHeaders binaryScenario 2 = 0 := by decide
  have hl : m.aSampleScore.length = 3 := hlen
  obtain ⟨x, y, z, hxyz⟩ := List.length_eq_three.1 hl
  rw [hi, hb0] at hu0
  rw [hi, hb1] at hu1
  rw [hi, hb2] at hu2
  rw [hi] at ho0 ho1 ho2 hm0 hm1 hm2
  rw [hxyz] at hm0 hm1 hm2
  simp [binaryScenario] at ho0 ho1 ho2 hu0 hu1 hu2 hm0 hm1 hm2
  rw [hxyz, hm0, hm1, hm2, ← ho0, ← ho1, ← ho2, ← hu0, ← hu1, ← hu2]
  norm_num

/-- C10, counterexample: a zero-feature call with 3 classes and 1 sample stores into the
offsets `0 .. 5` of the gradient/hessian buffer, six entries and not `2 * cSamples = 2`. -/
theorem C10_multiclass_extent_counterexample :
    ∃ m, ApplyTermUpdateTraining exampleHeaders exampleNumerics 5 multiclassScenario
        = some m ∧
      writesTo Buf.gradHess m.log = [0, 1, 2, 3, 4, 5] ∧
      (writesTo Buf.gradHess m.log).length ≠ 2 * multiclassScenario.cSamples := by
  obtain ⟨m, h1, _, _, hw, _⟩ := classification_entry_post exampleHeaders exampleNumerics
    exampleHeaders_wellFormed multiclassScenario (by decide) multiclassScenario_valid 5
    (by decide)
  have hw1 : writesTo Buf.gradHess m.log = [0, 1, 2, 3, 4, 5] := hw.trans (by decide)
  refine ⟨m, h1, hw1, ?_⟩
  rw [hw1]
  decide

/-- C10, amended. Output extent and layout: a valid call of the entry point returns and stores
into the gradient/hessian buffer exactly `cSamples` entries for regression and exactly
`2 * cScores * cSamples` entries for classification (`cScores` is 1 for binary and the class
count for multiclass), at the consecutive offsets from 0 in increasing order, so that each
score of each sample gets one consecutive (gradient, hessian) pair; no entry beyond that
length is written. -/
theorem C10_output_extent {F : Type} [Zero F] [Add F] (H : Headers) (N : Numerics F)
    (hH : H.WellFormed) (a : Args F) (hv : ValidCall H a) (fuel : Nat)
    (hf : a.cSamples + GetCountScores a.cRuntimeClasses < fuel) :
    ∃ m, ApplyTermUpdateTraining H N fuel a = some m ∧
      writesTo Buf.gradHess m.log = List.range (valuesPerSample H a * a.cSamples) ∧
      m.aGradientAndHessian.length = a.aGradientAndHessian.length ∧
      ∀ j, valuesPerSample H a * a.cSamples ≤ j →
        m.aGradientAndHessian[j]? = a.aGradientAndHessian[j]? := by
  have hpos := GetCountScores_pos a.cRuntimeClasses
  unfold valuesPerSample
  rcases hv with ⟨hreg, hv⟩ | ⟨hc, hv⟩
  · obtain ⟨m, h1, hI, _, _, hw⟩ := regression_entry_post H N a hreg hv fuel (by omega)
    simp only [hreg, Bool.false_eq_true, if_false, Nat.one_mul]
    exact ⟨m, h1, hw, hI.ghLen, hI.ghRest⟩
  · obtain ⟨m, h1, _, _, hw, hlen, hrest⟩ := classification_entry_post H N hH a hc hv fuel hf
    simp only [hH.isClassification _ hc, if_true]
    refine ⟨m, h1, hw, hlen, fun j hj => hrest j ?_⟩
    have : 2 * GetCountScores a.cRuntimeClasses * a.cSamples
        = 2 * (a.cSamples * GetCountScores a.cRuntimeClasses) := by ring
    omega

/-- C10, witness: the zero-feature call with 3 classes and 1 sample on a buffer of 8 entries
stores into the offsets `0 .. 5` and leaves the entries 6 and 7 as they were. -/
theorem C10_output_extent_witness :
    ∃ m, ApplyTermUpdateTraining exampleHeaders exampleNumerics 5 multiclassScenario
        = some m ∧
      writesTo Buf.gradHess m.log = [0, 1, 2, 3, 4, 5] ∧
      m.aGradientAndHessian[6]? = some 9 ∧ m.aGradientAndHessian[7]? = some 9 := by
  obtain ⟨m, h1, hw, _, hrest⟩ := C10_output_extent exampleHeaders exampleNumerics
    exampleHeaders_wellFormed multiclassScenario (Or.inr ⟨by decide, multiclassScenario_valid⟩)
    5 (by decide)
  exact ⟨m, h1, hw.trans (by decide), hrest 6 (by decide), hrest 7 (by decide)⟩

/-- C2. Binary classification (helpers modelled from the spec), on both the zero-feature and
the indexed path of the entry point: the call returns, and for every sample with updated
score `s` and target `t` in {0, 1} the gradient written at `output[2i]` is `p - t` with
`p = sigmoid(s)`, and the hessian written at `output[2i+1]` is computed from that gradient
alone and equals `p * (1 - p)`.  Exact arithmetic in an ordered field with a positive
exponential. -/
theorem C2_binary_gradient_hessian {F : Type} [LinearOrderedField F] (H : Headers)
    (hH : H.WellFormed) (exp : F → F) (hexp : ∀ x, 0 < exp x) (a : Args F)
    (hc : a.cRuntimeClasses = 2) (hv : ValidClassification H a 1)
    (ht : ∀ i, i < a.cSamples → ∀ t, a.aTargetData[i]? = some t → t ≤ 1)
    (fuel : Nat) (hf : a.cSamples < fuel) :
    ∃ m, ApplyTermUpdateTraining H (specNumerics exp) fuel a = some m ∧
      ∀ i, i < a.cSamples →
        ∃ (s : F) (t : Nat), m.aSampleScore[i]? = some s ∧ a.aTargetData[i]? = some t ∧
          m.aGradientAndHessian[2 * i]? = some (sigmoid exp s - (t : F)) ∧
          m.aGradientAndHessian[2 * i + 1]? = some
            (specHessianBinary (sigmoid exp s - (t : F))) ∧
          specHessianBinary (sigmoid exp s - (t : F))
            = sigmoid exp s * (1 - sigmoid exp s) := by
  obtain ⟨m, h1, hI, _⟩ := binary_entry_run H (specNumerics exp) hH a hc hv fuel hf
  obtain ⟨_, hT, hS, _, hU⟩ := validClassification_bounds H a 1 hv
  refine ⟨m, h1, fun i hi => ?_⟩
  obtain ⟨s, t, hs, htt, hg, hh⟩ := binaryInv_values hI hT hS hU i hi
  obtain ⟨hp0, hp1⟩ := sigmoid_bounds exp hexp s
  exact ⟨s, t, hs, htt, hg, hh, specHessianBinary_eq _ hp0 hp1 t (ht i hi t htt)⟩

/-- C2, witness: the binary scenario of the spec over the reals with the real exponential,
on the indexed path and on the zero-feature path. -/
theorem C2_binary_gradient_hessian_witness :
    (∃ m, ApplyTermUpdateTraining exampleHeaders (specNumerics Real.exp) 4
        (binaryScenarioIn ℝ) = some m ∧
      ∀ i, i < 3 →
        ∃ (s : ℝ) (t : Nat), m.aSampleScore[i]? = some s ∧
          (binaryScenarioIn ℝ).aTargetData[i]? = some t ∧
          m.aGradientAndHessian[2 * i]? = some (sigmoid Real.exp s - (t : ℝ)) ∧
          m.aGradientAndHessian[2 * i + 1]? = some
            (specHessianBinary (sigmoid Real.exp s - (t : ℝ))) ∧
          specHessianBinary (sigmoid Real.exp s - (t : ℝ))
            = sigmoid Real.exp s * (1 - sigmoid Real.exp s)) ∧
    (∃ m, ApplyTermUpdateTraining exampleHeaders (specNumerics Real.exp) 4
        { binaryScenarioIn ℝ with runtimeBitPack := -1 } = some m ∧
      ∀ i, i < 3 →
        ∃ (s : ℝ) (t : Nat), m.aSampleScore[i]? = some s ∧
          (binaryScenarioIn ℝ).aTargetData[i]? = some t ∧
          m.aGradientAndHessian[2 * i]? = some (sigmoid Real.exp s - (t : ℝ)) ∧
          m.aGradientAndHessian[2 * i + 1]? = some
            (specHessianBinary (sigmoid Real.exp s - (t : ℝ))) ∧
          specHessianBinary (sigmoid Real.exp s - (t : ℝ))
            = sigmoid Real.exp s * (1 - sigmoid Real.exp s)) := by
  have hv : ValidClassification exampleHeaders (binaryScenarioIn ℝ) 1 :=
    ⟨fun h => absurd h (by decide),
      fun _ => ⟨by decide, by decide, by decide, by decide, by decide, by decide, by decide⟩,
      fun h => absurd h (by decide)⟩
  have hv0 : ValidClassification exampleHeaders
      { binaryScenarioIn ℝ with runtimeBitPack := -1 } 1 :=
    ⟨fun _ => ⟨by decide, by decide, by decide, by decide, by decide⟩,
      fun h => absurd rfl h, fun h => absurd h (by decide)⟩
  exact ⟨C2_binary_gradient_hessian exampleHeaders exampleHeaders_wellFormed Real.exp
      Real.exp_pos (binaryScenarioIn ℝ) rfl hv (by decide) 4 (by decide),
    C2_binary_gradient_hessian exampleHeaders exampleHeaders_wellFormed Real.exp
      Real.exp_pos { binaryScenarioIn ℝ with runtimeBitPack := -1 } rfl hv0 (by decide) 4
      (by decide)⟩

/-- C3. Multiclass classification with `C` classes (helper modelled from the spec), on both
paths of the entry point: the call returns, and for every sample with target class `t < C`,
with `e_c = exp(updated score of class c)` and `S` the sum of `e_c` over the `C` classes of
the sample, the pair written for class `j` is the gradient routine applied to exactly that
sum `S` and `e_j`, the values `e_c / S` sum to 1, the gradient written for class `t` is
`e_t / S - 1`, the gradient written for every other class `c` is `e_c / S`, and the `C`
gradients of the sample sum to 0.  Exact arithmetic in an ordered field with a positive
exponential. -/
theorem C3_multiclass_softmax {F : Type} [LinearOrderedField F] (H : Headers)
    (hH : H.WellFormed) (exp : F → F) (hexp : ∀ x, 0 < exp x) (a : Args F) (C : Nat)
    (hC : a.cRuntimeClasses = (C : Int)) (h3 : 3 ≤ C) (hv : ValidClassification H a C)
    (ht : ∀ i, i < a.cSamples → ∀ t, a.aTargetData[i]? = some t → t < C)
    (fuel : Nat) (hf : a.cSamples + C < fuel) :
    ∃ m, ApplyTermUpdateTraining H (specNumerics exp) fuel a = some m ∧
      ∀ i, i < a.cSamples →
        ∃ (s : Nat → F) (t : Nat), a.aTargetData[i]? = some t ∧
          (∀ j, j < C → m.aSampleScore[i * C + j]? = some (s j)) ∧
          (∀ j, j < C →
            m.aGradientAndHessian[2 * (i * C + j)]? = some
              (specGradientHessianMulticlass (∑ c in Finset.range C, exp (s c)) (exp (s j))
                t j).1 ∧
            m.aGradientAndHessian[2 * (i * C + j) + 1]? = some
              (specGradientHessianMulticlass (∑ c in Finset.range C, exp (s c)) (exp (s j))
                t j).2) ∧
          ∑ j in Finset.range C, exp (s j) / (∑ c in Finset.range C, exp (s c)) = 1 ∧
          m.aGradientAndHessian[2 * (i * C + t)]? = some
            (exp (s t) / (∑ c in Finset.range C, exp (s c)) - 1) ∧
          (∀ j, j < C → j ≠ t →
            m.aGradientAndHessian[2 * (i * C + j)]? = some
              (exp (s j) / (∑ c in Finset.range C, exp (s c)))) ∧
          ∑ j in Finset.range C,
            (specGradientHessianMulticlass (∑ c in Finset.range C, exp (s c)) (exp (s j))
              t j).1 = 0 := by
  have hcs : GetCountScores a.cRuntimeClasses = C := by rw [hC, GetCountScores_natCast C h3]
  obtain ⟨m, h1, hI, _⟩ := multiclass_entry_run H (specNumerics exp) hH a (by omega)
    (by rw [hcs]; exact hv) fuel (by rw [hcs]; exact hf)
  rw [hcs] at hI
  obtain ⟨_, hT, _, _, _⟩ := validClassification_bounds H a C hv
  refine ⟨m, h1, fun i hi => ?_⟩
  obtain ⟨s, t, htt, hs, hg⟩ := multiclassInv_values hI hT i hi
  have htC := ht i hi t htt
  have hsum : sumUpTo (fun c => (specNumerics exp).ExpForMulticlass (s c)) C
      = ∑ c in Finset.range C, exp (s c) := sumUpTo_eq_sum _ C
  have hg1 : ∀ j, j < C →
      m.aGradientAndHessian[2 * (i * C + j)]? = some
        (specGradientHessianMulticlass (∑ c in Finset.range C, exp (s c)) (exp (s j))
          t j).1 ∧
      m.aGradientAndHessian[2 * (i * C + j) + 1]? = some
        (specGradientHessianMulticlass (∑ c in Finset.range C, exp (s c)) (exp (s j))
          t j).2 := by
    intro j hj
    have := hg j hj
    rw [hsum] at this
    exact this
  refine ⟨s, t, htt, hs, hg1,
    (softmax_sum_one (fun c => exp (s c)) (fun c => hexp (s c)) C (by omega)).2, ?_, ?_,
    softmax_gradient_sum_zero (fun c => exp (s c)) (fun c => hexp (s c)) C t htC⟩
  · have := (hg1 t htC).1
    simpa [specGradientHessianMulticlass] using this
  · intro j hj hne
    have := (hg1 j hj).1
    simpa [specGradientHessianMulticlass, hne] using this

/-- C3, witness: a call with 3 classes and 2 samples over the reals with the real
exponential, on the indexed path and on the zero-feature path. -/
theorem C3_multiclass_softmax_witness :
    (∃ m, ApplyTermUpdateTraining exampleHeaders (specNumerics Real.exp) 6
        (multiclassScenarioIn ℝ) = some m ∧
      ∀ i, i < 2 →
        ∃ (s : Nat → ℝ) (t : Nat), (multiclassScenarioIn ℝ).aTargetData[i]? = some t ∧
          (∀ j, j < 3 → m.aSampleScore[i * 3 + j]? = some (s j)) ∧
          ∑ j in Finset.range 3, Real.exp (s j) / (∑ c in Finset.range 3, Real.exp (s c))
            = 1 ∧
          m.aGradientAndHessian[2 * (i * 3 + t)]? = some
            (Real.exp (s t) / (∑ c in Finset.range 3, Real.exp (s c)) - 1) ∧
          (∀ j, j < 3 → j ≠ t →
            m.aGradientAndHessian[2 * (i * 3 + j)]? = some
              (Real.exp (s j) / (∑ c in Finset.range 3, Real.exp (s c)))) ∧
          ∑ j in Finset.range 3,
            (specGradientHessianMulticlass (∑ c in Finset.range 3, Real.exp (s c))
              (Real.exp (s j)) t j).1 = 0) ∧
    (∃ m, ApplyTermUpdateTraining exampleHeaders (specNumerics Real.exp) 6
        { multiclassScenarioIn ℝ with runtimeBitPack := -1 } = some m ∧
      ∀ i, i < 2 →
        ∃ (s : Nat → ℝ) (t : Nat), (multiclassScenarioIn ℝ).aTargetData[i]? = some t ∧
          (∀ j, j < 3 → m.aSampleScore[i * 3 + j]? = some (s j)) ∧
          ∑ j in Finset.range 3, Real.exp (s j) / (∑ c in Finset.range 3, Real.exp (s c))
            = 1 ∧
          m.aGradientAndHessian[2 * (i * 3 + t)]? = some
            (Real.exp (s t) / (∑ c in Finset.range 3, Real.exp (s c)) - 1) ∧
          (∀ j, j < 3 → j ≠ t →
            m.aGradientAndHessian[2 * (i * 3 + j)]? = some
              (Real.exp (s j) / (∑ c in Finset.range 3, Real.exp (s c)))) ∧
          ∑ j in Finset.range 3,
            (specGradientHessianMulticlass (∑ c in Finset.range 3, Real.exp (s c))
              (Real.exp (s j)) t j).1 = 0) := by
  have hv : ValidClassification exampleHeaders (multiclassScenarioIn ℝ) 3 :=
    ⟨fun h => absurd h (by decide),
      fun _ => ⟨by decide, by decide, by decide, by decide, by decide, by decide, by decide⟩,
      fun _ => by decide⟩
  have hv0 : ValidClassification exampleHeaders
      { multiclassScenarioIn ℝ with runtimeBitPack := -1 } 3 :=
    ⟨fun _ => ⟨by decide, by decide, by decide, by decide, by decide⟩,
      fun h => absurd rfl h, fun _ => by decide⟩
  constructor
  · obtain ⟨m, h1, h2⟩ := C3_multiclass_softmax exampleHeaders exampleHeaders_wellFormed
      Real.exp Real.exp_pos (multiclassScenarioIn ℝ) 3 rfl (by decide) hv (by decide) 6
      (by decide)
    refine ⟨m, h1, fun i hi => ?_⟩
    obtain ⟨s, t, e1, e2, _, e4, e5, e6, e7⟩ := h2 i hi
    exact ⟨s, t, e1, e2, e4, e5, e6, e7⟩
  · obtain ⟨m, h1, h2⟩ := C3_multiclass_softmax exampleHeaders exampleHeaders_wellFormed
      Real.exp Real.exp_pos { multiclassScenarioIn ℝ with runtimeBitPack := -1 } 3 rfl
      (by decide) hv0 (by decide) 6 (by decide)
    refine ⟨m, h1, fun i hi => ?_⟩
    obtain ⟨s, t, e1, e2, _, e4, e5, e6, e7⟩ := h2 i hi
    exact ⟨s, t, e1, e2, e4, e5, e6, e7⟩

/-- C7. Zero-feature versus indexed path: for each objective family (regression, binary,
multiclass) and every sample count of at least 1, if every bin index decoded from the packed
stream is 0, the indexed call of the entry point and the zero-feature call on the same update
tensor, targets and initial buffers both return and leave exactly the same score buffer and
the same gradient/hessian buffer.  (With every bin 0 only the first row of the update tensor
is used, so the tensor need not be cut down to one row.) -/
theorem C7_zero_feature_agrees {F : Type} [Zero F] [Add F] (H : Headers) (N : Numerics F)
    (hH : H.WellFormed) (a : Args F)
    (hi : H.k_cItemsPerBitPackNone ≠ a.runtimeBitPack) (hv : ValidCall H a)
    (hv0 : ValidCall H { a with runtimeBitPack := H.k_cItemsPerBitPackNone })
    (hbins : ∀ i, i < a.cSamples → binOf H H.k_cItemsPerBitPackDynamic a i = 0)
    (fuel : Nat) (hf : a.cSamples + GetCountScores a.cRuntimeClasses < fuel) :
    ∃ m0 m1,
      ApplyTermUpdateTraining H N fuel { a with runtimeBitPack := H.k_cItemsPerBitPackNone }
        = some m0 ∧
      ApplyTermUpdateTraining H N fuel a = some m1 ∧
      m0.aSampleScore = m1.aSampleScore ∧
      m0.aGradientAndHessian = m1.aGradientAndHessian := by
  have hpos := GetCountScores_pos a.cRuntimeClasses
  have hb0 : entryBin H { a with runtimeBitPack := H.k_cItemsPerBitPackNone }
      = fun _ => 0 := entryBin_zero H _ rfl
  have hb1 := entryBin_indexed H a hi
  have hb : ∀ i, i < a.cSamples →
      (fun _ : Nat => 0) i = binOf H H.k_cItemsPerBitPackDynamic a i :=
    fun i h => (hbins i h).symm
  have hf1 : a.cSamples < fuel := by omega
  rcases hv with ⟨hreg, hvr⟩ | ⟨hc, hvc⟩
  · rcases hv0 with ⟨_, hvr0⟩ | ⟨hc0, _⟩
    · obtain ⟨m0, e0, I0, _⟩ := regression_entry_run H N
        { a with runtimeBitPack := H.k_cItemsPerBitPackNone } hreg hvr0 fuel hf1
      obtain ⟨m1, e1, I1, _⟩ := regression_entry_run H N a hreg hvr fuel hf1
      rw [hb0] at I0
      rw [hb1] at I1
      obtain ⟨_, hG, hU⟩ := validRegression_bounds H
        { a with runtimeBitPack := H.k_cItemsPerBitPackNone } hvr0
      rw [hb0] at hU
      have I0a : RegressionInv N a (fun _ => 0) a.cSamples m0 :=
        ⟨I0.pTargetData, I0.pSampleScore, I0.pGradientAndHessian, I0.aExps, I0.aSampleScore,
          I0.ghLen, I0.grad, I0.ghRest⟩
      exact ⟨m0, m1, e0, e1, regressionInv_buffers_eq I0a I1 hb hG hU⟩
    · have := hH.isClassification _ hc0
      rw [hreg] at this
      exact absurd this (by decide)
  · rcases hv0 with ⟨hreg0, _⟩ | ⟨_, hvc0⟩
    · have := hH.isClassification _ hc
      rw [hreg0] at this
      exact absurd this (by decide)
    · by_cases h2 : a.cRuntimeClasses = 2
      · have hg1 : GetCountScores a.cRuntimeClasses = 1 := by rw [h2]; rfl
        have hvc1 : ValidClassification H a 1 := hg1 ▸ hvc
        have hvc01 : ValidClassification H
            { a with runtimeBitPack := H.k_cItemsPerBitPackNone } 1 := hg1 ▸ hvc0
        obtain ⟨m0, e0, I0, _⟩ := binary_entry_run H N hH
          { a with runtimeBitPack := H.k_cItemsPerBitPackNone } h2 hvc01 fuel hf1
        obtain ⟨m1, e1, I1, _⟩ := binary_entry_run H N hH a h2 hvc1 fuel hf1
        rw [hb0] at I0
        rw [hb1] at I1
        obtain ⟨_, hT, hS, _, hU⟩ := validClassification_bounds H
          { a with runtimeBitPack := H.k_cItemsPerBitPackNone } 1 hvc01
        rw [hb0] at hU
        have I0a : BinaryInv N a (fun _ => 0) a.cSamples m0 :=
          ⟨I0.pTargetData, I0.pSampleScore, I0.pGradientAndHessian, I0.aExps, I0.scoreLen,
            I0.score, I0.scoreRest, I0.ghLen, I0.grad, I0.ghRest⟩
        refine ⟨m0, m1, e0, e1, binaryInv_buffers_eq I0a I1 hb hT ?_ ?_⟩
        · have hS1 : a.cSamples * 1 ≤ a.aSampleScore.length := hS
          omega
        · intro i hi1
          have hU1 : (0 + 1) * 1 ≤ a.aUpdateScores.length := hU i hi1
          omega
      · have h3 : 3 ≤ a.cRuntimeClasses := by omega
        obtain ⟨m0, e0, I0, _⟩ := multiclass_entry_run H N hH
          { a with runtimeBitPack := H.k_cItemsPerBitPackNone } h3 hvc0 fuel hf
        obtain ⟨m1, e1, I1, _⟩ := multiclass_entry_run H N hH a h3 hvc fuel hf
        rw [hb0] at I0
        rw [hb1] at I1
        have I0a : MulticlassInv N a (GetCountScores a.cRuntimeClasses) (fun _ => 0) _
            a.cSamples m0 :=
          ⟨I0.pTargetData, I0.pSampleScore, I0.pGradientAndHessian, I0.expsLen, I0.scoreLen,
            I0.score, I0.scoreRest, I0.ghLen, I0.gh, I0.ghRest⟩
        exact ⟨m0, m1, e0, e1, multiclassInv_buffers_eq I0a I1 hb hpos⟩

/-- C7, witness: a binary, a regression and a 3-class call with a one-row update tensor and
every packed bin index 0; the zero-feature call and the indexed call leave the same
buffers. -/
theorem C7_zero_feature_agrees_witness :
    (∃ m0 m1,
      ApplyTermUpdateTraining exampleHeaders exampleNumerics 5
        { binaryZeroBins with runtimeBitPack := -1 } = some m0 ∧
      ApplyTermUpdateTraining exampleHeaders exampleNumerics 5 binaryZeroBins = some m1 ∧
      m0.aSampleScore = m1.aSampleScore ∧
      m0.aGradientAndHessian = m1.aGradientAndHessian) ∧
    (∃ m0 m1,
      ApplyTermUpdateTraining exampleHeaders exampleNumerics 5
        { regressionZeroBins with runtimeBitPack := -1 } = some m0 ∧
      ApplyTermUpdateTraining exampleHeaders exampleNumerics 5 regressionZeroBins = some m1 ∧
      m0.aSampleScore = m1.aSampleScore ∧
      m0.aGradientAndHessian = m1.aGradientAndHessian) ∧
    (∃ m0 m1,
      ApplyTermUpdateTraining exampleHeaders exampleNumerics 6
        { multiclassZeroBins with runtimeBitPack := -1 } = some m0 ∧
      ApplyTermUpdateTraining exampleHeaders exampleNumerics 6 multiclassZeroBins = some m1 ∧
      m0.aSampleScore = m1.aSampleScore ∧
      m0.aGradientAndHessian = m1.aGradientAndHessian) := by
  refine ⟨?_, ?_, ?_⟩
  · exact C7_zero_feature_agrees exampleHeaders exampleNumerics exampleHeaders_wellFormed
      binaryZeroBins (by decide)
      (Or.inr ⟨by decide, fun h => absurd h (by decide),
        fun _ => ⟨by decide, by decide, by decide, by decide, by decide, by decide,
          by decide⟩,
        fun h => absurd h (by decide)⟩)
      (Or.inr ⟨by decide, fun _ => ⟨by decide, by decide, by decide, by decide, by decide⟩,
        fun h => absurd rfl h, fun h => absurd h (by decide)⟩)
      (by decide) 5 (by decide)
  · exact C7_zero_feature_agrees exampleHeaders exampleNumerics exampleHeaders_wellFormed
      regressionZeroBins (by decide)
      (Or.inl ⟨by decide, fun h => absurd h (by decide),
        fun _ => ⟨by decide, by decide, by decide, by decide, by decide⟩⟩)
      (Or.inl ⟨by decide, fun _ => ⟨by decide, by decide, by decide⟩,
        fun h => absurd rfl h⟩)
      (by decide) 5 (by decide)
  · exact C7_zero_feature_agrees exampleHeaders exampleNumerics exampleHeaders_wellFormed
      multiclassZeroBins (by decide)
      (Or.inr ⟨by decide, fun h => absurd h (by decide),
        fun _ => ⟨by decide, by decide, by decide, by decide, by decide, by decide,
          by decide⟩,
        fun _ => by decide⟩)
      (Or.inr ⟨by decide, fun _ => ⟨by decide, by decide, by decide, by decide, by decide⟩,
        fun h => absurd rfl h, fun _ => by decide⟩)
      (by decide) 6 (by decide)

/-! ## The claims, continued -/

/-- C11, counterexample: two zero-feature regression calls and two indexed regression calls
that agree on every input except the initial contents of the gradient buffer.  The buffers
after the calls differ: the runs load every entry before they store it, and the value stored
is the helper applied to the value loaded (evaluated with the formula of the spec, old
gradient minus delta).  For any helper, entry 0 after the two zero-feature calls is the helper
applied to 1 and to 0. -/
theorem C11_regression_counterexample :
    (∃ m1 m2,
      ApplyTermUpdateTraining exampleHeaders exampleNumerics 3 regressionScenario = some m1 ∧
      ApplyTermUpdateTraining exampleHeaders exampleNumerics 3
        { regressionScenario with aGradientAndHessian := [0, 0] } = some m2 ∧
      readsFrom Buf.gradHess m1.log = [0, 1] ∧
      m1.aGradientAndHessian[0]? = some (1 / 2 : ℚ) ∧
      m2.aGradientAndHessian[0]? = some (-1 / 2 : ℚ) ∧
      m1.aGradientAndHessian ≠ m2.aGradientAndHessian) ∧
    (∃ m1 m2,
      ApplyTermUpdateTraining exampleHeaders exampleNumerics 4 regressionFrameScenario
        = some m1 ∧
      ApplyTermUpdateTraining exampleHeaders exampleNumerics 4
        { regressionFrameScenario with aGradientAndHessian := [0, 0, 0, 0, 0] } = some m2 ∧
      readsFrom Buf.gradHess m1.log = [0, 1, 2] ∧
      m1.aGradientAndHessian[0]? = some (1 / 2 : ℚ) ∧
      m2.aGradientAndHessian[0]? = some (-1 / 2 : ℚ) ∧
      m1.aGradientAndHessian ≠ m2.aGradientAndHessian) ∧
    (∀ N : Numerics ℚ, ∃ m1 m2,
      ApplyTermUpdateTraining exampleHeaders N 3 regressionScenario = some m1 ∧
      ApplyTermUpdateTraining exampleHeaders N 3
        { regressionScenario with aGradientAndHessian := [0, 0] } = some m2 ∧
      m1.aGradientAndHessian[0]? = some
        (N.ComputeGradientRegressionMSEFromOriginalGradient 1 (1 / 2)) ∧
      m2.aGradientAndHessian[0]? = some
        (N.ComputeGradientRegressionMSEFromOriginalGradient 0 (1 / 2))) := by
  have key : ∀ (a : Args ℚ) (g : List ℚ) (fuel : Nat),
      ValidRegression exampleHeaders a →
      ValidRegression exampleHeaders { a with aGradientAndHessian := g } →
      exampleHeaders.IsClassification a.cRuntimeClasses = false → a.cSamples < fuel →
      0 < a.cSamples → entryBin exampleHeaders a 0 = 0 →
      a.aUpdateScores[0]? = some (1 / 2 : ℚ) → a.aGradientAndHessian[0]? = some (1 : ℚ) →
      g[0]? = some (0 : ℚ) →
      ∃ m1 m2, ApplyTermUpdateTraining exampleHeaders exampleNumerics fuel a = some m1 ∧
        ApplyTermUpdateTraining exampleHeaders exampleNumerics fuel
          { a with aGradientAndHessian := g } = some m2 ∧
        readsFrom Buf.gradHess m1.log = List.range a.cSamples ∧
        m1.aGradientAndHessian[0]? = some (1 / 2 : ℚ) ∧
        m2.aGradientAndHessian[0]? = some (-1 / 2 : ℚ) ∧
        m1.aGradientAndHessian ≠ m2.aGradientAndHessian := by
    intro a g fuel hv1 hv2 hreg hf hn hb hu hg1 hg2
    obtain ⟨m1, e1, I1, hr⟩ := regression_entry_reads exampleHeaders exampleNumerics a hreg
      hv1 fuel hf
    obtain ⟨m2, e2, I2, _⟩ := regression_entry_reads exampleHeaders exampleNumerics
      { a with aGradientAndHessian := g } hreg hv2 fuel hf
    have hb2 : entryBin exampleHeaders { a with aGradientAndHessian := g } 0 = 0 := hb
    have v1 := I1.grad 0 hn 1 (1 / 2) hg1 (by rw [hb]; exact hu)
    have v2 := I2.grad 0 hn 0 (1 / 2) hg2 (by rw [hb2]; exact hu)
    have w1 : m1.aGradientAndHessian[0]? = some (1 / 2 : ℚ) := by
      rw [v1]
      show some ((1 : ℚ) - 1 / 2) = _
      norm_num
    have w2 : m2.aGradientAndHessian[0]? = some (-1 / 2 : ℚ) := by
      rw [v2]
      show some ((0 : ℚ) - 1 / 2) = _
      norm_num
    refine ⟨m1, m2, e1, e2, hr, w1, w2, fun h => ?_⟩
    rw [h, w2] at w1
    norm_num at w1
  have hv1 : ValidRegression exampleHeaders regressionScenario :=
    ⟨fun _ => ⟨by decide, by decide, by decide⟩, fun h => absurd rfl h⟩
  have hv2 : ValidRegression exampleHeaders
      { regressionScenario with aGradientAndHessian := [0, 0] } :=
    ⟨fun _ => ⟨by decide, by decide, by decide⟩, fun h => absurd rfl h⟩
  refine ⟨?_, ?_, fun N => ?_⟩
  · exact key regressionScenario [0, 0] 3 hv1 hv2 (by decide) (by decide) (by decide)
      (by decide) rfl rfl rfl
  · have hv3 : ValidRegression exampleHeaders
        { regressionFrameScenario with aGradientAndHessian := [0, 0, 0, 0, 0] } :=
      ⟨fun h => absurd h (by decide),
        fun _ => ⟨by decide, by decide, by decide, by decide, by decide⟩⟩
    exact key regressionFrameScenario [0, 0, 0, 0, 0] 4 regressionFrameScenario_valid hv3
      (by decide) (by decide) (by decide) (by decide) rfl rfl rfl
  · obtain ⟨m1, e1, I1, _⟩ := regression_entry_reads exampleHeaders N regressionScenario
      (by decide) hv1 3 (by decide)
    obtain ⟨m2, e2, I2, _⟩ := regression_entry_reads exampleHeaders N
      { regressionScenario with aGradientAndHessian := [0, 0] } (by decide) hv2 3 (by decide)
    exact ⟨m1, m2, e1, e2, I1.grad 0 (by decide) 1 (1 / 2) rfl rfl,
      I2.grad 0 (by decide) 0 (1 / 2) rfl rfl⟩

/-- C11, amended. Gradient/hessian buffer: for binary and multiclass classification the
buffer is a pure output.  Two calls of the entry point that agree on all inputs except the
initial contents of the gradient/hessian buffer both return, never load from that buffer,
leave the same score buffer and leave identical values in every entry the call writes
(offsets below `2 * cScores * cSamples`), hence identical buffers when the buffer has exactly
that length.  For regression the buffer is an input as well: the call loads every entry it
stores, and entry `i` after the call is the gradient helper applied to entry `i` before the
call and the update of the sample's bin. -/
theorem C11_gradient_hessian_output {F : Type} [Zero F] [Add F] (H : Headers)
    (N : Numerics F) (hH : H.WellFormed) (a : Args F) (g : List F)
    (hg : g.length = a.aGradientAndHessian.length) (hv : ValidCall H a) (fuel : Nat)
    (hf : a.cSamples + GetCountScores a.cRuntimeClasses < fuel) :
    ∃ m1 m2, ApplyTermUpdateTraining H N fuel a = some m1 ∧
      ApplyTermUpdateTraining H N fuel { a with aGradientAndHessian := g } = some m2 ∧
      m1.aSampleScore = m2.aSampleScore ∧
      (H.IsClassification a.cRuntimeClasses = true →
        readsFrom Buf.gradHess m1.log = [] ∧ readsFrom Buf.gradHess m2.log = [] ∧
        (∀ j, j < valuesPerSample H a * a.cSamples →
          m1.aGradientAndHessian[j]? = m2.aGradientAndHessian[j]?) ∧
        (a.aGradientAndHessian.length = valuesPerSample H a * a.cSamples →
          m1.aGradientAndHessian = m2.aGradientAndHessian)) ∧
      (H.IsClassification a.cRuntimeClasses = false →
        readsFrom Buf.gradHess m1.log = List.range a.cSamples ∧
        ∀ i, i < a.cSamples → ∃ g1 g2 u, a.aGradientAndHessian[i]? = some g1 ∧
          g[i]? = some g2 ∧ a.aUpdateScores[entryBin H a i]? = some u ∧
          m1.aGradientAndHessian[i]? = some
            (N.ComputeGradientRegressionMSEFromOriginalGradient g1 u) ∧
          m2.aGradientAndHessian[i]? = some
            (N.ComputeGradientRegressionMSEFromOriginalGradient g2 u)) := by
  have hpos := GetCountScores_pos a.cRuntimeClasses
  have hf1 : a.cSamples < fuel := by omega
  have hv2 : ValidCall H { a with aGradientAndHessian := g } :=
    validCall_congr H a _ rfl rfl rfl rfl (Nat.le_refl _) (Nat.le_refl _)
      (Nat.le_of_eq hg.symm) (Nat.le_refl _) (Nat.le_refl _) hv
  rcases hv with ⟨hreg, hvr⟩ | ⟨hc, hvc⟩
  · have hvr2 := validCall_regression H hH _ hv2 hreg
    obtain ⟨m1, e1, I1, hr1⟩ := regression_entry_reads H N a hreg hvr fuel (by omega)
    obtain ⟨m2, e2, I2, _⟩ := regression_entry_reads H N { a with aGradientAndHessian := g }
      hreg hvr2 fuel hf1
    obtain ⟨_, hG, hU⟩ := validRegression_bounds H a hvr
    obtain ⟨_, hG2, hU2⟩ := validRegression_bounds H _ hvr2
    refine ⟨m1, m2, e1, e2, by rw [I1.aSampleScore, I2.aSampleScore], fun h => ?_,
      fun _ => ⟨hr1, fun i hi => ?_⟩⟩
    · rw [hreg] at h
      exact absurd h (by decide)
    · obtain ⟨g1, u, hg1, hu, hm1⟩ := regressionInv_gradients I1 hG hU i hi
      obtain ⟨g2, u2, hg2, hu2, hm2⟩ := regressionInv_gradients I2 hG2 hU2 i hi
      have hu3 : a.aUpdateScores[entryBin H a i]? = some u2 := hu2
      rw [hu] at hu3
      obtain rfl : u = u2 := Option.some.inj hu3
      exact ⟨g1, g2, u, hg1, hg2, hu, hm1, hm2⟩
  · have hcls := hH.isClassification _ hc
    have hvc2 := validCall_classification H hH _ hv2 hc
    obtain ⟨m1, m2, e1, e2, hs, hw, hl1, hl2, _, _⟩ := classification_written_eq H N hH a
      { a with aGradientAndHessian := g } hc hvc hvc2 rfl rfl rfl rfl rfl rfl rfl fuel hf
    obtain ⟨m1a, e1a, hr1⟩ := classification_entry_reads H N hH a hc hvc fuel hf
    obtain ⟨m2a, e2a, hr2⟩ := classification_entry_reads H N hH
      { a with aGradientAndHessian := g } hc hvc2 fuel hf
    obtain rfl : m1 = m1a := by
      rw [e1] at e1a
      exact Option.some.inj e1a
    obtain rfl : m2 = m2a := by
      rw [e2] at e2a
      exact Option.some.inj e2a
    have hval : valuesPerSample H a * a.cSamples
        = 2 * (a.cSamples * GetCountScores a.cRuntimeClasses) := by
      unfold valuesPerSample
      rw [hcls, if_pos rfl]
      ring
    refine ⟨m1, m2, e1, e2, hs, fun _ => ⟨hr1, hr2, fun j hj => hw j (by omega),
      fun hlen => ?_⟩, fun h => ?_⟩
    · apply List.ext_getElem?
      intro j
      by_cases hlt : j < 2 * (a.cSamples * GetCountScores a.cRuntimeClasses)
      · exact hw j hlt
      · have hl2a : m2.aGradientAndHessian.length = g.length := hl2
        rw [List.getElem?_eq_none (by omega), List.getElem?_eq_none (by omega)]
    · rw [hcls] at h
      exact absurd h (by decide)

/-- C11, witness: the binary scenario of the spec, run on the gradient/hessian buffer
`[0, 0, 0, 0, 0, 0]` and on `[5, 6, 7, 8, 9, 10]`; both runs leave the same buffer. -/
theorem C11_gradient_hessian_output_witness :
    ∃ m1 m2, ApplyTermUpdateTraining exampleHeaders exampleNumerics 5 binaryScenario
        = some m1 ∧
      ApplyTermUpdateTraining exampleHeaders exampleNumerics 5
        { binaryScenario with aGradientAndHessian := [5, 6, 7, 8, 9, 10] } = some m2 ∧
      readsFrom Buf.gradHess m1.log = [] ∧
      m1.aGradientAndHessian = m2.aGradientAndHessian := by
  obtain ⟨m1, m2, e1, e2, _, hcls, _⟩ := C11_gradient_hessian_output exampleHeaders
    exampleNumerics exampleHeaders_wellFormed binaryScenario [5, 6, 7, 8, 9, 10] (by decide)
    (Or.inr ⟨by decide, binaryScenario_valid⟩) 5 (by decide)
  obtain ⟨hr, _, _, heq⟩ := hcls (by decide)
  exact ⟨m1, m2, e1, e2, hr, heq (by decide)⟩

/-- C12. Scratch softmax buffer: a valid call of the entry point returns, and the score
buffer and the gradient/hessian buffer it leaves are the same for every scratch buffer (of at
least the given length).  For regression and binary classification the scratch buffer is
neither loaded from nor stored into and is left as it was; for multiclass with a class count
of at most `k_cCompilerClassesMax` the exponentials live in the local array and the whole
run is the same for every scratch buffer, the empty one included; on the dynamic multiclass
path the exponentials live in the scratch buffer and every load from it follows a store to the
same cell. -/
theorem C12_scratch_buffer {F : Type} [Zero F] [Add F] (H : Headers) (N : Numerics F)
    (hH : H.WellFormed) (a : Args F) (t : List F)
    (ht : a.aMulticlassMidwayTemp.length ≤ t.length) (hv : ValidCall H a) (fuel : Nat)
    (hf : a.cSamples + GetCountScores a.cRuntimeClasses < fuel) :
    ∃ m1 m2, ApplyTermUpdateTraining H N fuel a = some m1 ∧
      ApplyTermUpdateTraining H N fuel { a with aMulticlassMidwayTemp := t } = some m2 ∧
      m1.aSampleScore = m2.aSampleScore ∧
      m1.aGradientAndHessian = m2.aGradientAndHessian ∧
      (a.cRuntimeClasses ≤ 2 →
        m1.aExps = a.aMulticlassMidwayTemp ∧
        readsFrom Buf.exps m1.log = [] ∧ writesTo Buf.exps m1.log = []) ∧
      (3 ≤ a.cRuntimeClasses → a.cRuntimeClasses ≤ H.k_cCompilerClassesMax →
        ∀ t1, ApplyTermUpdateTraining H N fuel { a with aMulticlassMidwayTemp := t1 }
          = some m1) ∧
      ((H.k_cCompilerClassesMax : Int) < a.cRuntimeClasses →
        aExpsOf H (entryClasses H a) a = a.aMulticlassMidwayTemp ∧
        readsInitialised Buf.exps [] m1.log = true) := by
  have hpos := GetCountScores_pos a.cRuntimeClasses
  have hmax := hH.max_ge
  obtain ⟨m1, m2, e1, e2, hs, hg⟩ := entry_scratch_eq H N hH a t ht hv fuel hf
  refine ⟨m1, m2, e1, e2, hs, hg, fun hc => ?_, fun hc hm t1 => ?_, fun hm => ⟨?_, ?_⟩⟩
  · obtain ⟨m, e, h⟩ := scalar_entry_scratch H N hH a hv hc fuel (by omega)
    obtain rfl : m1 = m := by
      rw [e1] at e
      exact Option.some.inj e
    exact h
  · rw [entry_ignores_scratch H N hH a hc hm fuel t1]
    exact e1
  · have hE : entryClasses H a = H.k_dynamicClassification := by
      unfold entryClasses
      rw [if_neg (by omega)]
    rw [hE]
    unfold aExpsOf
    rw [if_pos rfl]
  · obtain ⟨m, e, h⟩ := multiclass_entry_initialised H N hH a (by omega)
      (validCall_classification H hH a hv (by omega)) fuel hf
    obtain rfl : m1 = m := by
      rw [e1] at e
      exact Option.some.inj e
    exact h

/-- C12, witness: the binary scenario of the spec (empty scratch buffer, and one of three
cells), a call with 3 classes (local array), and a call with 9 classes where 8 are compiled
(scratch buffer of 9 cells holding 7, and holding 1). -/
theorem C12_scratch_buffer_witness :
    (∃ m1 m2, ApplyTermUpdateTraining exampleHeaders exampleNumerics 5 binaryScenario
        = some m1 ∧
      ApplyTermUpdateTraining exampleHeaders exampleNumerics 5
        { binaryScenario with aMulticlassMidwayTemp := [1, 2, 3] } = some m2 ∧
      m1.aSampleScore = m2.aSampleScore ∧
      m1.aGradientAndHessian = m2.aGradientAndHessian ∧
      readsFrom Buf.exps m1.log = [] ∧ writesTo Buf.exps m1.log = []) ∧
    (∃ m1, ApplyTermUpdateTraining exampleHeaders exampleNumerics 5 multiclassScenario
        = some m1 ∧
      ApplyTermUpdateTraining exampleHeaders exampleNumerics 5
        { multiclassScenario with aMulticlassMidwayTemp := [1, 2, 3, 4] } = some m1) ∧
    (∃ m1 m2, ApplyTermUpdateTraining exampleHeaders exampleNumerics 11 dynamicScenario
        = some m1 ∧
      ApplyTermUpdateTraining exampleHeaders exampleNumerics 11
        { dynamicScenario with aMulticlassMidwayTemp := [1, 1, 1, 1, 1, 1, 1, 1, 1] }
        = some m2 ∧
      m1.aSampleScore = m2.aSampleScore ∧
      m1.aGradientAndHessian = m2.aGradientAndHessian ∧
      readsInitialised Buf.exps [] m1.log = true) := by
  refine ⟨?_, ?_, ?_⟩
  · obtain ⟨m1, m2, e1, e2, hs, hg, h, _⟩ := C12_scratch_buffer exampleHeaders
      exampleNumerics exampleHeaders_wellFormed binaryScenario [1, 2, 3] (by decide)
      (Or.inr ⟨by decide, binaryScenario_valid⟩) 5 (by decide)
    exact ⟨m1, m2, e1, e2, hs, hg, (h (by decide)).2⟩
  · obtain ⟨m1, _, e1, _, _, _, _, h, _⟩ := C12_scratch_buffer exampleHeaders
      exampleNumerics exampleHeaders_wellFormed multiclassScenario [] (by decide)
      (Or.inr ⟨by decide, multiclassScenario_valid⟩) 5 (by decide)
    exact ⟨m1, e1, h (by decide) (by decide) [1, 2, 3, 4]⟩
  · have hv : ValidClassification exampleHeaders dynamicScenario 9 :=
      ⟨fun _ => ⟨by decide, by decide, by decide, by decide, by decide⟩,
        fun h => absurd rfl h, fun _ => by decide⟩
    obtain ⟨m1, m2, e1, e2, hs, hg, _, _, h⟩ := C12_scratch_buffer exampleHeaders
      exampleNumerics exampleHeaders_wellFormed dynamicScenario [1, 1, 1, 1, 1, 1, 1, 1, 1]
      (by decide) (Or.inr ⟨by decide, hv⟩) 11 (by decide)
    exact ⟨m1, m2, e1, e2, hs, hg, (h (by decide)).2⟩

/-- C13, failing input: a classification problem with 9 classes where 8 class counts are
compiled (`k_cCompilerClassesMax = 8`), on the zero-feature path and on the indexed path.
The release build returns on both paths.  The debug build aborts in the first probe of the
chain, on the assertion `cRuntimeClasses <= k_cCompilerClassesMax` (line 214 on the
zero-feature path, line 587 on the indexed path), before it reaches the specialisation for
`k_cCompilerClassesMax + 1`, whose own assertion is `k_cCompilerClassesMax < cRuntimeClasses`.
With 3 classes no assertion of the chain fails. -/
theorem C13_dispatch_assertion_fails :
    ApplyTermUpdateTrainingDebug exampleHeaders exampleNumerics 11 dynamicScenario
      = Except.error 214 ∧
    ApplyTermUpdateTrainingDebug exampleHeaders exampleNumerics 11
      { dynamicScenario with runtimeBitPack := 8, aInputData := [0] } = Except.error 587 ∧
    (∃ m, ApplyTermUpdateTraining exampleHeaders exampleNumerics 11 dynamicScenario
      = some m) ∧
    (∃ m, ApplyTermUpdateTraining exampleHeaders exampleNumerics 11
      { dynamicScenario with runtimeBitPack := 8, aInputData := [0] } = some m) ∧
    ApplyTermUpdateTrainingDebug exampleHeaders exampleNumerics 5 multiclassScenario
      = Except.ok (ApplyTermUpdateTraining exampleHeaders exampleNumerics 5
          multiclassScenario) := by
  have hv0 : ValidClassification exampleHeaders dynamicScenario 9 :=
    ⟨fun _ => ⟨by decide, by decide, by decide, by decide, by decide⟩,
      fun h => absurd rfl h, fun _ => by decide⟩
  have hv1 : ValidClassification exampleHeaders
      { dynamicScenario with runtimeBitPack := 8, aInputData := [0] } 9 :=
    ⟨fun h => absurd h (by decide),
      fun _ => ⟨by decide, by decide, by decide, by decide, by decide, by decide, by decide⟩,
      fun _ => by decide⟩
  refine ⟨?_, ?_, ?_, ?_, ?_⟩
  · exact (entryDebug_cases exampleHeaders exampleNumerics exampleHeaders_wellFormed 11
      dynamicScenario (by decide)).2 (by decide)
  · exact (entryDebug_cases exampleHeaders exampleNumerics exampleHeaders_wellFormed 11
      { dynamicScenario with runtimeBitPack := 8, aInputData := [0] } (by decide)).2
      (by decide)
  · obtain ⟨m, e, _⟩ := multiclass_entry_run exampleHeaders exampleNumerics
      exampleHeaders_wellFormed dynamicScenario (by decide) hv0 11 (by decide)
    exact ⟨m, e⟩
  · obtain ⟨m, e, _⟩ := multiclass_entry_run exampleHeaders exampleNumerics
      exampleHeaders_wellFormed
      { dynamicScenario with runtimeBitPack := 8, aInputData := [0] } (by decide) hv1 11
      (by decide)
    exact ⟨m, e⟩
  · exact (entryDebug_cases exampleHeaders exampleNumerics exampleHeaders_wellFormed 5
      multiclassScenario (by decide)).1 (by decide)

/-- C14. Termination and coverage of the block loop: for every sample count of at least 1,
every items-per-word count of at least 1 and every number of scores per sample, every template
instance of the indexed function returns (the goto-fused loop with its `!=` exit tests
terminates, with fuel `cSamples + cScores + 1`), with the moving pointer exactly at the true
end of the sample range.  It processes the samples `0 .. cSamples-1` in index order, each
exactly once: it decodes exactly `cSamples` bin indices, the `i`-th being the bin of sample
`i`, and it stores every entry of the gradient range, and of the score range for
classification, exactly once, at increasing offsets from 0 to the end of the range and never
beyond. -/
theorem C14_block_loop_coverage {F : Type} [Zero F] [Add F] (H : Headers) (N : Numerics F)
    (cCompilerClasses compilerBitPack : Int) (a : Args F)
    (hv : ValidInternal H cCompilerClasses compilerBitPack a) (fuel : Nat)
    (hf : a.cSamples + internalScores H cCompilerClasses a < fuel) :
    ∃ m, ApplyTermUpdateTrainingInternal H N cCompilerClasses compilerBitPack fuel a
        = some m ∧
      internalPos H cCompilerClasses m = internalTrueEnd H cCompilerClasses a ∧
      (decodedBins m.log).length = a.cSamples ∧
      decodedBins m.log = (List.range a.cSamples).map (binOf H compilerBitPack a) ∧
      writesTo Buf.gradHess m.log
        = List.range (internalValues H cCompilerClasses a * a.cSamples) ∧
      (cCompilerClasses ≠ H.k_regression →
        writesTo Buf.score m.log
          = List.range (internalScores H cCompilerClasses a * a.cSamples)) := by
  obtain ⟨m, h1, hp, hd, hw, hs⟩ := internal_run_extent H N cCompilerClasses compilerBitPack
    a hv fuel hf
  refine ⟨m, h1, hp, ?_, hd, hw, hs⟩
  rw [hd, List.length_map, List.length_range]

/-- C14, witness: an indexed regression call with 19 samples and 8 items per word, an
indexed call with 3 classes and 2 samples, and the binary scenario of the spec
(3 samples, 4 items per word). -/
theorem C14_block_loop_coverage_witness :
    (∃ m, ApplyTermUpdateTrainingInternal exampleHeaders exampleNumerics (-1) 0 21
        (decodeScenario 19) = some m ∧
      m.pGradientAndHessian = 19 ∧ (decodedBins m.log).length = 19 ∧
      writesTo Buf.gradHess m.log = List.range 19) ∧
    (∃ m, ApplyTermUpdateTrainingInternal exampleHeaders exampleNumerics 3 0 6
        (multiclassScenarioIn ℚ) = some m ∧
      m.pSampleScore = 6 ∧ decodedBins m.log = [1, 0] ∧
      writesTo Buf.gradHess m.log = List.range 12 ∧
      writesTo Buf.score m.log = [0, 1, 2, 3, 4, 5]) ∧
    (∃ m, ApplyTermUpdateTrainingInternal exampleHeaders exampleNumerics 2 0 5
        binaryScenario = some m ∧
      m.pSampleScore = 3 ∧ decodedBins m.log = [0, 1, 0] ∧
      writesTo Buf.gradHess m.log = [0, 1, 2, 3, 4, 5] ∧
      writesTo Buf.score m.log = [0, 1, 2]) := by
  refine ⟨?_, ?_, ?_⟩
  · have hv : ValidInternal exampleHeaders (-1) 0 (decodeScenario 19) :=
      ⟨fun _ => ⟨by decide, by decide, by decide, by decide, by decide⟩,
        fun h => absurd rfl h, fun h => absurd rfl h⟩
    obtain ⟨m, h1, hp, hn, _, hw, _⟩ := C14_block_loop_coverage exampleHeaders
      exampleNumerics (-1) 0 (decodeScenario 19) hv 21 (by decide)
    exact ⟨m, h1, hp, hn, hw⟩
  · have hv : ValidInternal exampleHeaders 3 0 (multiclassScenarioIn ℚ) :=
      ⟨fun h => absurd h (by decide),
        fun _ => ⟨by decide, by decide, by decide, by decide, by decide, by decide,
          by decide⟩,
        fun _ _ => by decide⟩
    obtain ⟨m, h1, hp, _, hd, hw, hs⟩ := C14_block_loop_coverage exampleHeaders
      exampleNumerics 3 0 (multiclassScenarioIn ℚ) hv 6 (by decide)
    exact ⟨m, h1, hp, hd.trans (by decide), hw, (hs (by decide)).trans (by decide)⟩
  · have hv : ValidInternal exampleHeaders 2 0 binaryScenario :=
      ⟨fun h => absurd h (by decide),
        fun _ => ⟨by decide, by decide, by decide, by decide, by decide, by decide,
          by decide⟩,
        fun _ h => absurd rfl h⟩
    obtain ⟨m, h1, hp, _, hd, hw, hs⟩ := C14_block_loop_coverage exampleHeaders
      exampleNumerics 2 0 binaryScenario hv 5 (by decide)
    exact ⟨m, h1, hp, hd.trans (by decide), hw.trans (by decide),
      (hs (by decide)).trans (by decide)⟩

/-- C15. Words consumed: for every sample count of at least 1 and every items-per-word count
`k` of at least 1, every template instance of the indexed function returns having loaded
exactly `ceil(cSamples / k)` words of the packed stream, each exactly once and in stream
order (the offsets `0 .. ceil(cSamples / k) - 1`), and no word at or beyond that position:
the stream pointer ends at `ceil(cSamples / k)` and a stream of exactly that many words
suffices.  When `cSamples <= k` the run loads the single word 0 and processes one block, of
`cSamples` samples. -/
theorem C15_words_consumed {F : Type} [Zero F] [Add F] (H : Headers) (N : Numerics F)
    (cCompilerClasses compilerBitPack : Int) (a : Args F)
    (hv : ValidInternal H cCompilerClasses compilerBitPack a) (fuel : Nat)
    (hf : a.cSamples + internalScores H cCompilerClasses a < fuel) :
    ∃ m, ApplyTermUpdateTrainingInternal H N cCompilerClasses compilerBitPack fuel a
        = some m ∧
      readsFrom Buf.input m.log
        = List.range ((a.cSamples + itemsOf H compilerBitPack a - 1)
            / itemsOf H compilerBitPack a) ∧
      m.pInputData
        = (a.cSamples + itemsOf H compilerBitPack a - 1) / itemsOf H compilerBitPack a ∧
      (a.cSamples ≤ itemsOf H compilerBitPack a →
        readsFrom Buf.input m.log = [0] ∧ blockSizes m.log = [a.cSamples]) := by
  obtain ⟨m, ev, h1, hlog, hev, hD⟩ := internal_run_log H N cCompilerClasses compilerBitPack
    a hv fuel hf
  have hk : 1 ≤ itemsOf H compilerBitPack a ∧ 1 ≤ a.cSamples := by
    by_cases hr : cCompilerClasses = H.k_regression
    · exact ⟨(hv.regression hr).cItemsPerBitPack, (hv.regression hr).cSamples⟩
    · exact ⟨(hv.classification hr).cItemsPerBitPack, (hv.classification hr).cSamples⟩
  obtain ⟨hc1, hc2⟩ := ceil_div_eq a.cSamples (itemsOf H compilerBitPack a) hk.2 hk.1
  have hreads : readsFrom Buf.input m.log
      = List.range ((a.cSamples - 1) / itemsOf H compilerBitPack a + 1) := by
    obtain ⟨n, hn⟩ : ∃ n, a.cSamples = n + 1 := ⟨a.cSamples - 1, by omega⟩
    rw [hlog, hn]
    exact readsFrom_input_indexedLog _ hk.1 _ ev hev n
  refine ⟨m, h1, by rw [hreads, hc1], by rw [hD.pInputData, hc2, hc1], fun hle => ?_⟩
  have hq : (a.cSamples - 1) / itemsOf H compilerBitPack a = 0 :=
    Nat.div_eq_of_lt (by omega)
  have hr : (a.cSamples - 1) % itemsOf H compilerBitPack a = a.cSamples - 1 :=
    Nat.mod_eq_of_lt (by omega)
  constructor
  · rw [hreads, hq]
    rfl
  · rw [hlog, blockSizes_indexedLog _ hk.1 _ ev hev _ hk.2, hq, hr,
      Nat.sub_add_cancel hk.2]
    rfl

/-- C15, witness: with 8 items per word, 19 samples on a stream of exactly 3 words load the
words 0, 1, 2; 9 samples load the words 0, 1; 8 samples and 1 sample load the word 0 alone,
in a single block. -/
theorem C15_words_consumed_witness :
    (∃ m, ApplyTermUpdateTrainingInternal exampleHeaders exampleNumerics (-1) 0 21
        (decodeScenario 19) = some m ∧
      readsFrom Buf.input m.log = [0, 1, 2] ∧ m.pInputData = 3) ∧
    (∃ m, ApplyTermUpdateTrainingInternal exampleHeaders exampleNumerics (-1) 0 11
        (decodeScenario 9) = some m ∧
      readsFrom Buf.input m.log = [0, 1] ∧ m.pInputData = 2) ∧
    (∃ m, ApplyTermUpdateTrainingInternal exampleHeaders exampleNumerics (-1) 0 10
        (decodeScenario 8) = some m ∧
      readsFrom Buf.input m.log = [0] ∧ m.pInputData = 1 ∧ blockSizes m.log = [8]) ∧
    (∃ m, ApplyTermUpdateTrainingInternal exampleHeaders exampleNumerics (-1) 0 3
        (decodeScenario 1) = some m ∧
      readsFrom Buf.input m.log = [0] ∧ m.pInputData = 1 ∧ blockSizes m.log = [1]) := by
  have hv : ∀ n, 1 ≤ n → n ≤ 19 → ValidInternal exampleHeaders (-1) 0 (decodeScenario n) := by
    intro n h1 h19
    have hbin : ∀ i, i < 19 → binOf exampleHeaders 0 (decodeScenario 19) i < 2 := by decide
    refine ⟨fun _ => ⟨h1, ?_, ?_, ?_, ?_⟩, fun h => absurd rfl h, fun h => absurd rfl h⟩
    · show 1 ≤ 8
      decide
    · show (n + 8 - 1) / 8 ≤ 3
      omega
    · show n ≤ (List.replicate n (0 : ℚ)).length
      simp
    · intro i hi
      exact hbin i (Nat.lt_of_lt_of_le hi h19)
  refine ⟨?_, ?_, ?_, ?_⟩
  · obtain ⟨m, h1, h2, h3, _⟩ := C15_words_consumed exampleHeaders exampleNumerics (-1) 0
      (decodeScenario 19) (hv 19 (by decide) (by decide)) 21 (by decide)
    exact ⟨m, h1, h2.trans (by decide), h3.trans (by decide)⟩
  · obtain ⟨m, h1, h2, h3, _⟩ := C15_words_consumed exampleHeaders exampleNumerics (-1) 0
      (decodeScenario 9) (hv 9 (by decide) (by decide)) 11 (by decide)
    exact ⟨m, h1, h2.trans (by decide), h3.trans (by decide)⟩
  · obtain ⟨m, h1, _, h3, h4⟩ := C15_words_consumed exampleHeaders exampleNumerics (-1) 0
      (decodeScenario 8) (hv 8 (by decide) (by decide)) 10 (by decide)
    exact ⟨m, h1, (h4 (by decide)).1, h3.trans (by decide), (h4 (by decide)).2⟩
  · obtain ⟨m, h1, _, h3, h4⟩ := C15_words_consumed exampleHeaders exampleNumerics (-1) 0
      (decodeScenario 1) (hv 1 (by decide) (by decide)) 3 (by decide)
    exact ⟨m, h1, (h4 (by decide)).1, h3.trans (by decide), (h4 (by decide)).2⟩

/-- C16. Loop-bound assertions: whenever `cSamples > k` with `k >= 1` (and `cScores >= 1`),
the exit pointer `end - (((cSamples - 1) mod k) + 1) * cScores` the block loop is entered
with lies strictly after the start and strictly before the end of the sample range, so the
two assertions that follow its computation hold; the subtraction does not go below the start,
and the distance of the exit pointer from the start is `((cSamples - 1) div k) * (k * cScores)`,
a positive multiple of `k * cScores`. -/
theorem C16_loop_bound_assertions {F : Type} (aInputData : List Nat)
    (body : Nat → Machine F → Option (Machine F)) (pos : Machine F → Nat)
    (cSamples cItemsPerBitPack cScores fuel : Nat) (m : Machine F)
    (hk : 1 ≤ cItemsPerBitPack) (hn : cItemsPerBitPack < cSamples) (hc : 1 ≤ cScores) :
    blockLoopEntry aInputData body pos cSamples cItemsPerBitPack cScores fuel m
      = blockLoop aInputData body pos (cItemsPerBitPack * cScores)
          (pos m + cSamples * cScores) fuel
          (pSampleScoresExit (pos m) cSamples cItemsPerBitPack cScores)
          (pos m + cItemsPerBitPack * cScores) m ∧
    exitAssertions (pos m) cSamples cItemsPerBitPack cScores = true ∧
    pos m < pSampleScoresExit (pos m) cSamples cItemsPerBitPack cScores ∧
    pSampleScoresExit (pos m) cSamples cItemsPerBitPack cScores < pos m + cSamples * cScores ∧
    ((cSamples - 1) % cItemsPerBitPack + 1) * cScores ≤ cSamples * cScores ∧
    1 ≤ (cSamples - 1) / cItemsPerBitPack ∧
    pSampleScoresExit (pos m) cSamples cItemsPerBitPack cScores - pos m
      = (cSamples - 1) / cItemsPerBitPack * (cItemsPerBitPack * cScores) := by
  obtain ⟨hle, hexit, hsplit⟩ := pSampleScoresExit_eq (pos m) cSamples cItemsPerBitPack cScores
    hk (by omega)
  have hq : 1 ≤ (cSamples - 1) / cItemsPerBitPack :=
    (Nat.le_div_iff_mul_le (by omega)).2 (by omega)
  have hpos : 0 < (cSamples - 1) / cItemsPerBitPack * (cItemsPerBitPack * cScores) :=
    Nat.mul_pos hq (Nat.mul_pos hk hc)
  have hlt : (cSamples - 1) / cItemsPerBitPack * (cItemsPerBitPack * cScores)
      < cSamples * cScores := by
    rw [← Nat.mul_assoc]
    exact Nat.mul_lt_mul_of_pos_right (by omega) hc
  have h1 : pos m < pSampleScoresExit (pos m) cSamples cItemsPerBitPack cScores := by
    rw [hexit]
    omega
  have h2 : pSampleScoresExit (pos m) cSamples cItemsPerBitPack cScores
      < pos m + cSamples * cScores := by
    rw [hexit]
    omega
  refine ⟨blockLoopEntry_exit aInputData body pos _ _ _ fuel m hn, ?_, h1, h2, hle, hq, ?_⟩
  · unfold exitAssertions
    rw [decide_eq_true h1, decide_eq_true h2]
    rfl
  · rw [hexit, Nat.add_sub_cancel_left]

/-- C16, witness: 19 samples, 8 items per word and 3 scores per sample from offset 0: the
range ends at 57, the exit pointer is `57 - 3 * 3 = 48 = 2 * (8 * 3)`; and the loop of the
indexed regression function on 19 samples, whose exit pointer is `19 - 3 = 16 = 2 * 8`. -/
theorem C16_loop_bound_assertions_witness :
    (pSampleScoresExit 0 19 8 3 = 48 ∧ exitAssertions 0 19 8 3 = true ∧
      48 = (19 - 1) / 8 * (8 * 3)) ∧
    (pSampleScoresExit 0 19 8 1 = 16 ∧ exitAssertions 0 19 8 1 = true ∧
      (0 : Nat) < 16 ∧ 16 < 0 + 19 * 1) := by
  constructor
  · obtain ⟨_, h2, _, _, _, _, h7⟩ := C16_loop_bound_assertions
      (decodeScenario 19).aInputData
      (regressionBody exampleNumerics (decodeScenario 19).aUpdateScores
        (maskBits exampleHeaders 1) 1)
      (fun m => m.pGradientAndHessian) 19 8 3 21
      (Machine.init (decodeScenario 19) []) (by decide) (by decide) (by decide)
    exact ⟨by decide, h2, by decide⟩
  · obtain ⟨_, h2, h3, h4, _⟩ := C16_loop_bound_assertions
      (decodeScenario 19).aInputData
      (regressionBody exampleNumerics (decodeScenario 19).aUpdateScores
        (maskBits exampleHeaders 1) 1)
      (fun m => m.pGradientAndHessian) 19 8 1 21
      (Machine.init (decodeScenario 19) []) (by decide) (by decide) (by decide)
    exact ⟨by decide, h2, h3, h4⟩

/-- C17. Specialized versus dynamic multiclass: for every class count `C >= 3` and all valid
inputs with a scratch buffer of at least `C` cells, the template instance compiled for `C`
(exponentials in its local array) and the dynamic instance run with the runtime class count
`C` (exponentials in the scratch buffer of the caller) both return and leave the same score
buffer and the same gradient/hessian buffer, on the indexed path and on the zero-feature path;
hence the buffers the entry point leaves are the same for every value of
`k_cCompilerClassesMax`, whether or not `C` is at most that maximum. -/
theorem C17_specialized_equals_dynamic {F : Type} [Zero F] [Add F] (H : Headers)
    (N : Numerics F) (hH : H.WellFormed) (a : Args F) (hc : 3 ≤ a.cRuntimeClasses)
    (hv : ValidClassification H a (GetCountScores a.cRuntimeClasses))
    (hE : GetCountScores a.cRuntimeClasses ≤ a.aMulticlassMidwayTemp.length)
    (cMax : Nat) (hM : 2 ≤ cMax) (fuel : Nat)
    (hf : a.cSamples + GetCountScores a.cRuntimeClasses < fuel) :
    (H.k_cItemsPerBitPackNone ≠ a.runtimeBitPack →
      ∃ m1 m2,
        ApplyTermUpdateTrainingInternal H N a.cRuntimeClasses H.k_cItemsPerBitPackDynamic
          fuel a = some m1 ∧
        ApplyTermUpdateTrainingInternal H N H.k_dynamicClassification
          H.k_cItemsPerBitPackDynamic fuel a = some m2 ∧
        m1.aSampleScore = m2.aSampleScore ∧
        m1.aGradientAndHessian = m2.aGradientAndHessian) ∧
    (H.k_cItemsPerBitPackNone = a.runtimeBitPack →
      ∃ m1 m2,
        ApplyTermUpdateTrainingZeroFeatures H N a.cRuntimeClasses fuel a = some m1 ∧
        ApplyTermUpdateTrainingZeroFeatures H N H.k_dynamicClassification fuel a = some m2 ∧
        m1.aSampleScore = m2.aSampleScore ∧
        m1.aGradientAndHessian = m2.aGradientAndHessian) ∧
    (∃ m1 m2,
      ApplyTermUpdateTraining H N fuel a = some m1 ∧
      ApplyTermUpdateTraining { H with k_cCompilerClassesMax := cMax } N fuel a = some m2 ∧
      m1.aSampleScore = m2.aSampleScore ∧
      m1.aGradientAndHessian = m2.aGradientAndHessian) := by
  have hpos := GetCountScores_pos a.cRuntimeClasses
  obtain ⟨hi, hz⟩ := multiclass_variants_eq H N hH a hc hE fuel hf
  refine ⟨fun h => hi _ (hv.indexed h), fun h => hz (hv.zero h), ?_⟩
  have hH2 : Headers.WellFormed { H with k_cCompilerClassesMax := cMax } :=
    ⟨hM, hH.regression_lt, hH.dynamic_lt, hH.regression_ne_dynamic, hH.isClassification⟩
  have hv2 : ValidClassification { H with k_cCompilerClassesMax := cMax } a
      (GetCountScores a.cRuntimeClasses) := by
    refine ⟨fun h => hv.zero h, fun h => hv.indexed h, fun _ => ?_⟩
    have hd := hH.dynamic_lt
    unfold aExpsOf entryClasses
    by_cases hle : a.cRuntimeClasses ≤ (cMax : Int)
    · have hne : ¬ H.k_dynamicClassification = a.cRuntimeClasses := by omega
      simp only [hle, if_true, hne, if_false, List.length_replicate]
      exact Nat.le_refl _
    · simp only [hle, if_false, if_true]
      exact hE
  obtain ⟨m1, r1, I1, _⟩ := multiclass_entry_run H N hH a hc hv fuel hf
  obtain ⟨m2, r2, I2, _⟩ := multiclass_entry_run { H with k_cCompilerClassesMax := cMax } N
    hH2 a hc hv2 fuel hf
  have I2a : MulticlassInv N a (GetCountScores a.cRuntimeClasses) (entryBin H a) _
      a.cSamples m2 := I2
  exact ⟨m1, m2, r1, r2, multiclassInv_buffers_eq I1 I2a (fun _ _ => rfl) hpos⟩

/-- C17, witness: a call with 9 classes and a scratch buffer of 9 cells, on the zero-feature
path and on the indexed path: the instance compiled for 9 classes and the dynamic instance
leave the same buffers, and so does the entry point with 8 compiled class counts (dynamic
path) and with 16 (compiled path). -/
theorem C17_specialized_equals_dynamic_witness :
    (∃ m1 m2,
      ApplyTermUpdateTrainingZeroFeatures exampleHeaders exampleNumerics 9 11 dynamicScenario
        = some m1 ∧
      ApplyTermUpdateTrainingZeroFeatures exampleHeaders exampleNumerics 0 11 dynamicScenario
        = some m2 ∧
      m1.aSampleScore = m2.aSampleScore ∧
      m1.aGradientAndHessian = m2.aGradientAndHessian) ∧
    (∃ m1 m2,
      ApplyTermUpdateTrainingInternal exampleHeaders exampleNumerics 9 0 11
        { dynamicScenario with runtimeBitPack := 8, aInputData := [0] } = some m1 ∧
      ApplyTermUpdateTrainingInternal exampleHeaders exampleNumerics 0 0 11
        { dynamicScenario with runtimeBitPack := 8, aInputData := [0] } = some m2 ∧
      m1.aSampleScore = m2.aSampleScore ∧
      m1.aGradientAndHessian = m2.aGradientAndHessian) ∧
    (∃ m1 m2,
      ApplyTermUpdateTraining exampleHeaders exampleNumerics 11 dynamicScenario = some m1 ∧
      ApplyTermUpdateTraining { exampleHeaders with k_cCompilerClassesMax := 16 }
        exampleNumerics 11 dynamicScenario = some m2 ∧
      m1.aSampleScore = m2.aSampleScore ∧
      m1.aGradientAndHessian = m2.aGradientAndHessian) := by
  have hv0 : ValidClassification exampleHeaders dynamicScenario 9 :=
    ⟨fun _ => ⟨by decide, by decide, by decide, by decide, by decide⟩,
      fun h => absurd rfl h, fun _ => by decide⟩
  have hv1 : ValidClassification exampleHeaders
      { dynamicScenario with runtimeBitPack := 8, aInputData := [0] } 9 :=
    ⟨fun h => absurd h (by decide),
      fun _ => ⟨by decide, by decide, by decide, by decide, by decide, by decide, by decide⟩,
      fun _ => by decide⟩
  obtain ⟨_, hz, he⟩ := C17_specialized_equals_dynamic exampleHeaders exampleNumerics
    exampleHeaders_wellFormed dynamicScenario (by decide) hv0 (by decide) 16 (by decide) 11
    (by decide)
  obtain ⟨hi, _, _⟩ := C17_specialized_equals_dynamic exampleHeaders exampleNumerics
    exampleHeaders_wellFormed { dynamicScenario with runtimeBitPack := 8, aInputData := [0] }
    (by decide) hv1 (by decide) 16 (by decide) 11 (by decide)
  exact ⟨hz rfl, hi (by decide), he⟩

/-- C19. Composition of updates (exact arithmetic): for the same packed stream and targets,
applying the update tensor `U1` and then, on the buffers the first call left, the update
tensor `U2` leaves the same score buffer and the same gradient/hessian buffer as a single call
with the element-wise sum `U1 + U2`.  This holds for binary and multiclass classification with
any numeric helpers, and for regression when the gradient helper is the one of the spec (old
gradient minus delta).  All three calls return. -/
theorem C19_composition {F : Type} [AddCommGroup F] (H : Headers) (N : Numerics F)
    (hH : H.WellFormed) (a : Args F) (U2 t : List F)
    (hU : U2.length = a.aUpdateScores.length)
    (ht : a.aMulticlassMidwayTemp.length ≤ t.length)
    (hN : H.IsClassification a.cRuntimeClasses = false →
      ∀ g u, N.ComputeGradientRegressionMSEFromOriginalGradient g u = g - u)
    (hv : ValidCall H a) (fuel : Nat)
    (hf : a.cSamples + GetCountScores a.cRuntimeClasses < fuel) :
    ∃ m1 m2 m12,
      ApplyTermUpdateTraining H N fuel a = some m1 ∧
      ApplyTermUpdateTraining H N fuel
        { a with
          aUpdateScores := U2
          aSampleScore := m1.aSampleScore
          aGradientAndHessian := m1.aGradientAndHessian
          aMulticlassMidwayTemp := t } = some m2 ∧
      ApplyTermUpdateTraining H N fuel
        { a with aUpdateScores := sumTensor a.aUpdateScores U2 } = some m12 ∧
      m2.aSampleScore = m12.aSampleScore ∧
      m2.aGradientAndHessian = m12.aGradientAndHessian := by
  have hpos := GetCountScores_pos a.cRuntimeClasses
  have hf1 : a.cSamples < fuel := by omega
  have hv12 : ValidCall H { a with aUpdateScores := sumTensor a.aUpdateScores U2 } :=
    validCall_congr H a _ rfl rfl rfl rfl (Nat.le_refl _) (Nat.le_refl _) (Nat.le_refl _)
      (Nat.le_of_eq (sumTensor_length _ _ hU).symm) (Nat.le_refl _) hv
  have hv2 : ∀ m1 : Machine F, m1.aSampleScore.length = a.aSampleScore.length →
      m1.aGradientAndHessian.length = a.aGradientAndHessian.length →
      ValidCall H { a with
        aUpdateScores := U2
        aSampleScore := m1.aSampleScore
        aGradientAndHessian := m1.aGradientAndHessian
        aMulticlassMidwayTemp := t } :=
    fun m1 h1 h2 => validCall_congr H a _ rfl rfl rfl rfl (Nat.le_refl _)
      (Nat.le_of_eq h1.symm) (Nat.le_of_eq h2.symm) (Nat.le_of_eq hU.symm) ht hv
  rcases hv with ⟨hreg, hvr⟩ | ⟨hc, hvc⟩
  · obtain ⟨m1, e1, I1, _⟩ := regression_entry_run H N a hreg hvr fuel hf1
    have hvr2 := validCall_regression H hH _
      (hv2 m1 (by rw [I1.aSampleScore]) I1.ghLen) hreg
    have hvr12 := validCall_regression H hH _ hv12 hreg
    obtain ⟨m2, e2, I2, _⟩ := regression_entry_run H N
      { a with
        aUpdateScores := U2
        aSampleScore := m1.aSampleScore
        aGradientAndHessian := m1.aGradientAndHessian
        aMulticlassMidwayTemp := t } hreg hvr2 fuel hf1
    obtain ⟨m12, e12, I12, _⟩ := regression_entry_run H N
      { a with aUpdateScores := sumTensor a.aUpdateScores U2 } hreg hvr12 fuel hf1
    obtain ⟨_, hG, hU1⟩ := validRegression_bounds H a hvr
    have I2a : RegressionInv N { a with
        aUpdateScores := U2
        aSampleScore := m1.aSampleScore
        aGradientAndHessian := m1.aGradientAndHessian
        aMulticlassMidwayTemp := t } (entryBin H a) a.cSamples m2 := I2
    have I12a : RegressionInv N { a with aUpdateScores := sumTensor a.aUpdateScores U2 }
        (entryBin H a) a.cSamples m12 := I12
    exact ⟨m1, m2, m12, e1, e2, e12, regression_compose (hN hreg) I1 I2a I12a rfl rfl rfl
      rfl rfl hG hU1 (fun i hi => by rw [hU]; exact hU1 i hi)⟩
  · by_cases hb : a.cRuntimeClasses = 2
    · have hg1 : GetCountScores a.cRuntimeClasses = 1 := by rw [hb]; rfl
      have hvc1 : ValidClassification H a 1 := hg1 ▸ hvc
      obtain ⟨m1, e1, I1, _⟩ := binary_entry_run H N hH a hb hvc1 fuel hf1
      have hvc2 : ValidClassification H
        { a with
        aUpdateScores := U2
        aSampleScore := m1.aSampleScore
        aGradientAndHessian := m1.aGradientAndHessian
        aMulticlassMidwayTemp := t } 1 :=
        hg1 ▸ validCall_classification H hH _ (hv2 m1 I1.scoreLen I1.ghLen) hc
      have hvc12 : ValidClassification H
          { a with aUpdateScores := sumTensor a.aUpdateScores U2 } 1 :=
        hg1 ▸ validCall_classification H hH _ hv12 hc
      obtain ⟨m2, e2, I2, _⟩ := binary_entry_run H N hH
        { a with
        aUpdateScores := U2
        aSampleScore := m1.aSampleScore
        aGradientAndHessian := m1.aGradientAndHessian
        aMulticlassMidwayTemp := t } hb hvc2 fuel hf1
      obtain ⟨m12, e12, I12, _⟩ := binary_entry_run H N hH
        { a with aUpdateScores := sumTensor a.aUpdateScores U2 } hb hvc12 fuel hf1
      obtain ⟨_, hT, hS, _, hU1⟩ := validClassification_bounds H a 1 hvc1
      have I2a : BinaryInv N { a with
          aUpdateScores := U2
          aSampleScore := m1.aSampleScore
          aGradientAndHessian := m1.aGradientAndHessian
          aMulticlassMidwayTemp := t } (entryBin H a) a.cSamples m2 := I2
      have I12a : BinaryInv N { a with aUpdateScores := sumTensor a.aUpdateScores U2 }
          (entryBin H a) a.cSamples m12 := I12
      have hU1a : ∀ i, i < a.cSamples → entryBin H a i < a.aUpdateScores.length := by
        intro i hi
        have := hU1 i hi
        omega
      exact ⟨m1, m2, m12, e1, e2, e12, binary_compose I1 I2a I12a rfl rfl rfl rfl rfl rfl rfl
        hT (by omega) hU1a (fun i hi => by rw [hU]; exact hU1a i hi)⟩
    · have h3 : 3 ≤ a.cRuntimeClasses := by omega
      obtain ⟨m1, e1, I1, _⟩ := multiclass_entry_run H N hH a h3 hvc fuel hf
      have hvc2 := validCall_classification H hH _ (hv2 m1 I1.scoreLen I1.ghLen) hc
      have hvc12 := validCall_classification H hH _ hv12 hc
      obtain ⟨m2, e2, I2, _⟩ := multiclass_entry_run H N hH
        { a with
        aUpdateScores := U2
        aSampleScore := m1.aSampleScore
        aGradientAndHessian := m1.aGradientAndHessian
        aMulticlassMidwayTemp := t } h3 hvc2 fuel hf
      obtain ⟨m12, e12, I12, _⟩ := multiclass_entry_run H N hH
        { a with aUpdateScores := sumTensor a.aUpdateScores U2 } h3 hvc12 fuel hf
      obtain ⟨_, _, _, _, hU1⟩ := validClassification_bounds H a _ hvc
      have I2a : MulticlassInv N { a with
          aUpdateScores := U2
          aSampleScore := m1.aSampleScore
          aGradientAndHessian := m1.aGradientAndHessian
          aMulticlassMidwayTemp := t } (GetCountScores a.cRuntimeClasses) (entryBin H a) _
          a.cSamples m2 := I2
      have I12a : MulticlassInv N { a with aUpdateScores := sumTensor a.aUpdateScores U2 }
          (GetCountScores a.cRuntimeClasses) (entryBin H a) _ a.cSamples m12 := I12
      exact ⟨m1, m2, m12, e1, e2, e12, multiclass_compose I1 I2a I12a rfl rfl rfl rfl rfl rfl
        rfl hpos hU1 (fun i hi => by rw [hU]; exact hU1 i hi)⟩

/-- C19, witness: the binary scenario of the spec followed by the update `[1, 2]`, the indexed
regression scenario followed by the update `[3, 4]`, and the indexed 3-class scenario followed
by an update of six ones, each against the single call with the summed tensor. -/
theorem C19_composition_witness :
    (∃ m1 m2 m12,
      ApplyTermUpdateTraining exampleHeaders exampleNumerics 5 binaryScenario = some m1 ∧
      ApplyTermUpdateTraining exampleHeaders exampleNumerics 5
        { binaryScenario with
          aUpdateScores := [1, 2]
          aSampleScore := m1.aSampleScore
          aGradientAndHessian := m1.aGradientAndHessian
          aMulticlassMidwayTemp := [] } = some m2 ∧
      ApplyTermUpdateTraining exampleHeaders exampleNumerics 5
        { binaryScenario with
          aUpdateScores := sumTensor binaryScenario.aUpdateScores [1, 2] } = some m12 ∧
      m2.aSampleScore = m12.aSampleScore ∧
      m2.aGradientAndHessian = m12.aGradientAndHessian) ∧
    (∃ m1 m2 m12,
      ApplyTermUpdateTraining exampleHeaders exampleNumerics 5 regressionFrameScenario
        = some m1 ∧
      ApplyTermUpdateTraining exampleHeaders exampleNumerics 5
        { regressionFrameScenario with
          aUpdateScores := [3, 4]
          aSampleScore := m1.aSampleScore
          aGradientAndHessian := m1.aGradientAndHessian
          aMulticlassMidwayTemp := [] } = some m2 ∧
      ApplyTermUpdateTraining exampleHeaders exampleNumerics 5
        { regressionFrameScenario with
          aUpdateScores := sumTensor regressionFrameScenario.aUpdateScores [3, 4] }
        = some m12 ∧
      m2.aSampleScore = m12.aSampleScore ∧
      m2.aGradientAndHessian = m12.aGradientAndHessian) ∧
    (∃ m1 m2 m12,
      ApplyTermUpdateTraining exampleHeaders exampleNumerics 6 (multiclassScenarioIn ℚ)
        = some m1 ∧
      ApplyTermUpdateTraining exampleHeaders exampleNumerics 6
        { multiclassScenarioIn ℚ with
          aUpdateScores := [1, 1, 1, 1, 1, 1]
          aSampleScore := m1.aSampleScore
          aGradientAndHessian := m1.aGradientAndHessian
          aMulticlassMidwayTemp := [] } = some m2 ∧
      ApplyTermUpdateTraining exampleHeaders exampleNumerics 6
        { multiclassScenarioIn ℚ with
          aUpdateScores := sumTensor (multiclassScenarioIn ℚ).aUpdateScores
            [1, 1, 1, 1, 1, 1] } = some m12 ∧
      m2.aSampleScore = m12.aSampleScore ∧
      m2.aGradientAndHessian = m12.aGradientAndHessian) := by
  refine ⟨?_, ?_, ?_⟩
  · exact C19_composition exampleHeaders exampleNumerics exampleHeaders_wellFormed
      binaryScenario [1, 2] [] (by decide) (by decide) (fun _ _ _ => rfl)
      (Or.inr ⟨by decide, binaryScenario_valid⟩) 5 (by decide)
  · exact C19_composition exampleHeaders exampleNumerics exampleHeaders_wellFormed
      regressionFrameScenario [3, 4] [] (by decide) (by decide) (fun _ _ _ => rfl)
      (Or.inl ⟨by decide, regressionFrameScenario_valid⟩) 5 (by decide)
  · exact C19_composition exampleHeaders exampleNumerics exampleHeaders_wellFormed
      (multiclassScenarioIn ℚ) [1, 1, 1, 1, 1, 1] [] (by decide) (by decide)
      (fun _ _ _ => rfl)
      (Or.inr ⟨by decide, fun h => absurd h (by decide),
        fun _ => ⟨by decide, by decide, by decide, by decide, by decide, by decide,
          by decide⟩,
        fun _ => by decide⟩) 6 (by decide)

/-- C20. Index mask: for every bit width `w` with `1 <= w <= W`, the shift amount `W - w` of
the mask computation stays in `[0, W-1]` and the mask `(all-ones word) >> (W - w)` equals
`2^w - 1`; so for every word `x`, `mask & x = x mod 2^w`, and after `j` right shifts by `w`
the masked value is the `j`-th `w`-bit field of the original word,
`(x div 2^(j*w)) mod 2^w`.  The bin the decoder yields for sample `i` with `k` items per word
is therefore field `i mod k` of word `i div k`. -/
theorem C20_index_mask (H : Headers) (w : Nat) (hw1 : 1 ≤ w)
    (hwW : w ≤ H.k_cBitsForStorageType) :
    H.k_cBitsForStorageType - w < H.k_cBitsForStorageType ∧
    maskBits H w = 2 ^ w - 1 ∧
    (∀ x : Nat, maskBits H w &&& x = x % 2 ^ w) ∧
    (∀ x j : Nat,
      maskBits H w &&& Nat.iterate (fun y => y >>> w) j x = x / 2 ^ (j * w) % 2 ^ w) ∧
    (∀ (k : Nat) (aInputData : List Nat) (i : Nat),
      binAt (maskBits H w) w k aInputData i
        = aInputData.getD (i / k) 0 / 2 ^ (i % k * w) % 2 ^ w) := by
  have hmask := maskBits_eq H w hwW
  have hand : ∀ x : Nat, maskBits H w &&& x = x % 2 ^ w := by
    intro x
    rw [hmask, Nat.land_comm, Nat.and_pow_two_sub_one_eq_mod]
  refine ⟨by omega, hmask, hand, fun x j => ?_, fun k aInputData i => ?_⟩
  · rw [hand, iterate_shiftRight, Nat.shiftRight_eq_div_pow]
  · rw [binAt_eq_mod H w k hwW, Nat.shiftRight_eq_div_pow]

/-- C20, witness: an 8-bit word and 2 bits per item: the mask is `0b11`, the word `0b100100`
masks to 0, and after one and two shifts to 1 and 2; 1 bit and 8 bits per item give the masks
1 and 255. -/
theorem C20_index_mask_witness :
    (8 - 2 < 8 ∧ maskBits exampleHeaders 2 = 3 ∧
      maskBits exampleHeaders 2 &&& 36 = 0 ∧
      maskBits exampleHeaders 2 &&& Nat.iterate (fun y => y >>> 2) 1 36 = 1 ∧
      maskBits exampleHeaders 2 &&& Nat.iterate (fun y => y >>> 2) 2 36 = 2) ∧
    maskBits exampleHeaders 1 = 1 ∧ maskBits exampleHeaders 8 = 255 := by
  obtain ⟨h1, h2, h3, h4, _⟩ := C20_index_mask exampleHeaders 2 (by decide) (by decide)
  obtain ⟨_, a2, _⟩ := C20_index_mask exampleHeaders 1 (by decide) (by decide)
  obtain ⟨_, b2, _⟩ := C20_index_mask exampleHeaders 8 (by decide) (by decide)
  exact ⟨⟨h1, h2, (h3 36).trans (by decide), (h4 36 1).trans (by decide),
    (h4 36 2).trans (by decide)⟩, a2, b2⟩

end Ebm
